import Mathlib

/-! Page codecs and re-key transaction of the SQLite Encryption Extension backends.

Shallow embedding of the page codecs found in
`couchbase-lite-core-EE/Encryption` (`see-rc4.c`, `see-aes128-ccm.c`,
`see-xor.c`, `see-cccrypt.c`) and of their `sqlite3_rekey_v2` routine.

Conventions.
* A byte buffer is a `List Nat`; a C pointer that may be `NULL` is an `Option`.
* `unsigned char` arithmetic is written with an explicit `% 256`.
* The compile-time options `DEMO_ONLY`, `SQLITE_KEYSIZE_LIMIT` and `CCCRYPT256`
  are taken as not defined.
* Everything the C code obtains from outside the files (the allocator, the
  random source, the byte order of the machine, the pager) is an explicit
  parameter.
-/

namespace See

/-! ## Byte buffers -/

/-- The effect of `memcpy(&buf[off], src, src.length)` on the content of `buf`. -/
def writeAt (buf : List Nat) (off : Nat) (src : List Nat) : List Nat :=
  buf.take off ++ src ++ buf.drop (off + src.length)

/-- The bytes `a[i] ^ b[i]` for `i < nByte`: what `xorBuffers` stores through
its `out` pointer.  The 8-byte and 4-byte word loops of the C routine XOR the
same bytes as its final byte loop, so the stored bytes do not depend on the
alignment of the three pointers. -/
def xorBytes (a b : List Nat) (nByte : Nat) : List Nat :=
  List.zipWith (fun x y => x ^^^ y) (a.take nByte) (b.take nByte)

/-- `xorBuffers(out, a, b, nByte)` of `see-rc4.c`, `see-xor.c` and
`see-cccrypt.c`: the new content of the buffer `out` points to. -/
def xorBuffers (out a b : List Nat) (nByte : Nat) : List Nat :=
  writeAt out 0 (xorBytes a b nByte)

/-- The loop `for(i=16; i<=23; i++) out[i] ^= b[i];` that undoes the masking
of the page-size field of page 1 (`n` iterations starting at index `i`). -/
def page1Xor (b : List Nat) : Nat → Nat → List Nat → List Nat
  | 0, _, out => out
  | n + 1, i, out => page1Xor b n (i + 1) (out.set i (out.getD i 0 ^^^ b.getD i 0))

/-- The common tail of `sqliteCodecRc4` and `sqliteCodecCCCrypto`, from
"Run the XOR mask against the page data" to the end: `a` is the page, `b` the
mask, and `out` is the codec's `outbuf` on an encode and `a` itself on a
decode.  `xorBuffers` over the `usable` bytes, `memmove` of the reserved
trailer, then `out[i] ^= b[i]` for `i` in 16..23 when the page number is 1.
Returns the final content of `out`. -/
def xorPage (usable pageSize pgno : Nat) (encode : Bool) (outbuf a b : List Nat) :
    List Nat :=
  let out0 := if encode then outbuf else a
  let out1 := xorBuffers out0 a b usable
  let a1 := if encode then a else out1
  let out2 :=
    if usable < pageSize then
      writeAt out1 usable ((a1.drop usable).take (pageSize - usable))
    else out1
  if pgno = 1 then page1Xor b 8 16 out2 else out2

/-! ## What the codecs obtain from their host -/

/-- The services a codec calls and the one machine property it tests. -/
structure Host where
  /-- True on a machine where `*(const char*)&one` is 0. -/
  bigEndian : Bool
  /-- For a request of `n` bytes: `none` when `sqlite3_malloc` returns `NULL`,
  otherwise the (indeterminate) initial content of the block, byte by byte. -/
  sqlite3_malloc : Nat → Option (Nat → Nat)
  /-- The `i`-th byte `sqlite3_randomness` writes in the call under study. -/
  randomByte : Nat → Nat
  /-- The (indeterminate) value byte `i` of the local array `nonce` holds
  before anything is stored in it. -/
  stackByte : Nat → Nat
  /-- `CCCrypt(kCCEncrypt, kCCAlgorithmAES, 0, key, nKey, iv, dataIn, n, dataOut, n, 0)`
  of the platform library, as the bytes it stores to `dataOut`, from
  `key`, `nKey`, `iv` and `dataIn`. -/
  CCCrypt : List Nat → Nat → List Nat → List Nat → List Nat

/-- The block of `n` bytes returned by `sqlite3_malloc(n)`, if any. -/
def Host.malloc (h : Host) (n : Nat) : Option (List Nat) :=
  (h.sqlite3_malloc n).map (fun g => (List.range n).map g)

/-- The `n` bytes stored by `sqlite3_randomness(n, buf)`. -/
def Host.sqlite3_randomness (h : Host) (n : Nat) : List Nat :=
  (List.range n).map h.randomByte

/-- Which pointer a codec returns. -/
inductive Ret where
  | null
  | pageData
  | outbuf
  deriving DecidableEq, Repr

/-- State after one codec call: the codec structure, the content of the
caller's page buffer and the pointer returned. -/
structure CodecResult (C : Type) where
  codec : C
  pageData : List Nat
  ret : Ret

/-- The first four nonce bytes: `memcpy(nonce, &pgno, sizeof(pgno))` followed,
on a big-endian machine, by the byte swap `0 <-> 3`, `1 <-> 2`. -/
def pgnoNonce (bigEndian : Bool) (pgno : Nat) : List Nat :=
  let b0 := pgno % 256
  let b1 := pgno / 256 % 256
  let b2 := pgno / 65536 % 256
  let b3 := pgno / 16777216 % 256
  let native := if bigEndian then [b3, b2, b1, b0] else [b0, b1, b2, b3]
  if bigEndian then
    [native.getD 3 0, native.getD 2 0, native.getD 1 0, native.getD 0 0]
  else native

/-! ## RC4 backend (`see-rc4.c`) -/

/-- `struct Key` of `CodecRc4` (`KEY_SZ` is 256). -/
structure KeyRc4 where
  nByte : Nat
  nullKey : Nat
  repeat_ : List Nat

/-- `struct CodecRc4`.  `mask` is `none` while the C pointer is `NULL`; the
single allocation of `pageSize*2 + 8` bytes is held as its two parts, the mask
area `mask[0 .. pageSize+4)` and `outbuf = &mask[pageSize+4]`. -/
structure CodecRc4 where
  key0 : KeyRc4
  key1 : KeyRc4
  nullKey : Nat
  nonceSize : Nat
  mallocFailed : Nat
  pageSize : Nat
  usable : Nat
  mask : Option (List Nat)
  outbuf : List Nat

/-- The slot `pCodec->key[i]`. -/
def CodecRc4.key (c : CodecRc4) (i : Nat) : KeyRc4 :=
  if i = 0 then c.key0 else c.key1

/-- Key preparation loop of the RC4 mask:
`for(i=j=0, n=0; n<256; i++, n++) x[i] = kx[i] ^ nonce[j++]; if (j>=nonceSize+4) j = 0;`
with `n` iterations left; returns the bytes of `x` from index `i` on. -/
def rc4KeyPrep (kx nonce : List Nat) (nonceSize : Nat) : Nat → Nat → Nat → List Nat
  | 0, _, _ => []
  | n + 1, i, j =>
    (kx.getD i 0 ^^^ nonce.getD j 0) ::
      rc4KeyPrep kx nonce nonceSize n ((i + 1) % 256)
        (if nonceSize + 4 ≤ (j + 1) % 256 then 0 else (j + 1) % 256)

/-- The RC4 state machine: the permutation `s` and the two `unsigned char`
indices. -/
structure Rc4State where
  s : List Nat
  i : Nat
  j : Nat

/-- The key-schedule loop `j += s[i] + x[i]; swap(s[i], s[j])`, `n` iterations. -/
def rc4Init (x : List Nat) : Nat → Rc4State → Rc4State
  | 0, st => st
  | n + 1, st =>
    let j := (st.j + st.s.getD st.i 0 + x.getD st.i 0) % 256
    let t := st.s.getD j 0
    let s1 := st.s.set j (st.s.getD st.i 0)
    let s2 := s1.set st.i t
    rc4Init x n ⟨s2, (st.i + 1) % 256, j⟩

/-- The output loop
`i++; t = s[i]; j += t; s[i] = s[j]; s[j] = t; t += s[i]; mask[n] = s[t];`,
`n` iterations. -/
def rc4Generate : Nat → Rc4State → List Nat
  | 0, _ => []
  | n + 1, st =>
    let i := (st.i + 1) % 256
    let t := st.s.getD i 0
    let j := (st.j + t) % 256
    let s1 := st.s.set i (st.s.getD j 0)
    let s2 := s1.set j t
    let t2 := (t + s2.getD i 0) % 256
    s2.getD t2 0 :: rc4Generate n ⟨s2, i, j⟩

/-- The `usable` mask bytes computed when op bit 1 is set: key preparation,
512 key-schedule steps, then the output loop continuing from the indices the
key schedule ended with. -/
def rc4Mask (kx nonce : List Nat) (nonceSize usable : Nat) : List Nat :=
  let x := rc4KeyPrep kx nonce nonceSize 256 0 0
  rc4Generate usable (rc4Init x 512 ⟨List.range 256, 0, 0⟩)

/-- The nonce `sqliteCodecRc4` builds: the page number, then either the fresh
random bytes (encode), or the bytes stored behind the payload (decode), or,
without reserved bytes, 256 zero bytes. -/
def rc4Nonce (h : Host) (c : CodecRc4) (zData : List Nat) (pgno op : Nat) : List Nat :=
  if 0 < c.nonceSize then
    if op &&& 4 ≠ 0 then pgnoNonce h.bigEndian pgno ++ h.sqlite3_randomness c.nonceSize
    else pgnoNonce h.bigEndian pgno ++ (zData.drop c.usable).take c.nonceSize
  else pgnoNonce h.bigEndian pgno ++ List.replicate 256 0

/-- The part of `sqliteCodecRc4` after the null-key test: find the nonce
(an encode stores the fresh nonce into the caller's page), recompute the mask,
then run the mask against the page. -/
def rc4Crypt (h : Host) (c : CodecRc4) (mask zData : List Nat) (pgno op : Nat) :
    CodecResult CodecRc4 :=
  let zData1 :=
    if 0 < c.nonceSize ∧ op &&& 4 ≠ 0 then
      writeAt zData c.usable (h.sqlite3_randomness c.nonceSize)
    else zData
  let mask1 :=
    if op &&& 2 ≠ 0 then
      writeAt mask 0
        (rc4Mask (c.key (op &&& 1)).repeat_ (rc4Nonce h c zData pgno op) c.nonceSize c.usable)
    else mask
  let out := xorPage c.usable c.pageSize pgno (op &&& 4 ≠ 0) c.outbuf zData1 mask1
  if op &&& 4 ≠ 0 then
    ⟨{ c with mask := some mask1, outbuf := out }, zData1, Ret.outbuf⟩
  else
    ⟨{ c with mask := some mask1 }, out, Ret.pageData⟩

/-- The part of `sqliteCodecRc4` after the scratch allocation: the null-key
early exits, then the transformation. -/
def rc4Keyed (h : Host) (c : CodecRc4) (mask zData : List Nat) (pgno op : Nat) :
    CodecResult CodecRc4 :=
  if op = 0 then
    if c.nullKey ≠ 0 then ⟨c, zData, Ret.pageData⟩
    else rc4Crypt h c mask zData pgno op
  else if (c.key (op &&& 1)).nullKey ≠ 0 then
    ⟨{ c with nullKey := 1 }, zData, Ret.pageData⟩
  else rc4Crypt h { c with nullKey := 0 } mask zData pgno op

/-- `sqliteCodecRc4(codecState, pageData, pgno, op)`. -/
def sqliteCodecRc4 (h : Host) (pCodec : CodecRc4) (pageData : List Nat) (pgno op : Nat) :
    CodecResult CodecRc4 :=
  match pCodec.mask with
  | some mask => rc4Keyed h pCodec mask pageData pgno op
  | none =>
    if pCodec.mallocFailed ≠ 0 then ⟨pCodec, pageData, Ret.null⟩
    else
      match h.malloc (pCodec.pageSize * 2 + 8) with
      | none => ⟨{ pCodec with mallocFailed := 1 }, pageData, Ret.null⟩
      | some blk =>
        rc4Keyed h
          { pCodec with
            mask := some (blk.take (pCodec.pageSize + 4))
            outbuf := blk.drop (pCodec.pageSize + 4) }
          (blk.take (pCodec.pageSize + 4)) pageData pgno op

/-- The `pageSize` bytes found at the pointer `sqliteCodecRc4` returned. -/
def pageRc4 (r : CodecResult CodecRc4) : Option (List Nat) :=
  match r.ret with
  | Ret.null => none
  | Ret.pageData => some r.pageData
  | Ret.outbuf => some (r.codec.outbuf.take r.codec.pageSize)

/-- `sqliteCodecRc4SizeChng(p, pageSize, nReserve)`; `nonceSize` is a `u8`. -/
def sqliteCodecRc4SizeChng (p : CodecRc4) (pageSize nReserve : Nat) : CodecRc4 :=
  { p with pageSize := pageSize, nonceSize := nReserve % 256, usable := pageSize - nReserve }

/-! ## AES-128-CCM backend (`see-aes128-ccm.c`) -/

/-- The two Rijndael routines of `see-aes128-ccm.c`, used by the codec only as
a key-schedule set-up and a single-block encryption of 16 bytes under a key
schedule.  The codec is written over this capability set, so that what is
proved of it holds for the table-driven routines of the file as for any other
block primitive. -/
structure Rijndael where
  /-- `rijndaelKeySetupEnc128Ccm(rk, cipherKey)`: the 44 words of `rk`. -/
  rijndaelKeySetupEnc128Ccm : List Nat → List Nat
  /-- `rijndaelEncrypt128Ccm(rk, pt, ct)`: the 16 bytes of `ct`. -/
  rijndaelEncrypt128Ccm : List Nat → List Nat → List Nat
  /-- `ct` is a block of 16 bytes. -/
  length_encrypt : ∀ rk pt, (rijndaelEncrypt128Ccm rk pt).length = 16

/-- `struct KeyAes128Ccm` (`KEY_SZ` is 16, `KEY_SCHED_SZ` is 44). -/
structure KeyAes128Ccm where
  nByte : Nat
  nullKey : Nat
  keySchedule : List Nat
  repeat_ : List Nat

/-- `struct CodecAes128Ccm`; the allocation of `pageSize*2 + 8` bytes is held
as the mask area and `outbuf = &mask[pageSize+4]`. -/
structure CodecAes128Ccm where
  key0 : KeyAes128Ccm
  key1 : KeyAes128Ccm
  nullKey : Nat
  mallocFailed : Nat
  pageSize : Nat
  usable : Nat
  mask : Option (List Nat)
  outbuf : List Nat

/-- The slot `pCodec->key[i]`. -/
def CodecAes128Ccm.key (c : CodecAes128Ccm) (i : Nat) : KeyAes128Ccm :=
  if i = 0 then c.key0 else c.key1

/-- `xorBuffers(nByte, in1, in2, out)` of `see-aes128-ccm.c`: the new content
of `out`.  The loop `while( nByte ){ nByte -= 4; ... }` ends only when `nByte`
is a multiple of 4; otherwise there is no result. -/
def xorBuffersAes (nByte : Nat) (in1 in2 out : List Nat) : Option (List Nat) :=
  if nByte % 4 = 0 then some (writeAt out 0 (xorBytes in1 in2 nByte)) else none

/-- `xorBlock(in1, in2, out)`: the 16 bytes stored in `out`. -/
def xorBlock (in1 in2 : List Nat) : List Nat :=
  xorBytes in1 in2 16

/-- The loop of `computeMac`: `n` more blocks, the next one at offset `i`. -/
def computeMacLoop (A : Rijndael) (rk data : List Nat) : Nat → Nat → List Nat → List Nat
  | 0, _, out => out
  | n + 1, i, out =>
    computeMacLoop A rk data n (i + 16)
      (A.rijndaelEncrypt128Ccm rk (xorBlock out ((data.drop i).take 16)))

/-- `computeMac(pCodec, iKey, data, nData, nonce, out)` with `rk` the key
schedule of slot `iKey`: the 16 bytes left in `out`.  The loop
`for(i=0; i<nData; i += 16)` runs `(nData + 15) / 16` times. -/
def computeMac (A : Rijndael) (rk data : List Nat) (nData : Nat) (nonce : List Nat) :
    List Nat :=
  computeMacLoop A rk data ((nData + 15) / 16) 0 (A.rijndaelEncrypt128Ccm rk (nonce.take 16))

/-- `nonce[4]++; if( nonce[4]==0 ){ nonce[5]++; }` on `unsigned char`s. -/
def nonceIncr (nonce : List Nat) : List Nat :=
  let n4 := (nonce.getD 4 0 + 1) % 256
  let nonce1 := nonce.set 4 n4
  if n4 = 0 then nonce1.set 5 ((nonce1.getD 5 0 + 1) % 256) else nonce1

/-- The counter-mode loop that fills the mask, `n` blocks from `nonce` on. -/
def aesCtrMask (A : Rijndael) (rk : List Nat) : Nat → List Nat → List Nat
  | 0, _ => []
  | n + 1, nonce => A.rijndaelEncrypt128Ccm rk nonce ++ aesCtrMask A rk n (nonceIncr nonce)

/-- `xorBuffers(8, &out[16], &mask[16], &out[16])`, done for page 1. -/
def aesPage1 (out mask : List Nat) : Option (List Nat) :=
  (xorBuffersAes 8 (out.drop 16) (mask.drop 16) (out.drop 16)).map (fun t => out.take 16 ++ t)

/-- "Run the XOR mask against the page data" of `sqliteCodecAes128Ccm`:
`xorBuffers(usable+MAC_SZ, src, mask, out)` and, for page 1, the undoing of
bytes 16..23.  Returns the final content of `out`; `none` when a call of
`xorBuffers` does not end. -/
def aesXor (usable pgno : Nat) (src mask out : List Nat) : Option (List Nat) :=
  (xorBuffersAes (usable + 16) src mask out).bind fun o =>
    if pgno = 1 then aesPage1 o mask else some o

/-- "Find the nonce": fresh random bytes on an encode, the 16 bytes behind the
MAC field of the page on a decode. -/
def aesNonce (h : Host) (c : CodecAes128Ccm) (zData : List Nat) (op : Nat) : List Nat :=
  if op &&& 4 ≠ 0 then h.sqlite3_randomness 16 else (zData.drop (c.usable + 16)).take 16

/-- "Recompute an XOR mask": the content of the mask area afterwards.  The
loop `for(i=0; i<usable+MAC_SZ; i+=AES_BLOCK_SZ)` runs `(usable+16+15)/16`
times. -/
def aesMask (A : Rijndael) (c : CodecAes128Ccm) (mask nonce : List Nat) (op : Nat) :
    List Nat :=
  if op &&& 2 ≠ 0 then
    writeAt mask 0
      (aesCtrMask A (c.key (op &&& 1)).keySchedule ((c.usable + 16 + 15) / 16) nonce)
  else mask

/-- The page a decode has made of `zData` when it comes to verify the MAC:
unmasked over `usable + 16` bytes, bytes 16..23 of page 1 restored. -/
def aesUnmasked (A : Rijndael) (h : Host) (c : CodecAes128Ccm) (mask zData : List Nat)
    (pgno op : Nat) : Option (List Nat) :=
  aesXor c.usable pgno zData (aesMask A c mask (aesNonce h c zData op) op) zData

/-- The part of `sqliteCodecAes128Ccm` after the null-key test.  `none` when a
call of `xorBuffers` does not end. -/
def aesCrypt (A : Rijndael) (h : Host) (c : CodecAes128Ccm) (mask zData : List Nat)
    (pgno op : Nat) : Option (CodecResult CodecAes128Ccm) :=
  let usable := c.usable
  let rk := (c.key (op &&& 1)).keySchedule
  let nonce := aesNonce h c zData op
  let mask1 := aesMask A c mask nonce op
  if op &&& 4 = 0 then
    -- Decode, then verify the MAC and zero the page if it is wrong
    (aesUnmasked A h c mask zData pgno op).bind fun zData3 =>
    let mac := computeMac A rk zData3 usable (zData3.drop (usable + 16))
    if mac ≠ (zData3.drop usable).take 16 then
      some ⟨{ c with mask := some mask1 }, writeAt zData3 0 (List.replicate c.pageSize 0),
        Ret.pageData⟩
    else
      some ⟨{ c with mask := some mask1 }, zData3, Ret.pageData⟩
  else
    -- Store the fresh nonce in `outbuf` and in the page, generate a MAC, encode
    let outbuf1 := writeAt c.outbuf (usable + 16) nonce
    let zData1 := writeAt zData (usable + 16) nonce
    let mac := computeMac A rk zData1 usable (zData1.drop (usable + 16))
    let zData2 := writeAt zData1 usable mac
    (aesXor usable pgno zData2 mask1 outbuf1).bind fun out3 =>
    some ⟨{ c with mask := some mask1, outbuf := out3 }, zData2, Ret.outbuf⟩

/-- The part of `sqliteCodecAes128Ccm` after the scratch allocation:
`if( op==0 ) op = 7;`, the null-key early exit, then the transformation. -/
def aesKeyed (A : Rijndael) (h : Host) (c : CodecAes128Ccm) (mask zData : List Nat)
    (pgno op : Nat) : Option (CodecResult CodecAes128Ccm) :=
  let op1 := if op = 0 then 7 else op
  if (c.key (op1 &&& 1)).nullKey ≠ 0 then
    some ⟨{ c with nullKey := 1 }, zData, Ret.pageData⟩
  else aesCrypt A h { c with nullKey := 0 } mask zData pgno op1

/-- The first block of `sqliteCodecAes128Ccm`, "allocate space for the mask
cache on the first invocation": either one of its four early `return`s
(`Except.error`), or the codec with its scratch space and the content of the
mask area.  `reserveSize` is an `int`, so it is negative when `usable` exceeds
`pageSize`. -/
def aesAlloc (h : Host) (pCodec : CodecAes128Ccm) (pageData : List Nat) :
    Except (CodecResult CodecAes128Ccm) (CodecAes128Ccm × List Nat) :=
  match pCodec.mask with
  | some mask => Except.ok (pCodec, mask)
  | none =>
    if pCodec.mallocFailed ≠ 0 then Except.error ⟨pCodec, pageData, Ret.null⟩
    else if (pCodec.pageSize : Int) - (pCodec.usable : Int) < 32 then
      Except.error ⟨pCodec, pageData, Ret.pageData⟩
    else if pCodec.usable &&& 15 ≠ 0 then
      Except.error ⟨pCodec, pageData, Ret.pageData⟩
    else
      match h.malloc (pCodec.pageSize * 2 + 8) with
      | none => Except.error ⟨{ pCodec with mallocFailed := 1 }, pageData, Ret.null⟩
      | some blk =>
        Except.ok
          ({ pCodec with
              mask := some (blk.take (pCodec.pageSize + 4))
              outbuf := blk.drop (pCodec.pageSize + 4) },
            blk.take (pCodec.pageSize + 4))

/-- `sqliteCodecAes128Ccm(codecState, pageData, pgno, op)`. -/
def sqliteCodecAes128Ccm (A : Rijndael) (h : Host) (pCodec : CodecAes128Ccm)
    (pageData : List Nat) (pgno op : Nat) : Option (CodecResult CodecAes128Ccm) :=
  match aesAlloc h pCodec pageData with
  | Except.error r => some r
  | Except.ok (c, mask) => aesKeyed A h c mask pageData pgno op

/-- The page a decode call (`op` 1, 2 or 3) of `sqliteCodecAes128Ccm` has
unmasked when it comes to verify the MAC; `none` when the call does not get
there. -/
def aesDecoded (A : Rijndael) (h : Host) (pCodec : CodecAes128Ccm) (pageData : List Nat)
    (pgno op : Nat) : Option (List Nat) :=
  match aesAlloc h pCodec pageData with
  | Except.error _ => none
  | Except.ok (c, mask) =>
    if op = 0 ∨ op &&& 4 ≠ 0 ∨ (c.key (op &&& 1)).nullKey ≠ 0 then none
    else aesUnmasked A h { c with nullKey := 0 } mask pageData pgno op

/-- The `pageSize` bytes found at the pointer `sqliteCodecAes128Ccm` returned. -/
def pageAes (r : CodecResult CodecAes128Ccm) : Option (List Nat) :=
  match r.ret with
  | Ret.null => none
  | Ret.pageData => some r.pageData
  | Ret.outbuf => some (r.codec.outbuf.take r.codec.pageSize)

/-- `sqliteCodecAes128CcmSizeChng(p, pageSize, nReserve)`: the mask is freed
when `usable` changes. -/
def sqliteCodecAes128CcmSizeChng (p : CodecAes128Ccm) (pageSize nReserve : Nat) :
    CodecAes128Ccm :=
  { p with
    mask := if p.usable ≠ pageSize - nReserve then none else p.mask
    pageSize := pageSize
    usable := pageSize - nReserve }

/-- The codec `sqlite3CodecAttach` of `see-aes128-ccm.c` hands to the pager: the
block zeroed by `memset`, with the key slot `loadKeyAes128Ccm` made in slot 0
and copied to slot 1. -/
def aesAttached (k : KeyAes128Ccm) : CodecAes128Ccm :=
  { key0 := k, key1 := k, nullKey := 0, mallocFailed := 0, pageSize := 0, usable := 0,
    mask := none, outbuf := [] }

/-! ## XOR backend (`see-xor.c`) -/

/-- `struct Key` of `CodecXor` (`KEY_SZ` is 32). -/
structure KeyXor where
  nByte : Nat
  nullKey : Nat
  repeat_ : List Nat

/-- `struct CodecXor`; `outbuf` is `none` while the C pointer is `NULL`. -/
structure CodecXor where
  key0 : KeyXor
  key1 : KeyXor
  nullKey : Nat
  mallocFailed : Nat
  pageSize : Nat
  usable : Nat
  outbuf : Option (List Nat)

/-- The slot `pCodec->key[i]`. -/
def CodecXor.key (c : CodecXor) (i : Nat) : KeyXor :=
  if i = 0 then c.key0 else c.key1

/-- The table `aRand[256]`, "256 bytes of randomness". -/
def aRand : List Nat := [
  90, 114, 196, 103, 34, 96, 169, 217, 30, 184, 135, 158, 130, 227, 45, 203,
  252, 122, 102, 34, 206, 31, 170, 171, 57, 102, 22, 214, 41, 0, 171, 18,
  142, 85, 131, 243, 57, 195, 213, 212, 221, 101, 152, 246, 229, 197, 139, 56,
  252, 217, 51, 9, 45, 144, 72, 14, 3, 1, 220, 138, 87, 92, 116, 139,
  1, 116, 181, 180, 185, 47, 229, 22, 212, 128, 198, 76, 195, 146, 105, 185,
  110, 31, 200, 201, 87, 115, 64, 101, 55, 31, 145, 145, 224, 205, 149, 177,
  152, 192, 212, 81, 220, 154, 118, 165, 255, 106, 121, 216, 41, 21, 57, 63,
  234, 163, 87, 112, 12, 43, 157, 2, 73, 108, 240, 46, 102, 10, 124, 253,
  39, 103, 112, 21, 66, 54, 47, 242, 137, 109, 161, 108, 16, 242, 126, 206,
  162, 27, 53, 142, 68, 158, 208, 222, 244, 42, 181, 71, 215, 47, 238, 201,
  23, 109, 82, 91, 227, 191, 225, 101, 42, 197, 54, 2, 152, 81, 0, 246,
  37, 15, 143, 181, 89, 190, 235, 240, 163, 219, 85, 114, 89, 121, 227, 6,
  182, 4, 74, 231, 47, 112, 73, 137, 4, 105, 139, 72, 139, 5, 43, 229,
  24, 234, 227, 224, 223, 114, 148, 26, 100, 226, 72, 41, 167, 209, 110, 15,
  109, 34, 192, 195, 240, 114, 240, 48, 131, 243, 105, 8, 128, 69, 19, 150,
  104, 190, 235, 83, 200, 200, 123, 80, 119, 67, 80, 212, 7, 67, 235, 12]

/-- The loop `for(i=16; i<=23; i++) out[i] ^= b[i] ^ aRand[(i&0xff)];` of
`sqliteCodecXor` (`n` iterations starting at index `i`). -/
def xorPage1Rand (b : List Nat) : Nat → Nat → List Nat → List Nat
  | 0, _, out => out
  | n + 1, i, out =>
    xorPage1Rand b n (i + 1)
      (out.set i (out.getD i 0 ^^^ (b.getD i 0 ^^^ aRand.getD (i &&& 255) 0)))

/-- The part of `sqliteCodecXor` after the null-key test.  `b` points to
`key[op&1].repeat`, an array of 32 bytes, and `xorBuffers` reads `usable`
bytes from it: `beyond` is the content of the memory that follows the array. -/
def xorCrypt (c : CodecXor) (outbuf beyond zData : List Nat) (pgno op : Nat) :
    CodecResult CodecXor :=
  let a := zData
  let b := (c.key (op &&& 1)).repeat_ ++ beyond
  let out0 := if op &&& 4 ≠ 0 then outbuf else a
  let out1 := xorBuffers out0 a b c.usable
  let a1 := if op &&& 4 ≠ 0 then a else out1
  let out2 :=
    if c.usable < c.pageSize then
      writeAt out1 c.usable ((a1.drop c.usable).take (c.pageSize - c.usable))
    else out1
  let out3 := if pgno = 1 then xorPage1Rand b 8 16 out2 else out2
  if op &&& 4 ≠ 0 then
    ⟨{ c with outbuf := some out3 }, zData, Ret.outbuf⟩
  else
    ⟨c, out3, Ret.pageData⟩

/-- The part of `sqliteCodecXor` after the allocation of `outbuf`. -/
def xorKeyed (c : CodecXor) (outbuf beyond zData : List Nat) (pgno op : Nat) :
    CodecResult CodecXor :=
  if op = 0 then
    if c.nullKey ≠ 0 then ⟨c, zData, Ret.pageData⟩
    else xorCrypt c outbuf beyond zData pgno op
  else if (c.key (op &&& 1)).nullKey ≠ 0 then
    ⟨{ c with nullKey := 1 }, zData, Ret.pageData⟩
  else xorCrypt { c with nullKey := 0 } outbuf beyond zData pgno op

/-- `sqliteCodecXor(codecState, pageData, pgno, op)`. -/
def sqliteCodecXor (h : Host) (pCodec : CodecXor) (beyond pageData : List Nat)
    (pgno op : Nat) : CodecResult CodecXor :=
  match pCodec.outbuf with
  | some outbuf => xorKeyed pCodec outbuf beyond pageData pgno op
  | none =>
    if pCodec.mallocFailed ≠ 0 then ⟨pCodec, pageData, Ret.null⟩
    else
      match h.malloc pCodec.pageSize with
      | none => ⟨{ pCodec with mallocFailed := 1 }, pageData, Ret.null⟩
      | some blk => xorKeyed { pCodec with outbuf := some blk } blk beyond pageData pgno op

/-- `sqliteCodecXorSizeChng(p, pageSize, nReserve)`. -/
def sqliteCodecXorSizeChng (p : CodecXor) (pageSize nReserve : Nat) : CodecXor :=
  { p with pageSize := pageSize, usable := pageSize - nReserve }

/-! ## CommonCrypto backend (`see-cccrypt.c`) -/

/-- `struct KeyCCCrypto` (`KEY_SZ` is 16). -/
structure KeyCCCrypto where
  nByte : Nat
  nullKey : Nat
  repeat_ : List Nat

/-- `struct CodecCCCrypto`; the allocation of `pageSize*3` bytes is held as
its three parts `mask`, `outbuf = &mask[pageSize]` and
`pZero = &outbuf[pageSize]`. -/
structure CodecCCCrypto where
  key0 : KeyCCCrypto
  key1 : KeyCCCrypto
  nullKey : Nat
  nonceUsable : Nat
  mallocFailed : Nat
  nonceZero : Int
  pageSize : Nat
  usable : Nat
  pZero : List Nat
  mask : Option (List Nat)
  outbuf : List Nat

/-- The slot `pCodec->key[i]`. -/
def CodecCCCrypto.key (c : CodecCCCrypto) (i : Nat) : KeyCCCrypto :=
  if i = 0 then c.key0 else c.key1

/-- The 16 bytes of the local array `nonce` of `sqliteCodecCCCrypto`: the page
number, `nonceUsable` bytes that are fresh random bytes (encode) or the bytes
stored behind the payload (decode), and `nonceZero` zero bytes at the end. -/
def cccryptNonce (h : Host) (c : CodecCCCrypto) (zData : List Nat) (pgno op : Nat) :
    List Nat :=
  let n0 := writeAt ((List.range 16).map h.stackByte) 0 (pgnoNonce h.bigEndian pgno)
  let n1 :=
    if 0 < c.nonceUsable then
      if op &&& 4 ≠ 0 then writeAt n0 4 (h.sqlite3_randomness c.nonceUsable)
      else writeAt n0 4 ((zData.drop c.usable).take c.nonceUsable)
    else n0
  if 0 < c.nonceZero then
    writeAt n1 (16 - c.nonceZero.toNat) (List.replicate c.nonceZero.toNat 0)
  else n1

/-- The part of `sqliteCodecCCCrypto` after the scratch allocation. -/
def cccryptCrypt (h : Host) (c : CodecCCCrypto) (mask zData : List Nat) (pgno op : Nat) :
    CodecResult CodecCCCrypto :=
  let zData1 :=
    if 0 < c.nonceUsable ∧ op &&& 4 ≠ 0 then
      writeAt zData c.usable (h.sqlite3_randomness c.nonceUsable)
    else zData
  let mask1 :=
    if op &&& 2 ≠ 0 then
      writeAt mask 0
        ((h.CCCrypt (c.key (op &&& 1)).repeat_ 16 (cccryptNonce h c zData pgno op)
          (c.pZero.take c.pageSize)).take c.pageSize)
    else mask
  let out := xorPage c.usable c.pageSize pgno (op &&& 4 ≠ 0) c.outbuf zData1 mask1
  if op &&& 4 ≠ 0 then
    ⟨{ c with mask := some mask1, outbuf := out }, zData1, Ret.outbuf⟩
  else
    ⟨{ c with mask := some mask1 }, out, Ret.pageData⟩

/-- The part of `sqliteCodecCCCrypto` after the null-key test: allocate the
scratch space on the first call, then transform. -/
def cccryptAlloc (h : Host) (c : CodecCCCrypto) (zData : List Nat) (pgno op : Nat) :
    CodecResult CodecCCCrypto :=
  match c.mask with
  | some mask => cccryptCrypt h c mask zData pgno op
  | none =>
    if c.mallocFailed ≠ 0 then ⟨c, zData, Ret.null⟩
    else
      match h.malloc (c.pageSize * 3) with
      | none => ⟨{ c with mallocFailed := 1 }, zData, Ret.null⟩
      | some blk =>
        cccryptCrypt h
          { c with
            mask := some (blk.take c.pageSize)
            outbuf := (blk.drop c.pageSize).take c.pageSize
            pZero := List.replicate c.pageSize 0 }
          (blk.take c.pageSize) zData pgno op

/-- `sqliteCodecCCCrypto(codecState, pageData, pgno, op)`: here the null-key
test comes before the allocation. -/
def sqliteCodecCCCrypto (h : Host) (pCodec : CodecCCCrypto) (pageData : List Nat)
    (pgno op : Nat) : CodecResult CodecCCCrypto :=
  if op = 0 then
    if pCodec.nullKey ≠ 0 then ⟨pCodec, pageData, Ret.pageData⟩
    else cccryptAlloc h pCodec pageData pgno op
  else if (pCodec.key (op &&& 1)).nullKey ≠ 0 then
    ⟨{ pCodec with nullKey := 1 }, pageData, Ret.pageData⟩
  else cccryptAlloc h { pCodec with nullKey := 0 } pageData pgno op

/-- The `pageSize` bytes found at the pointer `sqliteCodecCCCrypto` returned. -/
def pageCCCrypto (r : CodecResult CodecCCCrypto) : Option (List Nat) :=
  match r.ret with
  | Ret.null => none
  | Ret.pageData => some r.pageData
  | Ret.outbuf => some (r.codec.outbuf.take r.codec.pageSize)

/-- The `pageSize` bytes found at the pointer `sqliteCodecXor` returned. -/
def pageXor (r : CodecResult CodecXor) : Option (List Nat) :=
  match r.ret with
  | Ret.null => none
  | Ret.pageData => some r.pageData
  | Ret.outbuf => (r.codec.outbuf).map (fun o => o.take r.codec.pageSize)

/-- `sqliteCodecCCCryptoSizeChng(p, pageSize, nReserve)`
(`AES_BLOCK_SZ - 4` is 12, `sizeof(Pgno)` is 4). -/
def sqliteCodecCCCryptoSizeChng (p : CodecCCCrypto) (pageSize nReserve : Nat) :
    CodecCCCrypto :=
  let nonceUsable := if 12 < nReserve then 12 else nReserve % 256
  { p with
    pageSize := pageSize
    nonceUsable := nonceUsable
    usable := pageSize - nReserve
    nonceZero := 16 - 4 - (nonceUsable : Int) }

/-! ## Loading a key into slot 0 -/

/-- `strlen(z)`: the number of bytes before the first NUL. -/
def strlen (z : List Nat) : Nat :=
  (z.takeWhile (fun c => c ≠ 0)).length

/-- The loop `for(i=0; i<KEY_SZ; i++) repeat[i] = zKey[i%nKey];`. -/
def repeatKey (zKey : List Nat) (nKey keySz : Nat) : List Nat :=
  (List.range keySz).map (fun i => zKey.getD (i % nKey) 0)

/-- First loop of `pwHash`, `f` iterations left:
`j += s[m] + zPassPhrase[n]; if( zPassPhrase[n]==0 ){ n = -1; } swap(s[j], s[m])`,
followed by `m++, n++`. -/
def pwHashMix (z : List Nat) : Nat → Nat → Nat → Nat → List Nat → List Nat
  | 0, _, _, _, s => s
  | f + 1, m, n, j, s =>
    let c := z.getD n 0
    let j1 := (j + s.getD m 0 + c) % 256
    let t := s.getD j1 0
    let s1 := (s.set j1 (s.getD m 0)).set m t
    pwHashMix z f (m + 1) (if c = 0 then 0 else n + 1) j1 s1

/-- Second loop of `pwHash`, `f` iterations left:
`i++; t = s[i]; j += t; s[i] = s[j]; s[j] = t; aBuf[n] = t + s[i];`. -/
def pwHashOut : Nat → Nat → Nat → List Nat → List Nat
  | 0, _, _, _ => []
  | f + 1, i, j, s =>
    let i1 := (i + 1) % 256
    let t := s.getD i1 0
    let j1 := (j + t) % 256
    let s1 := (s.set i1 (s.getD j1 0)).set j1 t
    ((t + s1.getD i1 0) % 256) :: pwHashOut f i1 j1 s1

/-- `pwHash(zPassPhrase, N, aBuf)` of `see-aes128-ccm.c` and `see-cccrypt.c`:
the `N` bytes of `aBuf`. -/
def pwHash (zPassPhrase : List Nat) (N : Nat) : List Nat :=
  let s0 := List.range 256
  let s := if zPassPhrase.getD 0 0 ≠ 0 then pwHashMix zPassPhrase 256 0 0 0 s0 else s0
  pwHashOut N 0 0 s

/-- `loadKeyRc4(pCodec, pKey, nKey)`.  The routine reads and writes
`pCodec->key[0]` only: the argument is that slot before the call, the result
the slot after it.  `none` when `i%nKey` divides by zero. -/
def loadKeyRc4 (key0 : KeyRc4) (pKey : Option (List Nat)) (nKey : Int) : Option KeyRc4 :=
  match pKey with
  | some zKey =>
    if nKey ≠ 0 then
      let n1 : Nat := if nKey < 0 then strlen zKey % 16777216 else nKey.toNat
      let n2 : Nat := if 256 < n1 then 256 else n1
      if n2 = 0 then none
      else some { nByte := n2 % 256, nullKey := 0, repeat_ := repeatKey zKey n2 256 }
    else some { key0 with nByte := 0, nullKey := 1 }
  | none => some { key0 with nByte := 0, nullKey := 1 }

/-- `loadKeyXor(pCodec, pKey, nKey)`, on `pCodec->key[0]`.  `none` when
`i%nKey` divides by zero. -/
def loadKeyXor (key0 : KeyXor) (pKey : Option (List Nat)) (nKey : Int) : Option KeyXor :=
  match pKey with
  | some zKey =>
    if nKey ≠ 0 then
      let n1 : Nat := if nKey < 0 then strlen zKey % 16777216 else nKey.toNat
      let n2 : Nat := if 32 < n1 then 32 else n1
      if n2 = 0 then none
      else some { nByte := n2 % 256, nullKey := 0, repeat_ := repeatKey zKey n2 32 }
    else some { key0 with nByte := 0, nullKey := 1 }
  | none => some { key0 with nByte := 0, nullKey := 1 }

/-- `loadKeyAes128Ccm(pCodec, pKey, nKey)`, on `pCodec->key[0]`. -/
def loadKeyAes128Ccm (A : Rijndael) (key0 : KeyAes128Ccm) (pKey : Option (List Nat))
    (nKey : Int) : Option KeyAes128Ccm :=
  match pKey with
  | some zKey =>
    if nKey ≠ 0 then
      let rep : List Nat :=
        if nKey < 0 then pwHash zKey 16
        else repeatKey zKey (if 16 < nKey.toNat then 16 else nKey.toNat) 16
      let n2 : Nat := if nKey < 0 then 16 else if 16 < nKey.toNat then 16 else nKey.toNat
      some { nByte := n2 % 256, nullKey := 0,
             keySchedule := A.rijndaelKeySetupEnc128Ccm rep, repeat_ := rep }
    else some { key0 with nByte := 0, nullKey := 1 }
  | none => some { key0 with nByte := 0, nullKey := 1 }

/-- `loadKeyCCCrypt(pCodec, pKey, nKey)`, on `pCodec->key[0]`. -/
def loadKeyCCCrypt (key0 : KeyCCCrypto) (pKey : Option (List Nat)) (nKey : Int) :
    Option KeyCCCrypto :=
  match pKey with
  | some zKey =>
    if nKey ≠ 0 then
      let rep : List Nat :=
        if nKey < 0 then pwHash zKey 16
        else repeatKey zKey (if 16 < nKey.toNat then 16 else nKey.toNat) 16
      let n2 : Nat := if nKey < 0 then 16 else if 16 < nKey.toNat then 16 else nKey.toNat
      some { nByte := n2 % 256, nullKey := 0, repeat_ := rep }
    else some { key0 with nByte := 0, nullKey := 1 }
  | none => some { key0 with nByte := 0, nullKey := 1 }

/-! ## Keying and re-keying a database (`sqlite3CodecAttach`, `sqlite3_rekey_v2`)

The four files carry the same text for these routines, apart from the codec
type and the `loadKey` routine they name.  They are embedded once, over a
`Backend`.  The routines read and write, of the codec, only the two key slots
and `pageSize`; the key slots are written by nobody else (the page transform
and the size-change callback leave them alone), so the codec of a pager is
held here as its pair of key slots, and `pageSize`, which the pager maintains
through the size-change callback, is read from the SQLite side. -/

/-- The array `pCodec->key[2]`: slot 0 is the new key, slot 1 the old one. -/
structure KeySlots (K : Type) where
  key0 : K
  key1 : K

/-- What tells the four backends apart in `sqlite3CodecAttach` and
`sqlite3_rekey_v2`. -/
structure Backend (K : Type) where
  /-- The key slot after `memset(pCodec, 0, sizeof(...))`. -/
  zeroKey : K
  /-- The backend's `loadKey` routine, on slot 0. -/
  loadKey : K → Option (List Nat) → Int → Option K
  /-- The reserved bytes asked from `sqlite3BtreeSetPageSize` at attach time;
  `none` for the XOR backend, which does not make the call. -/
  nReserve : Option Nat

/-- The RC4 backend. -/
def rc4Backend : Backend KeyRc4 :=
  { zeroKey := ⟨0, 0, List.replicate 256 0⟩, loadKey := loadKeyRc4, nReserve := some 4 }

/-- The XOR backend. -/
def xorBackend : Backend KeyXor :=
  { zeroKey := ⟨0, 0, List.replicate 32 0⟩, loadKey := loadKeyXor, nReserve := none }

/-- The calls the keying routines make into SQLite, and the two accesses to
the connection's interrupt flag `db->u1.isInterrupted`.  A pager is named by
the index of its database in `db->aDb`; a page reference by its page number. -/
inductive Call where
  | sqlite3_mutex_enter
  | sqlite3BtreeEnterAll
  | sqlite3BtreeLeaveAll
  | sqlite3_mutex_leave
  | sqlite3_malloc
  | sqlite3BtreeSetPageSize (iDb nReserve : Nat)
  | sqlite3PagerSetCodec (iDb : Nat)
  | sqlite3PagerState (iDb : Nat)
  | sqlite3PagerSharedLock (iDb : Nat)
  | sqlite3PagerGet (iDb pgno : Nat)
  | sqlite3PagerBegin (iDb : Nat)
  | sqlite3PagerPagecount (iDb : Nat)
  | codecPageSize (iDb : Nat)
  | readIsInterrupted
  | clearIsInterrupted
  | sqlite3PagerWrite (iDb pgno : Nat)
  | sqlite3PagerUnref (iDb pgno : Nat)
  | sqlite3PagerCommitPhaseOne (iDb : Nat)
  | sqlite3PagerCommitPhaseTwo (iDb : Nat)
  | sqlite3PagerRollback (iDb : Nat)
  | sqlite3PagerUnrefPageOne (iDb : Nat)
  deriving DecidableEq, Repr

/-- One step of a run of `sqlite3_rekey_v2`: a call with the value it
returned, or one of its three assignments to the key slots of `pCodec`
(`loadKey` into slot 0, `key[1] = key[0]`, `key[0] = key[1]`). -/
inductive Event where
  | call (c : Call) (result : Nat)
  | loadKey
  | promote
  | restore
  deriving DecidableEq, Repr

/-- The SQLite side, with a state of type `σ` of its own: the constants of
`sqlite3.h` and of the pager the routines name, the string comparison, and the
value each call returns (a result code, a pager state, a page count, a page
size, a flag, or, for `sqlite3_malloc`, non-zero for a non-`NULL` pointer). -/
structure Sqlite (σ : Type) where
  SQLITE_OK : Nat
  SQLITE_ERROR : Nat
  SQLITE_NOMEM : Nat
  SQLITE_READONLY : Nat
  SQLITE_INTERRUPT : Nat
  SQLITE_MISUSE : Nat
  PAGER_OPEN : Nat
  PAGER_READER : Nat
  PENDING_BYTE : Nat
  sqlite3StrICmp : String → String → Int
  call : σ → Call → σ × Nat

/-- An entry of `db->aDb`, as far as the keying routines look at it. -/
structure Db (K : Type) where
  zDbSName : String
  /-- `pBt` (and the pager behind it) is not `NULL`. -/
  pBt : Bool
  /-- `pPager->readOnly`. -/
  readOnly : Bool
  /-- `sqlite3PagerGetCodec(pPager)`: the key slots of the codec attached. -/
  pCodec : Option (KeySlots K)

/-- The connection `sqlite3 *db` together with the state of the SQLite side
and the events of the run so far. -/
structure Conn (K σ : Type) where
  aDb : List (Db K)
  errCode : Nat
  world : σ
  trace : List Event

/-- Make a call: the SQLite side moves on and the call is appended to the
trace with its result. -/
def Conn.ext {K σ : Type} (S : Sqlite σ) (db : Conn K σ) (c : Call) : Conn K σ × Nat :=
  ({ db with world := (S.call db.world c).1, trace := db.trace ++ [Event.call c (S.call db.world c).2] },
    (S.call db.world c).2)

/-- Record one of the slot assignments in the trace. -/
def Conn.note {K σ : Type} (db : Conn K σ) (e : Event) : Conn K σ :=
  { db with trace := db.trace ++ [e] }

/-- Replace the codec of the pager of database `iDb`. -/
def Conn.setCodec {K σ : Type} (db : Conn K σ) (iDb : Nat) (k : Option (KeySlots K)) :
    Conn K σ :=
  { db with aDb := db.aDb.modify (fun d => { d with pCodec := k }) iDb }

/-- The loop of `sqlite3NameToDb`, from index `i` on. -/
def sqlite3NameToDbLoop {K σ : Type} (S : Sqlite σ) (zDbName : String) :
    List (Db K) → Nat → Int
  | [], _ => -1
  | d :: ds, i =>
    if d.pBt = true ∧ S.sqlite3StrICmp zDbName d.zDbSName = 0 then (i : Int)
    else sqlite3NameToDbLoop S zDbName ds (i + 1)

/-- `sqlite3NameToDb(db, zDbName)`. -/
def sqlite3NameToDb {K σ : Type} (S : Sqlite σ) (db : Conn K σ) (zDbName : Option String) :
    Int :=
  match zDbName with
  | none => 0
  | some z => sqlite3NameToDbLoop S z db.aDb 0

/-- `sqlite3CodecAttach(db, iDb, pKey, nKey)`: the result code and the
connection afterwards.  `none` when `iDb` is out of range (the `assert`) or
`loadKey` divides by zero. -/
def sqlite3CodecAttach {K σ : Type} (B : Backend K) (S : Sqlite σ) (db : Conn K σ)
    (iDb : Nat) (pKey : Option (List Nat)) (nKey : Int) : Option (Nat × Conn K σ) :=
  match db.aDb[iDb]? with
  | none => none
  | some pDb =>
    if pDb.pBt = true then
      let m := db.ext S Call.sqlite3_malloc
      if m.2 = 0 then some (S.SQLITE_NOMEM, m.1)
      else
        let db1 :=
          match B.nReserve with
          | some n => (m.1.ext S (Call.sqlite3BtreeSetPageSize iDb n)).1
          | none => m.1
        match B.loadKey B.zeroKey pKey nKey with
        | none => none
        | some k =>
          let db2 := (db1.ext S (Call.sqlite3PagerSetCodec iDb)).1
          some (S.SQLITE_OK, db2.setCodec iDb (some ⟨k, k⟩))
    else some (S.SQLITE_OK, db)

/-- The label `end_rekey:` of `sqlite3_rekey_v2`: release page 1 if it was
obtained, leave the b-trees and the mutex, record a non-zero `rc`. -/
def rekeyEnd {K σ : Type} (S : Sqlite σ) (db : Conn K σ) (iDb : Nat) (pDBPage0 : Bool)
    (rc : Nat) : Nat × Conn K σ :=
  let db1 := if pDBPage0 = true then (db.ext S (Call.sqlite3PagerUnrefPageOne iDb)).1 else db
  let db2 := (db1.ext S Call.sqlite3BtreeLeaveAll).1
  let db3 := (db2.ext S Call.sqlite3_mutex_leave).1
  (rc, if rc ≠ 0 then { db3 with errCode := rc } else db3)

/-- The loop `for(i=1; i<=nPage && rc==SQLITE_OK; i++)` of `sqlite3_rekey_v2`,
entered with `rc==SQLITE_OK`, from page `i` on with `n` pages left: the
connection and `rc` when the loop is left. -/
def rekeyScan {K σ : Type} (S : Sqlite σ) (iDb skipThisPage : Nat) :
    Nat → Nat → Conn K σ → Conn K σ × Nat
  | 0, _, db => (db, S.SQLITE_OK)
  | n + 1, i, db =>
    if i = skipThisPage then rekeyScan S iDb skipThisPage n (i + 1) db
    else
      let g := db.ext S (Call.sqlite3PagerGet iDb i)
      if g.2 ≠ S.SQLITE_OK then (g.1, g.2)
      else
        let f := g.1.ext S Call.readIsInterrupted
        if f.2 ≠ 0 then ((f.1.ext S Call.clearIsInterrupted).1, S.SQLITE_INTERRUPT)
        else
          let w := f.1.ext S (Call.sqlite3PagerWrite iDb i)
          let u := w.1.ext S (Call.sqlite3PagerUnref iDb i)
          if w.2 = S.SQLITE_OK then rekeyScan S iDb skipThisPage n (i + 1) u.1
          else (u.1, w.2)

/-- `sqlite3_rekey_v2` from `loadKey(pCodec, pKey, nKey)` to the label
`end_rekey`: load the candidate key, scan the pages, then either copy slot 0
to slot 1 and commit, or copy slot 1 back to slot 0 and roll back.  `keys`
are the slots of `pCodec`, `rc` and `nPage` the values reached so far.
`none` when `loadKey` or `PENDING_BYTE/pCodec->pageSize` divides by zero. -/
def rekeyBody {K σ : Type} (B : Backend K) (S : Sqlite σ) (db : Conn K σ) (iDb : Nat)
    (keys : KeySlots K) (eState rc nPage : Nat) (pKey : Option (List Nat)) (nKey : Int) :
    Option (Nat × Conn K σ) :=
  match B.loadKey keys.key0 pKey nKey with
  | none => none
  | some k0 =>
    let db1 := (db.note Event.loadKey).setCodec iDb (some ⟨k0, keys.key1⟩)
    let ps := if nPage ≠ 0 then db1.ext S (Call.codecPageSize iDb) else (db1, 1)
    if ps.2 = 0 then none
    else
      let skipThisPage := if nPage ≠ 0 then S.PENDING_BYTE / ps.2 + 1 else 0
      let sc :=
        if rc = S.SQLITE_OK then rekeyScan S iDb skipThisPage nPage 1 ps.1 else (ps.1, rc)
      if sc.2 = S.SQLITE_OK then
        let db2 := (sc.1.note Event.promote).setCodec iDb (some ⟨k0, k0⟩)
        if eState ≤ S.PAGER_READER then
          let c1 := db2.ext S (Call.sqlite3PagerCommitPhaseOne iDb)
          if c1.2 = S.SQLITE_OK then
            let c2 := c1.1.ext S (Call.sqlite3PagerCommitPhaseTwo iDb)
            some (rekeyEnd S c2.1 iDb true c2.2)
          else some (rekeyEnd S c1.1 iDb true c1.2)
        else some (rekeyEnd S db2 iDb true sc.2)
      else
        let db2 := (sc.1.note Event.restore).setCodec iDb (some ⟨keys.key1, keys.key1⟩)
        let rb := db2.ext S (Call.sqlite3PagerRollback iDb)
        some (rekeyEnd S rb.1 iDb (decide (rc = S.SQLITE_OK)) sc.2)

/-- `sqlite3_rekey_v2` from `eState = sqlite3PagerState(pPager)` on, once the
codec `keys` of the pager has been found. -/
def rekeyLocked {K σ : Type} (B : Backend K) (S : Sqlite σ) (db : Conn K σ) (iDb : Nat)
    (keys : KeySlots K) (pKey : Option (List Nat)) (nKey : Int) : Option (Nat × Conn K σ) :=
  let st := db.ext S (Call.sqlite3PagerState iDb)
  let eState := st.2
  let lk :=
    if eState = S.PAGER_OPEN then st.1.ext S (Call.sqlite3PagerSharedLock iDb) else (st.1, 0)
  if lk.2 ≠ 0 then some (rekeyEnd S lk.1 iDb false lk.2)
  else
    let g := lk.1.ext S (Call.sqlite3PagerGet iDb 1)
    if g.2 = S.SQLITE_OK ∧ eState ≤ S.PAGER_READER then
      let b := g.1.ext S (Call.sqlite3PagerBegin iDb)
      if b.2 ≠ S.SQLITE_OK then some (rekeyEnd S b.1 iDb true b.2)
      else
        let pc := b.1.ext S (Call.sqlite3PagerPagecount iDb)
        rekeyBody B S pc.1 iDb keys eState b.2 pc.2 pKey nKey
    else if g.2 = S.SQLITE_OK then
      let pc := g.1.ext S (Call.sqlite3PagerPagecount iDb)
      rekeyBody B S pc.1 iDb keys eState g.2 pc.2 pKey nKey
    else rekeyBody B S g.1 iDb keys eState g.2 0 pKey nKey

/-- `sqlite3_rekey_v2(db, zDbName, pKey, nKey)`: the value returned and the
connection afterwards; the trace of the connection starts empty.
`encryptionEnabled` is the flag of that name.  A page reference is not `NULL`
exactly when `sqlite3PagerGet` returned `SQLITE_OK`.  `none` when the routine
dereferences a `NULL` b-tree or divides by zero. -/
def sqlite3_rekey_v2 {K σ : Type} (B : Backend K) (S : Sqlite σ) (encryptionEnabled : Bool)
    (db : Conn K σ) (zDbName : Option String) (pKey : Option (List Nat)) (nKey : Int) :
    Option (Nat × Conn K σ) :=
  let db := { db with trace := [] }
  if encryptionEnabled = false then
    some (S.SQLITE_MISUSE, { db with errCode := S.SQLITE_MISUSE })
  else
    let db1 := ((db.ext S Call.sqlite3_mutex_enter).1.ext S Call.sqlite3BtreeEnterAll).1
    let iDb := sqlite3NameToDb S db1 zDbName
    if iDb < 0 then some (rekeyEnd S db1 0 false S.SQLITE_ERROR)
    else
      match db1.aDb[iDb.toNat]? with
      | none => none
      | some pDb =>
        if pDb.pBt = false then none
        else if pDb.readOnly = true then
          some (rekeyEnd S db1 iDb.toNat false S.SQLITE_READONLY)
        else
          match pDb.pCodec with
          | some keys => rekeyLocked B S db1 iDb.toNat keys pKey nKey
          | none =>
            match sqlite3CodecAttach B S db1 0 (some [0]) 0 with
            | none => none
            | some a =>
              match (a.2.aDb[iDb.toNat]?).bind (fun d => d.pCodec) with
              | none => some (rekeyEnd S a.2 iDb.toNat false S.SQLITE_NOMEM)
              | some keys => rekeyLocked B S a.2 iDb.toNat keys pKey nKey

/-- `sqlite3_rekey(db, pKey, nKey)`. -/
def sqlite3_rekey {K σ : Type} (B : Backend K) (S : Sqlite σ) (encryptionEnabled : Bool)
    (db : Conn K σ) (pKey : Option (List Nat)) (nKey : Int) : Option (Nat × Conn K σ) :=
  sqlite3_rekey_v2 B S encryptionEnabled db none pKey nKey

/-- `loadKey(pCodec, pKey, nKey)` on the two slots of `pCodec`: the routine
assigns to the fields of `key[0]` only. -/
def Backend.loadSlots {K : Type} (B : Backend K) (keys : KeySlots K)
    (pKey : Option (List Nat)) (nKey : Int) : Option (KeySlots K) :=
  (B.loadKey keys.key0 pKey nKey).map (fun k => { keys with key0 := k })

/-- `sqlite3CodecGetKey(db, iDb, &pKey, &nKey)`: what is stored through
`ppKey` (`none` for the `NULL` pointer, else the bytes of `key[0].repeat`) and
through `pnKey`.  `nByte` and `repeat_` read the two fields of the backend's
key slot.  `none` when `iDb` is out of range (the `assert`) or the database has
no b-tree to take the pager of. -/
def sqlite3CodecGetKey {K σ : Type} (nByte : K → Nat) (repeat_ : K → List Nat)
    (db : Conn K σ) (iDb : Nat) : Option (Option (List Nat) × Nat) :=
  match db.aDb[iDb]? with
  | none => none
  | some pDb =>
    if pDb.pBt = false then none
    else
      match pDb.pCodec with
      | none => some (none, 0)
      | some pCodec => some (some (repeat_ pCodec.key0), nByte pCodec.key0)

/-- `sqlite3CodecGetKey` of `see-rc4.c`. -/
def sqlite3CodecGetKey_rc4 {σ : Type} (db : Conn KeyRc4 σ) (iDb : Nat) :
    Option (Option (List Nat) × Nat) :=
  sqlite3CodecGetKey KeyRc4.nByte KeyRc4.repeat_ db iDb

/-- `sqlite3CodecGetKey` of `see-xor.c`. -/
def sqlite3CodecGetKey_xor {σ : Type} (db : Conn KeyXor σ) (iDb : Nat) :
    Option (Option (List Nat) × Nat) :=
  sqlite3CodecGetKey KeyXor.nByte KeyXor.repeat_ db iDb

/-- `sqlite3CodecGetKey` of `see-aes128-ccm.c`. -/
def sqlite3CodecGetKey_aes128ccm {σ : Type} (db : Conn KeyAes128Ccm σ) (iDb : Nat) :
    Option (Option (List Nat) × Nat) :=
  sqlite3CodecGetKey KeyAes128Ccm.nByte KeyAes128Ccm.repeat_ db iDb

/-- `sqlite3CodecGetKey` of `see-cccrypt.c`. -/
def sqlite3CodecGetKey_cccryptor {σ : Type} (db : Conn KeyCCCrypto σ) (iDb : Nat) :
    Option (Option (List Nat) × Nat) :=
  sqlite3CodecGetKey KeyCCCrypto.nByte KeyCCCrypto.repeat_ db iDb

/-- `sqlite3_key_v2` from `sqlite3_mutex_enter(db->mutex)` to the end of its
`if( iDb<0 ){ ... }else{ ... }`: the database named is looked up and, if it is
found, given a codec.  The value of `rc` and the connection at that point. -/
def keyNamed {K σ : Type} (B : Backend K) (S : Sqlite σ) (db : Conn K σ)
    (zDbName : Option String) (pKey : Option (List Nat)) (nKey : Int) :
    Option (Nat × Conn K σ) :=
  let db1 := ((db.ext S Call.sqlite3_mutex_enter).1.ext S Call.sqlite3BtreeEnterAll).1
  let iDb := sqlite3NameToDb S db1 zDbName
  if iDb < 0 then some (S.SQLITE_ERROR, db1)
  else sqlite3CodecAttach B S db1 iDb.toNat pKey nKey

/-- The end of `sqlite3_key_v2`: leave the b-trees and the mutex, return `rc`. -/
def keyLeave {K σ : Type} (S : Sqlite σ) (r : Nat × Conn K σ) : Nat × Conn K σ :=
  (r.1, ((r.2.ext S Call.sqlite3BtreeLeaveAll).1.ext S Call.sqlite3_mutex_leave).1)

/-- `sqlite3_key_v2(db, zDbName, pKey, nKey)` of `see-rc4.c`,
`see-aes128-ccm.c` and `see-cccrypt.c`, which carry the same text (compiled
without `SQLITE_KEYSIZE_LIMIT`): the value returned and the connection
afterwards; the trace of the connection starts empty.  `none` as for
`sqlite3CodecAttach`. -/
def sqlite3_key_v2 {K σ : Type} (B : Backend K) (S : Sqlite σ) (encryptionEnabled : Bool)
    (db : Conn K σ) (zDbName : Option String) (pKey : Option (List Nat)) (nKey : Int) :
    Option (Nat × Conn K σ) :=
  let db := { db with trace := [] }
  if encryptionEnabled = false then some (S.SQLITE_MISUSE, db)
  else (keyNamed B S db zDbName pKey nKey).map (keyLeave S)

/-- `sqlite3_key_v2(db, zDbName, pKey, nKey)` of `see-xor.c`: the text of the
other three files with one more statement,
`rc = sqlite3CodecAttach(db, 0, pKey, nKey);`, behind the `if`/`else`. -/
def sqlite3_key_v2_xor {σ : Type} (S : Sqlite σ) (encryptionEnabled : Bool)
    (db : Conn KeyXor σ) (zDbName : Option String) (pKey : Option (List Nat)) (nKey : Int) :
    Option (Nat × Conn KeyXor σ) :=
  let db := { db with trace := [] }
  if encryptionEnabled = false then some (S.SQLITE_MISUSE, db)
  else
    ((keyNamed xorBackend S db zDbName pKey nKey).bind fun a =>
      sqlite3CodecAttach xorBackend S a.2 0 pKey nKey).map (keyLeave S)

/-! ## The key display tool (`keyhash-cli.c`) -/

/-- The table `szKey[]`, indexed by `SEE_RC4` (0), `SEE_AES128OFB` (1),
`SEE_AES256OFB` (2) and `SEE_AES128CCM` (3). -/
def szKey : List Nat := [256, 16, 32, 16]

/-- The array `key` of `showKey(zKey)` when it comes to print it, `sz` bytes.
`zKey` is the buffer holding the NUL-terminated line.  The length is cut to
256 first; then a line that starts with "rc4:", "aes128:" or "aes256:" and has
more characters than that selects the algorithm and loses these characters;
the RC4 key is the text repeated, the others are hashed. -/
def showKeyBytes (zKey : List Nat) : List Nat :=
  let nKey0 := strlen zKey
  let nKey1 := if 256 < nKey0 then 256 else nKey0
  -- (alg, useHash, number of characters skipped)
  let sel : Nat × Bool × Nat :=
    if 4 < nKey1 ∧ zKey.take 4 = [114, 99, 52, 58] then (0, false, 4)
    else if 7 < nKey1 ∧ zKey.take 7 = [97, 101, 115, 49, 50, 56, 58] then (1, true, 7)
    else if 7 < nKey1 ∧ zKey.take 7 = [97, 101, 115, 50, 53, 54, 58] then (2, true, 7)
    else (1, true, 0)
  let z := zKey.drop sel.2.2
  let nKey2 := nKey1 - sel.2.2
  let sz := szKey.getD sel.1 0
  if sel.2.1 = true then pwHash z sz
  else
    let nKey3 := if sz < nKey2 then sz else nKey2
    (List.range sz).map (fun i => z.getD (i % nKey3) 0)

/-- The character `printf` writes for the hexadecimal digit `d`. -/
def hexDigit (d : Nat) : Nat :=
  if d < 10 then 48 + d else 87 + d

/-- The two characters `printf("%02x", b)` writes for an `unsigned char`. -/
def hexByte (b : Nat) : List Nat :=
  [hexDigit (b / 16), hexDigit (b % 16)]

/-- The characters a list of bytes is printed as by the loop
`for(i=0; i<sz; i++) printf("%02x", key[i]);`. -/
def hexBytes : List Nat → List Nat
  | [] => []
  | b :: bs => hexByte b ++ hexBytes bs

/-- `showKey(zKey)`: the characters written to the standard output, the key in
hexadecimal and a newline. -/
def showKey (zKey : List Nat) : List Nat :=
  hexBytes (showKeyBytes zKey) ++ [10]

/-! ## The password argument of the decryptor tool (`uncryptoapi-cli.c`) -/

/-- The `switch( c )` of `unescape`: the character stored for the character `c`
that follows a backslash. -/
def unescapeChar (c : Nat) : Nat :=
  if c = 48 then 0
  else if c = 97 then 7
  else if c = 98 then 8
  else if c = 116 then 9
  else if c = 110 then 10
  else if c = 114 then 13
  else if c = 118 then 11
  else if c = 102 then 12
  else if c = 115 then 32
  else if c = 100 then 34
  else if c = 113 then 39
  else c

/-- The loop `for(i=0, j=0; i<len; ){ ... zOutStr[j++] = c; }` of `unescape`,
with `f` iterations left, the input index at `i` and the characters stored so
far in `out` (so `j` is `out.length`). -/
def unescapeLoop (zIn : List Nat) (len : Nat) : Nat → Nat → List Nat → List Nat
  | 0, _, out => out
  | f + 1, i, out =>
    if i < len then
      let c := zIn.getD i 0
      if c = 92 then
        let k := i + 1
        let c1 := if k < len then unescapeChar (zIn.getD k 0) else c
        unescapeLoop zIn len f (i + 2) (out ++ [c1])
      else unescapeLoop zIn len f (i + 1) (out ++ [c])
    else out

/-- `unescape(zIn, pOutLen)`: the `len+1` bytes of the string returned and the
length stored through `pOutLen`; `none` when it returns 0, for a `NULL` input
or when `calloc` fails (`calloc n` tells whether a block of `n` bytes is
obtained).  The loop advances `i` by at least one each time, so `len`
iterations exhaust it. -/
def unescape (calloc : Nat → Bool) (zIn : Option (List Nat)) : Option (List Nat × Nat) :=
  match zIn with
  | none => none
  | some z =>
    let len := strlen z
    if calloc (len + 1) = false then none
    else
      let out := unescapeLoop z len len 0 []
      some (writeAt (List.replicate (len + 1) 0) 0 out, out.length)

/-! ## Memory behind the XOR key -/

/-- The bytes that follow `key[0].repeat` in `struct CodecXor`.  The members
of `struct Key` are bytes (`u8 nByte; u8 nullKey; unsigned char repeat[32]`),
so `key[1].nByte`, `key[1].nullKey` and `key[1].repeat` come next; `after` is
the content of the memory behind `key[1]`. -/
def CodecXor.beyondKey0 (c : CodecXor) (after : List Nat) : List Nat :=
  [c.key1.nByte, c.key1.nullKey] ++ c.key1.repeat_ ++ after

/-! ## Predicates used in the statements -/

/-- The scratch space of an RC4 codec is usable: either it is allocated, with
room for the current page size, or it is not allocated yet and
`sqlite3_malloc` will succeed. -/
def rc4ScratchReady (h : Host) (c : CodecRc4) : Prop :=
  match c.mask with
  | some m => c.pageSize + 4 ≤ m.length ∧ c.pageSize + 4 ≤ c.outbuf.length
  | none => c.mallocFailed = 0 ∧ (h.sqlite3_malloc (c.pageSize * 2 + 8)).isSome = true

/-- The scratch space of an AES-CCM codec is usable: either it is allocated,
with room for the current page size, or it is not allocated yet and
`sqlite3_malloc` will succeed. -/
def aesScratchReady (h : Host) (c : CodecAes128Ccm) : Prop :=
  match c.mask with
  | some m => c.pageSize + 4 ≤ m.length ∧ c.pageSize + 4 ≤ c.outbuf.length
  | none => c.mallocFailed = 0 ∧ (h.sqlite3_malloc (c.pageSize * 2 + 8)).isSome = true

/-- The page layout under which the AES-CCM codec encrypts: the payload is a
positive multiple of the block size and at least `EXTRA_PER_PAGE` (32) bytes
are reserved behind it. -/
def aesLayout (c : CodecAes128Ccm) : Prop :=
  c.usable % 16 = 0 ∧ 0 < c.usable ∧ c.usable + 32 ≤ c.pageSize

/-- The page `page` with bit `b` of the byte at offset `p` flipped. -/
def flipBit (page : List Nat) (p b : Nat) : List Nat :=
  page.set p (page.getD p 0 ^^^ 2 ^ b)

/-- The block primitive is injective on 16-byte blocks, under every key
schedule. -/
def Rijndael.Injective (A : Rijndael) : Prop :=
  ∀ rk x y, x.length = 16 → y.length = 16 →
    A.rijndaelEncrypt128Ccm rk x = A.rijndaelEncrypt128Ccm rk y → x = y

/-- The state in which the AES-CCM codec does not encrypt: the mask is not
allocated, and fewer than 32 bytes are reserved or the payload is not a
multiple of 16 (the two tests made before the first allocation). -/
def aesGate (c : CodecAes128Ccm) : Prop :=
  c.mask = none ∧ ((c.pageSize : Int) - (c.usable : Int) < 32 ∨ c.usable &&& 15 ≠ 0)

/-- The scratch space of a CommonCrypto codec is usable: either it is
allocated, with room for the current page size, or it is not allocated yet and
`sqlite3_malloc` will succeed. -/
def cccryptScratchReady (h : Host) (c : CodecCCCrypto) : Prop :=
  match c.mask with
  | some m => c.pageSize ≤ m.length ∧ c.pageSize ≤ c.outbuf.length
  | none => c.mallocFailed = 0 ∧ (h.sqlite3_malloc (c.pageSize * 3)).isSome = true

/-- The scratch space of an XOR codec is usable: either `outbuf` is allocated,
with room for the current page size, or it is not allocated yet and
`sqlite3_malloc` will succeed. -/
def xorScratchReady (h : Host) (c : CodecXor) : Prop :=
  match c.outbuf with
  | some o => c.pageSize ≤ o.length
  | none => c.mallocFailed = 0 ∧ (h.sqlite3_malloc c.pageSize).isSome = true

/-- The little-endian encoding of a 32-bit page number. -/
def littleEndian32 (pgno : Nat) : List Nat :=
  [pgno % 256, pgno / 256 % 256, pgno / 65536 % 256, pgno / 16777216 % 256]

/-- Modelled from the spec: the key schedule of standard RC4 over the 256-byte
key `x`, `n` steps from index `i` on: `j = j + S[i] + x[i]`, swap `S[i]` and
`S[j]`. -/
def rc4SpecSchedule (x : List Nat) : Nat → Nat → Nat → List Nat → List Nat × Nat
  | 0, _, j, s => (s, j)
  | n + 1, i, j, s =>
    let j1 := (j + s.getD i 0 + x.getD i 0) % 256
    rc4SpecSchedule x n (i + 1) j1 ((s.set i (s.getD j1 0)).set j1 (s.getD i 0))

/-- Modelled from the spec: output generation of standard RC4, `n` bytes:
`i = i + 1`, `j = j + S[i]`, swap `S[i]` and `S[j]`, output
`S[S[i] + S[j]]`. -/
def rc4SpecOutput : Nat → Nat → Nat → List Nat → List Nat
  | 0, _, _, _ => []
  | n + 1, i, j, s =>
    let i1 := (i + 1) % 256
    let j1 := (j + s.getD i1 0) % 256
    let s1 := (s.set i1 (s.getD j1 0)).set j1 (s.getD i1 0)
    s1.getD ((s1.getD i1 0 + s1.getD j1 0) % 256) 0 :: rc4SpecOutput n i1 j1 s1

/-- Modelled from the spec: the first `n` bytes of the standard RC4 keystream
for the 256-byte key `x`: one key schedule of 256 steps over the identity
permutation, then output generation from `i = j = 0`. -/
def rc4SpecKeystream (x : List Nat) (n : Nat) : List Nat :=
  rc4SpecOutput n 0 0 (rc4SpecSchedule x 256 0 0 (List.range 256)).1

/-- Modelled from the spec: the 256-byte key of a page,
`x[i] = key[i] XOR nonce[i mod (nonceSize + 4)]`. -/
def rc4SpecKey (key nonce : List Nat) (nonceSize : Nat) : List Nat :=
  (List.range 256).map (fun i => key.getD i 0 ^^^ nonce.getD (i % (nonceSize + 4)) 0)

/-- Modelled from the spec: the state `(i, j, S)` of the output generation of
standard RC4 after `n` bytes. -/
def rc4SpecAdvance : Nat → Nat → Nat → List Nat → Nat × Nat × List Nat
  | 0, i, j, s => (i, j, s)
  | n + 1, i, j, s =>
    let i1 := (i + 1) % 256
    let j1 := (j + s.getD i1 0) % 256
    rc4SpecAdvance n i1 j1 ((s.set i1 (s.getD j1 0)).set j1 (s.getD i1 0))

/-- Modelled from the spec: the CBC chain over the payload,
`E(...E(E(nonce) XOR block_0)... XOR block_last)`, with `E` the block
encryption under the key schedule `rk` and `block_i` the successive 16 bytes
of `payload`. -/
def aesSpecMac (A : Rijndael) (rk payload nonce : List Nat) : List Nat :=
  (List.range (payload.length / 16)).foldl
    (fun acc i => A.rijndaelEncrypt128Ccm rk
      (List.zipWith (fun x y => x ^^^ y) acc ((payload.drop (16 * i)).take 16)))
    (A.rijndaelEncrypt128Ccm rk nonce)

/-- The blocks the counter-mode loop of `sqliteCodecAes128Ccm` hands to
`rijndaelEncrypt128Ccm`, `n` of them from `nonce` on: the content of `nonce[]`
at each call. -/
def aesCtrBlocks : Nat → List Nat → List (List Nat)
  | 0, _ => []
  | n + 1, nonce => nonce :: aesCtrBlocks n (nonceIncr nonce)

/-- Modelled from the spec: the documented escape letters `0 a b t n r v f s d q`
with the characters they stand for (NUL, BEL, BS, TAB, LF, CR, VT, FF, space,
double quote, single quote). -/
def unescapeSpecTable : List (Nat × Nat) :=
  [(48, 0), (97, 7), (98, 8), (116, 9), (110, 10), (114, 13), (118, 11), (102, 12),
   (115, 32), (100, 34), (113, 39)]

/-- Modelled from the spec: the left-to-right scan.  A backslash followed by a
character `c` gives the documented value of `c`, or `c` itself when there is
none; every other character is copied.  The result is the text produced and
the number of two-character escapes consumed. -/
def unescapeSpec : List Nat → List Nat × Nat
  | [] => ([], 0)
  | [c] => ([c], 0)
  | c :: d :: rest =>
    if c = 92 then
      (((unescapeSpecTable.lookup d).getD d) :: (unescapeSpec rest).1, (unescapeSpec rest).2 + 1)
    else (c :: (unescapeSpec (d :: rest)).1, (unescapeSpec (d :: rest)).2)

/-- The states of an AES-CCM codec between its attachment and its release: the
codec as attached, and what the size-change callback (told a page size that is
a power of two in `[512, 65536]` and at most 255 reserved bytes), a returning
call of the page transform, and the assignments to the key slots
(`loadKeyAes128Ccm`, `sqlite3_rekey_v2`) make of such a state. -/
inductive AesReachable (A : Rijndael) : CodecAes128Ccm → Prop
  | attached (k : KeyAes128Ccm) : AesReachable A (aesAttached k)
  | sizeChng (c : CodecAes128Ccm) (pageSize nReserve e : Nat) :
      AesReachable A c → pageSize = 2 ^ e → 512 ≤ pageSize → pageSize ≤ 65536 →
      nReserve ≤ 255 → AesReachable A (sqliteCodecAes128CcmSizeChng c pageSize nReserve)
  | transform (c : CodecAes128Ccm) (h : Host) (B : List Nat) (pgno op : Nat)
      (r : CodecResult CodecAes128Ccm) :
      AesReachable A c → sqliteCodecAes128Ccm A h c B pgno op = some r →
      AesReachable A r.codec
  | keys (c : CodecAes128Ccm) (k0 k1 : KeyAes128Ccm) :
      AesReachable A c → AesReachable A { c with key0 := k0, key1 := k1 }

/-- The allocation invariant of the AES-CCM codec: when the mask is allocated,
the payload is a multiple of 16, at least 32 bytes are reserved behind it, and
the two halves of the allocation have the `pageSize + 4` bytes of the current
page size. -/
def aesAllocInv (c : CodecAes128Ccm) : Prop :=
  ∀ m, c.mask = some m →
    c.usable % 16 = 0 ∧ c.usable + 32 ≤ c.pageSize ∧ m.length = c.pageSize + 4 ∧
    c.outbuf.length = c.pageSize + 4

/-- The page layout of an AES-CCM codec is the one of the attachment (no size
told yet) or one the size-change callback was told. -/
def aesGeometry (c : CodecAes128Ccm) : Prop :=
  (c.pageSize = 0 ∧ c.usable = 0) ∨
  ∃ e r, c.pageSize = 2 ^ e ∧ 512 ≤ c.pageSize ∧ c.pageSize ≤ 65536 ∧ r ≤ 255 ∧
    c.usable = c.pageSize - r

/-! ## Events of a run of `sqlite3_rekey_v2` -/

/-- The event is a call whose result the routine tests and found failing: a
page fetch, a mark-dirty, `sqlite3PagerBegin` or a commit phase that did not
return `SQLITE_OK`, a shared lock that returned non-zero (`if( rc )`), or a
read of the interrupt flag that found it set. -/
def Event.failed {σ : Type} (S : Sqlite σ) : Event → Bool
  | Event.call (Call.sqlite3PagerGet _ _) r => decide (r ≠ S.SQLITE_OK)
  | Event.call (Call.sqlite3PagerWrite _ _) r => decide (r ≠ S.SQLITE_OK)
  | Event.call (Call.sqlite3PagerBegin _) r => decide (r ≠ S.SQLITE_OK)
  | Event.call (Call.sqlite3PagerCommitPhaseOne _) r => decide (r ≠ S.SQLITE_OK)
  | Event.call (Call.sqlite3PagerCommitPhaseTwo _) r => decide (r ≠ S.SQLITE_OK)
  | Event.call (Call.sqlite3PagerSharedLock _) r => decide (r ≠ 0)
  | Event.call Call.readIsInterrupted r => decide (r ≠ 0)
  | _ => false

/-- The status a failing event leaves in `rc`: `SQLITE_INTERRUPT` for the
interrupt flag, the value returned for a call. -/
def Event.status {σ : Type} (S : Sqlite σ) : Event → Nat
  | Event.call Call.readIsInterrupted _ => S.SQLITE_INTERRUPT
  | Event.call _ r => r
  | _ => S.SQLITE_OK

/-- The event is a page fetch, a mark-dirty or a read of the interrupt flag:
the three steps of the page scan that can stop it (the fetch of page 1 ahead
of the scan among them). -/
def Event.inScan : Event → Bool
  | Event.call (Call.sqlite3PagerGet _ _) _ => true
  | Event.call (Call.sqlite3PagerWrite _ _) _ => true
  | Event.call Call.readIsInterrupted _ => true
  | _ => false

/-- The event is one of the two commit phases. -/
def Event.isCommit : Event → Bool
  | Event.call (Call.sqlite3PagerCommitPhaseOne _) _ => true
  | Event.call (Call.sqlite3PagerCommitPhaseTwo _) _ => true
  | _ => false

/-- The event is a call of `sqlite3PagerRollback`. -/
def Event.isRollback : Event → Bool
  | Event.call (Call.sqlite3PagerRollback _) _ => true
  | _ => false

/-- The event is one the loop over the pages makes: fetch, read or clear of
the interrupt flag, mark-dirty, release. -/
def Event.scanStep : Event → Bool
  | Event.call (Call.sqlite3PagerGet _ _) _ => true
  | Event.call (Call.sqlite3PagerWrite _ _) _ => true
  | Event.call (Call.sqlite3PagerUnref _ _) _ => true
  | Event.call Call.readIsInterrupted _ => true
  | Event.call Call.clearIsInterrupted _ => true
  | _ => false

/-- The codec, as its pair of key slots, of database `iDb` of the connection. -/
def Conn.codec {K σ : Type} (db : Conn K σ) (iDb : Nat) : Option (KeySlots K) :=
  (db.aDb[iDb]?).bind (fun d => d.pCodec)

/-- The event is one of the calls made before the candidate key is loaded:
taking the mutex and the b-trees, attaching a codec, reading the pager state,
the shared lock, a page fetch, the begin of the transaction, the page count. -/
def Event.isSetup : Event → Bool
  | Event.call Call.sqlite3_mutex_enter _ => true
  | Event.call Call.sqlite3BtreeEnterAll _ => true
  | Event.call Call.sqlite3_malloc _ => true
  | Event.call (Call.sqlite3BtreeSetPageSize _ _) _ => true
  | Event.call (Call.sqlite3PagerSetCodec _) _ => true
  | Event.call (Call.sqlite3PagerState _) _ => true
  | Event.call (Call.sqlite3PagerSharedLock _) _ => true
  | Event.call (Call.sqlite3PagerGet _ _) _ => true
  | Event.call (Call.sqlite3PagerBegin _) _ => true
  | Event.call (Call.sqlite3PagerPagecount _) _ => true
  | _ => false

/-- The event is one of those around the scan, from the load of the candidate
key on: the read of the page size, the two assignments that end the scan, the
commit phases, the rollback, and the calls of the label `end_rekey`. -/
def Event.isClosing : Event → Bool
  | Event.call (Call.codecPageSize _) _ => true
  | Event.promote => true
  | Event.restore => true
  | Event.call (Call.sqlite3PagerCommitPhaseOne _) _ => true
  | Event.call (Call.sqlite3PagerCommitPhaseTwo _) _ => true
  | Event.call (Call.sqlite3PagerRollback _) _ => true
  | Event.call (Call.sqlite3PagerUnrefPageOne _) _ => true
  | Event.call Call.sqlite3BtreeLeaveAll _ => true
  | Event.call Call.sqlite3_mutex_leave _ => true
  | _ => false

/-- The events `t` of a scan of the pages of database `iDb` from page `i0` on
that ends with `rc`, in their order: they are steps of the scan; a read of the
interrupt flag comes right after a fetch that succeeded, and a fetch that
succeeded is followed at once by a read of the flag; the pages fetched are at
least `i0` and increase; the pages marked dirty are at least `i0`; and if the
flag read after the fetch of page `i` was set, then only pages before `i` were
marked dirty, the flag was cleared and `rc` is `SQLITE_INTERRUPT`. -/
def ScanSegment {σ : Type} (S : Sqlite σ) (iDb i0 : Nat) (t : List Event) (rc : Nat) : Prop :=
  (∀ e ∈ t, e.scanStep = true) ∧
  (∀ k r : Nat, t[k]? = some (Event.call Call.readIsInterrupted r) →
    ∃ k0 p, k = k0 + 1 ∧ t[k0]? = some (Event.call (Call.sqlite3PagerGet iDb p) S.SQLITE_OK)) ∧
  (∀ k p x : Nat, t[k]? = some (Event.call (Call.sqlite3PagerGet iDb p) x) →
    i0 ≤ p ∧ (x = S.SQLITE_OK → ∃ r, t[k + 1]? = some (Event.call Call.readIsInterrupted r))) ∧
  (∀ k k' p p' x x' : Nat, k < k' → t[k]? = some (Event.call (Call.sqlite3PagerGet iDb p) x) →
    t[k']? = some (Event.call (Call.sqlite3PagerGet iDb p') x') → p < p') ∧
  (∀ j y : Nat, Event.call (Call.sqlite3PagerWrite iDb j) y ∈ t → i0 ≤ j) ∧
  (∀ k i x r : Nat, t[k]? = some (Event.call (Call.sqlite3PagerGet iDb i) x) →
    t[k + 1]? = some (Event.call Call.readIsInterrupted r) → r ≠ 0 →
    (∀ j y : Nat, Event.call (Call.sqlite3PagerWrite iDb j) y ∈ t → j < i) ∧
    (∃ y, Event.call Call.clearIsInterrupted y ∈ t) ∧ rc = S.SQLITE_INTERRUPT)

/-- The shape of the trace `T` of a run of `sqlite3_rekey_v2` on database
`iDb` that returned `rc`.  Either the run left before the candidate key was
loaded, and made calls of the setup and of the label `end_rekey` only; or `T`
is the setup `P`, the load of the candidate key, the read `tp` of the page
size, the scan `ts` from page 1 on, ending with `src`, and the closing `q`,
where a scan that did not end with `SQLITE_OK` gives `rc` and leaves no commit
phase in `q`. -/
def RekeyTrace {σ : Type} (S : Sqlite σ) (iDb : Nat) (T : List Event) (rc : Nat) : Prop :=
  (∀ e ∈ T, e.isSetup = true ∨ e.isClosing = true) ∨
  ∃ P tp ts q src, T = P ++ Event.loadKey :: (tp ++ ts ++ q) ∧
    (∀ e ∈ P, e.isSetup = true) ∧
    (∀ e ∈ tp, e.isClosing = true ∧ e.isCommit = false) ∧
    ScanSegment S iDb 1 ts src ∧
    (∀ e ∈ q, e.isClosing = true) ∧
    (src ≠ S.SQLITE_OK → rc = src ∧ ∀ e ∈ q, e.isCommit = false)

/-- The page a step of the run marks dirty: the page of a call of
`sqlite3PagerWrite`. -/
def Event.dirtied : Event → Option Nat
  | Event.call (Call.sqlite3PagerWrite _ pgno) _ => some pgno
  | _ => none

/-- The page a step of the run fetches: the page of a call of
`sqlite3PagerGet`. -/
def Event.fetched : Event → Option Nat
  | Event.call (Call.sqlite3PagerGet _ pgno) _ => some pgno
  | _ => none

/-- The page numbers 1, 2, ..., `nPage` in ascending order, without `skip`. -/
def pagesWithout (nPage skip : Nat) : List Nat :=
  (List.range' 1 nPage).filter (fun i => i ≠ skip)

/-- The event tells nothing of the scan: it is neither a mark-dirty, nor the
page count, nor the load of the candidate key. -/
def Event.isQuiet : Event → Bool
  | Event.call (Call.sqlite3PagerWrite _ _) _ => false
  | Event.call (Call.sqlite3PagerPagecount _) _ => false
  | Event.loadKey => false
  | _ => true

/-- What a trace `T` of a run in which nothing failed shows of the page scan.
If the page count `nPage` of database `iDb` was read, then for `nPage = 0` no
page was marked dirty, and for `nPage >= 1` the page size `pageSize` of the
codec was read, the pages marked dirty are, in this order and once each,
1, ..., `nPage` without `PENDING_BYTE / pageSize + 1`, and so are the pages
fetched after the load of the candidate key. -/
def ScanOrder {σ : Type} (S : Sqlite σ) (T : List Event) : Prop :=
  (∀ e ∈ T, e.failed S = false) →
  ∀ iDb nPage : Nat, Event.call (Call.sqlite3PagerPagecount iDb) nPage ∈ T →
    (nPage = 0 → T.filterMap Event.dirtied = []) ∧
    (1 ≤ nPage → ∃ pageSize, Event.call (Call.codecPageSize iDb) pageSize ∈ T ∧
      T.filterMap Event.dirtied = pagesWithout nPage (S.PENDING_BYTE / pageSize + 1) ∧
      (T.dropWhile (fun e => e ≠ Event.loadKey)).filterMap Event.fetched =
        pagesWithout nPage (S.PENDING_BYTE / pageSize + 1))

/-- The page a step of the run obtains a reference to: the page of a call of
`sqlite3PagerGet` that returned `SQLITE_OK`. -/
def Event.obtained {σ : Type} (S : Sqlite σ) : Event → Option Nat
  | Event.call (Call.sqlite3PagerGet _ pgno) rc => if rc = S.SQLITE_OK then some pgno else none
  | _ => none

/-- The page whose reference a step of the run releases: the page of a call of
`sqlite3PagerUnref`. -/
def Event.released : Event → Option Nat
  | Event.call (Call.sqlite3PagerUnref _ pgno) _ => some pgno
  | _ => none

/-- The event is a call of `sqlite3PagerUnrefPageOne`. -/
def Event.releasedOne : Event → Bool
  | Event.call (Call.sqlite3PagerUnrefPageOne _) _ => true
  | _ => false

/-- The event is a read of the interrupt flag that found it set. -/
def Event.interrupted : Event → Bool
  | Event.call Call.readIsInterrupted x => decide (x ≠ 0)
  | _ => false

/-- The page references of a run with the events `T`.  The calls of
`sqlite3PagerUnrefPageOne` are as many as the references obtained before the
candidate key is loaded.  The references obtained from there on, by the scan,
are, in their order, those released by `sqlite3PagerUnref` when the interrupt
flag was never found set; when it was found set they are those released
followed by one more page, which is not released. -/
def RefBalance {σ : Type} (S : Sqlite σ) (T : List Event) : Prop :=
  (T.filter Event.releasedOne).length =
    ((T.takeWhile (fun e => e ≠ Event.loadKey)).filterMap (Event.obtained S)).length ∧
  ((∀ e ∈ T, e.interrupted = false) →
    (T.dropWhile (fun e => e ≠ Event.loadKey)).filterMap (Event.obtained S) =
      T.filterMap Event.released) ∧
  ((∃ e ∈ T, e.interrupted = true) →
    ∃ p, (T.dropWhile (fun e => e ≠ Event.loadKey)).filterMap (Event.obtained S) =
        T.filterMap Event.released ++ [p] ∧
      p ∉ T.filterMap Event.released)

/-! ## Concrete inputs -/

/-- A host on a little-endian machine whose allocator succeeds (with zeroed
blocks) and whose random source gives the bytes 1, 1, 1, ... -/
def hostOnes : Host :=
  { bigEndian := false
    sqlite3_malloc := fun _ => some (fun _ => 0)
    randomByte := fun _ => 1
    stackByte := fun _ => 0
    CCCrypt := fun _ _ _ dataIn => dataIn }

/-- The RC4 key slot `loadKeyRc4` makes of the three-byte key "Key". -/
def rc4KeyKey : KeyRc4 :=
  { nByte := 3, nullKey := 0, repeat_ := repeatKey [75, 101, 121] 3 256 }

/-- A freshly attached RC4 codec keyed with "Key", for pages of `pageSize`
bytes with the 4 reserved bytes the attach asks for. -/
def rc4Fresh (pageSize : Nat) : CodecRc4 :=
  { key0 := rc4KeyKey, key1 := rc4KeyKey, nullKey := 0, nonceSize := 4, mallocFailed := 0,
    pageSize := pageSize, usable := pageSize - 4, mask := none, outbuf := [] }

/-- A block primitive that XORs the block with the first 16 words of the key
schedule; it stands for the Rijndael routines where a concrete primitive,
injective on blocks, is called for. -/
def xorRijndael : Rijndael :=
  { rijndaelKeySetupEnc128Ccm := fun cipherKey => cipherKey
    rijndaelEncrypt128Ccm := fun rk pt => (List.range 16).map (fun i => pt.getD i 0 ^^^ rk.getD i 0)
    length_encrypt := by intro rk pt; simp }

/-- An AES-CCM key slot holding sixteen bytes 7. -/
def aesKeySevens : KeyAes128Ccm :=
  { nByte := 16, nullKey := 0, keySchedule := List.replicate 16 7, repeat_ := List.replicate 16 7 }

/-- A freshly attached AES-CCM codec keyed with `aesKeySevens`, for pages of
`pageSize` bytes of which `nReserve` are reserved. -/
def aesFresh (pageSize nReserve : Nat) : CodecAes128Ccm :=
  { key0 := aesKeySevens, key1 := aesKeySevens, nullKey := 0, mallocFailed := 0,
    pageSize := pageSize, usable := pageSize - nReserve, mask := none, outbuf := [] }

/-- What the decode of the page of 64 zero bytes has unmasked when it comes to
verify the MAC, under `xorRijndael` and `aesFresh 64 32`: three mask blocks
(key bytes 7, counter byte 0, 1, 2) over the payload and the MAC field, then
the nonce field. -/
def unmaskedZeros : List Nat :=
  [7, 7, 7, 7, 7, 7, 7, 7, 7, 7, 7, 7, 7, 7, 7, 7,
   7, 7, 7, 7, 6, 7, 7, 7, 7, 7, 7, 7, 7, 7, 7, 7,
   7, 7, 7, 7, 5, 7, 7, 7, 7, 7, 7, 7, 7, 7, 7, 7,
   0, 0, 0, 0, 0, 0, 0, 0, 0, 0, 0, 0, 0, 0, 0, 0]

/-- An AES-CCM key slot marked null. -/
def aesKeyNull : KeyAes128Ccm :=
  { nByte := 0, nullKey := 1, keySchedule := List.replicate 44 0, repeat_ := List.replicate 16 0 }

/-- A freshly attached AES-CCM codec with no key. -/
def aesFreshNull (pageSize nReserve : Nat) : CodecAes128Ccm :=
  { key0 := aesKeyNull, key1 := aesKeyNull, nullKey := 0, mallocFailed := 0,
    pageSize := pageSize, usable := pageSize - nReserve, mask := none, outbuf := [] }

/-- An RC4 key slot marked null. -/
def rc4KeyNull : KeyRc4 :=
  { nByte := 0, nullKey := 1, repeat_ := List.replicate 256 0 }

/-- A freshly attached RC4 codec with no key. -/
def rc4FreshNull (pageSize : Nat) : CodecRc4 :=
  { key0 := rc4KeyNull, key1 := rc4KeyNull, nullKey := 0, nonceSize := 4, mallocFailed := 0,
    pageSize := pageSize, usable := pageSize - 4, mask := none, outbuf := [] }

/-- A CommonCrypto key slot holding sixteen bytes 7. -/
def cccryptKeySevens : KeyCCCrypto :=
  { nByte := 16, nullKey := 0, repeat_ := List.replicate 16 7 }

/-- A freshly attached CommonCrypto codec keyed with `cccryptKeySevens`, for
pages of `pageSize` bytes with the 12 reserved bytes the attach asks for. -/
def cccryptFresh (pageSize : Nat) : CodecCCCrypto :=
  { key0 := cccryptKeySevens, key1 := cccryptKeySevens, nullKey := 0, nonceUsable := 12,
    mallocFailed := 0, nonceZero := 0, pageSize := pageSize, usable := pageSize - 12,
    pZero := [], mask := none, outbuf := [] }

/-- An SQLite side without state of its own, in which a call `c` returns
`result c`; the constants have the values `sqlite3.h` and `pager.c` give them
and the string comparison tells equal names from different ones. -/
def sqliteStub (result : Call → Nat) : Sqlite Unit :=
  { SQLITE_OK := 0, SQLITE_ERROR := 1, SQLITE_NOMEM := 7, SQLITE_READONLY := 8,
    SQLITE_INTERRUPT := 9, SQLITE_MISUSE := 21, PAGER_OPEN := 0, PAGER_READER := 1,
    PENDING_BYTE := 1073741824
    sqlite3StrICmp := fun a b => if a = b then 0 else 1
    call := fun w c => (w, result c) }

/-- The results of a pager over a file of three pages of 1024 bytes in which
the call `bad` returns `rc` and every other call succeeds. -/
def pagerThreePages (bad : Call) (rc : Nat) : Call → Nat
  | Call.sqlite3PagerPagecount _ => 3
  | Call.codecPageSize _ => 1024
  | Call.sqlite3_malloc => 1
  | c => if c = bad then rc else 0

/-- The XOR key slot `loadKeyXor` makes of the one-byte key 5. -/
def xorKeyFives : KeyXor := { nByte := 1, nullKey := 0, repeat_ := List.replicate 32 5 }

/-- The XOR key slot `loadKeyXor` makes of the one-byte key 9. -/
def xorKeyNines : KeyXor := { nByte := 1, nullKey := 0, repeat_ := List.replicate 32 9 }

/-- A connection with one writable database, "main", keyed with
`xorKeyFives`. -/
def connKeyed : Conn KeyXor Unit :=
  { aDb := [{ zDbSName := "main", pBt := true, readOnly := false,
              pCodec := some ⟨xorKeyFives, xorKeyFives⟩ }],
    errCode := 0, world := (), trace := [] }

/-- The events of a run of `sqlite3_rekey_v2` on database 0 up to the scan:
the pager was idle, page 1 is fetched, a write transaction begun, the three
pages counted, the candidate key loaded. -/
def traceToScan : List Event :=
  [Event.call Call.sqlite3_mutex_enter 0, Event.call Call.sqlite3BtreeEnterAll 0,
   Event.call (Call.sqlite3PagerState 0) 0, Event.call (Call.sqlite3PagerSharedLock 0) 0,
   Event.call (Call.sqlite3PagerGet 0 1) 0, Event.call (Call.sqlite3PagerBegin 0) 0,
   Event.call (Call.sqlite3PagerPagecount 0) 3, Event.loadKey,
   Event.call (Call.codecPageSize 0) 1024]

/-- The events of one pass of the scan over page `i` in which the mark-dirty
returns `rc`. -/
def tracePage (i rc : Nat) : List Event :=
  [Event.call (Call.sqlite3PagerGet 0 i) 0, Event.call Call.readIsInterrupted 0,
   Event.call (Call.sqlite3PagerWrite 0 i) rc, Event.call (Call.sqlite3PagerUnref 0 i) 0]

/-- The events of the label `end_rekey` when page 1 is held. -/
def traceEnd : List Event :=
  [Event.call (Call.sqlite3PagerUnrefPageOne 0) 0, Event.call Call.sqlite3BtreeLeaveAll 0,
   Event.call Call.sqlite3_mutex_leave 0]

/-- The connection `connKeyed` after a re-key to the key 9 in which the
mark-dirty of page 2 returned 10 (`SQLITE_IOERR`). -/
def connWriteFailed : Conn KeyXor Unit :=
  { aDb := [{ zDbSName := "main", pBt := true, readOnly := false,
              pCodec := some ⟨xorKeyFives, xorKeyFives⟩ }],
    errCode := 10, world := (),
    trace := traceToScan ++ tracePage 1 0 ++ tracePage 2 10 ++
      [Event.restore, Event.call (Call.sqlite3PagerRollback 0) 0] ++ traceEnd }

/-- The connection `connKeyed` after a re-key to the key 9 in which commit
phase one returned 13 (`SQLITE_FULL`). -/
def connCommitFailed : Conn KeyXor Unit :=
  { aDb := [{ zDbSName := "main", pBt := true, readOnly := false,
              pCodec := some ⟨xorKeyNines, xorKeyNines⟩ }],
    errCode := 13, world := (),
    trace := traceToScan ++ tracePage 1 0 ++ tracePage 2 0 ++ tracePage 3 0 ++
      [Event.promote, Event.call (Call.sqlite3PagerCommitPhaseOne 0) 13] ++ traceEnd }

/-- The connection `connKeyed` with its database opened read-only. -/
def connReadOnly : Conn KeyXor Unit :=
  { aDb := [{ zDbSName := "main", pBt := true, readOnly := true,
              pCodec := some ⟨xorKeyFives, xorKeyFives⟩ }],
    errCode := 0, world := (), trace := [] }

/-- A connection with two writable databases: "main", keyed with
`xorKeyFives`, and "aux", to which no codec is attached. -/
def connTwo : Conn KeyXor Unit :=
  { aDb := [{ zDbSName := "main", pBt := true, readOnly := false,
              pCodec := some ⟨xorKeyFives, xorKeyFives⟩ },
            { zDbSName := "aux", pBt := true, readOnly := false, pCodec := none }],
    errCode := 0, world := (), trace := [] }

/-- The null XOR key slot `loadKeyXor` makes of the empty key in a zeroed
codec. -/
def xorKeyNull : KeyXor := { nByte := 0, nullKey := 1, repeat_ := List.replicate 32 0 }

/-- The RC4 key slot `loadKeyRc4` makes of a key of 256 bytes 7: the length
256 does not fit the byte `nByte`. -/
def rc4KeyLong : KeyRc4 := { nByte := 0, nullKey := 0, repeat_ := List.replicate 256 7 }

/-- A connection with one database keyed, in the RC4 backend, with
`rc4KeyLong`. -/
def connRc4Long : Conn KeyRc4 Unit :=
  { aDb := [{ zDbSName := "main", pBt := true, readOnly := false,
              pCodec := some ⟨rc4KeyLong, rc4KeyLong⟩ }],
    errCode := 0, world := (), trace := [] }

/-- The connection `connTwo` after `sqlite3_rekey_v2` was asked to re-key its
database "aux": the codec of "main" is replaced by a null one and "aux" has
none. -/
def connTwoAfter : Conn KeyXor Unit :=
  { aDb := [{ zDbSName := "main", pBt := true, readOnly := false,
              pCodec := some ⟨xorKeyNull, xorKeyNull⟩ },
            { zDbSName := "aux", pBt := true, readOnly := false, pCodec := none }],
    errCode := 7, world := (),
    trace := [Event.call Call.sqlite3_mutex_enter 0, Event.call Call.sqlite3BtreeEnterAll 0,
      Event.call Call.sqlite3_malloc 1, Event.call (Call.sqlite3PagerSetCodec 0) 0,
      Event.call Call.sqlite3BtreeLeaveAll 0, Event.call Call.sqlite3_mutex_leave 0] }

/-- An SQLite side that counts the reads of the interrupt flag: the `n`-th
read finds the flag set, every other call succeeds, over a file of three pages
of 1024 bytes. -/
def sqliteInterruptAt (n : Nat) : Sqlite Nat :=
  { SQLITE_OK := 0, SQLITE_ERROR := 1, SQLITE_NOMEM := 7, SQLITE_READONLY := 8,
    SQLITE_INTERRUPT := 9, SQLITE_MISUSE := 21, PAGER_OPEN := 0, PAGER_READER := 1,
    PENDING_BYTE := 1073741824
    sqlite3StrICmp := fun a b => if a = b then 0 else 1
    call := fun w c =>
      match c with
      | Call.readIsInterrupted => (w + 1, if w + 1 = n then 1 else 0)
      | Call.sqlite3PagerPagecount _ => (w, 3)
      | Call.codecPageSize _ => (w, 1024)
      | Call.sqlite3_malloc => (w, 1)
      | _ => (w, 0) }

/-- The connection `connKeyed` over an SQLite side that counts. -/
def connCounting : Conn KeyXor Nat :=
  { aDb := [{ zDbSName := "main", pBt := true, readOnly := false,
              pCodec := some ⟨xorKeyFives, xorKeyFives⟩ }],
    errCode := 0, world := 0, trace := [] }

/-- The connection `connCounting` after a re-key to the key 9 that was
interrupted at page 2: page 1 was marked dirty, page 2 fetched, the flag found
set and cleared. -/
def connInterrupted : Conn KeyXor Nat :=
  { aDb := [{ zDbSName := "main", pBt := true, readOnly := false,
              pCodec := some ⟨xorKeyFives, xorKeyFives⟩ }],
    errCode := 9, world := 2,
    trace := traceToScan ++ tracePage 1 0 ++
      [Event.call (Call.sqlite3PagerGet 0 2) 0, Event.call Call.readIsInterrupted 1,
       Event.call Call.clearIsInterrupted 0,
       Event.restore, Event.call (Call.sqlite3PagerRollback 0) 0] ++ traceEnd }

/-- A freshly attached XOR codec keyed with `xorKeyFives` in both slots, for
pages of `pageSize` bytes without reserved bytes. -/
def xorFresh (pageSize : Nat) : CodecXor :=
  { key0 := xorKeyFives, key1 := xorKeyFives, nullKey := 0, mallocFailed := 0,
    pageSize := pageSize, usable := pageSize, outbuf := none }

/-- A text of 253 characters: 252 times "a", then "b". -/
def textLong : List Nat := List.replicate 252 97 ++ [98]

/-- An RC4 codec keyed with "Key" that has served pages of 512 bytes: its
scratch allocation of 2*512+8 bytes is there, the mask area filled with the
bytes 9. -/
def rc4Used : CodecRc4 :=
  { key0 := rc4KeyKey, key1 := rc4KeyKey, nullKey := 0, nonceSize := 4, mallocFailed := 0,
    pageSize := 512, usable := 508, mask := some (List.replicate 516 9),
    outbuf := List.replicate 516 0 }

/-- A CommonCrypto codec keyed with `cccryptKeySevens` that has served pages
of 512 bytes: its scratch allocation of 3*512 bytes is there, the mask area
filled with the bytes 9. -/
def cccryptUsed : CodecCCCrypto :=
  { key0 := cccryptKeySevens, key1 := cccryptKeySevens, nullKey := 0, nonceUsable := 12,
    mallocFailed := 0, nonceZero := 0, pageSize := 512, usable := 500,
    pZero := List.replicate 512 0, mask := some (List.replicate 512 9),
    outbuf := List.replicate 512 0 }

/-- A host on a big-endian machine whose allocator succeeds (with blocks of
bytes 3) and whose random source gives the bytes 2, 2, 2, ... -/
def hostBig : Host :=
  { bigEndian := true
    sqlite3_malloc := fun _ => some (fun _ => 3)
    randomByte := fun _ => 2
    stackByte := fun _ => 4
    CCCrypt := fun _ _ _ dataIn => dataIn }

/-- A fresh RC4 codec keyed with "Key", for pages of `pageSize` bytes without
reserved bytes. -/
def rc4Plain (pageSize : Nat) : CodecRc4 :=
  { key0 := rc4KeyKey, key1 := rc4KeyKey, nullKey := 0, nonceSize := 0, mallocFailed := 0,
    pageSize := pageSize, usable := pageSize, mask := none, outbuf := [] }

/-- An SQLite side over a file of three pages of 1024 bytes in which every
call succeeds and the pending byte has been moved to offset 1024 (as the test
control of SQLite allows), so that page 2 is the page to skip. -/
def sqliteSkipTwo : Sqlite Unit :=
  { sqliteStub (pagerThreePages Call.sqlite3_mutex_enter 0) with PENDING_BYTE := 1024 }

/-- The connection `connKeyed` after a re-key to the key 9 over
`sqliteSkipTwo`: pages 1 and 3 were fetched and marked dirty. -/
def connSkipTwo : Conn KeyXor Unit :=
  { aDb := [{ zDbSName := "main", pBt := true, readOnly := false,
              pCodec := some ⟨xorKeyNines, xorKeyNines⟩ }],
    errCode := 0, world := (),
    trace := traceToScan ++ tracePage 1 0 ++ tracePage 3 0 ++
      [Event.promote, Event.call (Call.sqlite3PagerCommitPhaseOne 0) 0,
       Event.call (Call.sqlite3PagerCommitPhaseTwo 0) 0] ++ traceEnd }

/-- The 256-byte key `x` of page 2 under the key "Key" without reserved bytes:
`x[i] = key[i] XOR nonce[i mod 4]` with the nonce 2, 0, 0, 0. -/
def rc4CexKey : List Nat := [
  73, 101, 121, 75, 103, 121, 75, 101, 123, 75, 101, 121, 73, 101, 121, 75,
  103, 121, 75, 101, 123, 75, 101, 121, 73, 101, 121, 75, 103, 121, 75, 101,
  123, 75, 101, 121, 73, 101, 121, 75, 103, 121, 75, 101, 123, 75, 101, 121,
  73, 101, 121, 75, 103, 121, 75, 101, 123, 75, 101, 121, 73, 101, 121, 75,
  103, 121, 75, 101, 123, 75, 101, 121, 73, 101, 121, 75, 103, 121, 75, 101,
  123, 75, 101, 121, 73, 101, 121, 75, 103, 121, 75, 101, 123, 75, 101, 121,
  73, 101, 121, 75, 103, 121, 75, 101, 123, 75, 101, 121, 73, 101, 121, 75,
  103, 121, 75, 101, 123, 75, 101, 121, 73, 101, 121, 75, 103, 121, 75, 101,
  123, 75, 101, 121, 73, 101, 121, 75, 103, 121, 75, 101, 123, 75, 101, 121,
  73, 101, 121, 75, 103, 121, 75, 101, 123, 75, 101, 121, 73, 101, 121, 75,
  103, 121, 75, 101, 123, 75, 101, 121, 73, 101, 121, 75, 103, 121, 75, 101,
  123, 75, 101, 121, 73, 101, 121, 75, 103, 121, 75, 101, 123, 75, 101, 121,
  73, 101, 121, 75, 103, 121, 75, 101, 123, 75, 101, 121, 73, 101, 121, 75,
  103, 121, 75, 101, 123, 75, 101, 121, 73, 101, 121, 75, 103, 121, 75, 101,
  123, 75, 101, 121, 73, 101, 121, 75, 103, 121, 75, 101, 123, 75, 101, 121,
  73, 101, 121, 75, 103, 121, 75, 101, 123, 75, 101, 121, 73, 101, 121, 75]

/-- The permutation after 128 key-schedule steps over `rc4CexKey`. -/
def rc4CexSched1 : List Nat := [
  73, 175, 42, 120, 33, 97, 44, 16, 161, 245, 100, 232, 61, 119, 113, 144,
  31, 57, 238, 102, 86, 69, 101, 99, 193, 63, 210, 56, 187, 118, 163, 90,
  93, 46, 55, 29, 112, 107, 231, 78, 224, 70, 207, 95, 178, 53, 227, 172,
  84, 28, 19, 67, 127, 126, 134, 181, 184, 62, 219, 143, 145, 41, 60, 157,
  68, 106, 117, 228, 18, 45, 130, 233, 87, 188, 52, 85, 200, 111, 35, 58,
  166, 30, 199, 147, 72, 170, 121, 71, 168, 3, 39, 223, 182, 94, 194, 196,
  190, 77, 105, 96, 136, 50, 208, 226, 197, 114, 254, 48, 218, 47, 83, 142,
  23, 54, 49, 110, 12, 139, 81, 1, 122, 9, 230, 109, 59, 133, 75, 43,
  128, 129, 116, 131, 132, 125, 14, 135, 10, 137, 138, 66, 140, 141, 5, 124,
  15, 17, 146, 115, 148, 149, 150, 151, 152, 153, 154, 155, 156, 25, 158, 159,
  160, 8, 162, 7, 164, 165, 80, 167, 88, 169, 21, 171, 123, 173, 174, 13,
  176, 177, 6, 179, 180, 34, 92, 183, 27, 185, 186, 98, 0, 189, 36, 191,
  192, 24, 32, 195, 74, 104, 198, 82, 76, 201, 202, 203, 204, 205, 206, 2,
  22, 209, 26, 211, 212, 213, 214, 215, 216, 217, 108, 79, 220, 221, 222, 91,
  40, 225, 103, 4, 51, 229, 89, 38, 11, 37, 234, 235, 236, 237, 64, 239,
  240, 241, 242, 243, 244, 20, 246, 247, 248, 249, 250, 251, 252, 253, 65, 255]

/-- The permutation after 256 key-schedule steps over `rc4CexKey`: the state
standard RC4 generates its output from. -/
def rc4CexSched2 : List Nat := [
  73, 17, 42, 120, 33, 97, 44, 16, 161, 245, 4, 235, 251, 119, 113, 125,
  216, 57, 238, 108, 86, 69, 101, 99, 193, 63, 210, 56, 140, 159, 163, 90,
  0, 46, 55, 92, 160, 183, 246, 78, 189, 70, 220, 203, 15, 132, 185, 172,
  24, 28, 154, 158, 127, 126, 134, 181, 184, 249, 219, 143, 151, 41, 21, 13,
  204, 106, 117, 228, 138, 45, 155, 233, 87, 188, 52, 211, 200, 76, 34, 64,
  166, 252, 199, 174, 72, 88, 121, 71, 244, 3, 39, 223, 182, 94, 194, 196,
  131, 77, 105, 65, 22, 50, 148, 226, 135, 104, 254, 115, 218, 7, 83, 142,
  23, 54, 236, 110, 149, 141, 137, 1, 213, 9, 198, 109, 59, 133, 75, 43,
  221, 66, 247, 190, 53, 186, 37, 197, 74, 79, 176, 195, 164, 103, 91, 212,
  178, 162, 173, 48, 80, 40, 68, 145, 250, 67, 206, 130, 95, 187, 153, 118,
  112, 165, 89, 47, 25, 98, 208, 27, 170, 243, 237, 6, 201, 255, 209, 157,
  18, 36, 38, 214, 82, 35, 29, 107, 32, 10, 222, 234, 93, 224, 129, 8,
  215, 225, 123, 179, 240, 114, 230, 150, 111, 180, 171, 156, 177, 147, 19, 202,
  229, 205, 102, 85, 168, 122, 192, 239, 31, 227, 26, 2, 207, 191, 144, 242,
  12, 84, 139, 100, 167, 20, 175, 81, 11, 51, 5, 232, 49, 128, 152, 14,
  217, 60, 241, 253, 146, 248, 231, 136, 116, 62, 58, 61, 30, 96, 169, 124]

/-- The permutation after 384 key-schedule steps over `rc4CexKey`. -/
def rc4CexSched3 : List Nat := [
  13, 35, 244, 56, 47, 50, 146, 104, 186, 114, 233, 173, 73, 38, 95, 22,
  83, 88, 91, 196, 63, 140, 176, 15, 39, 24, 108, 163, 215, 0, 109, 26,
  57, 19, 106, 221, 249, 161, 44, 9, 36, 193, 145, 228, 252, 143, 25, 180,
  138, 51, 30, 20, 156, 123, 48, 255, 12, 16, 125, 59, 1, 5, 213, 204,
  192, 6, 139, 199, 7, 54, 45, 185, 237, 127, 21, 97, 245, 101, 136, 110,
  224, 148, 121, 254, 61, 131, 150, 167, 141, 60, 219, 27, 10, 105, 79, 149,
  132, 202, 208, 23, 65, 133, 198, 58, 188, 29, 172, 17, 31, 135, 33, 28,
  211, 43, 159, 113, 168, 210, 126, 182, 151, 103, 214, 55, 170, 68, 84, 236,
  92, 66, 247, 190, 53, 183, 37, 197, 74, 194, 76, 195, 164, 78, 238, 212,
  178, 162, 235, 134, 80, 40, 70, 220, 250, 67, 206, 130, 64, 187, 153, 118,
  112, 165, 89, 216, 4, 98, 94, 223, 155, 243, 87, 120, 201, 181, 209, 157,
  18, 189, 119, 99, 82, 115, 160, 107, 32, 52, 222, 234, 93, 166, 129, 8,
  69, 225, 137, 179, 240, 200, 230, 203, 111, 174, 171, 86, 177, 147, 46, 77,
  229, 205, 102, 85, 42, 122, 251, 239, 218, 227, 90, 2, 207, 191, 144, 242,
  184, 75, 117, 100, 71, 158, 175, 81, 11, 142, 41, 232, 49, 128, 152, 14,
  217, 3, 241, 253, 246, 248, 231, 34, 116, 62, 226, 72, 154, 96, 169, 124]

/-- The permutation after 512 key-schedule steps over `rc4CexKey`: the state the
codec generates its mask from. -/
def rc4CexSched4 : List Nat := [
  13, 35, 52, 56, 47, 66, 146, 104, 179, 114, 233, 173, 73, 38, 95, 22,
  107, 88, 205, 78, 220, 181, 176, 67, 160, 235, 108, 163, 215, 0, 109, 26,
  243, 19, 106, 231, 249, 161, 44, 9, 203, 129, 145, 222, 147, 143, 25, 180,
  71, 247, 30, 158, 87, 123, 48, 255, 12, 191, 125, 59, 89, 5, 213, 204,
  192, 6, 40, 166, 7, 130, 45, 185, 3, 127, 206, 97, 245, 101, 82, 110,
  194, 148, 93, 184, 61, 32, 150, 246, 141, 60, 219, 195, 10, 212, 79, 149,
  132, 74, 208, 23, 65, 251, 238, 58, 94, 29, 172, 201, 31, 232, 33, 28,
  187, 200, 159, 113, 168, 210, 126, 182, 42, 216, 234, 55, 162, 81, 84, 236,
  90, 34, 153, 188, 175, 244, 112, 18, 202, 250, 20, 27, 214, 196, 198, 169,
  209, 115, 24, 223, 86, 139, 85, 63, 80, 15, 21, 54, 224, 211, 51, 199,
  100, 64, 230, 103, 155, 98, 190, 69, 116, 154, 177, 99, 8, 128, 134, 49,
  178, 156, 241, 75, 4, 174, 207, 46, 131, 183, 228, 164, 111, 11, 193, 17,
  41, 227, 2, 117, 138, 171, 1, 102, 248, 144, 43, 165, 229, 239, 119, 237,
  189, 91, 36, 70, 151, 50, 133, 62, 217, 186, 137, 37, 39, 152, 124, 57,
  218, 53, 225, 77, 72, 76, 142, 68, 14, 105, 252, 96, 140, 157, 16, 118,
  254, 92, 83, 226, 167, 121, 253, 122, 136, 197, 221, 240, 242, 135, 120, 170]

/-- The permutation of standard RC4 over `rc4CexKey` after 128 output bytes. -/
def rc4CexOut1 : List Nat := [
  73, 57, 143, 45, 168, 126, 196, 245, 249, 54, 251, 125, 88, 42, 241, 184,
  193, 242, 106, 132, 117, 197, 108, 86, 19, 172, 46, 3, 97, 53, 105, 119,
  90, 174, 9, 175, 37, 41, 158, 192, 48, 83, 35, 161, 212, 49, 244, 213,
  178, 63, 155, 151, 234, 20, 89, 71, 110, 238, 181, 66, 214, 222, 202, 207,
  170, 104, 194, 200, 163, 246, 187, 160, 191, 67, 147, 112, 159, 229, 113, 201,
  239, 85, 206, 218, 82, 109, 186, 100, 177, 148, 103, 210, 176, 203, 135, 65,
  79, 220, 78, 77, 141, 27, 17, 225, 64, 43, 133, 217, 137, 1, 227, 107,
  216, 144, 171, 231, 52, 219, 21, 138, 99, 182, 11, 235, 24, 91, 70, 221,
  118, 0, 247, 190, 228, 121, 233, 69, 74, 131, 55, 195, 164, 39, 254, 15,
  59, 162, 173, 189, 80, 40, 68, 145, 250, 188, 199, 130, 95, 154, 153, 94,
  211, 165, 134, 47, 25, 98, 208, 50, 204, 243, 237, 6, 28, 255, 209, 157,
  18, 36, 38, 120, 72, 44, 29, 142, 32, 10, 183, 127, 93, 224, 129, 8,
  215, 226, 123, 179, 240, 114, 230, 150, 111, 180, 236, 156, 185, 149, 23, 223,
  76, 205, 102, 252, 33, 122, 7, 166, 31, 75, 26, 2, 13, 87, 16, 56,
  12, 84, 139, 22, 167, 140, 92, 81, 198, 51, 5, 232, 101, 128, 152, 14,
  115, 60, 34, 253, 146, 248, 4, 136, 116, 62, 58, 61, 30, 96, 169, 124]

/-- The permutation of standard RC4 over `rc4CexKey` after 256 output bytes. -/
def rc4CexOut2 : List Nat := [
  148, 57, 47, 121, 168, 126, 196, 245, 173, 26, 251, 2, 226, 130, 241, 184,
  193, 242, 122, 132, 117, 80, 255, 131, 13, 172, 96, 3, 97, 53, 105, 119,
  90, 156, 9, 175, 198, 62, 158, 192, 48, 74, 240, 161, 212, 49, 244, 213,
  178, 63, 155, 151, 247, 20, 89, 150, 228, 238, 179, 66, 102, 40, 60, 207,
  224, 104, 195, 200, 163, 95, 236, 160, 191, 67, 164, 211, 159, 229, 113, 201,
  239, 85, 206, 205, 190, 109, 186, 51, 55, 25, 180, 162, 232, 253, 81, 58,
  34, 220, 78, 77, 233, 27, 17, 225, 64, 43, 167, 217, 137, 1, 227, 87,
  216, 39, 171, 136, 29, 219, 134, 59, 142, 182, 11, 188, 24, 91, 15, 157,
  118, 94, 68, 82, 110, 38, 23, 123, 152, 28, 183, 140, 147, 144, 237, 70,
  10, 210, 249, 114, 6, 222, 234, 189, 33, 235, 141, 185, 61, 69, 99, 153,
  112, 230, 21, 98, 31, 128, 111, 139, 209, 115, 107, 197, 86, 108, 50, 221,
  194, 127, 84, 73, 243, 149, 5, 0, 8, 252, 30, 145, 79, 223, 120, 218,
  35, 101, 56, 169, 215, 45, 72, 44, 18, 103, 187, 204, 92, 71, 16, 170,
  54, 7, 214, 75, 32, 106, 154, 36, 129, 14, 76, 125, 19, 254, 199, 250,
  65, 166, 174, 177, 124, 208, 42, 116, 37, 100, 52, 4, 88, 165, 83, 146,
  143, 202, 93, 203, 138, 135, 176, 231, 248, 41, 12, 246, 22, 46, 181, 133]

/-- The permutation of standard RC4 over `rc4CexKey` after 384 output bytes. -/
def rc4CexOut3 : List Nat := [
  11, 88, 3, 6, 102, 151, 15, 136, 90, 179, 20, 43, 172, 74, 147, 163,
  162, 142, 39, 160, 201, 126, 252, 217, 67, 77, 140, 97, 80, 239, 255, 178,
  254, 182, 68, 63, 119, 251, 75, 114, 184, 185, 46, 250, 73, 157, 129, 108,
  242, 158, 227, 122, 22, 26, 192, 211, 156, 205, 128, 116, 117, 249, 51, 69,
  91, 208, 209, 216, 169, 123, 81, 135, 134, 53, 82, 113, 132, 76, 186, 167,
  226, 99, 137, 225, 198, 233, 222, 131, 230, 47, 155, 30, 248, 159, 245, 118,
  21, 196, 92, 161, 23, 55, 84, 58, 65, 150, 16, 168, 104, 42, 141, 202,
  105, 193, 199, 187, 66, 56, 214, 164, 231, 253, 148, 79, 32, 243, 10, 124,
  112, 94, 9, 59, 110, 38, 109, 95, 152, 28, 183, 96, 241, 144, 237, 70,
  220, 210, 40, 89, 121, 2, 234, 189, 33, 235, 180, 130, 61, 207, 85, 153,
  238, 27, 34, 98, 31, 62, 111, 139, 195, 115, 107, 197, 86, 213, 50, 221,
  194, 127, 17, 212, 224, 149, 5, 0, 8, 200, 25, 145, 188, 223, 120, 218,
  35, 101, 219, 48, 215, 45, 72, 44, 18, 103, 236, 204, 78, 71, 60, 170,
  54, 7, 191, 175, 24, 106, 154, 36, 244, 14, 229, 125, 19, 173, 171, 13,
  64, 166, 174, 177, 49, 206, 1, 29, 37, 100, 52, 4, 57, 165, 83, 146,
  143, 87, 93, 203, 138, 228, 176, 190, 232, 41, 12, 246, 247, 240, 181, 133]

/-- The permutation of standard RC4 over `rc4CexKey` after 512 output bytes. -/
def rc4CexOut4 : List Nat := [
  88, 152, 3, 6, 102, 170, 15, 136, 90, 59, 109, 78, 183, 74, 83, 163,
  154, 142, 39, 160, 194, 126, 57, 190, 197, 77, 140, 236, 80, 28, 240, 178,
  0, 173, 68, 63, 119, 241, 200, 111, 244, 185, 46, 250, 73, 235, 247, 143,
  242, 158, 227, 122, 36, 237, 14, 246, 156, 205, 94, 116, 117, 249, 51, 25,
  91, 12, 33, 213, 138, 123, 81, 135, 49, 53, 82, 113, 132, 76, 186, 167,
  226, 99, 71, 107, 198, 175, 222, 131, 133, 176, 155, 9, 248, 159, 62, 118,
  38, 196, 92, 130, 210, 55, 84, 58, 180, 95, 16, 223, 104, 218, 86, 202,
  105, 193, 199, 187, 220, 50, 106, 110, 231, 253, 31, 79, 32, 243, 10, 124,
  112, 45, 60, 179, 164, 207, 20, 150, 48, 239, 24, 153, 44, 149, 34, 37,
  35, 234, 2, 40, 215, 120, 23, 182, 125, 157, 166, 161, 238, 72, 18, 224,
  146, 172, 41, 30, 148, 100, 191, 17, 56, 101, 225, 67, 141, 216, 195, 137,
  201, 217, 255, 93, 219, 85, 254, 5, 245, 75, 203, 165, 251, 204, 127, 42,
  121, 228, 145, 11, 19, 128, 206, 1, 97, 151, 61, 168, 171, 221, 7, 103,
  64, 29, 114, 181, 27, 214, 162, 96, 184, 52, 144, 209, 66, 4, 43, 192,
  22, 65, 252, 188, 232, 21, 177, 98, 208, 8, 13, 189, 174, 54, 147, 212,
  108, 229, 87, 69, 169, 70, 47, 89, 134, 26, 115, 211, 129, 139, 233, 230]

/-- The host `hostOnes` out of memory: `sqlite3_malloc` returns `NULL`. -/
def hostNoMemory : Host :=
  { bigEndian := false
    sqlite3_malloc := fun _ => none
    randomByte := fun _ => 1
    stackByte := fun _ => 0
    CCCrypt := fun _ _ _ dataIn => dataIn }

/-- An AES-CCM codec keyed with `aesKeySevens` whose allocation failed while
32 bytes were reserved in pages of 512 bytes, and which was then told that 31
bytes are reserved: no mask, the failure on record. -/
def aesFailed : CodecAes128Ccm :=
  { key0 := aesKeySevens, key1 := aesKeySevens, nullKey := 0, mallocFailed := 1,
    pageSize := 512, usable := 481, mask := none, outbuf := [] }

/-! ## Lemmas on byte buffers -/

theorem length_writeAt (buf src : List Nat) (off : Nat) (h : off + src.length ≤ buf.length) :
    (writeAt buf off src).length = buf.length := by
  simp [writeAt]; omega

theorem getElem?_writeAt (buf src : List Nat) (off k : Nat) (h : off ≤ buf.length) :
    (writeAt buf off src)[k]? =
      if k < off then buf[k]? else if k < off + src.length then src[k - off]? else buf[k]? := by
  unfold writeAt
  rw [List.append_assoc, List.getElem?_append]
  have hl : (List.take off buf).length = off := by simp [h]
  rw [hl]
  by_cases h1 : k < off
  · simp [h1, List.getElem?_take]
  · simp only [h1, if_false]
    rw [List.getElem?_append]
    by_cases h2 : k - off < src.length
    · have : k < off + src.length := by omega
      simp [h2, this]
    · have : ¬ k < off + src.length := by omega
      simp only [h2, this, if_false, List.getElem?_drop]
      congr 1; omega

theorem length_xorBytes (a b : List Nat) (n : Nat) :
    (xorBytes a b n).length = min (min n a.length) (min n b.length) := by
  simp [xorBytes]

theorem getElem?_xorBytes (a b : List Nat) (n k : Nat) (hk : k < n) (ha : k < a.length)
    (hb : k < b.length) : (xorBytes a b n)[k]? = some (a.getD k 0 ^^^ b.getD k 0) := by
  simp [xorBytes, List.getElem?_zipWith, List.getElem?_take, hk, List.getElem?_eq_getElem ha,
    List.getElem?_eq_getElem hb, List.getD_eq_getElem?_getD]

theorem length_page1Xor (b : List Nat) (n i : Nat) (out : List Nat) :
    (page1Xor b n i out).length = out.length := by
  induction n generalizing i out with
  | zero => rfl
  | succ n ih => simp [page1Xor, ih]

theorem getElem?_page1Xor (b : List Nat) (n i k : Nat) (out : List Nat) :
    (page1Xor b n i out)[k]? =
      if i ≤ k ∧ k < i + n then (out[k]?).map (fun x => x ^^^ b.getD k 0) else out[k]? := by
  induction n generalizing i out with
  | zero =>
    have : ¬ (i ≤ k ∧ k < i) := by omega
    simp [page1Xor, this]
  | succ n ih =>
    simp only [page1Xor]
    rw [ih, List.getElem?_set]
    by_cases h1 : i = k
    · subst h1
      have : ¬ (i + 1 ≤ i ∧ i < i + 1 + n) := by omega
      simp only [this, if_false, if_true]
      have : i ≤ i ∧ i < i + (n + 1) := by omega
      simp only [this, and_self, if_true]
      by_cases h2 : i < out.length
      · simp [h2, List.getD_eq_getElem?_getD, List.getElem?_eq_getElem h2]
      · simp [h2, List.getElem?_eq_none (Nat.le_of_not_lt h2)]
    · simp only [h1, if_false]
      by_cases h3 : i + 1 ≤ k ∧ k < i + 1 + n
      · have : i ≤ k ∧ k < i + (n + 1) := by omega
        simp [h3, this]
      · have : ¬ (i ≤ k ∧ k < i + (n + 1)) := by omega
        simp [h3, this]

theorem getD_of_getElem? (l : List Nat) (k v : Nat) (h : l[k]? = some v) : l.getD k 0 = v := by
  simp [List.getD_eq_getElem?_getD, h]

theorem getElem?_of_lt (l : List Nat) (k : Nat) (h : k < l.length) :
    l[k]? = some (l.getD k 0) := by
  simp [List.getD_eq_getElem?_getD, List.getElem?_eq_getElem h]

/-- Two buffers with the same first `n` bytes have the same `take n`. -/
theorem take_eq_take_of_getD (a b : List Nat) (n : Nat) (ha : n ≤ a.length) (hb : n ≤ b.length)
    (h : ∀ k, k < n → a.getD k 0 = b.getD k 0) : a.take n = b.take n := by
  apply List.ext_getElem?
  intro k
  rw [List.getElem?_take, List.getElem?_take]
  by_cases hk : k < n
  · simp only [hk, if_true]
    rw [getElem?_of_lt a k (by omega), getElem?_of_lt b k (by omega), h k hk]
  · simp [hk]

/-! ## The XOR stage shared by the RC4 and CCCrypt codecs -/

theorem length_xorPage (U P pgno : Nat) (e : Bool) (outbuf a b : List Nat)
    (hUP : U ≤ P) (ha : a.length = P) (hb : U ≤ b.length) (ho : P ≤ outbuf.length) :
    P ≤ (xorPage U P pgno e outbuf a b).length := by
  have hx : (xorBytes a b U).length = U := by rw [length_xorBytes]; omega
  have h1 : (xorBuffers (if e = true then outbuf else a) a b U).length
      = (if e = true then outbuf else a).length := by
    unfold xorBuffers
    apply length_writeAt
    rw [hx]; cases e <;> simp <;> omega
  have h0 : P ≤ (if e = true then outbuf else a).length := by cases e <;> simp <;> omega
  unfold xorPage
  simp only []
  split
  · rw [length_page1Xor]
    split
    · rw [length_writeAt, h1]; exact h0
      rw [h1]; simp; cases e <;> simp <;> omega
    · rw [h1]; exact h0
  · split
    · rw [length_writeAt, h1]; exact h0
      rw [h1]; simp; cases e <;> simp <;> omega
    · rw [h1]; exact h0

theorem getElem?_xorBuffers_lt (out a b : List Nat) (U k : Nat) (hk : k < U)
    (ha : U ≤ a.length) (hb : U ≤ b.length) :
    (xorBuffers out a b U)[k]? = some (a.getD k 0 ^^^ b.getD k 0) := by
  have hx : (xorBytes a b U).length = U := by rw [length_xorBytes]; omega
  unfold xorBuffers
  rw [getElem?_writeAt _ _ _ _ (Nat.zero_le _)]
  simp only [Nat.not_lt_zero, if_false, hx, Nat.zero_add, hk, if_true, Nat.sub_zero]
  exact getElem?_xorBytes a b U k hk (by omega) (by omega)

theorem getElem?_xorBuffers_ge (out a b : List Nat) (U k : Nat) (hk : U ≤ k)
    (ha : U ≤ a.length) (hb : U ≤ b.length) :
    (xorBuffers out a b U)[k]? = out[k]? := by
  have hx : (xorBytes a b U).length = U := by rw [length_xorBytes]; omega
  unfold xorBuffers
  rw [getElem?_writeAt _ _ _ _ (Nat.zero_le _)]
  have : ¬ k < U := by omega
  simp [hx, this]

theorem length_xorBuffers (out a b : List Nat) (U : Nat)
    (ha : U ≤ a.length) (hb : U ≤ b.length) (ho : U ≤ out.length) :
    (xorBuffers out a b U).length = out.length := by
  have hx : (xorBytes a b U).length = U := by rw [length_xorBytes]; omega
  unfold xorBuffers
  apply length_writeAt
  omega

/-- Before the page-1 loop: payload bytes are masked, trailer bytes are those of
the page. -/
theorem getElem?_xorPage_core (U P : Nat) (e : Bool) (outbuf a b : List Nat) (k : Nat)
    (hUP : U ≤ P) (ha : a.length = P) (hb : U ≤ b.length) (ho : P ≤ outbuf.length)
    (hk : k < P) :
    (xorPage U P 0 e outbuf a b)[k]? =
      if k < U then some (a.getD k 0 ^^^ b.getD k 0) else some (a.getD k 0) := by
  have hlen : (xorBuffers (if e = true then outbuf else a) a b U).length
      = (if e = true then outbuf else a).length :=
    length_xorBuffers _ a b U (by omega) hb (by cases e <;> simp <;> omega)
  have h0 : P ≤ (if e = true then outbuf else a).length := by cases e <;> simp <;> omega
  unfold xorPage
  simp only [Nat.zero_ne_one, if_false]
  by_cases hlt : U < P
  · simp only [hlt, if_true]
    rw [getElem?_writeAt _ _ _ _ (by rw [hlen]; omega)]
    by_cases hkU : k < U
    · simp only [hkU, if_true]
      exact getElem?_xorBuffers_lt _ a b U k hkU (by omega) hb
    · simp only [hkU, if_false]
      have hal : (if e = true then a
          else xorBuffers (if e = true then outbuf else a) a b U).length = P := by
        cases e
        · simp only [Bool.false_eq_true, if_false]
          rw [length_xorBuffers a a b U (by omega) hb (by omega)]; exact ha
        · simpa using ha
      have hsl : (List.take (P - U) (List.drop U (if e = true then a
          else xorBuffers (if e = true then outbuf else a) a b U))).length = P - U := by
        rw [List.length_take, List.length_drop, hal]; omega
      rw [hsl]
      have : k < U + (P - U) := by omega
      simp only [this, if_true]
      rw [List.getElem?_take, List.getElem?_drop]
      have : k - U < P - U := by omega
      simp only [this, if_true]
      have hidx : U + (k - U) = k := by omega
      rw [hidx]
      cases e
      · simp only [Bool.false_eq_true, if_false]
        rw [getElem?_xorBuffers_ge a a b U k (by omega) (by omega) hb]
        exact getElem?_of_lt a k (by omega)
      · simp only [if_true]
        exact getElem?_of_lt a k (by omega)
  · have hUeq : U = P := by omega
    simp only [hlt, if_false]
    have hkU : k < U := by omega
    simp only [hkU, if_true]
    exact getElem?_xorBuffers_lt _ a b U k hkU (by omega) hb

theorem xorPage_eq_page1Xor (U P pgno : Nat) (e : Bool) (outbuf a b : List Nat) :
    xorPage U P pgno e outbuf a b =
      if pgno = 1 then page1Xor b 8 16 (xorPage U P 0 e outbuf a b)
      else xorPage U P 0 e outbuf a b := by
  unfold xorPage
  simp

/-- Every byte of the page the XOR stage leaves in `out`: a payload byte is
XORed with the mask byte, except bytes 16..23 of page 1, which keep the value
they have in the input page; a trailer byte is the one of the input page. -/
theorem getD_xorPage (U P pgno : Nat) (e : Bool) (outbuf a b : List Nat) (k : Nat)
    (hUP : U ≤ P) (hU : 24 ≤ U) (ha : a.length = P) (hb : U ≤ b.length)
    (ho : P ≤ outbuf.length) (hk : k < P) :
    (xorPage U P pgno e outbuf a b).getD k 0 =
      if k < U ∧ ¬ (pgno = 1 ∧ 16 ≤ k ∧ k < 24) then a.getD k 0 ^^^ b.getD k 0
      else a.getD k 0 := by
  apply getD_of_getElem?
  rw [xorPage_eq_page1Xor]
  have hcore := getElem?_xorPage_core U P e outbuf a b k hUP ha hb ho hk
  by_cases hp : pgno = 1
  · simp only [hp, if_true, true_and]
    rw [getElem?_page1Xor, hcore]
    by_cases hr : 16 ≤ k ∧ k < 16 + 8
    · have h1 : 16 ≤ k ∧ k < 24 := by omega
      have h2 : k < U := by omega
      simp [hr, h1, h2, Nat.xor_assoc]
    · have h1 : ¬ (16 ≤ k ∧ k < 24) := by omega
      simp only [hr, h1, if_false, not_false_eq_true, and_true]
      by_cases h2 : k < U <;> simp [h2]
  · simp only [hp, if_false, false_and, not_false_eq_true, and_true]
    rw [hcore]
    by_cases h2 : k < U <;> simp [h2]

theorem getD_writeAt_zero (buf src : List Nat) (k : Nat) (hk : k < src.length) :
    (writeAt buf 0 src).getD k 0 = src.getD k 0 := by
  apply getD_of_getElem?
  rw [getElem?_writeAt _ _ _ _ (Nat.zero_le _)]
  simp only [Nat.not_lt_zero, if_false, Nat.zero_add, hk, if_true, Nat.sub_zero]
  exact getElem?_of_lt src k hk

theorem length_writeAt_zero_ge (buf src : List Nat) : src.length ≤ (writeAt buf 0 src).length := by
  simp [writeAt]

theorem length_writeAt_ge (buf src : List Nat) (off : Nat) :
    buf.length ≤ (writeAt buf off src).length := by
  simp [writeAt]; omega

theorem getD_writeAt_lt (buf src : List Nat) (off k : Nat) (h : off ≤ buf.length) (hk : k < off) :
    (writeAt buf off src).getD k 0 = buf.getD k 0 := by
  simp only [List.getD_eq_getElem?_getD]
  rw [getElem?_writeAt _ _ _ _ h]
  simp [hk]

theorem getD_writeAt_mid (buf src : List Nat) (off k : Nat) (h : off ≤ buf.length)
    (hk1 : off ≤ k) (hk2 : k < off + src.length) :
    (writeAt buf off src).getD k 0 = src.getD (k - off) 0 := by
  simp only [List.getD_eq_getElem?_getD]
  rw [getElem?_writeAt _ _ _ _ h]
  have : ¬ k < off := by omega
  simp [this, hk2]

theorem getD_writeAt_ge (buf src : List Nat) (off k : Nat) (h : off ≤ buf.length)
    (hk2 : off + src.length ≤ k) :
    (writeAt buf off src).getD k 0 = buf.getD k 0 := by
  simp only [List.getD_eq_getElem?_getD]
  rw [getElem?_writeAt _ _ _ _ h]
  have h1 : ¬ k < off := by omega
  have h2 : ¬ k < off + src.length := by omega
  simp [h1, h2]

/-- Two buffers of the same length that agree from `n` on have the same `drop n`. -/
theorem drop_eq_drop_of_getD (a b : List Nat) (n : Nat) (hl : a.length = b.length)
    (h : ∀ k, n ≤ k → k < a.length → a.getD k 0 = b.getD k 0) : a.drop n = b.drop n := by
  apply List.ext_getElem?
  intro k
  rw [List.getElem?_drop, List.getElem?_drop]
  by_cases hk : n + k < a.length
  · rw [getElem?_of_lt a _ hk, getElem?_of_lt b _ (by omega), h (n + k) (by omega) hk]
  · rw [List.getElem?_eq_none (by omega), List.getElem?_eq_none (by omega)]

theorem length_randomness (h : Host) (n : Nat) : (h.sqlite3_randomness n).length = n := by
  simp [Host.sqlite3_randomness]

theorem pgnoNonce_bigEndian (b : Bool) (pgno : Nat) : pgnoNonce b pgno = pgnoNonce false pgno := by
  cases b <;> simp [pgnoNonce]

/-! ## RC4 codec -/

theorem length_rc4Generate (n : Nat) (st : Rc4State) : (rc4Generate n st).length = n := by
  induction n generalizing st with
  | zero => rfl
  | succ n ih => simp [rc4Generate, ih]

theorem length_rc4Mask (kx nonce : List Nat) (R U : Nat) : (rc4Mask kx nonce R U).length = U := by
  simp [rc4Mask, length_rc4Generate]

/-- With its scratch space ready, a non-null key and a non-zero op,
`sqliteCodecRc4` comes down to `rc4Crypt` on a codec that differs from the
given one in `nullKey` and the scratch space only. -/
theorem sqliteCodecRc4_eq_crypt (h : Host) (c : CodecRc4) (B : List Nat) (pgno op : Nat)
    (hop : op ≠ 0) (hkey : (c.key (op &&& 1)).nullKey = 0) (hs : rc4ScratchReady h c) :
    ∃ mask outbuf, c.pageSize + 4 ≤ mask.length ∧ c.pageSize + 4 ≤ outbuf.length ∧
      sqliteCodecRc4 h c B pgno op =
        rc4Crypt h { c with nullKey := 0, mask := some mask, outbuf := outbuf } mask B pgno op := by
  unfold rc4ScratchReady at hs
  unfold sqliteCodecRc4
  cases hm : c.mask with
  | some mask =>
    rw [hm] at hs
    refine ⟨mask, c.outbuf, hs.1, hs.2, ?_⟩
    simp only [rc4Keyed, hop, if_false]
    rw [if_neg (by simpa using hkey)]
    congr 1
    cases c; simp_all
  | none =>
    rw [hm] at hs
    obtain ⟨hmf, hal⟩ := hs
    obtain ⟨g, hg⟩ := Option.isSome_iff_exists.mp hal
    have hblk : h.malloc (c.pageSize * 2 + 8) = some ((List.range (c.pageSize * 2 + 8)).map g) := by
      simp [Host.malloc, hg]
    refine ⟨((List.range (c.pageSize * 2 + 8)).map g).take (c.pageSize + 4),
      ((List.range (c.pageSize * 2 + 8)).map g).drop (c.pageSize + 4), ?_, ?_, ?_⟩
    · simp; omega
    · simp; omega
    · simp only [hmf, ne_eq, not_true_eq_false, if_false, hblk]
      simp only [rc4Keyed, hop, if_false]
      rw [if_neg (by simpa [CodecRc4.key] using hkey)]

theorem length_xorPage_decode (U P pgno : Nat) (outbuf a b : List Nat)
    (hUP : U ≤ P) (ha : a.length = P) (hb : U ≤ b.length) :
    (xorPage U P pgno false outbuf a b).length = P := by
  have h1 : (xorBuffers a a b U).length = a.length :=
    length_xorBuffers a a b U (by omega) hb (by omega)
  have h2 : U < P → (writeAt (xorBuffers a a b U) U
      (List.take (P - U) (List.drop U (xorBuffers a a b U)))).length = P := by
    intro hlt
    rw [length_writeAt, h1, ha]
    rw [List.length_take, List.length_drop, h1]; omega
  unfold xorPage
  simp only [Bool.false_eq_true, if_false]
  split
  · rw [length_page1Xor]
    split
    · rename_i hlt; exact h2 hlt
    · rw [h1, ha]
  · split
    · rename_i hlt; exact h2 hlt
    · rw [h1, ha]

/-- The page an RC4 encode returns: its length, its payload bytes, its
trailer (the fresh nonce), and what the call leaves in the codec. -/
theorem rc4Crypt_encode (h : Host) (c : CodecRc4) (mask B : List Nat) (pgno op : Nat)
    (hop : op = 6 ∨ op = 7) (hsz : c.usable + c.nonceSize = c.pageSize)
    (hU : 24 ≤ c.usable) (hB : B.length = c.pageSize)
    (hm : c.pageSize + 4 ≤ mask.length) (ho : c.pageSize + 4 ≤ c.outbuf.length) :
    ∃ E, pageRc4 (rc4Crypt h c mask B pgno op) = some E ∧ E.length = c.pageSize ∧
      (∀ k, k < c.usable → E.getD k 0 =
        if pgno = 1 ∧ 16 ≤ k ∧ k < 24 then B.getD k 0
        else B.getD k 0 ^^^
          (rc4Mask (c.key (op &&& 1)).repeat_ (rc4Nonce h c B pgno op)
            c.nonceSize c.usable).getD k 0) ∧
      E.drop c.usable = h.sqlite3_randomness c.nonceSize := by
  have hop4 : op &&& 4 ≠ 0 := by rcases hop with rfl | rfl <;> decide
  have hop2 : op &&& 2 ≠ 0 := by rcases hop with rfl | rfl <;> decide
  have hrl := length_randomness h c.nonceSize
  -- the page after the nonce has been stored in it
  have hz : ∃ z, (if 0 < c.nonceSize ∧ op &&& 4 ≠ 0 then
        writeAt B c.usable (h.sqlite3_randomness c.nonceSize) else B) = z ∧
      z.length = c.pageSize ∧ (∀ k, k < c.usable → z.getD k 0 = B.getD k 0) ∧
      z.drop c.usable = h.sqlite3_randomness c.nonceSize := by
    by_cases hn : 0 < c.nonceSize
    · refine ⟨writeAt B c.usable (h.sqlite3_randomness c.nonceSize), ?_, ?_, ?_, ?_⟩
      · simp [hn, hop4]
      · rw [length_writeAt]; exact hB
        rw [hrl]; omega
      · intro k hk
        exact getD_writeAt_lt _ _ _ _ (by omega) hk
      · unfold writeAt
        have : (List.take c.usable B).length = c.usable := by simp; omega
        rw [List.append_assoc, List.drop_append_eq_append_drop, this]
        simp [hrl]
        rw [List.drop_eq_nil_of_le (by omega)]
        rw [List.drop_eq_nil_of_le (by omega)]
        simp
    · have hn0 : c.nonceSize = 0 := by omega
      refine ⟨B, ?_, hB, fun _ _ => rfl, ?_⟩
      · simp [hn]
      · rw [hn0]
        simp [Host.sqlite3_randomness]
        omega
  obtain ⟨z, hzeq, hzl, hzlt, hzd⟩ := hz
  have hml := length_rc4Mask (c.key (op &&& 1)).repeat_ (rc4Nonce h c B pgno op)
    c.nonceSize c.usable
  have hm1 : c.usable ≤ (writeAt mask 0 (rc4Mask (c.key (op &&& 1)).repeat_
      (rc4Nonce h c B pgno op) c.nonceSize c.usable)).length := by
    have := length_writeAt_zero_ge mask (rc4Mask (c.key (op &&& 1)).repeat_
      (rc4Nonce h c B pgno op) c.nonceSize c.usable)
    omega
  have hpt := fun k hk => getD_xorPage c.usable c.pageSize pgno true c.outbuf z
    (writeAt mask 0 (rc4Mask (c.key (op &&& 1)).repeat_ (rc4Nonce h c B pgno op)
      c.nonceSize c.usable)) k (by omega) hU hzl hm1 (by omega) hk
  have hlen := length_xorPage c.usable c.pageSize pgno true c.outbuf z
    (writeAt mask 0 (rc4Mask (c.key (op &&& 1)).repeat_ (rc4Nonce h c B pgno op)
      c.nonceSize c.usable)) (by omega) hzl hm1 (by omega)
  refine ⟨(xorPage c.usable c.pageSize pgno true c.outbuf z
    (writeAt mask 0 (rc4Mask (c.key (op &&& 1)).repeat_ (rc4Nonce h c B pgno op)
      c.nonceSize c.usable))).take c.pageSize, ?_, ?_, ?_, ?_⟩
  · unfold rc4Crypt
    simp only [hop4, hop2, ne_eq, not_false_eq_true, if_true, pageRc4, decide_True] at hzeq ⊢
    rw [hzeq]
  · rw [List.length_take]; omega
  · intro k hk
    have hkP : k < c.pageSize := by omega
    have e1 : (List.take c.pageSize (xorPage c.usable c.pageSize pgno true c.outbuf z
        (writeAt mask 0 (rc4Mask (c.key (op &&& 1)).repeat_ (rc4Nonce h c B pgno op)
          c.nonceSize c.usable)))).getD k 0 =
        (xorPage c.usable c.pageSize pgno true c.outbuf z
        (writeAt mask 0 (rc4Mask (c.key (op &&& 1)).repeat_ (rc4Nonce h c B pgno op)
          c.nonceSize c.usable))).getD k 0 := by
      simp [List.getD_eq_getElem?_getD, List.getElem?_take, hkP]
    rw [e1, hpt k hkP, hzlt k hk, getD_writeAt_zero _ _ _ (by omega)]
    by_cases hc : pgno = 1 ∧ 16 ≤ k ∧ k < 24
    · simp [hc]
    · simp [hc, hk]
  · rw [← hzd]
    apply drop_eq_drop_of_getD
    · rw [List.length_take]; omega
    · intro k hk1 hk2
      rw [List.length_take] at hk2
      have hkP : k < c.pageSize := by omega
      have e1 : (List.take c.pageSize (xorPage c.usable c.pageSize pgno true c.outbuf z
          (writeAt mask 0 (rc4Mask (c.key (op &&& 1)).repeat_ (rc4Nonce h c B pgno op)
            c.nonceSize c.usable)))).getD k 0 =
          (xorPage c.usable c.pageSize pgno true c.outbuf z
          (writeAt mask 0 (rc4Mask (c.key (op &&& 1)).repeat_ (rc4Nonce h c B pgno op)
            c.nonceSize c.usable))).getD k 0 := by
        simp [List.getD_eq_getElem?_getD, List.getElem?_take, hkP]
      rw [e1, hpt k hkP]
      have : ¬ k < c.usable := by omega
      simp [this]

/-- The page an RC4 decode returns (in place): its length, its payload bytes
and its trailer, which is the one of the input page. -/
theorem rc4Crypt_decode (h : Host) (c : CodecRc4) (mask E : List Nat) (pgno op : Nat)
    (hop : op = 2 ∨ op = 3) (hsz : c.usable + c.nonceSize = c.pageSize)
    (hU : 24 ≤ c.usable) (hE : E.length = c.pageSize) :
    ∃ D, pageRc4 (rc4Crypt h c mask E pgno op) = some D ∧ D.length = c.pageSize ∧
      (∀ k, k < c.usable → D.getD k 0 =
        if pgno = 1 ∧ 16 ≤ k ∧ k < 24 then E.getD k 0
        else E.getD k 0 ^^^
          (rc4Mask (c.key (op &&& 1)).repeat_ (rc4Nonce h c E pgno op)
            c.nonceSize c.usable).getD k 0) ∧
      D.drop c.usable = E.drop c.usable := by
  have hop4 : op &&& 4 = 0 := by rcases hop with rfl | rfl <;> decide
  have hop2 : op &&& 2 ≠ 0 := by rcases hop with rfl | rfl <;> decide
  have hml := length_rc4Mask (c.key (op &&& 1)).repeat_ (rc4Nonce h c E pgno op)
    c.nonceSize c.usable
  have hm1 : c.usable ≤ (writeAt mask 0 (rc4Mask (c.key (op &&& 1)).repeat_
      (rc4Nonce h c E pgno op) c.nonceSize c.usable)).length := by
    have := length_writeAt_zero_ge mask (rc4Mask (c.key (op &&& 1)).repeat_
      (rc4Nonce h c E pgno op) c.nonceSize c.usable)
    omega
  -- on a decode `outbuf` is not used: any buffer long enough may stand for it
  have hpt := fun k hk => getD_xorPage c.usable c.pageSize pgno false E E
    (writeAt mask 0 (rc4Mask (c.key (op &&& 1)).repeat_ (rc4Nonce h c E pgno op)
      c.nonceSize c.usable)) k (by omega) hU hE hm1 (by omega) hk
  have hlen := length_xorPage_decode c.usable c.pageSize pgno E E
    (writeAt mask 0 (rc4Mask (c.key (op &&& 1)).repeat_ (rc4Nonce h c E pgno op)
      c.nonceSize c.usable)) (by omega) hE hm1
  have hout : ∀ o, xorPage c.usable c.pageSize pgno false o E
      (writeAt mask 0 (rc4Mask (c.key (op &&& 1)).repeat_ (rc4Nonce h c E pgno op)
        c.nonceSize c.usable)) = xorPage c.usable c.pageSize pgno false E E
      (writeAt mask 0 (rc4Mask (c.key (op &&& 1)).repeat_ (rc4Nonce h c E pgno op)
        c.nonceSize c.usable)) := by
    intro o; simp [xorPage]
  refine ⟨xorPage c.usable c.pageSize pgno false E E
    (writeAt mask 0 (rc4Mask (c.key (op &&& 1)).repeat_ (rc4Nonce h c E pgno op)
      c.nonceSize c.usable)), ?_, hlen, ?_, ?_⟩
  · unfold rc4Crypt
    simp only [hop4, hop2, ne_eq, not_true_eq_false, not_false_eq_true, if_true, if_false,
      and_false, pageRc4, decide_False]
    rw [hout]
  · intro k hk
    rw [hpt k (by omega), getD_writeAt_zero _ _ _ (by omega)]
    by_cases hc : pgno = 1 ∧ 16 ≤ k ∧ k < 24
    · simp [hc]
    · simp [hc, hk]
  · apply drop_eq_drop_of_getD
    · rw [hlen, hE]
    · intro k hk1 hk2
      rw [hlen] at hk2
      rw [hpt k hk2]
      have : ¬ k < c.usable := by omega
      simp [this]

/-- The nonce a decode reads back from an encoded page is the nonce the encode
used. -/
theorem rc4Nonce_decode_eq (h h2 : Host) (c c2 : CodecRc4) (B E : List Nat) (pgno op : Nat)
    (hop : op = 6 ∨ op = 7) (hU2 : c2.usable = c.usable) (hR2 : c2.nonceSize = c.nonceSize)
    (hEd : E.drop c.usable = h.sqlite3_randomness c.nonceSize) :
    rc4Nonce h2 c2 E pgno (op - 4) = rc4Nonce h c B pgno op := by
  have hop4 : op &&& 4 ≠ 0 := by rcases hop with rfl | rfl <;> decide
  have hop4' : (op - 4) &&& 4 = 0 := by rcases hop with rfl | rfl <;> decide
  unfold rc4Nonce
  rw [hU2, hR2, hEd, pgnoNonce_bigEndian h.bigEndian, pgnoNonce_bigEndian h2.bigEndian]
  simp only [hop4, hop4', ne_eq, not_true_eq_false, not_false_eq_true, if_true, if_false]
  have : List.take c.nonceSize (h.sqlite3_randomness c.nonceSize)
      = h.sqlite3_randomness c.nonceSize := by
    apply List.take_of_length_le
    rw [length_randomness]
  rw [this]

/-- Encode then decode with the RC4 codec: the decoded page has the payload of
`B` and, as its reserved trailer, the nonce the encoder drew. -/
theorem rc4_round_trip (h h2 : Host) (c c2 : CodecRc4) (B : List Nat)
    (pgno op : Nat) (hop : op = 6 ∨ op = 7)
    (hkey : (c.key (op &&& 1)).nullKey = 0)
    (hsz : c.usable + c.nonceSize = c.pageSize) (hU : 24 ≤ c.usable)
    (hB : B.length = c.pageSize) (hs : rc4ScratchReady h c)
    (hk2 : c2.key (op &&& 1) = c.key (op &&& 1)) (hP2 : c2.pageSize = c.pageSize)
    (hU2 : c2.usable = c.usable) (hR2 : c2.nonceSize = c.nonceSize)
    (hs2 : rc4ScratchReady h2 c2) :
    ∃ E D, pageRc4 (sqliteCodecRc4 h c B pgno op) = some E ∧
      pageRc4 (sqliteCodecRc4 h2 c2 E pgno (op - 4)) = some D ∧
      D.length = c.pageSize ∧ D.take c.usable = B.take c.usable ∧
      D.drop c.usable = h.sqlite3_randomness c.nonceSize ∧
      (∀ k, 16 ≤ k → k < 24 → pgno = 1 → E.getD k 0 = B.getD k 0) := by
  have hop0 : op ≠ 0 := by rcases hop with rfl | rfl <;> decide
  have hopd : op - 4 = 2 ∨ op - 4 = 3 := by rcases hop with rfl | rfl <;> decide
  have hopd0 : op - 4 ≠ 0 := by rcases hop with rfl | rfl <;> decide
  have hslot : (op - 4) &&& 1 = op &&& 1 := by rcases hop with rfl | rfl <;> decide
  obtain ⟨mask, outbuf, hml, hol, heq⟩ := sqliteCodecRc4_eq_crypt h c B pgno op hop0 hkey hs
  obtain ⟨E, hE, hEl, hEp, hEd⟩ := rc4Crypt_encode h
    { c with nullKey := 0, mask := some mask, outbuf := outbuf } mask B pgno op hop hsz hU hB
    hml hol
  have hkey2 : (c2.key ((op - 4) &&& 1)).nullKey = 0 := by rw [hslot, hk2]; exact hkey
  obtain ⟨mask2, outbuf2, _, _, heq2⟩ :=
    sqliteCodecRc4_eq_crypt h2 c2 E pgno (op - 4) hopd0 hkey2 hs2
  obtain ⟨D, hD, hDl, hDp, hDd⟩ := rc4Crypt_decode h2
    { c2 with nullKey := 0, mask := some mask2, outbuf := outbuf2 } mask2 E pgno (op - 4) hopd
    (by simp only [hU2, hR2, hP2]; exact hsz) (by simp only [hU2]; exact hU)
    (by simp only [hP2]; exact hEl)
  have hnonce := rc4Nonce_decode_eq h h2
    { c with nullKey := 0, mask := some mask, outbuf := outbuf }
    { c2 with nullKey := 0, mask := some mask2, outbuf := outbuf2 } B E pgno op hop hU2 hR2 hEd
  refine ⟨E, D, by rw [heq]; exact hE, by rw [heq2]; exact hD, by rw [hDl]; exact hP2, ?_,
    by simp only [hU2] at hDd; rw [hDd]; exact hEd, ?_⟩
  swap
  · intro k hk1 hk2 hp
    have hE1 := hEp k (Nat.lt_of_lt_of_le hk2 hU)
    have hc : pgno = 1 ∧ 16 ≤ k ∧ k < 24 := ⟨hp, hk1, hk2⟩
    simp only [hc, and_self, if_true] at hE1
    exact hE1
  apply take_eq_take_of_getD
  · simp only at hDl; rw [hDl, hP2]; omega
  · omega
  · intro k hk
    have hD1 := hDp k (by simp only [hU2]; exact hk)
    have hE1 := hEp k hk
    simp only at hD1 hE1
    rw [hD1, hnonce]
    have hkx : ({ c2 with nullKey := 0, mask := some mask2, outbuf := outbuf2 } : CodecRc4).key
        ((op - 4) &&& 1) = c.key (op &&& 1) := by
      rw [hslot, ← hk2]; rfl
    have hkx1 : ({ c with nullKey := 0, mask := some mask, outbuf := outbuf } : CodecRc4).key
        (op &&& 1) = c.key (op &&& 1) := rfl
    rw [hkx, hU2, hR2]
    rw [hkx1] at hE1
    by_cases hc : pgno = 1 ∧ 16 ≤ k ∧ k < 24
    · simp only [hc, and_self, if_true] at hE1 ⊢
      exact hE1
    · simp only [hc, if_false] at hE1 ⊢
      rw [hE1, Nat.xor_assoc, Nat.xor_self, Nat.xor_zero]

/-- C1. RC4 backend, payload round trip.  For a non-null key in the selected
slot, a page layout with `usable + nonceSize = pageSize` and `usable >= 24`,
any page number and any buffer `B` of `pageSize` bytes: encoding `B` with op 6
or 7 returns a page `E`, and decoding `E` with op 2 or 3 (the same slot), by a
codec that holds the same key in that slot and the same layout, returns a page
of `pageSize` bytes whose first `usable` bytes are those of `B`, whatever the
random nonce the encoder drew (the host `h` is arbitrary). -/
theorem C1_rc4_payload_round_trip (h h2 : Host) (c c2 : CodecRc4) (B : List Nat)
    (pgno op : Nat) (hop : op = 6 ∨ op = 7)
    (hkey : (c.key (op &&& 1)).nullKey = 0)
    (hsz : c.usable + c.nonceSize = c.pageSize) (hU : 24 ≤ c.usable)
    (hB : B.length = c.pageSize) (hs : rc4ScratchReady h c)
    (hk2 : c2.key (op &&& 1) = c.key (op &&& 1)) (hP2 : c2.pageSize = c.pageSize)
    (hU2 : c2.usable = c.usable) (hR2 : c2.nonceSize = c.nonceSize)
    (hs2 : rc4ScratchReady h2 c2) :
    ∃ E D, pageRc4 (sqliteCodecRc4 h c B pgno op) = some E ∧
      pageRc4 (sqliteCodecRc4 h2 c2 E pgno (op - 4)) = some D ∧
      D.length = c.pageSize ∧ D.take c.usable = B.take c.usable := by
  obtain ⟨E, D, h1, h2', h3, h4, _, _⟩ :=
    rc4_round_trip h h2 c c2 B pgno op hop hkey hsz hU hB hs hk2 hP2 hU2 hR2 hs2
  exact ⟨E, D, h1, h2', h3, h4⟩

/-- Witness of C1: page 1 of 512 zero bytes, key "Key", op 6 then op 2. -/
theorem C1_rc4_payload_round_trip_witness :
    ((6 : Nat) = 6 ∨ (6 : Nat) = 7) ∧ ((rc4Fresh 512).key (6 &&& 1)).nullKey = 0 ∧
    (rc4Fresh 512).usable + (rc4Fresh 512).nonceSize = (rc4Fresh 512).pageSize ∧
    24 ≤ (rc4Fresh 512).usable ∧ (List.replicate 512 0).length = (rc4Fresh 512).pageSize ∧
    rc4ScratchReady hostOnes (rc4Fresh 512) ∧
    ∃ E D, pageRc4 (sqliteCodecRc4 hostOnes (rc4Fresh 512) (List.replicate 512 0) 1 6) = some E ∧
      pageRc4 (sqliteCodecRc4 hostOnes (rc4Fresh 512) E 1 (6 - 4)) = some D ∧
      D.length = (rc4Fresh 512).pageSize ∧
      D.take (rc4Fresh 512).usable = (List.replicate 512 0).take (rc4Fresh 512).usable :=
  ⟨Or.inl rfl, rfl, rfl, by decide, List.length_replicate 512 0, ⟨rfl, rfl⟩,
    C1_rc4_payload_round_trip hostOnes hostOnes (rc4Fresh 512) (rc4Fresh 512)
      (List.replicate 512 0) 1 6 (Or.inl rfl) rfl rfl (by decide) (List.length_replicate 512 0)
      ⟨rfl, rfl⟩ rfl rfl rfl rfl ⟨rfl, rfl⟩⟩

/-- Counterexample to C3: with the 4 reserved bytes of the RC4 backend, the page
of 512 zero bytes does not come back whole: the decoded page differs from it
(its last four bytes are the nonce 1, 1, 1, 1 drawn by the encoder). -/
theorem C3_rc4_whole_page_counterexample :
    ∃ E D, pageRc4 (sqliteCodecRc4 hostOnes (rc4Fresh 512) (List.replicate 512 0) 2 6) = some E ∧
      pageRc4 (sqliteCodecRc4 hostOnes (rc4Fresh 512) E 2 2) = some D ∧
      D ≠ List.replicate 512 0 := by
  obtain ⟨E, D, h1, h2, _, _, h5, _⟩ :=
    rc4_round_trip hostOnes hostOnes (rc4Fresh 512) (rc4Fresh 512)
      (List.replicate 512 0) 2 6 (Or.inl rfl) rfl rfl (by decide) (List.length_replicate 512 0)
      ⟨rfl, rfl⟩ rfl rfl rfl rfl ⟨rfl, rfl⟩
  refine ⟨E, D, h1, h2, ?_⟩
  intro hD
  rw [hD] at h5
  have h6 : List.drop 508 (List.replicate 512 0) = hostOnes.sqlite3_randomness 4 := h5
  rw [List.drop_replicate] at h6
  exact absurd h6 (by decide)

/-- C3 as amended.  Whole-page behaviour of an RC4 encode followed by a decode:
the first `usable` bytes of the result are those of `B`, and the reserved
trailer of the result holds the nonce the encoder drew (not the trailer of
`B`). -/
theorem C3_rc4_round_trip_amended (h h2 : Host) (c c2 : CodecRc4) (B : List Nat)
    (pgno op : Nat) (hop : op = 6 ∨ op = 7)
    (hkey : (c.key (op &&& 1)).nullKey = 0)
    (hsz : c.usable + c.nonceSize = c.pageSize) (hU : 24 ≤ c.usable)
    (hB : B.length = c.pageSize) (hs : rc4ScratchReady h c)
    (hk2 : c2.key (op &&& 1) = c.key (op &&& 1)) (hP2 : c2.pageSize = c.pageSize)
    (hU2 : c2.usable = c.usable) (hR2 : c2.nonceSize = c.nonceSize)
    (hs2 : rc4ScratchReady h2 c2) :
    ∃ E D, pageRc4 (sqliteCodecRc4 h c B pgno op) = some E ∧
      pageRc4 (sqliteCodecRc4 h2 c2 E pgno (op - 4)) = some D ∧
      D = B.take c.usable ++ h.sqlite3_randomness c.nonceSize := by
  obtain ⟨E, D, h1, h2', _, h4, h5, _⟩ :=
    rc4_round_trip h h2 c c2 B pgno op hop hkey hsz hU hB hs hk2 hP2 hU2 hR2 hs2
  refine ⟨E, D, h1, h2', ?_⟩
  rw [← h4, ← h5, List.take_append_drop]

/-- Witness of the amended C3: page 2 of 512 zero bytes, key "Key". -/
theorem C3_rc4_round_trip_amended_witness :
    ((7 : Nat) = 6 ∨ (7 : Nat) = 7) ∧ ((rc4Fresh 512).key (7 &&& 1)).nullKey = 0 ∧
    (rc4Fresh 512).usable + (rc4Fresh 512).nonceSize = (rc4Fresh 512).pageSize ∧
    24 ≤ (rc4Fresh 512).usable ∧ (List.replicate 512 0).length = (rc4Fresh 512).pageSize ∧
    rc4ScratchReady hostOnes (rc4Fresh 512) ∧
    ∃ E D, pageRc4 (sqliteCodecRc4 hostOnes (rc4Fresh 512) (List.replicate 512 0) 2 7) = some E ∧
      pageRc4 (sqliteCodecRc4 hostOnes (rc4Fresh 512) E 2 (7 - 4)) = some D ∧
      D = (List.replicate 512 0).take (rc4Fresh 512).usable ++
        hostOnes.sqlite3_randomness (rc4Fresh 512).nonceSize :=
  ⟨Or.inr rfl, rfl, rfl, by decide, List.length_replicate 512 0, ⟨rfl, rfl⟩,
    C3_rc4_round_trip_amended hostOnes hostOnes (rc4Fresh 512) (rc4Fresh 512)
      (List.replicate 512 0) 2 7 (Or.inr rfl) rfl rfl (by decide) (List.length_replicate 512 0)
      ⟨rfl, rfl⟩ rfl rfl rfl rfl ⟨rfl, rfl⟩⟩

/-! ## AES-128-CCM codec -/

theorem length_aesCtrMask (A : Rijndael) (rk : List Nat) (n : Nat) (nonce : List Nat) :
    (aesCtrMask A rk n nonce).length = 16 * n := by
  induction n generalizing nonce with
  | zero => rfl
  | succ n ih => simp [aesCtrMask, ih, A.length_encrypt]; omega

theorem length_computeMacLoop (A : Rijndael) (rk data : List Nat) (n i : Nat) (out : List Nat)
    (ho : out.length = 16) : (computeMacLoop A rk data n i out).length = 16 := by
  induction n generalizing i out with
  | zero => exact ho
  | succ n ih => simp only [computeMacLoop]; exact ih _ _ (A.length_encrypt _ _)

theorem length_computeMac (A : Rijndael) (rk data : List Nat) (nData : Nat) (nonce : List Nat) :
    (computeMac A rk data nData nonce).length = 16 :=
  length_computeMacLoop A rk data _ 0 _ (A.length_encrypt _ _)

/-- The 16 bytes at offset `i` of two buffers that share their first `T` bytes,
when the block lies inside those `T` bytes. -/
theorem block_eq_of_take_eq (d d2 : List Nat) (T i : Nat) (h : d.take T = d2.take T)
    (hi : i + 16 ≤ T) : (d.drop i).take 16 = (d2.drop i).take 16 := by
  have e1 : ∀ l : List Nat, (l.drop i).take 16 = ((l.take T).drop i).take 16 := by
    intro l
    rw [List.drop_take, List.take_take]
    congr 1
    omega
  rw [e1 d, e1 d2, h]

theorem computeMacLoop_congr (A : Rijndael) (rk d d2 : List Nat) (T n i : Nat)
    (out : List Nat) (h : d.take T = d2.take T) (hi : i + 16 * n ≤ T) :
    computeMacLoop A rk d n i out = computeMacLoop A rk d2 n i out := by
  induction n generalizing i out with
  | zero => rfl
  | succ n ih =>
    simp only [computeMacLoop]
    rw [block_eq_of_take_eq d d2 T i h (by omega)]
    exact ih _ _ (by omega)

/-- The MAC depends on the first `U` bytes of the data and the first 16 bytes of
the nonce only (`U` a multiple of 16). -/
theorem computeMac_congr (A : Rijndael) (rk d d2 : List Nat) (U : Nat) (n n2 : List Nat)
    (hU : U % 16 = 0) (h : d.take U = d2.take U) (hn : n.take 16 = n2.take 16) :
    computeMac A rk d U n = computeMac A rk d2 U n2 := by
  unfold computeMac
  rw [hn]
  apply computeMacLoop_congr A rk d d2 U _ 0 _ h
  omega

theorem aesPage1_eq (o mask : List Nat) :
    aesPage1 o mask =
      some (o.take 16 ++ writeAt (o.drop 16) 0 (xorBytes (o.drop 16) (mask.drop 16) 8)) := by
  simp [aesPage1, xorBuffersAes]

theorem getD_drop (l : List Nat) (i k : Nat) : (l.drop i).getD k 0 = l.getD (i + k) 0 := by
  simp [List.getD_eq_getElem?_getD, List.getElem?_drop]

/-- Bytes of the page after the page-1 step of the AES codec. -/
theorem getD_aesPage1 (o mask : List Nat) (k : Nat) (ho : 24 ≤ o.length)
    (hm : 24 ≤ mask.length) :
    (o.take 16 ++ writeAt (o.drop 16) 0 (xorBytes (o.drop 16) (mask.drop 16) 8)).getD k 0 =
      if 16 ≤ k ∧ k < 24 then o.getD k 0 ^^^ mask.getD k 0 else o.getD k 0 := by
  have hx : (xorBytes (o.drop 16) (mask.drop 16) 8).length = 8 := by
    rw [length_xorBytes]; simp; omega
  have ht : (o.take 16).length = 16 := by simp; omega
  by_cases h1 : k < 16
  · have : ¬ (16 ≤ k ∧ k < 24) := by omega
    simp only [this, if_false]
    simp only [List.getD_eq_getElem?_getD]
    rw [List.getElem?_append_left (by omega), List.getElem?_take]
    simp [h1]
  · simp only [List.getD_eq_getElem?_getD]
    rw [List.getElem?_append_right (by omega), ht]
    simp only [← List.getD_eq_getElem?_getD]
    by_cases h2 : k < 24
    · have : 16 ≤ k ∧ k < 24 := by omega
      simp only [this, and_self, if_true]
      rw [getD_writeAt_zero _ _ _ (by omega)]
      apply getD_of_getElem?
      rw [getElem?_xorBytes _ _ _ _ (by omega) (by simp; omega) (by simp; omega)]
      rw [getD_drop, getD_drop]
      have : 16 + (k - 16) = k := by omega
      rw [this]
    · have : ¬ (16 ≤ k ∧ k < 24) := by omega
      simp only [this, if_false]
      rw [getD_writeAt_ge _ _ _ _ (Nat.zero_le _) (by omega), getD_drop]
      have : 16 + (k - 16) = k := by omega
      rw [this]

theorem length_aesPage1 (o mask : List Nat) (ho : 24 ≤ o.length) (hm : 24 ≤ mask.length) :
    (o.take 16 ++ writeAt (o.drop 16) 0 (xorBytes (o.drop 16) (mask.drop 16) 8)).length
      = o.length := by
  have hx : (xorBytes (o.drop 16) (mask.drop 16) 8).length = 8 := by
    rw [length_xorBytes]; simp; omega
  rw [List.length_append, length_writeAt _ _ _ (by rw [hx]; simp; omega)]
  simp; omega

/-- The XOR stage of the AES codec, byte by byte: the first `U + 16` bytes of
`out` are those of `src` XORed with the mask, except bytes 16..23 of page 1,
which are those of `src`; the bytes behind are left as they were. -/
theorem aesXor_spec (U pgno : Nat) (src mask out : List Nat) (hU4 : U % 16 = 0) (hU : 16 ≤ U)
    (hs : U + 16 ≤ src.length) (hm : U + 16 ≤ mask.length) (ho : U + 16 ≤ out.length) :
    ∃ o, aesXor U pgno src mask out = some o ∧ o.length = out.length ∧
      (∀ k, k < U + 16 → o.getD k 0 =
        if pgno = 1 ∧ 16 ≤ k ∧ k < 24 then src.getD k 0
        else src.getD k 0 ^^^ mask.getD k 0) ∧
      (∀ k, U + 16 ≤ k → o.getD k 0 = out.getD k 0) := by
  have h4 : (U + 16) % 4 = 0 := by omega
  have hxl : (xorBytes src mask (U + 16)).length = U + 16 := by
    rw [length_xorBytes]; omega
  have hol : (writeAt out 0 (xorBytes src mask (U + 16))).length = out.length :=
    length_writeAt _ _ _ (by omega)
  have hlt : ∀ k, k < U + 16 →
      (writeAt out 0 (xorBytes src mask (U + 16))).getD k 0 = src.getD k 0 ^^^ mask.getD k 0 := by
    intro k hk
    rw [getD_writeAt_zero _ _ _ (by omega)]
    exact getD_of_getElem? _ _ _ (getElem?_xorBytes _ _ _ _ hk (by omega) (by omega))
  have hge : ∀ k, U + 16 ≤ k →
      (writeAt out 0 (xorBytes src mask (U + 16))).getD k 0 = out.getD k 0 := by
    intro k hk
    exact getD_writeAt_ge _ _ _ _ (Nat.zero_le _) (by omega)
  unfold aesXor xorBuffersAes
  simp only [h4, if_true, Option.some_bind]
  by_cases hp : pgno = 1
  · simp only [hp, if_true, true_and, aesPage1_eq]
    refine ⟨_, rfl, ?_, ?_, ?_⟩
    · rw [length_aesPage1 _ _ (by omega) (by omega), hol]
    · intro k hk
      rw [getD_aesPage1 _ _ _ (by omega) (by omega), hlt k hk]
      by_cases hr : 16 ≤ k ∧ k < 24
      · simp [hr, Nat.xor_assoc]
      · simp [hr]
    · intro k hk
      rw [getD_aesPage1 _ _ _ (by omega) (by omega), hge k hk]
      have : ¬ (16 ≤ k ∧ k < 24) := by omega
      simp [this]
  · simp only [hp, if_false, false_and]
    exact ⟨_, rfl, hol, hlt, hge⟩

theorem ext_of_getD (a b : List Nat) (hl : a.length = b.length)
    (h : ∀ k, k < a.length → a.getD k 0 = b.getD k 0) : a = b := by
  apply List.ext_getElem?
  intro k
  by_cases hk : k < a.length
  · rw [getElem?_of_lt a k hk, getElem?_of_lt b k (by omega), h k hk]
  · rw [List.getElem?_eq_none (by omega), List.getElem?_eq_none (by omega)]

theorem getD_take (l : List Nat) (n k : Nat) (hk : k < n) :
    (l.take n).getD k 0 = l.getD k 0 := by
  simp [List.getD_eq_getElem?_getD, List.getElem?_take, hk]

theorem getD_append_left (a b : List Nat) (k : Nat) (hk : k < a.length) :
    (a ++ b).getD k 0 = a.getD k 0 := by
  simp only [List.getD_eq_getElem?_getD]
  rw [List.getElem?_append_left hk]

theorem getD_append_right (a b : List Nat) (k : Nat) (hk : a.length ≤ k) :
    (a ++ b).getD k 0 = b.getD (k - a.length) 0 := by
  simp only [List.getD_eq_getElem?_getD]
  rw [List.getElem?_append_right hk]

/-- With its scratch space ready and the encrypting layout, the first block of
the AES codec hands over a codec that differs from the given one in the
scratch space only. -/
theorem aesAlloc_ok (h : Host) (c : CodecAes128Ccm) (B : List Nat)
    (hs : aesScratchReady h c) (hl : aesLayout c) :
    ∃ mask outbuf, c.pageSize + 4 ≤ mask.length ∧ c.pageSize + 4 ≤ outbuf.length ∧
      aesAlloc h c B = Except.ok ({ c with mask := some mask, outbuf := outbuf }, mask) := by
  obtain ⟨h16, h0, h32⟩ := hl
  unfold aesScratchReady at hs
  unfold aesAlloc
  cases hm : c.mask with
  | some mask =>
    rw [hm] at hs
    refine ⟨mask, c.outbuf, hs.1, hs.2, ?_⟩
    simp only
    congr 2
    cases c; simp_all
  | none =>
    rw [hm] at hs
    obtain ⟨hmf, hal⟩ := hs
    obtain ⟨g, hg⟩ := Option.isSome_iff_exists.mp hal
    have hblk : h.malloc (c.pageSize * 2 + 8) = some ((List.range (c.pageSize * 2 + 8)).map g) := by
      simp [Host.malloc, hg]
    have hgate : ¬ ((c.pageSize : Int) - (c.usable : Int) < 32) := by omega
    have h15 : c.usable &&& 15 = 0 := by
      have := Nat.and_pow_two_sub_one_eq_mod c.usable 4
      simpa [h16] using this
    refine ⟨((List.range (c.pageSize * 2 + 8)).map g).take (c.pageSize + 4),
      ((List.range (c.pageSize * 2 + 8)).map g).drop (c.pageSize + 4), ?_, ?_, ?_⟩
    · simp; omega
    · simp; omega
    · simp only [hmf, ne_eq, not_true_eq_false, if_false, hblk, hgate, h15]

/-- The page an AES encode returns.  With `Z` the payload of `B` followed by
its MAC and `ctr` the counter-mode mask, the first `usable + 16` bytes of the
page are those of `Z` XORed with `ctr` (bytes 16..23 of page 1 are those of
`Z`), and the 16 bytes behind are the fresh nonce. -/
theorem aesCrypt_encode (A : Rijndael) (h : Host) (c : CodecAes128Ccm) (mask B : List Nat)
    (pgno op : Nat) (hop : op = 6 ∨ op = 7) (hl : aesLayout c) (hB : B.length = c.pageSize)
    (hm : c.pageSize + 4 ≤ mask.length) (ho : c.pageSize + 4 ≤ c.outbuf.length) :
    ∃ r E, aesCrypt A h c mask B pgno op = some r ∧ pageAes r = some E ∧
      E.length = c.pageSize ∧
      (∀ k, k < c.usable + 16 → E.getD k 0 =
        if pgno = 1 ∧ 16 ≤ k ∧ k < 24 then
          (B.take c.usable ++ computeMac A (c.key (op &&& 1)).keySchedule B c.usable
            (h.sqlite3_randomness 16)).getD k 0
        else
          (B.take c.usable ++ computeMac A (c.key (op &&& 1)).keySchedule B c.usable
            (h.sqlite3_randomness 16)).getD k 0 ^^^
          (aesCtrMask A (c.key (op &&& 1)).keySchedule ((c.usable + 16 + 15) / 16)
            (h.sqlite3_randomness 16)).getD k 0) ∧
      (E.drop (c.usable + 16)).take 16 = h.sqlite3_randomness 16 := by
  obtain ⟨h16, h0, h32⟩ := hl
  have hU : 16 ≤ c.usable := by omega
  have hop4 : op &&& 4 ≠ 0 := by rcases hop with rfl | rfl <;> decide
  have hop2 : op &&& 2 ≠ 0 := by rcases hop with rfl | rfl <;> decide
  have hrl := length_randomness h 16
  -- the caller's page with the nonce stored in it
  have hz1l : (writeAt B (c.usable + 16) (h.sqlite3_randomness 16)).length = c.pageSize := by
    rw [length_writeAt _ _ _ (by omega)]; exact hB
  have hz1t : (writeAt B (c.usable + 16) (h.sqlite3_randomness 16)).take c.usable
      = B.take c.usable := by
    apply take_eq_take_of_getD _ _ _ (by omega) (by omega)
    intro k hk
    exact getD_writeAt_lt _ _ _ _ (by omega) (by omega)
  have hz1n : ((writeAt B (c.usable + 16) (h.sqlite3_randomness 16)).drop (c.usable + 16)).take 16
      = (h.sqlite3_randomness 16).take 16 := by
    apply ext_of_getD
    · simp [hz1l, hrl]; omega
    · intro k hk
      have hk16 : k < 16 := by
        rw [List.length_take] at hk; omega
      rw [getD_take _ _ _ hk16, getD_take _ _ _ hk16, getD_drop,
        getD_writeAt_mid _ _ _ _ (by omega) (by omega) (by omega)]
      congr 1; omega
  have hmac := computeMac_congr A (c.key (op &&& 1)).keySchedule
    (writeAt B (c.usable + 16) (h.sqlite3_randomness 16)) B c.usable
    ((writeAt B (c.usable + 16) (h.sqlite3_randomness 16)).drop (c.usable + 16))
    (h.sqlite3_randomness 16) h16 hz1t hz1n
  have hmacl := length_computeMac A (c.key (op &&& 1)).keySchedule B c.usable
    (h.sqlite3_randomness 16)
  -- the caller's page with nonce and MAC stored in it
  have hz2l : (writeAt (writeAt B (c.usable + 16) (h.sqlite3_randomness 16)) c.usable
      (computeMac A (c.key (op &&& 1)).keySchedule B c.usable (h.sqlite3_randomness 16))).length
      = c.pageSize := by
    rw [length_writeAt _ _ _ (by omega)]; exact hz1l
  have hz2 : ∀ k, k < c.usable + 16 →
      (writeAt (writeAt B (c.usable + 16) (h.sqlite3_randomness 16)) c.usable
        (computeMac A (c.key (op &&& 1)).keySchedule B c.usable
          (h.sqlite3_randomness 16))).getD k 0 =
      (B.take c.usable ++ computeMac A (c.key (op &&& 1)).keySchedule B c.usable
        (h.sqlite3_randomness 16)).getD k 0 := by
    intro k hk
    have htl : (B.take c.usable).length = c.usable := by simp; omega
    by_cases hk1 : k < c.usable
    · rw [getD_writeAt_lt _ _ _ _ (by omega) hk1, getD_append_left _ _ _ (by omega),
        getD_take _ _ _ hk1, getD_writeAt_lt _ _ _ _ (by omega) (by omega)]
    · rw [getD_writeAt_mid _ _ _ _ (by omega) (by omega) (by omega),
        getD_append_right _ _ _ (by omega), htl]
  have hctrl := length_aesCtrMask A (c.key (op &&& 1)).keySchedule ((c.usable + 16 + 15) / 16)
    (h.sqlite3_randomness 16)
  have hm1l : c.usable + 16 ≤ (writeAt mask 0 (aesCtrMask A (c.key (op &&& 1)).keySchedule
      ((c.usable + 16 + 15) / 16) (h.sqlite3_randomness 16))).length := by
    have := length_writeAt_ge mask (aesCtrMask A (c.key (op &&& 1)).keySchedule
      ((c.usable + 16 + 15) / 16) (h.sqlite3_randomness 16)) 0
    omega
  have ho1l : (writeAt c.outbuf (c.usable + 16) (h.sqlite3_randomness 16)).length
      = c.outbuf.length := length_writeAt _ _ _ (by omega)
  obtain ⟨o, hxo, hol, holt, hoge⟩ := aesXor_spec c.usable pgno
    (writeAt (writeAt B (c.usable + 16) (h.sqlite3_randomness 16)) c.usable
      (computeMac A (c.key (op &&& 1)).keySchedule B c.usable (h.sqlite3_randomness 16)))
    (writeAt mask 0 (aesCtrMask A (c.key (op &&& 1)).keySchedule
      ((c.usable + 16 + 15) / 16) (h.sqlite3_randomness 16)))
    (writeAt c.outbuf (c.usable + 16) (h.sqlite3_randomness 16))
    h16 hU (by omega) hm1l (by omega)
  refine ⟨⟨{ c with
        mask := some (writeAt mask 0 (aesCtrMask A (c.key (op &&& 1)).keySchedule
          ((c.usable + 16 + 15) / 16) (h.sqlite3_randomness 16)))
        outbuf := o },
      writeAt (writeAt B (c.usable + 16) (h.sqlite3_randomness 16)) c.usable
        (computeMac A (c.key (op &&& 1)).keySchedule B c.usable (h.sqlite3_randomness 16)),
      Ret.outbuf⟩, o.take c.pageSize, ?_, ?_, ?_, ?_, ?_⟩
  · unfold aesCrypt
    simp only [hop4, if_false, aesNonce, aesMask, hop2, ne_eq, not_false_eq_true, if_true, hmac,
      hxo, Option.some_bind]
  · simp [pageAes]
  · rw [List.length_take]; omega
  · intro k hk
    rw [getD_take _ _ _ (by omega), holt k hk, hz2 k hk, getD_writeAt_zero _ _ _ (by omega)]
  · apply ext_of_getD
    · simp [hol, ho1l, hrl]; omega
    · intro k hk
      have hk16 : k < 16 := by
        rw [List.length_take] at hk; omega
      rw [getD_take _ _ _ hk16, getD_drop, getD_take _ _ _ (by omega),
        hoge _ (by omega), getD_writeAt_mid _ _ _ _ (by omega) (by omega) (by omega)]
      congr 1; omega

/-- The page an AES decode has unmasked when it comes to verify the MAC. -/
theorem aesUnmasked_spec (A : Rijndael) (h : Host) (c : CodecAes128Ccm) (mask E : List Nat)
    (pgno op : Nat) (hop : op = 2 ∨ op = 3) (hl : aesLayout c) (hE : E.length = c.pageSize) :
    ∃ z, aesUnmasked A h c mask E pgno op = some z ∧ z.length = c.pageSize ∧
      (∀ k, k < c.usable + 16 → z.getD k 0 =
        if pgno = 1 ∧ 16 ≤ k ∧ k < 24 then E.getD k 0
        else E.getD k 0 ^^^
          (aesCtrMask A (c.key (op &&& 1)).keySchedule ((c.usable + 16 + 15) / 16)
            ((E.drop (c.usable + 16)).take 16)).getD k 0) ∧
      (∀ k, c.usable + 16 ≤ k → z.getD k 0 = E.getD k 0) := by
  obtain ⟨h16, h0, h32⟩ := hl
  have hU : 16 ≤ c.usable := by omega
  have hop4 : op &&& 4 = 0 := by rcases hop with rfl | rfl <;> decide
  have hop2 : op &&& 2 ≠ 0 := by rcases hop with rfl | rfl <;> decide
  have hctrl := length_aesCtrMask A (c.key (op &&& 1)).keySchedule ((c.usable + 16 + 15) / 16)
    ((E.drop (c.usable + 16)).take 16)
  have hm1l : c.usable + 16 ≤ (writeAt mask 0 (aesCtrMask A (c.key (op &&& 1)).keySchedule
      ((c.usable + 16 + 15) / 16) ((E.drop (c.usable + 16)).take 16))).length := by
    have := length_writeAt_zero_ge mask (aesCtrMask A (c.key (op &&& 1)).keySchedule
      ((c.usable + 16 + 15) / 16) ((E.drop (c.usable + 16)).take 16))
    omega
  obtain ⟨o, hxo, hol, holt, hoge⟩ := aesXor_spec c.usable pgno E
    (writeAt mask 0 (aesCtrMask A (c.key (op &&& 1)).keySchedule
      ((c.usable + 16 + 15) / 16) ((E.drop (c.usable + 16)).take 16))) E
    h16 hU (by omega) hm1l (by omega)
  refine ⟨o, ?_, by rw [hol]; exact hE, ?_, hoge⟩
  · unfold aesUnmasked
    simp only [aesNonce, aesMask, hop4, hop2, ne_eq, not_true_eq_false, not_false_eq_true,
      if_true, if_false]
    exact hxo
  · intro k hk
    rw [holt k hk, getD_writeAt_zero _ _ _ (by omega)]

/-- On a decode the AES codec returns the unmasked page when its MAC verifies
and `pageSize` zero bytes otherwise. -/
theorem aesCrypt_decode (A : Rijndael) (h : Host) (c : CodecAes128Ccm) (mask E z : List Nat)
    (pgno op : Nat) (hop4 : op &&& 4 = 0) (hz : aesUnmasked A h c mask E pgno op = some z)
    (hzl : z.length = c.pageSize) :
    (aesCrypt A h c mask E pgno op).bind pageAes =
      if computeMac A (c.key (op &&& 1)).keySchedule z c.usable (z.drop (c.usable + 16))
          ≠ (z.drop c.usable).take 16
      then some (List.replicate c.pageSize 0) else some z := by
  have hzero : writeAt z 0 (List.replicate c.pageSize 0) = List.replicate c.pageSize 0 := by
    unfold writeAt
    rw [List.drop_eq_nil_of_le (by simp [hzl])]
    simp
  unfold aesCrypt
  simp only [hop4, if_true, hz, Option.some_bind, hzero]
  split <;> simp [pageAes]

/-- Encode then decode with the AES-CCM codec: the decode gets to the MAC
verification with a page `z` whose MAC verifies, returns `z`, and `z` has the
payload of `B`. -/
theorem aes_round_trip (A : Rijndael) (h h2 : Host) (c c2 : CodecAes128Ccm) (B : List Nat)
    (pgno op : Nat) (hop : op = 6 ∨ op = 7)
    (hkey : (c.key (op &&& 1)).nullKey = 0) (hl : aesLayout c)
    (hB : B.length = c.pageSize) (hs : aesScratchReady h c)
    (hk2 : c2.key (op &&& 1) = c.key (op &&& 1)) (hP2 : c2.pageSize = c.pageSize)
    (hU2 : c2.usable = c.usable) (hs2 : aesScratchReady h2 c2) :
    ∃ r E z, sqliteCodecAes128Ccm A h c B pgno op = some r ∧ pageAes r = some E ∧
      aesDecoded A h2 c2 E pgno (op - 4) = some z ∧
      computeMac A (c2.key ((op - 4) &&& 1)).keySchedule z c2.usable (z.drop (c2.usable + 16))
        = (z.drop c2.usable).take 16 ∧
      (sqliteCodecAes128Ccm A h2 c2 E pgno (op - 4)).bind pageAes = some z ∧
      z.length = c.pageSize ∧ z.take c.usable = B.take c.usable ∧
      (∀ k, 16 ≤ k → k < 24 → k < c.usable → pgno = 1 → E.getD k 0 = B.getD k 0) ∧
      E.length = c.pageSize := by
  have hl' := hl
  obtain ⟨h16, h0, h32⟩ := hl
  have hop0 : op ≠ 0 := by rcases hop with rfl | rfl <;> decide
  have hopd : op - 4 = 2 ∨ op - 4 = 3 := by rcases hop with rfl | rfl <;> decide
  have hopd0 : op - 4 ≠ 0 := by rcases hop with rfl | rfl <;> decide
  have hopd4 : (op - 4) &&& 4 = 0 := by rcases hop with rfl | rfl <;> decide
  have hslot : (op - 4) &&& 1 = op &&& 1 := by rcases hop with rfl | rfl <;> decide
  have hl2 : aesLayout c2 := by
    unfold aesLayout; rw [hU2, hP2]; exact hl'
  -- the encode
  obtain ⟨mask, outbuf, hml, hol, hal⟩ := aesAlloc_ok h c B hs hl'
  obtain ⟨r, E, hr, hE, hEl, hEp, hEn⟩ := aesCrypt_encode A h
    { c with nullKey := 0, mask := some mask, outbuf := outbuf } mask B pgno op hop hl' hB hml hol
  have henc : sqliteCodecAes128Ccm A h c B pgno op = some r := by
    unfold sqliteCodecAes128Ccm
    rw [hal]
    simp only [aesKeyed, hop0, if_false]
    rw [if_neg (by simpa [CodecAes128Ccm.key] using hkey)]
    exact hr
  -- the decode
  obtain ⟨mask2, outbuf2, _, _, hal2⟩ := aesAlloc_ok h2 c2 E hs2 hl2
  have hkey2 : (c2.key ((op - 4) &&& 1)).nullKey = 0 := by rw [hslot, hk2]; exact hkey
  obtain ⟨z, hz, hzl, hzp, hzg⟩ := aesUnmasked_spec A h2
    { c2 with nullKey := 0, mask := some mask2, outbuf := outbuf2 } mask2 E pgno (op - 4) hopd hl2
    (by simp only [hP2]; exact hEl)
  simp only at hz hzl hzp hzg hEp hEn hEl
  have hkx : ({ c2 with nullKey := 0, mask := some mask2, outbuf := outbuf2 } :
      CodecAes128Ccm).key ((op - 4) &&& 1) = c.key (op &&& 1) := by
    rw [hslot, ← hk2]; rfl
  have hkx1 : ({ c with nullKey := 0, mask := some mask, outbuf := outbuf } :
      CodecAes128Ccm).key (op &&& 1) = c.key (op &&& 1) := rfl
  rw [hkx, hU2, hEn] at hzp
  rw [hkx1] at hEp
  rw [hU2] at hzg
  -- byte by byte, `z` is the payload of `B` followed by its MAC
  have hzZ : ∀ k, k < c.usable + 16 → z.getD k 0 =
      (B.take c.usable ++ computeMac A (c.key (op &&& 1)).keySchedule B c.usable
        (h.sqlite3_randomness 16)).getD k 0 := by
    intro k hk
    rw [hzp k hk, hEp k hk]
    by_cases hc : pgno = 1 ∧ 16 ≤ k ∧ k < 24
    · simp only [hc, and_self, if_true]
    · simp only [hc, if_false]
      rw [Nat.xor_assoc, Nat.xor_self, Nat.xor_zero]
  have hmacl := length_computeMac A (c.key (op &&& 1)).keySchedule B c.usable
    (h.sqlite3_randomness 16)
  have htl : (B.take c.usable).length = c.usable := by simp; omega
  have hzt : z.take c.usable = B.take c.usable := by
    apply take_eq_take_of_getD _ _ _ (by omega) (by omega)
    intro k hk
    rw [hzZ k (by omega), getD_append_left _ _ _ (by omega), getD_take _ _ _ hk]
  have hzm : (z.drop c.usable).take 16 = computeMac A (c.key (op &&& 1)).keySchedule B c.usable
      (h.sqlite3_randomness 16) := by
    apply ext_of_getD
    · rw [List.length_take, List.length_drop, hzl, hP2, hmacl]; omega
    · intro k hk
      have hk16 : k < 16 := by
        rw [List.length_take] at hk; omega
      rw [getD_take _ _ _ hk16, getD_drop, hzZ _ (by omega),
        getD_append_right _ _ _ (by omega), htl]
      congr 1; omega
  have hzn : (z.drop (c.usable + 16)).take 16 = (h.sqlite3_randomness 16).take 16 := by
    rw [← hEn, List.take_take]
    apply ext_of_getD
    · simp [hzl, hP2, hEl]
    · intro k hk
      have hk16 : k < 16 := by
        rw [List.length_take] at hk; omega
      rw [getD_take _ _ _ hk16, getD_take _ _ _ (by omega), getD_drop, getD_drop,
        hzg _ (by omega)]
  have hmacz : computeMac A (c.key (op &&& 1)).keySchedule z c.usable (z.drop (c.usable + 16))
      = computeMac A (c.key (op &&& 1)).keySchedule B c.usable (h.sqlite3_randomness 16) :=
    computeMac_congr A _ z B c.usable _ _ h16 hzt hzn
  have hdec : aesDecoded A h2 c2 E pgno (op - 4) = some z := by
    unfold aesDecoded
    rw [hal2]
    simp only [hopd0, hopd4, false_or, ne_eq, not_true_eq_false]
    rw [if_neg (by simpa [CodecAes128Ccm.key] using hkey2)]
    exact hz
  have hret : (sqliteCodecAes128Ccm A h2 c2 E pgno (op - 4)).bind pageAes = some z := by
    unfold sqliteCodecAes128Ccm
    rw [hal2]
    simp only [aesKeyed, hopd0, if_false]
    rw [if_neg (by simpa [CodecAes128Ccm.key] using hkey2)]
    rw [aesCrypt_decode A h2 _ mask2 E z pgno (op - 4) hopd4 hz (by simp only [hzl])]
    rw [hkx]
    simp only [hU2]
    rw [hmacz, hzm]
    simp
  refine ⟨r, E, z, henc, hE, hdec, ?_, hret, by rw [hzl]; exact hP2, hzt, ?_, hEl⟩
  · rw [hslot, hk2, hU2, hmacz, hzm]
  · intro k hk1 hk2 hk3 hp
    rw [hEp k (by omega)]
    have : pgno = 1 ∧ 16 ≤ k ∧ k < 24 := ⟨hp, hk1, hk2⟩
    simp only [this, and_self, if_true]
    rw [getD_append_left _ _ _ (by omega), getD_take _ _ _ (by omega)]

/-! ### The CBC-MAC tells pages apart -/

theorem xorBlock_length (a b : List Nat) (ha : a.length = 16) (hb : b.length = 16) :
    (xorBlock a b).length = 16 := by
  unfold xorBlock; rw [length_xorBytes]; omega

theorem getD_xorBlock (a b : List Nat) (k : Nat) (ha : a.length = 16) (hb : b.length = 16)
    (hk : k < 16) : (xorBlock a b).getD k 0 = a.getD k 0 ^^^ b.getD k 0 :=
  getD_of_getElem? _ _ _ (getElem?_xorBytes a b 16 k hk (by omega) (by omega))

theorem xorBlock_left_ne (a a2 b : List Nat) (ha : a.length = 16) (ha2 : a2.length = 16)
    (hb : b.length = 16) (hne : a ≠ a2) : xorBlock a b ≠ xorBlock a2 b := by
  intro heq
  apply hne
  apply ext_of_getD _ _ (by omega)
  intro k hk
  have h1 := getD_xorBlock a b k ha hb (by omega)
  have h2 := getD_xorBlock a2 b k ha2 hb (by omega)
  rw [heq, h2] at h1
  exact (Nat.xor_left_injective h1).symm

theorem xorBlock_right_ne (a b b2 : List Nat) (ha : a.length = 16) (hb : b.length = 16)
    (hb2 : b2.length = 16) (hne : b ≠ b2) : xorBlock a b ≠ xorBlock a b2 := by
  intro heq
  apply hne
  apply ext_of_getD _ _ (by omega)
  intro k hk
  have h1 := getD_xorBlock a b k ha hb (by omega)
  have h2 := getD_xorBlock a b2 k ha hb2 (by omega)
  rw [heq, h2] at h1
  exact (Nat.xor_right_injective h1).symm

theorem length_block (d : List Nat) (i : Nat) (h : i + 16 ≤ d.length) :
    ((d.drop i).take 16).length = 16 := by
  rw [List.length_take, List.length_drop]; omega

/-- From different chaining values, over the same data, the CBC chain ends in
different values. -/
theorem computeMacLoop_out_ne (A : Rijndael) (hinj : A.Injective) (rk d d2 : List Nat)
    (n i : Nat) (out out2 : List Nat) (ho : out.length = 16) (ho2 : out2.length = 16)
    (hne : out ≠ out2) (hd : i + 16 * n ≤ d.length) (hl : d2.length = d.length)
    (hsame : ∀ k, i ≤ k → d2.getD k 0 = d.getD k 0) :
    computeMacLoop A rk d n i out ≠ computeMacLoop A rk d2 n i out2 := by
  induction n generalizing i out out2 with
  | zero => exact hne
  | succ n ih =>
    simp only [computeMacLoop]
    have hb : (d2.drop i).take 16 = (d.drop i).take 16 := by
      apply ext_of_getD
      · rw [length_block d i (by omega), length_block d2 i (by omega)]
      · intro k hk
        have hk16 : k < 16 := by rw [length_block d2 i (by omega)] at hk; exact hk
        rw [getD_take _ _ _ hk16, getD_take _ _ _ hk16, getD_drop, getD_drop,
          hsame _ (by omega)]
    rw [hb]
    apply ih _ _ _ (A.length_encrypt _ _) (A.length_encrypt _ _)
    · intro heq
      have := hinj rk _ _ (xorBlock_length _ _ ho (length_block d i (by omega)))
        (xorBlock_length _ _ ho2 (length_block d i (by omega))) heq
      exact xorBlock_left_ne _ _ _ ho ho2 (length_block d i (by omega)) hne this
    · omega
    · intro k hk; exact hsame k (by omega)

/-- Two data buffers that differ in exactly one byte, inside the blocks the
chain covers, give different MACs. -/
theorem computeMacLoop_data_ne (A : Rijndael) (hinj : A.Injective) (rk d d2 : List Nat)
    (n i p : Nat) (out : List Nat) (ho : out.length = 16)
    (hd : i + 16 * n ≤ d.length) (hl : d2.length = d.length)
    (hp1 : i ≤ p) (hp2 : p < i + 16 * n) (hdiff : d2.getD p 0 ≠ d.getD p 0)
    (hsame : ∀ k, k ≠ p → d2.getD k 0 = d.getD k 0) :
    computeMacLoop A rk d n i out ≠ computeMacLoop A rk d2 n i out := by
  induction n generalizing i out with
  | zero => omega
  | succ n ih =>
    simp only [computeMacLoop]
    by_cases hin : p < i + 16
    · -- the changed byte is in this block
      have hbne : (d.drop i).take 16 ≠ (d2.drop i).take 16 := by
        intro heq
        apply hdiff
        have := congrArg (fun l => l.getD (p - i) 0) heq
        simp only at this
        rw [getD_take _ _ _ (by omega), getD_take _ _ _ (by omega), getD_drop, getD_drop] at this
        have e : i + (p - i) = p := by omega
        rw [e] at this
        exact this.symm
      apply computeMacLoop_out_ne A hinj rk d d2 n (i + 16) _ _ (A.length_encrypt _ _)
        (A.length_encrypt _ _) _ (by omega) hl (fun k hk => hsame k (by omega))
      intro heq
      have := hinj rk _ _ (xorBlock_length _ _ ho (length_block d i (by omega)))
        (xorBlock_length _ _ ho (length_block d2 i (by omega))) heq
      exact xorBlock_right_ne _ _ _ ho (length_block d i (by omega))
        (length_block d2 i (by omega)) hbne this
    · -- this block is unchanged
      have hb : (d2.drop i).take 16 = (d.drop i).take 16 := by
        apply ext_of_getD
        · rw [length_block d i (by omega), length_block d2 i (by omega)]
        · intro k hk
          have hk16 : k < 16 := by rw [length_block d2 i (by omega)] at hk; exact hk
          rw [getD_take _ _ _ hk16, getD_take _ _ _ hk16, getD_drop, getD_drop,
            hsame _ (by omega)]
      rw [hb]
      exact ih _ _ (A.length_encrypt _ _) (by omega) (by omega) (by omega)

theorem computeMac_data_ne (A : Rijndael) (hinj : A.Injective) (rk d d2 : List Nat)
    (U p : Nat) (nonce : List Nat) (hU : U % 16 = 0) (hd : U ≤ d.length)
    (hl : d2.length = d.length) (hp : p < U) (hdiff : d2.getD p 0 ≠ d.getD p 0)
    (hsame : ∀ k, k ≠ p → d2.getD k 0 = d.getD k 0) :
    computeMac A rk d U nonce ≠ computeMac A rk d2 U nonce := by
  unfold computeMac
  exact computeMacLoop_data_ne A hinj rk d d2 _ 0 p _ (A.length_encrypt _ _) (by omega) hl
    (Nat.zero_le _) (by omega) hdiff hsame

theorem xor_two_pow_ne (x b : Nat) : x ^^^ 2 ^ b ≠ x := by
  intro h
  have h2 : x ^^^ 2 ^ b = x ^^^ 0 := by rw [Nat.xor_zero]; exact h
  have := Nat.xor_right_injective h2
  exact absurd this (by positivity)

theorem length_flipBit (E : List Nat) (p b : Nat) : (flipBit E p b).length = E.length := by
  simp [flipBit]

theorem getD_flipBit_self (E : List Nat) (p b : Nat) (hp : p < E.length) :
    (flipBit E p b).getD p 0 = E.getD p 0 ^^^ 2 ^ b := by
  apply getD_of_getElem?
  simp [flipBit, List.getElem?_set, hp]

theorem getD_flipBit_ne (E : List Nat) (p b k : Nat) (hk : k ≠ p) :
    (flipBit E p b).getD k 0 = E.getD k 0 := by
  simp only [List.getD_eq_getElem?_getD, flipBit, List.getElem?_set]
  rw [if_neg (by omega)]

/-- Encode with the AES-CCM codec, flip one bit of the payload or of the MAC
field of the encoded page, decode: the result is `pageSize` zero bytes. -/
theorem aes_tamper (A : Rijndael) (hinj : A.Injective) (h h2 : Host) (c c2 : CodecAes128Ccm)
    (B : List Nat) (pgno op p b : Nat) (hop : op = 6 ∨ op = 7)
    (hkey : (c.key (op &&& 1)).nullKey = 0) (hl : aesLayout c)
    (hB : B.length = c.pageSize) (hs : aesScratchReady h c)
    (hk2 : c2.key (op &&& 1) = c.key (op &&& 1)) (hP2 : c2.pageSize = c.pageSize)
    (hU2 : c2.usable = c.usable) (hs2 : aesScratchReady h2 c2) (hp : p < c.usable + 16) :
    ∃ E, (sqliteCodecAes128Ccm A h c B pgno op).bind pageAes = some E ∧
      (sqliteCodecAes128Ccm A h2 c2 (flipBit E p b) pgno (op - 4)).bind pageAes
        = some (List.replicate c.pageSize 0) := by
  obtain ⟨r, E, z, henc, hE, hdec, hmacok, _, hzl, _, _, hEl⟩ :=
    aes_round_trip A h h2 c c2 B pgno op hop hkey hl hB hs hk2 hP2 hU2 hs2
  refine ⟨E, by rw [henc]; exact hE, ?_⟩
  have hl' := hl
  obtain ⟨h16, h0, h32⟩ := hl
  have hopd : op - 4 = 2 ∨ op - 4 = 3 := by rcases hop with rfl | rfl <;> decide
  have hopd0 : op - 4 ≠ 0 := by rcases hop with rfl | rfl <;> decide
  have hopd4 : (op - 4) &&& 4 = 0 := by rcases hop with rfl | rfl <;> decide
  have hslot : (op - 4) &&& 1 = op &&& 1 := by rcases hop with rfl | rfl <;> decide
  have hl2 : aesLayout c2 := by
    unfold aesLayout; rw [hU2, hP2]; exact hl'
  have hkey2 : (c2.key ((op - 4) &&& 1)).nullKey = 0 := by rw [hslot, hk2]; exact hkey
  -- the page the decode of `E` unmasks
  obtain ⟨mask2, outbuf2, _, _, hal2⟩ := aesAlloc_ok h2 c2 E hs2 hl2
  have hzu : aesUnmasked A h2 { c2 with nullKey := 0, mask := some mask2, outbuf := outbuf2 }
      mask2 E pgno (op - 4) = some z := by
    unfold aesDecoded at hdec
    rw [hal2] at hdec
    simp only [hopd0, hopd4, false_or, ne_eq, not_true_eq_false] at hdec
    rw [if_neg (by simpa [CodecAes128Ccm.key] using hkey2)] at hdec
    exact hdec
  obtain ⟨z0, hz0, _, hzp, hzg⟩ := aesUnmasked_spec A h2
    { c2 with nullKey := 0, mask := some mask2, outbuf := outbuf2 } mask2 E pgno (op - 4) hopd hl2
    (by simp only [hP2]; exact hEl)
  have hzz : z = z0 := by rw [hz0] at hzu; exact (Option.some.inj hzu).symm
  subst hzz
  -- the page the decode of the altered page unmasks
  have hFl : (flipBit E p b).length = c.pageSize := by rw [length_flipBit]; exact hEl
  obtain ⟨mask3, outbuf3, _, _, hal3⟩ := aesAlloc_ok h2 c2 (flipBit E p b) hs2 hl2
  obtain ⟨y, hy, hyl, hyp, hyg⟩ := aesUnmasked_spec A h2
    { c2 with nullKey := 0, mask := some mask3, outbuf := outbuf3 } mask3 (flipBit E p b) pgno
    (op - 4) hopd hl2 (by simp only [hP2]; exact hFl)
  simp only at hzp hzg hyp hyg hyl hzl
  have hkx : ∀ m o, ({ c2 with nullKey := 0, mask := some m, outbuf := o } :
      CodecAes128Ccm).key ((op - 4) &&& 1) = c.key (op &&& 1) := by
    intro m o; rw [hslot, ← hk2]; rfl
  -- the nonce field is not touched by the flip
  have hnon : ((flipBit E p b).drop (c2.usable + 16)).take 16 = (E.drop (c2.usable + 16)).take 16 := by
    apply ext_of_getD
    · rw [List.length_take, List.length_take, List.length_drop, List.length_drop, length_flipBit]
    · intro k hk
      have hk16 : k < 16 := by rw [List.length_take] at hk; omega
      rw [getD_take _ _ _ hk16, getD_take _ _ _ hk16, getD_drop, getD_drop,
        getD_flipBit_ne _ _ _ _ (by omega)]
  rw [hkx, hnon] at hyp
  rw [hkx] at hzp
  -- `y` differs from `z` in the byte at `p` and nowhere else
  have hysame : ∀ k, k ≠ p → y.getD k 0 = z.getD k 0 := by
    intro k hk
    by_cases hk1 : k < c2.usable + 16
    · rw [hyp k hk1, hzp k hk1, getD_flipBit_ne _ _ _ _ hk]
    · rw [hyg k (by omega), hzg k (by omega), getD_flipBit_ne _ _ _ _ hk]
  have hydiff : y.getD p 0 ≠ z.getD p 0 := by
    rw [hyp p (by omega), hzp p (by omega), getD_flipBit_self _ _ _ (by omega)]
    by_cases hc : pgno = 1 ∧ 16 ≤ p ∧ p < 24
    · simp only [hc, and_self, if_true]
      exact xor_two_pow_ne _ _
    · simp only [hc, if_false]
      rw [Nat.xor_assoc, Nat.xor_comm (2 ^ b), ← Nat.xor_assoc]
      exact xor_two_pow_ne _ _
  have hynon : (y.drop (c2.usable + 16)).take 16 = (z.drop (c2.usable + 16)).take 16 := by
    apply ext_of_getD
    · rw [List.length_take, List.length_take, List.length_drop, List.length_drop, hyl, hzl, hP2]
    · intro k hk
      have hk16 : k < 16 := by rw [List.length_take] at hk; omega
      rw [getD_take _ _ _ hk16, getD_take _ _ _ hk16, getD_drop, getD_drop,
        hysame _ (by omega)]
  -- hence the MAC of `y` does not verify
  have hbad : computeMac A (c.key (op &&& 1)).keySchedule y c2.usable (y.drop (c2.usable + 16))
      ≠ (y.drop c2.usable).take 16 := by
    rw [hslot, hk2] at hmacok
    by_cases hpU : p < c2.usable
    · -- a payload byte was altered: the MAC changes, the MAC field does not
      have hfield : (y.drop c2.usable).take 16 = (z.drop c2.usable).take 16 := by
        apply ext_of_getD
        · rw [List.length_take, List.length_take, List.length_drop, List.length_drop, hyl, hzl,
            hP2]
        · intro k hk
          have hk16 : k < 16 := by rw [List.length_take] at hk; omega
          rw [getD_take _ _ _ hk16, getD_take _ _ _ hk16, getD_drop, getD_drop,
            hysame _ (by omega)]
      rw [hfield, ← hmacok]
      rw [computeMac_congr A _ y y c2.usable (y.drop (c2.usable + 16))
        (z.drop (c2.usable + 16)) (by omega) rfl (by rw [hynon])]
      exact (computeMac_data_ne A hinj _ z y c2.usable p _ (by omega) (by omega)
        (by rw [hyl, hzl, hP2]) hpU hydiff hysame).symm
    · -- a byte of the MAC field was altered: the MAC does not change, the field does
      have htake : y.take c2.usable = z.take c2.usable := by
        apply take_eq_take_of_getD _ _ _ (by omega) (by omega)
        intro k hk
        exact hysame k (by omega)
      rw [computeMac_congr A _ y z c2.usable _ _ (by omega) htake hynon, hmacok]
      intro heq
      apply hydiff
      have := congrArg (fun l => l.getD (p - c2.usable) 0) heq
      simp only at this
      rw [getD_take _ _ _ (by omega), getD_take _ _ _ (by omega), getD_drop, getD_drop] at this
      have e : c2.usable + (p - c2.usable) = p := by omega
      rw [e] at this
      exact this.symm
  unfold sqliteCodecAes128Ccm
  rw [hal3]
  simp only [aesKeyed, hopd0, if_false]
  rw [if_neg (by simpa [CodecAes128Ccm.key] using hkey2)]
  rw [aesCrypt_decode A h2 _ mask3 (flipBit E p b) y pgno (op - 4) hopd4 hy (by simp only [hyl])]
  rw [hkx]
  simp only
  rw [if_pos hbad, hP2]

theorem xorRijndael_injective : xorRijndael.Injective := by
  intro rk x y hx hy heq
  apply ext_of_getD _ _ (by omega)
  intro k hk
  have h1 := congrArg (fun l => l[k]?) heq
  simp only [xorRijndael, List.getElem?_map] at h1
  rw [List.getElem?_range (by omega)] at h1
  simp only [Option.map_some', Option.some.injEq] at h1
  exact Nat.xor_left_injective h1

/-- What the first block of the AES codec hands over has the keys and the page
layout of the codec given. -/
theorem aesAlloc_fields (h : Host) (c c2 : CodecAes128Ccm) (B mask : List Nat)
    (hal : aesAlloc h c B = Except.ok (c2, mask)) :
    c2.key0 = c.key0 ∧ c2.key1 = c.key1 ∧ c2.pageSize = c.pageSize ∧ c2.usable = c.usable := by
  unfold aesAlloc at hal
  split at hal
  · simp only [Except.ok.injEq, Prod.mk.injEq] at hal
    rw [← hal.1]; simp
  · split at hal
    · simp at hal
    · split at hal
      · simp at hal
      · split at hal
        · simp at hal
        · split at hal
          · simp at hal
          · simp only [Except.ok.injEq, Prod.mk.injEq] at hal
            rw [← hal.1]; simp

/-- A decode in place keeps the length of the page. -/
theorem length_aesXor_inplace (U pgno : Nat) (z mask o : List Nat)
    (ho : aesXor U pgno z mask z = some o) : o.length = z.length := by
  unfold aesXor xorBuffersAes at ho
  split at ho
  · simp only [Option.some_bind] at ho
    have h1 : (writeAt z 0 (xorBytes z mask (U + 16))).length = z.length := by
      apply length_writeAt
      rw [length_xorBytes]; omega
    split at ho
    · rw [aesPage1_eq] at ho
      rw [← Option.some.inj ho, List.length_append, length_writeAt, List.length_take,
        List.length_drop, h1]
      · omega
      · rw [length_xorBytes]; simp
    · rw [← Option.some.inj ho, h1]
  · simp at ho

/-- C2. AES-128-CCM backend, authenticated round trip.  With at least 32
reserved bytes behind a payload that is a (positive) multiple of 16, a
non-null key in the selected slot and a successful allocation, for every page
number and every buffer `B` of `pageSize` bytes: encoding `B` with op 6 or 7
returns a page `E`; decoding `E` with op 2 or 3 (same slot), by a codec that
holds the same key in that slot and the same layout, gets to the MAC
verification with an unmasked page `z` whose recomputed MAC equals the stored
one, returns `z` (not the zeroed page), and the first `usable` bytes of `z`
are those of `B`. -/
theorem C2_aes_authenticated_round_trip (A : Rijndael) (h h2 : Host)
    (c c2 : CodecAes128Ccm) (B : List Nat) (pgno op : Nat) (hop : op = 6 ∨ op = 7)
    (hkey : (c.key (op &&& 1)).nullKey = 0) (hl : aesLayout c)
    (hB : B.length = c.pageSize) (hs : aesScratchReady h c)
    (hk2 : c2.key (op &&& 1) = c.key (op &&& 1)) (hP2 : c2.pageSize = c.pageSize)
    (hU2 : c2.usable = c.usable) (hs2 : aesScratchReady h2 c2) :
    ∃ E z, (sqliteCodecAes128Ccm A h c B pgno op).bind pageAes = some E ∧
      aesDecoded A h2 c2 E pgno (op - 4) = some z ∧
      computeMac A (c2.key ((op - 4) &&& 1)).keySchedule z c2.usable (z.drop (c2.usable + 16))
        = (z.drop c2.usable).take 16 ∧
      (sqliteCodecAes128Ccm A h2 c2 E pgno (op - 4)).bind pageAes = some z ∧
      z.length = c.pageSize ∧ z.take c.usable = B.take c.usable := by
  obtain ⟨r, E, z, henc, hE, hdec, hmac, hret, hzl, hzt, _, _⟩ :=
    aes_round_trip A h h2 c c2 B pgno op hop hkey hl hB hs hk2 hP2 hU2 hs2
  exact ⟨E, z, by rw [henc]; exact hE, hdec, hmac, hret, hzl, hzt⟩

/-- Witness of C2: page 1 of 512 zero bytes, 32 reserved bytes, op 6 then 2. -/
theorem C2_aes_authenticated_round_trip_witness :
    ((6 : Nat) = 6 ∨ (6 : Nat) = 7) ∧ ((aesFresh 512 32).key (6 &&& 1)).nullKey = 0 ∧
    aesLayout (aesFresh 512 32) ∧ (List.replicate 512 0).length = (aesFresh 512 32).pageSize ∧
    aesScratchReady hostOnes (aesFresh 512 32) ∧
    ∃ E z, (sqliteCodecAes128Ccm xorRijndael hostOnes (aesFresh 512 32)
        (List.replicate 512 0) 1 6).bind pageAes = some E ∧
      aesDecoded xorRijndael hostOnes (aesFresh 512 32) E 1 (6 - 4) = some z ∧
      computeMac xorRijndael ((aesFresh 512 32).key ((6 - 4) &&& 1)).keySchedule z
          (aesFresh 512 32).usable (z.drop ((aesFresh 512 32).usable + 16))
        = (z.drop (aesFresh 512 32).usable).take 16 ∧
      (sqliteCodecAes128Ccm xorRijndael hostOnes (aesFresh 512 32) E 1 (6 - 4)).bind pageAes
        = some z ∧
      z.length = (aesFresh 512 32).pageSize ∧
      z.take (aesFresh 512 32).usable = (List.replicate 512 0).take (aesFresh 512 32).usable :=
  ⟨Or.inl rfl, rfl, ⟨by decide, by decide, by decide⟩, List.length_replicate 512 0, ⟨rfl, rfl⟩,
    C2_aes_authenticated_round_trip xorRijndael hostOnes hostOnes (aesFresh 512 32)
      (aesFresh 512 32) (List.replicate 512 0) 1 6 (Or.inl rfl) rfl
      ⟨by decide, by decide, by decide⟩ (List.length_replicate 512 0) ⟨rfl, rfl⟩
      rfl rfl rfl ⟨rfl, rfl⟩⟩

/-- C5. AES-128-CCM decode: whenever a decode call gets to the MAC
verification with the unmasked page `z`, and the MAC recomputed over the
payload of `z` and its nonce differs from the MAC stored in `z`, the page
returned is zero in all its `pageSize` bytes. -/
theorem C5_aes_mac_mismatch_zero_page (A : Rijndael) (h : Host) (c : CodecAes128Ccm)
    (zData z : List Nat) (pgno op : Nat) (hlen : zData.length = c.pageSize)
    (hz : aesDecoded A h c zData pgno op = some z)
    (hmac : computeMac A (c.key (op &&& 1)).keySchedule z c.usable (z.drop (c.usable + 16))
      ≠ (z.drop c.usable).take 16) :
    (sqliteCodecAes128Ccm A h c zData pgno op).bind pageAes
      = some (List.replicate c.pageSize 0) := by
  unfold aesDecoded at hz
  unfold sqliteCodecAes128Ccm
  cases hal : aesAlloc h c zData with
  | error r => rw [hal] at hz; simp at hz
  | ok p =>
    obtain ⟨c2, mask⟩ := p
    rw [hal] at hz
    simp only at hz ⊢
    obtain ⟨hk0, hk1, hP, hU⟩ := aesAlloc_fields h c c2 zData mask hal
    have hkey : c2.key (op &&& 1) = c.key (op &&& 1) := by
      unfold CodecAes128Ccm.key; rw [hk0, hk1]
    by_cases hcond : op = 0 ∨ op &&& 4 ≠ 0 ∨ (c2.key (op &&& 1)).nullKey ≠ 0
    · rw [if_pos hcond] at hz; simp at hz
    · rw [if_neg hcond] at hz
      have hop0 : op ≠ 0 := fun e => hcond (Or.inl e)
      have hop4 : op &&& 4 = 0 := by
        by_contra e; exact hcond (Or.inr (Or.inl e))
      have hnn : ¬ (c2.key (op &&& 1)).nullKey ≠ 0 := fun e => hcond (Or.inr (Or.inr e))
      have hzl : z.length = c.pageSize := by
        unfold aesUnmasked at hz
        rw [length_aesXor_inplace _ _ _ _ _ hz, hlen]
      simp only [aesKeyed, hop0, if_false]
      rw [if_neg hnn]
      rw [aesCrypt_decode A h _ mask zData z pgno op hop4 hz (by simp only [hzl, hP])]
      have hkx : ({ c2 with nullKey := 0 } : CodecAes128Ccm).key (op &&& 1)
          = c.key (op &&& 1) := by rw [← hkey]; rfl
      rw [hkx]
      simp only [hU, hP]
      rw [if_pos hmac]

/-- Witness of C5: the page of 64 zero bytes carries no valid MAC. -/
theorem C5_aes_mac_mismatch_zero_page_witness :
    (List.replicate 64 0).length = (aesFresh 64 32).pageSize ∧
    aesDecoded xorRijndael hostOnes (aesFresh 64 32) (List.replicate 64 0) 2 2
      = some unmaskedZeros ∧
    computeMac xorRijndael ((aesFresh 64 32).key (2 &&& 1)).keySchedule unmaskedZeros
        (aesFresh 64 32).usable (unmaskedZeros.drop ((aesFresh 64 32).usable + 16))
      ≠ (unmaskedZeros.drop (aesFresh 64 32).usable).take 16 ∧
    (sqliteCodecAes128Ccm xorRijndael hostOnes (aesFresh 64 32) (List.replicate 64 0) 2 2).bind
      pageAes = some (List.replicate (aesFresh 64 32).pageSize 0) :=
  ⟨List.length_replicate 64 0, by decide, by decide,
    C5_aes_mac_mismatch_zero_page xorRijndael hostOnes (aesFresh 64 32) (List.replicate 64 0)
      unmaskedZeros 2 2 (List.length_replicate 64 0) (by decide) (by decide)⟩

/-- The gate of the AES codec: while the mask is not allocated (and no
allocation has failed), a page layout with fewer than 32 reserved bytes, or
with a payload that is not a multiple of 16, makes every call return the
caller's page as it is, with the codec untouched. -/
theorem aes_gate (A : Rijndael) (h : Host) (c : CodecAes128Ccm) (B : List Nat) (pgno op : Nat)
    (hm : c.mask = none) (hf : c.mallocFailed = 0)
    (hg : (c.pageSize : Int) - (c.usable : Int) < 32 ∨ c.usable &&& 15 ≠ 0) :
    sqliteCodecAes128Ccm A h c B pgno op = some ⟨c, B, Ret.pageData⟩ := by
  unfold sqliteCodecAes128Ccm aesAlloc
  rw [hm]
  simp only [hf, ne_eq, not_true_eq_false, if_false]
  by_cases h1 : (c.pageSize : Int) - (c.usable : Int) < 32
  · simp [h1]
  · have h2 : c.usable &&& 15 ≠ 0 := by
      rcases hg with hg | hg
      · exact absurd hg h1
      · exact hg
    simp [h1, h2]

/-- Counterexample to C4.  With a non-null key but only 16 reserved bytes
(page size 512, usable 496) the AES-CCM codec passes pages through: the
encoded page is the plaintext, and after bit 0 of byte 0 is flipped, decode
returns the altered page, which is not zero. -/
theorem C4_aes_tamper_counterexample :
    ((aesFresh 512 16).key (6 &&& 1)).nullKey = 0 ∧
    (sqliteCodecAes128Ccm xorRijndael hostOnes (aesFresh 512 16)
      (List.replicate 512 0) 2 6).bind pageAes = some (List.replicate 512 0) ∧
    (sqliteCodecAes128Ccm xorRijndael hostOnes (aesFresh 512 16)
      (flipBit (List.replicate 512 0) 0 0) 2 2).bind pageAes
        = some (flipBit (List.replicate 512 0) 0 0) ∧
    flipBit (List.replicate 512 0) 0 0 ≠ List.replicate (aesFresh 512 16).pageSize 0 := by
  refine ⟨rfl, ?_, ?_, ?_⟩
  · rw [aes_gate xorRijndael hostOnes (aesFresh 512 16) _ 2 6 rfl rfl (Or.inl (by decide))]
    rfl
  · rw [aes_gate xorRijndael hostOnes (aesFresh 512 16) _ 2 2 rfl rfl (Or.inl (by decide))]
    rfl
  · intro heq
    have h1 := congrArg (fun l => l.getD 0 0) heq
    simp only at h1
    rw [getD_flipBit_self _ _ _ (by rw [List.length_replicate]; decide)] at h1
    revert h1
    show ((List.replicate 512 0).getD 0 0 ^^^ 2 ^ 0) = (List.replicate 512 0).getD 0 0 → False
    exact xor_two_pow_ne _ _

/-- C4 as amended.  AES-128-CCM tamper detection under the encrypting
configuration: with at least 32 reserved bytes behind a payload that is a
positive multiple of 16, a non-null key in the selected slot and a successful
allocation, and a block primitive injective on 16-byte blocks, for every
nonce, page number and plaintext page, flipping one bit of the encoded page at
an offset below `usable + 16` makes decode return `pageSize` zero bytes. -/
theorem C4_aes_tamper_amended (A : Rijndael) (hinj : A.Injective) (h h2 : Host)
    (c c2 : CodecAes128Ccm) (B : List Nat) (pgno op p b : Nat) (hop : op = 6 ∨ op = 7)
    (hkey : (c.key (op &&& 1)).nullKey = 0) (hl : aesLayout c)
    (hB : B.length = c.pageSize) (hs : aesScratchReady h c)
    (hk2 : c2.key (op &&& 1) = c.key (op &&& 1)) (hP2 : c2.pageSize = c.pageSize)
    (hU2 : c2.usable = c.usable) (hs2 : aesScratchReady h2 c2) (hp : p < c.usable + 16) :
    ∃ E, (sqliteCodecAes128Ccm A h c B pgno op).bind pageAes = some E ∧
      (sqliteCodecAes128Ccm A h2 c2 (flipBit E p b) pgno (op - 4)).bind pageAes
        = some (List.replicate c.pageSize 0) :=
  aes_tamper A hinj h h2 c c2 B pgno op p b hop hkey hl hB hs hk2 hP2 hU2 hs2 hp

/-- Witness of the amended C4: page 1 of 512 zero bytes, bit 3 of byte 40. -/
theorem C4_aes_tamper_amended_witness :
    xorRijndael.Injective ∧ ((6 : Nat) = 6 ∨ (6 : Nat) = 7) ∧
    ((aesFresh 512 32).key (6 &&& 1)).nullKey = 0 ∧ aesLayout (aesFresh 512 32) ∧
    (List.replicate 512 0).length = (aesFresh 512 32).pageSize ∧
    aesScratchReady hostOnes (aesFresh 512 32) ∧ 40 < (aesFresh 512 32).usable + 16 ∧
    ∃ E, (sqliteCodecAes128Ccm xorRijndael hostOnes (aesFresh 512 32)
        (List.replicate 512 0) 1 6).bind pageAes = some E ∧
      (sqliteCodecAes128Ccm xorRijndael hostOnes (aesFresh 512 32) (flipBit E 40 3) 1
        (6 - 4)).bind pageAes = some (List.replicate (aesFresh 512 32).pageSize 0) :=
  ⟨xorRijndael_injective, Or.inl rfl, rfl, ⟨by decide, by decide, by decide⟩,
    List.length_replicate 512 0, ⟨rfl, rfl⟩, by decide,
    C4_aes_tamper_amended xorRijndael xorRijndael_injective hostOnes hostOnes (aesFresh 512 32)
      (aesFresh 512 32) (List.replicate 512 0) 1 6 40 3 (Or.inl rfl) rfl
      ⟨by decide, by decide, by decide⟩ (List.length_replicate 512 0) ⟨rfl, rfl⟩
      rfl rfl rfl ⟨rfl, rfl⟩ (by decide)⟩

/-! ## Null keys -/

theorem op_ne_zero (op : Nat) (hop : op = 2 ∨ op = 3 ∨ op = 6 ∨ op = 7) : op ≠ 0 := by
  rcases hop with rfl | rfl | rfl | rfl <;> decide

/-- Null key in the selected slot, RC4: the caller's page is returned as it is
and `nullKey` is set. -/
theorem rc4_null_key (h : Host) (c : CodecRc4) (B : List Nat) (pgno op : Nat)
    (hop : op ≠ 0) (hkey : (c.key (op &&& 1)).nullKey ≠ 0)
    (hs : c.mask.isSome = true ∨
      (c.mallocFailed = 0 ∧ (h.sqlite3_malloc (c.pageSize * 2 + 8)).isSome = true)) :
    (sqliteCodecRc4 h c B pgno op).ret = Ret.pageData ∧
    (sqliteCodecRc4 h c B pgno op).pageData = B ∧
    (sqliteCodecRc4 h c B pgno op).codec.nullKey = 1 := by
  unfold sqliteCodecRc4
  cases hm : c.mask with
  | some mask =>
    simp only [rc4Keyed, hop, if_false, if_pos hkey, and_self]
  | none =>
    rw [hm] at hs
    rcases hs with hs | ⟨hmf, hal⟩
    · simp at hs
    · obtain ⟨g, hg⟩ := Option.isSome_iff_exists.mp hal
      have hk := hkey
      unfold CodecRc4.key at hk
      simp only [hmf, ne_eq, not_true_eq_false, if_false, Host.malloc, hg, Option.map_some',
        rc4Keyed, hop, CodecRc4.key]
      rw [if_pos hk]
      exact ⟨rfl, rfl, rfl⟩

/-- Null key in the selected slot, XOR backend. -/
theorem xor_null_key (h : Host) (c : CodecXor) (beyond B : List Nat) (pgno op : Nat)
    (hop : op ≠ 0) (hkey : (c.key (op &&& 1)).nullKey ≠ 0)
    (hs : c.outbuf.isSome = true ∨
      (c.mallocFailed = 0 ∧ (h.sqlite3_malloc c.pageSize).isSome = true)) :
    (sqliteCodecXor h c beyond B pgno op).ret = Ret.pageData ∧
    (sqliteCodecXor h c beyond B pgno op).pageData = B ∧
    (sqliteCodecXor h c beyond B pgno op).codec.nullKey = 1 := by
  unfold sqliteCodecXor
  cases hm : c.outbuf with
  | some o =>
    simp only [xorKeyed, hop, if_false, if_pos hkey, and_self]
  | none =>
    rw [hm] at hs
    rcases hs with hs | ⟨hmf, hal⟩
    · simp at hs
    · obtain ⟨g, hg⟩ := Option.isSome_iff_exists.mp hal
      have hk := hkey
      unfold CodecXor.key at hk
      simp only [hmf, ne_eq, not_true_eq_false, if_false, Host.malloc, hg, Option.map_some',
        xorKeyed, hop, CodecXor.key]
      rw [if_pos hk]
      exact ⟨rfl, rfl, rfl⟩

/-- Null key in the selected slot, CommonCrypto backend: the test comes before
any allocation. -/
theorem cccrypt_null_key (h : Host) (c : CodecCCCrypto) (B : List Nat) (pgno op : Nat)
    (hop : op ≠ 0) (hkey : (c.key (op &&& 1)).nullKey ≠ 0) :
    (sqliteCodecCCCrypto h c B pgno op).ret = Ret.pageData ∧
    (sqliteCodecCCCrypto h c B pgno op).pageData = B ∧
    (sqliteCodecCCCrypto h c B pgno op).codec.nullKey = 1 := by
  unfold sqliteCodecCCCrypto
  simp only [hop, if_false, if_pos hkey, and_self]

/-- Null key in the selected slot, AES-CCM backend, outside the gate. -/
theorem aes_null_key (A : Rijndael) (h : Host) (c : CodecAes128Ccm) (B : List Nat)
    (pgno op : Nat) (hop : op ≠ 0) (hkey : (c.key (op &&& 1)).nullKey ≠ 0)
    (hs : c.mask.isSome = true ∨
      (c.mallocFailed = 0 ∧ (h.sqlite3_malloc (c.pageSize * 2 + 8)).isSome = true))
    (hg : ¬ aesGate c) :
    ∃ r, sqliteCodecAes128Ccm A h c B pgno op = some r ∧ r.ret = Ret.pageData ∧
      r.pageData = B ∧ r.codec.nullKey = 1 := by
  unfold sqliteCodecAes128Ccm aesAlloc
  cases hm : c.mask with
  | some mask =>
    simp only [aesKeyed, hop, if_false, if_pos hkey]
    exact ⟨_, rfl, rfl, rfl, rfl⟩
  | none =>
    rw [hm] at hs
    rcases hs with hs | ⟨hmf, hal⟩
    · simp at hs
    · obtain ⟨g, hg2⟩ := Option.isSome_iff_exists.mp hal
      have h1 : ¬ ((c.pageSize : Int) - (c.usable : Int) < 32) := fun e => hg ⟨hm, Or.inl e⟩
      have h2 : ¬ (c.usable &&& 15 ≠ 0) := fun e => hg ⟨hm, Or.inr e⟩
      have hk := hkey
      unfold CodecAes128Ccm.key at hk
      simp only [hmf, ne_eq, not_true_eq_false, if_false, h1, Host.malloc, hg2, Option.map_some']
      rw [if_neg h2]
      simp only [aesKeyed, hop, if_false, CodecAes128Ccm.key]
      rw [if_pos hk]
      exact ⟨_, rfl, rfl, rfl, rfl⟩

/-- Counterexample to C6.  A freshly attached AES-CCM codec with a null key
on pages without reserved bytes (page size 512, usable 512), with an
allocator that would succeed: op 2 returns the caller's page unchanged, but
`nullKey` is left at 0, not set to 1. -/
theorem C6_null_key_counterexample :
    ((aesFreshNull 512 0).key (2 &&& 1)).nullKey ≠ 0 ∧
    (hostOnes.sqlite3_malloc ((aesFreshNull 512 0).pageSize * 2 + 8)).isSome = true ∧
    ∃ r, sqliteCodecAes128Ccm xorRijndael hostOnes (aesFreshNull 512 0)
        (List.replicate 512 0) 1 2 = some r ∧
      r.ret = Ret.pageData ∧ r.pageData = List.replicate 512 0 ∧ r.codec.nullKey ≠ 1 := by
  refine ⟨by decide, rfl, ⟨aesFreshNull 512 0, List.replicate 512 0, Ret.pageData⟩, ?_, rfl, rfl,
    by decide⟩
  exact aes_gate xorRijndael hostOnes (aesFreshNull 512 0) _ 1 2 rfl rfl (Or.inl (by decide))

/-- C6 as amended.  Null-key pass-through: for every op in {2, 3, 6, 7} whose
selected slot is null, every page number and every buffer, with the scratch
space allocated or its allocation succeeding, the XOR, RC4, AES-CCM and
CommonCrypto transforms return the caller's buffer with every byte unchanged
and set `nullKey` to 1; except that the AES-CCM transform, while its mask is
not allocated and fewer than 32 bytes are reserved or the payload is not a
multiple of 16, returns the caller's buffer unchanged without touching the
codec (so without recording `nullKey`). -/
theorem C6_null_key_pass_through_amended (h : Host) (B : List Nat) (pgno op : Nat)
    (hop : op = 2 ∨ op = 3 ∨ op = 6 ∨ op = 7) :
    (∀ (c : CodecXor) (beyond : List Nat), (c.key (op &&& 1)).nullKey ≠ 0 →
      (c.outbuf.isSome = true ∨
        (c.mallocFailed = 0 ∧ (h.sqlite3_malloc c.pageSize).isSome = true)) →
      (sqliteCodecXor h c beyond B pgno op).ret = Ret.pageData ∧
      (sqliteCodecXor h c beyond B pgno op).pageData = B ∧
      (sqliteCodecXor h c beyond B pgno op).codec.nullKey = 1) ∧
    (∀ c : CodecRc4, (c.key (op &&& 1)).nullKey ≠ 0 →
      (c.mask.isSome = true ∨
        (c.mallocFailed = 0 ∧ (h.sqlite3_malloc (c.pageSize * 2 + 8)).isSome = true)) →
      (sqliteCodecRc4 h c B pgno op).ret = Ret.pageData ∧
      (sqliteCodecRc4 h c B pgno op).pageData = B ∧
      (sqliteCodecRc4 h c B pgno op).codec.nullKey = 1) ∧
    (∀ (A : Rijndael) (c : CodecAes128Ccm), (c.key (op &&& 1)).nullKey ≠ 0 →
      (c.mask.isSome = true ∨
        (c.mallocFailed = 0 ∧ (h.sqlite3_malloc (c.pageSize * 2 + 8)).isSome = true)) →
      (¬ aesGate c → ∃ r, sqliteCodecAes128Ccm A h c B pgno op = some r ∧
        r.ret = Ret.pageData ∧ r.pageData = B ∧ r.codec.nullKey = 1) ∧
      (aesGate c → sqliteCodecAes128Ccm A h c B pgno op = some ⟨c, B, Ret.pageData⟩)) ∧
    (∀ c : CodecCCCrypto, (c.key (op &&& 1)).nullKey ≠ 0 →
      (sqliteCodecCCCrypto h c B pgno op).ret = Ret.pageData ∧
      (sqliteCodecCCCrypto h c B pgno op).pageData = B ∧
      (sqliteCodecCCCrypto h c B pgno op).codec.nullKey = 1) := by
  have hop0 := op_ne_zero op hop
  refine ⟨?_, ?_, ?_, ?_⟩
  · intro c beyond hkey hs
    exact xor_null_key h c beyond B pgno op hop0 hkey hs
  · intro c hkey hs
    exact rc4_null_key h c B pgno op hop0 hkey hs
  · intro A c hkey hs
    refine ⟨fun hg => aes_null_key A h c B pgno op hop0 hkey hs hg, ?_⟩
    intro hg
    rcases hs with hs | ⟨hmf, _⟩
    · rw [hg.1] at hs; simp at hs
    · exact aes_gate A h c B pgno op hg.1 hmf hg.2
  · intro c hkey
    exact cccrypt_null_key h c B pgno op hop0 hkey

/-- Witness of the amended C6: op 3 on page 1. -/
theorem C6_null_key_pass_through_amended_witness :
    ((3 : Nat) = 2 ∨ (3 : Nat) = 3 ∨ (3 : Nat) = 6 ∨ (3 : Nat) = 7) ∧
    (sqliteCodecRc4 hostOnes (rc4FreshNull 512) (List.replicate 512 9) 1 3).ret = Ret.pageData ∧
    (sqliteCodecRc4 hostOnes (rc4FreshNull 512) (List.replicate 512 9) 1 3).pageData
      = List.replicate 512 9 ∧
    (sqliteCodecRc4 hostOnes (rc4FreshNull 512) (List.replicate 512 9) 1 3).codec.nullKey = 1 :=
  ⟨Or.inr (Or.inl rfl),
    (C6_null_key_pass_through_amended hostOnes (List.replicate 512 9) 1 3
      (Or.inr (Or.inl rfl))).2.1 (rc4FreshNull 512) (by decide) (Or.inr ⟨rfl, rfl⟩)⟩

/-! ## Bytes 16..23 of page 1 -/

/-- RC4: a decode of page 1 leaves bytes 16..23 of the page as they are. -/
theorem rc4_decode_page1 (h : Host) (c : CodecRc4) (E : List Nat) (op : Nat)
    (hop : op = 2 ∨ op = 3) (hkey : (c.key (op &&& 1)).nullKey = 0)
    (hsz : c.usable + c.nonceSize = c.pageSize) (hU : 24 ≤ c.usable)
    (hE : E.length = c.pageSize) (hs : rc4ScratchReady h c) :
    ∃ D, pageRc4 (sqliteCodecRc4 h c E 1 op) = some D ∧
      ∀ k, 16 ≤ k → k < 24 → D.getD k 0 = E.getD k 0 := by
  have hop0 : op ≠ 0 := by rcases hop with rfl | rfl <;> decide
  obtain ⟨mask, outbuf, _, _, heq⟩ := sqliteCodecRc4_eq_crypt h c E 1 op hop0 hkey hs
  obtain ⟨D, hD, _, hDp, _⟩ := rc4Crypt_decode h
    { c with nullKey := 0, mask := some mask, outbuf := outbuf } mask E 1 op hop hsz hU hE
  refine ⟨D, by rw [heq]; exact hD, ?_⟩
  intro k hk1 hk2
  have h1 := hDp k (Nat.lt_of_lt_of_le hk2 hU)
  have hc : (1 : Nat) = 1 ∧ 16 ≤ k ∧ k < 24 := ⟨rfl, hk1, hk2⟩
  simp only [hc, and_self, if_true] at h1
  exact h1

/-- CommonCrypto, after the allocation: an encode or a decode of page 1 returns
a page whose bytes 16..23 are those of the page given. -/
theorem cccryptCrypt_page1 (h : Host) (c : CodecCCCrypto) (mask B : List Nat) (op : Nat)
    (hsz : c.usable + c.nonceUsable ≤ c.pageSize) (hU : 24 ≤ c.usable)
    (hB : B.length = c.pageSize) (hml : c.pageSize ≤ mask.length)
    (hol : c.pageSize ≤ c.outbuf.length) :
    ∃ E, pageCCCrypto (cccryptCrypt h c mask B 1 op) = some E ∧ E.length = c.pageSize ∧
      ∀ k, 16 ≤ k → k < 24 → E.getD k 0 = B.getD k 0 := by
  have hrl := length_randomness h c.nonceUsable
  -- the page after the nonce has been stored in it
  have hz : ∃ z, (if 0 < c.nonceUsable ∧ op &&& 4 ≠ 0 then
        writeAt B c.usable (h.sqlite3_randomness c.nonceUsable) else B) = z ∧
      z.length = c.pageSize ∧ ∀ k, k < c.usable → z.getD k 0 = B.getD k 0 := by
    by_cases hn : 0 < c.nonceUsable ∧ op &&& 4 ≠ 0
    · refine ⟨_, if_pos hn, ?_, ?_⟩
      · rw [length_writeAt]; exact hB
        rw [hrl]; omega
      · intro k hk
        exact getD_writeAt_lt _ _ _ _ (by omega) (by omega)
    · exact ⟨B, if_neg hn, hB, fun _ _ => rfl⟩
  obtain ⟨z, hzeq, hzl, hzlt⟩ := hz
  have hm : ∃ m, (if op &&& 2 ≠ 0 then
        writeAt mask 0 ((h.CCCrypt (c.key (op &&& 1)).repeat_ 16
          (cccryptNonce h c B 1 op) (c.pZero.take c.pageSize)).take c.pageSize)
        else mask) = m ∧ c.usable ≤ m.length := by
    by_cases h2 : op &&& 2 ≠ 0
    · refine ⟨_, if_pos h2, ?_⟩
      have := length_writeAt_ge mask ((h.CCCrypt (c.key (op &&& 1)).repeat_ 16
          (cccryptNonce h c B 1 op) (c.pZero.take c.pageSize)).take c.pageSize) 0
      omega
    · exact ⟨mask, if_neg h2, by omega⟩
  obtain ⟨m, hmeq, hmlen⟩ := hm
  have hbyte : ∀ (e : Bool) (k : Nat), 16 ≤ k → k < 24 →
      (xorPage c.usable c.pageSize 1 e c.outbuf z m).getD k 0 = B.getD k 0 := by
    intro e k hk1 hk2
    rw [getD_xorPage c.usable c.pageSize 1 e c.outbuf z m k (by omega) hU hzl hmlen hol
        (by omega)]
    have : ¬ (k < c.usable ∧ ¬ ((1 : Nat) = 1 ∧ 16 ≤ k ∧ k < 24)) := by
      intro hh; exact hh.2 ⟨rfl, hk1, hk2⟩
    rw [if_neg this]
    exact hzlt k (by omega)
  unfold cccryptCrypt
  simp only [hzeq, hmeq]
  by_cases h4 : op &&& 4 ≠ 0
  · rw [if_pos h4]
    simp only [pageCCCrypto]
    have hlen := length_xorPage c.usable c.pageSize 1 (decide (op &&& 4 ≠ 0)) c.outbuf z m
      (by omega) hzl hmlen hol
    refine ⟨_, rfl, by rw [List.length_take]; omega, ?_⟩
    intro k hk1 hk2
    rw [getD_take _ _ _ (by omega)]
    exact hbyte _ k hk1 hk2
  · rw [if_neg h4]
    simp only [pageCCCrypto]
    have hd : decide (op &&& 4 ≠ 0) = false := by simpa using h4
    refine ⟨_, rfl, ?_, fun k hk1 hk2 => hbyte _ k hk1 hk2⟩
    rw [hd]
    have hout : xorPage c.usable c.pageSize 1 false c.outbuf z m
        = xorPage c.usable c.pageSize 1 false z z m := by simp [xorPage]
    rw [hout]
    exact length_xorPage_decode c.usable c.pageSize 1 z z m (by omega) hzl hmlen

/-- CommonCrypto: an encode or a decode of page 1 returns a page whose bytes
16..23 are those of the page given. -/
theorem cccrypt_page1 (h : Host) (c : CodecCCCrypto) (B : List Nat) (op : Nat)
    (hop : op = 2 ∨ op = 3 ∨ op = 6 ∨ op = 7) (hkey : (c.key (op &&& 1)).nullKey = 0)
    (hsz : c.usable + c.nonceUsable ≤ c.pageSize) (hU : 24 ≤ c.usable)
    (hB : B.length = c.pageSize) (hs : cccryptScratchReady h c) :
    ∃ E, pageCCCrypto (sqliteCodecCCCrypto h c B 1 op) = some E ∧ E.length = c.pageSize ∧
      ∀ k, 16 ≤ k → k < 24 → E.getD k 0 = B.getD k 0 := by
  have hop0 := op_ne_zero op hop
  have hk := hkey
  unfold CodecCCCrypto.key at hk
  unfold sqliteCodecCCCrypto
  simp only [hop0, if_false, CodecCCCrypto.key]
  rw [if_neg (by simpa using hk)]
  unfold cccryptScratchReady at hs
  unfold cccryptAlloc
  cases hm : c.mask with
  | some mask =>
    rw [hm] at hs
    simp only
    exact cccryptCrypt_page1 h _ mask B op hsz hU hB hs.1 hs.2
  | none =>
    rw [hm] at hs
    obtain ⟨hmf, hal⟩ := hs
    obtain ⟨g, hg⟩ := Option.isSome_iff_exists.mp hal
    simp only [hmf, ne_eq, not_true_eq_false, if_false, Host.malloc, hg, Option.map_some']
    exact cccryptCrypt_page1 h _ _ B op hsz hU hB (by simp; omega) (by simp; omega)

/-- RC4: an encode of page 1 returns a page of `pageSize` bytes whose bytes
16..23 are those of the plaintext. -/
theorem rc4_encode_page1 (h : Host) (c : CodecRc4) (B : List Nat) (op : Nat)
    (hop : op = 6 ∨ op = 7) (hkey : (c.key (op &&& 1)).nullKey = 0)
    (hsz : c.usable + c.nonceSize = c.pageSize) (hU : 24 ≤ c.usable)
    (hB : B.length = c.pageSize) (hs : rc4ScratchReady h c) :
    ∃ E, pageRc4 (sqliteCodecRc4 h c B 1 op) = some E ∧ E.length = c.pageSize ∧
      ∀ k, 16 ≤ k → k < 24 → E.getD k 0 = B.getD k 0 := by
  have hop0 : op ≠ 0 := by rcases hop with rfl | rfl <;> decide
  obtain ⟨mask, outbuf, hml, hol, heq⟩ := sqliteCodecRc4_eq_crypt h c B 1 op hop0 hkey hs
  obtain ⟨E, hE, hEl, hEp, _⟩ := rc4Crypt_encode h
    { c with nullKey := 0, mask := some mask, outbuf := outbuf } mask B 1 op hop hsz hU hB
    hml hol
  refine ⟨E, by rw [heq]; exact hE, hEl, ?_⟩
  intro k hk1 hk2
  have h1 := hEp k (Nat.lt_of_lt_of_le hk2 hU)
  have hc : (1 : Nat) = 1 ∧ 16 ≤ k ∧ k < 24 := ⟨rfl, hk1, hk2⟩
  simp only [hc, and_self, if_true] at h1
  exact h1

/-- C7. Page-1 exemption for the RC4, CommonCrypto and AES-CCM backends.  For
a non-null key, any nonce (the host is arbitrary) and any plaintext page `B`
of `pageSize` bytes, in a page layout with at least 24 usable bytes: the page
`E` an encode (op 6 or 7) of page number 1 returns has bytes 16..23 equal to
bytes 16..23 of `B`, and the page a decode (op 2 or 3) of `E` as page 1
returns has those eight bytes equal to the ones of `E`.  (For RC4 and
CommonCrypto the decoding codec may hold any non-null key; for AES-CCM it
holds the key of the encode.) -/
theorem C7_page1_exemption (h h2 : Host) (B : List Nat) (op : Nat) (hop : op = 6 ∨ op = 7) :
    (∀ c c2 : CodecRc4, (c.key (op &&& 1)).nullKey = 0 →
      c.usable + c.nonceSize = c.pageSize → 24 ≤ c.usable → B.length = c.pageSize →
      rc4ScratchReady h c → (c2.key (op &&& 1)).nullKey = 0 → c2.pageSize = c.pageSize →
      c2.usable = c.usable → c2.nonceSize = c.nonceSize → rc4ScratchReady h2 c2 →
      ∃ E D, pageRc4 (sqliteCodecRc4 h c B 1 op) = some E ∧
        pageRc4 (sqliteCodecRc4 h2 c2 E 1 (op - 4)) = some D ∧
        ∀ k, 16 ≤ k → k < 24 → E.getD k 0 = B.getD k 0 ∧ D.getD k 0 = E.getD k 0) ∧
    (∀ c c2 : CodecCCCrypto, (c.key (op &&& 1)).nullKey = 0 →
      c.usable + c.nonceUsable ≤ c.pageSize → 24 ≤ c.usable → B.length = c.pageSize →
      cccryptScratchReady h c → (c2.key (op &&& 1)).nullKey = 0 → c2.pageSize = c.pageSize →
      c2.usable = c.usable → c2.nonceUsable = c.nonceUsable → cccryptScratchReady h2 c2 →
      ∃ E D, pageCCCrypto (sqliteCodecCCCrypto h c B 1 op) = some E ∧
        pageCCCrypto (sqliteCodecCCCrypto h2 c2 E 1 (op - 4)) = some D ∧
        ∀ k, 16 ≤ k → k < 24 → E.getD k 0 = B.getD k 0 ∧ D.getD k 0 = E.getD k 0) ∧
    (∀ (A : Rijndael) (c c2 : CodecAes128Ccm), (c.key (op &&& 1)).nullKey = 0 →
      aesLayout c → 24 ≤ c.usable → B.length = c.pageSize → aesScratchReady h c →
      c2.key (op &&& 1) = c.key (op &&& 1) → c2.pageSize = c.pageSize →
      c2.usable = c.usable → aesScratchReady h2 c2 →
      ∃ E D, (sqliteCodecAes128Ccm A h c B 1 op).bind pageAes = some E ∧
        (sqliteCodecAes128Ccm A h2 c2 E 1 (op - 4)).bind pageAes = some D ∧
        ∀ k, 16 ≤ k → k < 24 → E.getD k 0 = B.getD k 0 ∧ D.getD k 0 = E.getD k 0) := by
  have hopd : op - 4 = 2 ∨ op - 4 = 3 := by rcases hop with rfl | rfl <;> decide
  have hopd' : op - 4 = 2 ∨ op - 4 = 3 ∨ op - 4 = 6 ∨ op - 4 = 7 := by
    rcases hopd with e | e
    · exact Or.inl e
    · exact Or.inr (Or.inl e)
  have hop' : op = 2 ∨ op = 3 ∨ op = 6 ∨ op = 7 := by
    rcases hop with e | e
    · exact Or.inr (Or.inr (Or.inl e))
    · exact Or.inr (Or.inr (Or.inr e))
  have hslot : (op - 4) &&& 1 = op &&& 1 := by rcases hop with rfl | rfl <;> decide
  refine ⟨?_, ?_, ?_⟩
  · intro c c2 hkey hsz hU hB hs hkey2 hP2 hU2 hR2 hs2
    obtain ⟨E, hE, hEl, hEb⟩ := rc4_encode_page1 h c B op hop hkey hsz hU hB hs
    obtain ⟨D, hD, hDb⟩ := rc4_decode_page1 h2 c2 E (op - 4) hopd (by rw [hslot]; exact hkey2)
      (by rw [hU2, hR2, hP2]; exact hsz) (by rw [hU2]; exact hU) (by rw [hP2]; exact hEl) hs2
    exact ⟨E, D, hE, hD, fun k hk1 hk2 => ⟨hEb k hk1 hk2, hDb k hk1 hk2⟩⟩
  · intro c c2 hkey hsz hU hB hs hkey2 hP2 hU2 hR2 hs2
    obtain ⟨E, hE, hEl, hEb⟩ := cccrypt_page1 h c B op hop' hkey hsz hU hB hs
    obtain ⟨D, hD, _, hDb⟩ := cccrypt_page1 h2 c2 E (op - 4) hopd' (by rw [hslot]; exact hkey2)
      (by rw [hU2, hR2, hP2]; exact hsz) (by rw [hU2]; exact hU) (by rw [hP2]; exact hEl) hs2
    exact ⟨E, D, hE, hD, fun k hk1 hk2 => ⟨hEb k hk1 hk2, hDb k hk1 hk2⟩⟩
  · intro A c c2 hkey hl hU hB hs hk2 hP2 hU2 hs2
    obtain ⟨r, E, z, henc, hE, _, _, hret, hzl, hzt, hEb, _⟩ :=
      aes_round_trip A h h2 c c2 B 1 op hop hkey hl hB hs hk2 hP2 hU2 hs2
    refine ⟨E, z, by rw [henc]; exact hE, hret, ?_⟩
    intro k hk1 hk2
    have hEk := hEb k hk1 hk2 (by omega) rfl
    refine ⟨hEk, ?_⟩
    rw [hEk]
    have h1 := congrArg (fun l => l.getD k 0) hzt
    simp only at h1
    rw [getD_take _ _ _ (by omega), getD_take _ _ _ (by omega)] at h1
    exact h1

/-- Witness of C7: op 6 then op 2 on page 1 of 512 bytes, RC4 keyed with "Key". -/
theorem C7_page1_exemption_witness :
    ((6 : Nat) = 6 ∨ (6 : Nat) = 7) ∧
    ∃ E D, pageRc4 (sqliteCodecRc4 hostOnes (rc4Fresh 512) (List.replicate 512 9) 1 6) = some E ∧
      pageRc4 (sqliteCodecRc4 hostOnes (rc4Fresh 512) E 1 (6 - 4)) = some D ∧
      ∀ k, 16 ≤ k → k < 24 →
        E.getD k 0 = (List.replicate 512 9).getD k 0 ∧ D.getD k 0 = E.getD k 0 :=
  ⟨Or.inl rfl,
    (C7_page1_exemption hostOnes hostOnes (List.replicate 512 9) 6 (Or.inl rfl)).1
      (rc4Fresh 512) (rc4Fresh 512) rfl rfl (by decide) (List.length_replicate 512 9)
      ⟨rfl, rfl⟩ rfl rfl rfl rfl ⟨rfl, rfl⟩⟩

/-! ## Lemmas on the re-key routine -/

@[simp] theorem Conn.ext_trace {K σ : Type} (S : Sqlite σ) (db : Conn K σ) (c : Call) :
    (db.ext S c).1.trace = db.trace ++ [Event.call c (db.ext S c).2] := rfl

@[simp] theorem Conn.ext_aDb {K σ : Type} (S : Sqlite σ) (db : Conn K σ) (c : Call) :
    (db.ext S c).1.aDb = db.aDb := rfl

@[simp] theorem Conn.note_trace {K σ : Type} (db : Conn K σ) (e : Event) :
    (db.note e).trace = db.trace ++ [e] := rfl

@[simp] theorem Conn.note_aDb {K σ : Type} (db : Conn K σ) (e : Event) :
    (db.note e).aDb = db.aDb := rfl

@[simp] theorem Conn.setCodec_trace {K σ : Type} (db : Conn K σ) (iDb : Nat)
    (k : Option (KeySlots K)) : (db.setCodec iDb k).trace = db.trace := rfl

@[simp] theorem Conn.setCodec_aDb {K σ : Type} (db : Conn K σ) (iDb : Nat)
    (k : Option (KeySlots K)) :
    (db.setCodec iDb k).aDb = db.aDb.modify (fun d => { d with pCodec := k }) iDb := rfl

/-- After `setCodec` on a database in range, the codec read back is the one set. -/
theorem Conn.codec_setCodec {K σ : Type} (db : Conn K σ) (iDb : Nat) (k : KeySlots K)
    (h : iDb < db.aDb.length) : (db.setCodec iDb (some k)).codec iDb = some k := by
  unfold Conn.codec
  rw [Conn.setCodec_aDb, List.getElem?_modify]
  simp [List.getElem?_eq_getElem h]

/-- The label `end_rekey` returns the `rc` it was given, leaves the codecs
alone and adds only its own three calls to the trace. -/
theorem rekeyEnd_spec {K σ : Type} (S : Sqlite σ) (db : Conn K σ) (iDb : Nat) (p : Bool)
    (rc : Nat) :
    (rekeyEnd S db iDb p rc).1 = rc ∧ (rekeyEnd S db iDb p rc).2.aDb = db.aDb ∧
    ∃ t, (rekeyEnd S db iDb p rc).2.trace = db.trace ++ t ∧
      ∀ e ∈ t, e.failed S = false ∧ e.isCommit = false ∧ e.isRollback = false ∧
        e.inScan = false ∧ e ≠ Event.loadKey ∧ e ≠ Event.promote ∧ e ≠ Event.restore := by
  refine ⟨rfl, ?_, ?_⟩
  · unfold rekeyEnd
    cases p <;> by_cases h : rc = 0 <;> simp [h]
  · cases p
    · refine ⟨[Event.call Call.sqlite3BtreeLeaveAll (db.ext S Call.sqlite3BtreeLeaveAll).2,
        Event.call Call.sqlite3_mutex_leave
          ((db.ext S Call.sqlite3BtreeLeaveAll).1.ext S Call.sqlite3_mutex_leave).2], ?_, ?_⟩
      · unfold rekeyEnd
        by_cases h : rc = 0 <;> simp [h]
      · intro e he
        simp only [List.mem_cons, List.mem_singleton, List.not_mem_nil, or_false] at he
        rcases he with rfl | rfl <;>
          simp [Event.failed, Event.isCommit, Event.isRollback, Event.inScan]
    · refine ⟨[Event.call (Call.sqlite3PagerUnrefPageOne iDb)
          (db.ext S (Call.sqlite3PagerUnrefPageOne iDb)).2,
        Event.call Call.sqlite3BtreeLeaveAll
          ((db.ext S (Call.sqlite3PagerUnrefPageOne iDb)).1.ext S Call.sqlite3BtreeLeaveAll).2,
        Event.call Call.sqlite3_mutex_leave
          (((db.ext S (Call.sqlite3PagerUnrefPageOne iDb)).1.ext S
            Call.sqlite3BtreeLeaveAll).1.ext S Call.sqlite3_mutex_leave).2], ?_, ?_⟩
      · unfold rekeyEnd
        by_cases h : rc = 0 <;> simp [h]
      · intro e he
        simp only [List.mem_cons, List.mem_singleton, List.not_mem_nil, or_false] at he
        rcases he with rfl | rfl | rfl <;>
          simp [Event.failed, Event.isCommit, Event.isRollback, Event.inScan]

/-- The page scan leaves the codecs alone and adds only scan steps to the
trace.  If it ends with `SQLITE_OK`, no step failed; if not, a fetch, a
mark-dirty or the interrupt flag failed and `rc` is the status of every
failing step. -/
theorem rekeyScan_spec {K σ : Type} (S : Sqlite σ) (iDb skip : Nat)
    (hne : S.SQLITE_INTERRUPT ≠ S.SQLITE_OK) :
    ∀ (n i : Nat) (db : Conn K σ),
      (rekeyScan S iDb skip n i db).1.aDb = db.aDb ∧
      ∃ t, (rekeyScan S iDb skip n i db).1.trace = db.trace ++ t ∧
        (∀ e ∈ t, e.scanStep = true) ∧
        ((rekeyScan S iDb skip n i db).2 = S.SQLITE_OK → ∀ e ∈ t, e.failed S = false) ∧
        ((rekeyScan S iDb skip n i db).2 ≠ S.SQLITE_OK →
          (∃ e ∈ t, e.inScan = true ∧ e.failed S = true) ∧
          ∀ e ∈ t, e.failed S = true → (rekeyScan S iDb skip n i db).2 = e.status S) := by
  intro n
  induction n with
  | zero =>
    intro i db
    refine ⟨rfl, [], by simp [rekeyScan], by simp, by simp, ?_⟩
    intro h
    exact absurd rfl h
  | succ n ih =>
    intro i db
    by_cases hskip : i = skip
    · have e1 : rekeyScan S iDb skip (n + 1) i db = rekeyScan S iDb skip n (i + 1) db := by
        simp [rekeyScan, hskip]
      rw [e1]
      exact ih (i + 1) db
    · obtain ⟨g, hgd⟩ : ∃ g, g = db.ext S (Call.sqlite3PagerGet iDb i) := ⟨_, rfl⟩
      obtain ⟨f, hfd⟩ : ∃ f, f = g.1.ext S Call.readIsInterrupted := ⟨_, rfl⟩
      obtain ⟨c, hcd⟩ : ∃ c, c = f.1.ext S Call.clearIsInterrupted := ⟨_, rfl⟩
      obtain ⟨w, hwd⟩ : ∃ w, w = f.1.ext S (Call.sqlite3PagerWrite iDb i) := ⟨_, rfl⟩
      obtain ⟨u, hud⟩ : ∃ u, u = w.1.ext S (Call.sqlite3PagerUnref iDb i) := ⟨_, rfl⟩
      have hgt : g.1.trace = db.trace ++ [Event.call (Call.sqlite3PagerGet iDb i) g.2] := by
        rw [hgd]; rfl
      have hft : f.1.trace = g.1.trace ++ [Event.call Call.readIsInterrupted f.2] := by
        rw [hfd]; rfl
      have hct : c.1.trace = f.1.trace ++ [Event.call Call.clearIsInterrupted c.2] := by
        rw [hcd]; rfl
      have hwt : w.1.trace = f.1.trace ++ [Event.call (Call.sqlite3PagerWrite iDb i) w.2] := by
        rw [hwd]; rfl
      have hut : u.1.trace = w.1.trace ++ [Event.call (Call.sqlite3PagerUnref iDb i) u.2] := by
        rw [hud]; rfl
      have hga : g.1.aDb = db.aDb := by rw [hgd]; rfl
      have hfa : f.1.aDb = g.1.aDb := by rw [hfd]; rfl
      have hca : c.1.aDb = f.1.aDb := by rw [hcd]; rfl
      have hwa : w.1.aDb = f.1.aDb := by rw [hwd]; rfl
      have hua : u.1.aDb = w.1.aDb := by rw [hud]; rfl
      have e0 : rekeyScan S iDb skip (n + 1) i db =
          if g.2 ≠ S.SQLITE_OK then (g.1, g.2)
          else if f.2 ≠ 0 then (c.1, S.SQLITE_INTERRUPT)
          else if w.2 = S.SQLITE_OK then rekeyScan S iDb skip n (i + 1) u.1
          else (u.1, w.2) := by
        rw [hud, hwd, hcd, hfd, hgd]
        simp only [rekeyScan, if_neg hskip]
      rw [e0]
      by_cases hg : g.2 = S.SQLITE_OK
      · rw [if_neg (not_not.2 hg)]
        by_cases hf : f.2 = 0
        · rw [if_neg (not_not.2 hf)]
          have hpre : ∀ e ∈ [Event.call (Call.sqlite3PagerGet iDb i) g.2,
                Event.call Call.readIsInterrupted f.2,
                Event.call (Call.sqlite3PagerWrite iDb i) w.2,
                Event.call (Call.sqlite3PagerUnref iDb i) u.2],
                e.scanStep = true ∧
                (e.failed S = true → w.2 ≠ S.SQLITE_OK ∧ w.2 = e.status S) := by
            intro e he
            simp only [List.mem_cons, List.mem_singleton, List.not_mem_nil, or_false] at he
            rcases he with rfl | rfl | rfl | rfl <;>
              simp [Event.failed, Event.scanStep, Event.status, hg, hf]
          have hput : u.1.trace = db.trace ++ [Event.call (Call.sqlite3PagerGet iDb i) g.2,
                Event.call Call.readIsInterrupted f.2,
                Event.call (Call.sqlite3PagerWrite iDb i) w.2,
                Event.call (Call.sqlite3PagerUnref iDb i) u.2] := by
            rw [hut, hwt, hft, hgt]
            simp
          by_cases hw : w.2 = S.SQLITE_OK
          · rw [if_pos hw]
            obtain ⟨ha, t, ht, hs, hok, hfail⟩ := ih (i + 1) u.1
            refine ⟨by rw [ha, hua, hwa, hfa, hga],
              [Event.call (Call.sqlite3PagerGet iDb i) g.2,
                Event.call Call.readIsInterrupted f.2,
                Event.call (Call.sqlite3PagerWrite iDb i) w.2,
                Event.call (Call.sqlite3PagerUnref iDb i) u.2] ++ t, ?_, ?_, ?_, ?_⟩
            · rw [ht, hput, List.append_assoc]
            · intro e he
              rcases List.mem_append.1 he with h1 | h1
              · exact (hpre e h1).1
              · exact hs e h1
            · intro h e he
              rcases List.mem_append.1 he with h1 | h1
              · cases hfe : e.failed S
                · rfl
                · exact absurd hw ((hpre e h1).2 hfe).1
              · exact hok h e h1
            · intro h
              obtain ⟨⟨e, he, h1, h2⟩, h3⟩ := hfail h
              refine ⟨⟨e, List.mem_append.2 (Or.inr he), h1, h2⟩, ?_⟩
              intro e he hfe
              rcases List.mem_append.1 he with h1 | h1
              · exact absurd hw ((hpre e h1).2 hfe).1
              · exact h3 e h1 hfe
          · rw [if_neg hw]
            refine ⟨by rw [hua, hwa, hfa, hga], _, hput, fun e he => (hpre e he).1, ?_, ?_⟩
            · intro h
              exact absurd h hw
            · intro _
              refine ⟨⟨Event.call (Call.sqlite3PagerWrite iDb i) w.2, by simp,
                by simp [Event.inScan], by simp [Event.failed, hw]⟩, ?_⟩
              intro e he hfe
              exact ((hpre e he).2 hfe).2
        · rw [if_pos hf]
          refine ⟨by rw [hca, hfa, hga], [Event.call (Call.sqlite3PagerGet iDb i) g.2,
              Event.call Call.readIsInterrupted f.2,
              Event.call Call.clearIsInterrupted c.2], ?_, ?_, ?_, ?_⟩
          · rw [hct, hft, hgt]
            simp
          · intro e he
            simp only [List.mem_cons, List.mem_singleton, List.not_mem_nil, or_false] at he
            rcases he with rfl | rfl | rfl <;> simp [Event.scanStep]
          · intro h
            exact absurd h hne
          · intro _
            refine ⟨⟨Event.call Call.readIsInterrupted f.2, by simp,
              by simp [Event.inScan], by simp [Event.failed, hf]⟩, ?_⟩
            intro e he hfe
            simp only [List.mem_cons, List.mem_singleton, List.not_mem_nil, or_false] at he
            rcases he with rfl | rfl | rfl
            · simp [Event.failed, hg] at hfe
            · simp [Event.status]
            · simp [Event.failed] at hfe
      · rw [if_pos hg]
        refine ⟨hga, [Event.call (Call.sqlite3PagerGet iDb i) g.2], hgt, ?_, ?_, ?_⟩
        · intro e he
          simp only [List.mem_singleton] at he
          subst he
          simp [Event.scanStep]
        · intro h
          exact absurd h hg
        · intro _
          refine ⟨⟨_, List.mem_singleton_self _, by simp [Event.inScan],
            by simp [Event.failed, hg]⟩, ?_⟩
          intro e he hfe
          simp only [List.mem_singleton] at he
          subst he
          simp [Event.status]

/-- The codec of a database depends on `aDb` only. -/
theorem Conn.codec_congr {K σ : Type} (db1 db2 : Conn K σ) (iDb : Nat)
    (h : db1.aDb = db2.aDb) : db1.codec iDb = db2.codec iDb := by
  unfold Conn.codec
  rw [h]

/-- Setting the codec does not change the number of databases. -/
theorem Conn.length_setCodec {K σ : Type} (db : Conn K σ) (iDb : Nat)
    (k : Option (KeySlots K)) : (db.setCodec iDb k).aDb.length = db.aDb.length := by
  simp

/-- A property of all events of two segments holds of their concatenation. -/
theorem forall_mem_append_of {P : Event → Prop} {a b : List Event}
    (ha : ∀ e ∈ a, P e) (hb : ∀ e ∈ b, P e) : ∀ e ∈ a ++ b, P e := by
  intro e he
  rcases List.mem_append.1 he with h | h
  · exact ha e h
  · exact hb e h

/-- A step of the page scan is neither a commit phase, nor a rollback, nor an
assignment to a key slot. -/
theorem scanStep_other (e : Event) (h : e.scanStep = true) :
    e.isCommit = false ∧ e.isRollback = false ∧ e ≠ Event.loadKey ∧
      e ≠ Event.promote ∧ e ≠ Event.restore := by
  rcases e with ⟨c, x⟩ | _ | _ | _
  · cases c <;> simp [Event.scanStep, Event.isCommit, Event.isRollback] at h ⊢
  · simp [Event.scanStep] at h
  · simp [Event.scanStep] at h
  · simp [Event.scanStep] at h

/-- What `sqlite3_rekey_v2` does from `loadKey` on.  The candidate key is
loaded, and then either the run fails before the commit (slot 0 is restored
from slot 1, the pager rolls back, no commit phase is called, the status is
that of the failing step), or the scan succeeds (both slots hold the candidate
key, no rollback is called, only a commit phase can have failed, and its
status is returned). -/
theorem rekeyBody_spec {K σ : Type} (B : Backend K) (S : Sqlite σ) (db : Conn K σ) (iDb : Nat)
    (keys : KeySlots K) (eState rc nPage : Nat) (pKey : Option (List Nat)) (nKey : Int)
    (r : Nat) (db' : Conn K σ) (hne : S.SQLITE_INTERRUPT ≠ S.SQLITE_OK)
    (hiDb : iDb < db.aDb.length)
    (hrun : rekeyBody B S db iDb keys eState rc nPage pKey nKey = some (r, db')) :
    ∃ k0 t, B.loadKey keys.key0 pKey nKey = some k0 ∧
      db'.trace = db.trace ++ Event.loadKey :: t ∧
      ((r ≠ S.SQLITE_OK ∧ db'.codec iDb = some ⟨keys.key1, keys.key1⟩ ∧
          (∃ x, Event.call (Call.sqlite3PagerRollback iDb) x ∈ t) ∧ Event.restore ∈ t ∧
          (rc = S.SQLITE_OK → ∃ e ∈ t, e.inScan = true ∧ e.failed S = true) ∧
          (rc ≠ S.SQLITE_OK → r = rc) ∧
          ∀ e ∈ t, e.isCommit = false ∧ e ≠ Event.promote ∧ e ≠ Event.loadKey ∧
            (rc ≠ S.SQLITE_OK → e.failed S = false) ∧
            (e.failed S = true → r = e.status S)) ∨
       (rc = S.SQLITE_OK ∧ db'.codec iDb = some ⟨k0, k0⟩ ∧ Event.promote ∈ t ∧
          ((∀ e ∈ t, e.failed S = false) → r = S.SQLITE_OK) ∧
          ∀ e ∈ t, e.isRollback = false ∧ e ≠ Event.restore ∧ e ≠ Event.loadKey ∧
            (e.inScan = true → e.failed S = false) ∧
            (e.failed S = true → e.isCommit = true ∧ r = e.status S))) := by
  unfold rekeyBody at hrun
  cases hk : B.loadKey keys.key0 pKey nKey with
  | none => rw [hk] at hrun; exact absurd hrun (by simp)
  | some k0 =>
    rw [hk] at hrun
    dsimp only at hrun
    refine ⟨k0, ?_⟩
    obtain ⟨db1, hdb1⟩ : ∃ db1, db1 = (db.note Event.loadKey).setCodec iDb
      (some ⟨k0, keys.key1⟩) := ⟨_, rfl⟩
    rw [← hdb1] at hrun
    have h1t : db1.trace = db.trace ++ [Event.loadKey] := by rw [hdb1]; rfl
    have h1l : db1.aDb.length = db.aDb.length := by rw [hdb1]; simp
    obtain ⟨ps, hps⟩ : ∃ ps, ps = (if nPage ≠ 0 then db1.ext S (Call.codecPageSize iDb)
      else (db1, 1)) := ⟨_, rfl⟩
    rw [← hps] at hrun
    have hpst : ∃ tp, ps.1.trace = db1.trace ++ tp ∧ ∀ e ∈ tp, e.failed S = false ∧
        e.isCommit = false ∧ e.isRollback = false ∧ e.inScan = false ∧ e ≠ Event.loadKey ∧
        e ≠ Event.promote ∧ e ≠ Event.restore := by
      by_cases hn : nPage ≠ 0
      · rw [if_pos hn] at hps
        refine ⟨[Event.call (Call.codecPageSize iDb) ps.2], by rw [hps]; rfl, ?_⟩
        intro e he
        simp only [List.mem_singleton] at he
        subst he
        simp [Event.failed, Event.isCommit, Event.isRollback, Event.inScan]
      · rw [if_neg hn] at hps
        exact ⟨[], by rw [hps]; simp, by simp⟩
    have hpsa : ps.1.aDb = db1.aDb := by
      by_cases hn : nPage ≠ 0
      · rw [if_pos hn] at hps; rw [hps]; rfl
      · rw [if_neg hn] at hps; rw [hps]
    obtain ⟨tp, hpt, hpp⟩ := hpst
    by_cases hz : ps.2 = 0
    · rw [if_pos hz] at hrun
      exact absurd hrun (by simp)
    rw [if_neg hz] at hrun
    obtain ⟨sc, hsc⟩ : ∃ sc, sc = (if rc = S.SQLITE_OK then
        rekeyScan S iDb (if nPage ≠ 0 then S.PENDING_BYTE / ps.2 + 1 else 0) nPage 1 ps.1
      else (ps.1, rc)) := ⟨_, rfl⟩
    rw [← hsc] at hrun
    have hscs : sc.1.aDb = ps.1.aDb ∧ ∃ ts, sc.1.trace = ps.1.trace ++ ts ∧
        (∀ e ∈ ts, e.scanStep = true) ∧
        (sc.2 = S.SQLITE_OK → rc = S.SQLITE_OK ∧ ∀ e ∈ ts, e.failed S = false) ∧
        (sc.2 ≠ S.SQLITE_OK →
          (rc = S.SQLITE_OK → ∃ e ∈ ts, e.inScan = true ∧ e.failed S = true) ∧
          (rc ≠ S.SQLITE_OK → sc.2 = rc ∧ ts = []) ∧
          ∀ e ∈ ts, e.failed S = true → sc.2 = e.status S) := by
      by_cases hrc : rc = S.SQLITE_OK
      · rw [if_pos hrc] at hsc
        obtain ⟨ha, ts, hts, hs, hok, hfail⟩ := rekeyScan_spec S iDb
          (if nPage ≠ 0 then S.PENDING_BYTE / ps.2 + 1 else 0) hne nPage 1 ps.1
        rw [← hsc] at ha hts hok hfail
        refine ⟨ha, ts, hts, hs, fun h => ⟨hrc, hok h⟩, fun h => ⟨fun _ => (hfail h).1,
          fun h2 => absurd hrc h2, (hfail h).2⟩⟩
      · rw [if_neg hrc] at hsc
        refine ⟨by rw [hsc], [], by rw [hsc]; simp, by simp, ?_, ?_⟩
        · intro h
          rw [hsc] at h
          exact absurd h hrc
        · intro _
          exact ⟨fun h => absurd h hrc, fun _ => ⟨by rw [hsc], rfl⟩, by simp⟩
    obtain ⟨hsa, ts, hst, hss, hsok, hsfail⟩ := hscs
    have hsn : ∀ e ∈ ts, e.isCommit = false ∧ e.isRollback = false ∧ e ≠ Event.loadKey ∧
        e ≠ Event.promote ∧ e ≠ Event.restore := by
      intro e he
      exact scanStep_other e (hss e he)
    by_cases hs : sc.2 = S.SQLITE_OK
    · -- the scan succeeded: promote and commit
      rw [if_pos hs] at hrun
      obtain ⟨hrc, htsok⟩ := hsok hs
      obtain ⟨db2, hdb2⟩ : ∃ db2, db2 = (sc.1.note Event.promote).setCodec iDb
        (some ⟨k0, k0⟩) := ⟨_, rfl⟩
      rw [← hdb2] at hrun
      have h2t : db2.trace = db.trace ++ Event.loadKey :: (tp ++ ts ++ [Event.promote]) := by
        rw [hdb2, Conn.setCodec_trace, Conn.note_trace, hst, hpt, h1t]
        simp
      have h2c : db2.codec iDb = some ⟨k0, k0⟩ := by
        rw [hdb2]
        apply Conn.codec_setCodec
        rw [Conn.note_aDb, hsa, hpsa, h1l]
        exact hiDb
      have hseg : ∀ e ∈ tp ++ ts ++ [Event.promote], e.failed S = false ∧
          e.isRollback = false ∧ e ≠ Event.restore ∧ e ≠ Event.loadKey := by
        apply forall_mem_append_of
        · apply forall_mem_append_of
          · intro e he
            exact ⟨(hpp e he).1, (hpp e he).2.2.1, (hpp e he).2.2.2.2.2.2, (hpp e he).2.2.2.2.1⟩
          · intro e he
            exact ⟨htsok e he, (hsn e he).2.1, (hsn e he).2.2.2.2, (hsn e he).2.2.1⟩
        · intro e he
          simp only [List.mem_singleton] at he
          subst he
          simp [Event.failed, Event.isRollback]
      -- every way out goes through `end_rekey` after some commit events `tc`
      have hfin : ∀ (dbc : Conn K σ) (tc : List Event) (rr : Nat),
          dbc.trace = db2.trace ++ tc → dbc.aDb = db2.aDb →
          ((∀ e ∈ tc, e.failed S = false) → rr = S.SQLITE_OK) →
          (∀ e ∈ tc, e.isRollback = false ∧ e ≠ Event.restore ∧ e ≠ Event.loadKey ∧
            (e.inScan = true → e.failed S = false) ∧
            (e.failed S = true → e.isCommit = true ∧ rr = e.status S)) →
          (r, db') = rekeyEnd S dbc iDb true rr →
          ∃ t, db'.trace = db.trace ++ Event.loadKey :: t ∧
            (rc = S.SQLITE_OK ∧ db'.codec iDb = some ⟨k0, k0⟩ ∧ Event.promote ∈ t ∧
              ((∀ e ∈ t, e.failed S = false) → r = S.SQLITE_OK) ∧
              ∀ e ∈ t, e.isRollback = false ∧ e ≠ Event.restore ∧ e ≠ Event.loadKey ∧
                (e.inScan = true → e.failed S = false) ∧
                (e.failed S = true → e.isCommit = true ∧ r = e.status S)) := by
        intro dbc tc rr hct hca hcok hcp hend
        obtain ⟨he1, he2, te, he3, he4⟩ := rekeyEnd_spec S dbc iDb true rr
        rw [← hend] at he1 he2 he3
        simp only at he1 he2 he3
        refine ⟨tp ++ ts ++ [Event.promote] ++ tc ++ te, ?_, hrc, ?_, ?_, ?_, ?_⟩
        · rw [he3, hct, h2t]
          simp
        · rw [Conn.codec_congr db' db2 iDb (by rw [he2, hca])]
          exact h2c
        · simp
        · intro hall
          rw [he1]
          apply hcok
          intro e he
          exact hall e (by simp [he])
        · apply forall_mem_append_of
          · apply forall_mem_append_of
            · intro e he
              have := hseg e he
              refine ⟨this.2.1, this.2.2.1, this.2.2.2, fun _ => this.1, ?_⟩
              intro hf
              rw [this.1] at hf
              exact absurd hf (by decide)
            · intro e he
              rw [he1]
              exact hcp e he
          · intro e he
            have := he4 e he
            refine ⟨this.2.2.1, this.2.2.2.2.2.2, this.2.2.2.2.1, fun _ => this.1, ?_⟩
            intro hf
            rw [this.1] at hf
            exact absurd hf (by decide)
      by_cases hst2 : eState ≤ S.PAGER_READER
      · rw [if_pos hst2] at hrun
        obtain ⟨c1, hc1⟩ : ∃ c1, c1 = db2.ext S (Call.sqlite3PagerCommitPhaseOne iDb) :=
          ⟨_, rfl⟩
        rw [← hc1] at hrun
        have hc1t : c1.1.trace = db2.trace ++
            [Event.call (Call.sqlite3PagerCommitPhaseOne iDb) c1.2] := by rw [hc1]; rfl
        have hc1a : c1.1.aDb = db2.aDb := by rw [hc1]; rfl
        by_cases hc1ok : c1.2 = S.SQLITE_OK
        · rw [if_pos hc1ok] at hrun
          obtain ⟨c2, hc2⟩ : ∃ c2, c2 = c1.1.ext S (Call.sqlite3PagerCommitPhaseTwo iDb) :=
            ⟨_, rfl⟩
          rw [← hc2] at hrun
          have hc2t : c2.1.trace = db2.trace ++
              [Event.call (Call.sqlite3PagerCommitPhaseOne iDb) c1.2,
               Event.call (Call.sqlite3PagerCommitPhaseTwo iDb) c2.2] := by
            rw [hc2, Conn.ext_trace, hc1t, ← hc2]
            simp
          have hc2a : c2.1.aDb = db2.aDb := by rw [hc2, Conn.ext_aDb, hc1a]
          obtain ⟨t, h1, h2⟩ := hfin c2.1 _ c2.2 hc2t hc2a
            (by
              intro hall
              have := hall (Event.call (Call.sqlite3PagerCommitPhaseTwo iDb) c2.2) (by simp)
              simpa [Event.failed] using this)
            (by
              intro e he
              simp only [List.mem_cons, List.mem_singleton, List.not_mem_nil, or_false] at he
              rcases he with rfl | rfl
              · simp [Event.isRollback, Event.inScan, Event.failed, hc1ok]
              · simp [Event.isRollback, Event.inScan, Event.failed, Event.isCommit,
                  Event.status])
            (Option.some.inj hrun).symm
          exact ⟨t, rfl, h1, Or.inr h2⟩
        · rw [if_neg hc1ok] at hrun
          obtain ⟨t, h1, h2⟩ := hfin c1.1 _ c1.2 hc1t hc1a
            (by
              intro hall
              have := hall (Event.call (Call.sqlite3PagerCommitPhaseOne iDb) c1.2) (by simp)
              simpa [Event.failed] using this)
            (by
              intro e he
              simp only [List.mem_singleton] at he
              subst he
              simp [Event.isRollback, Event.inScan, Event.failed, Event.isCommit,
                Event.status])
            (Option.some.inj hrun).symm
          exact ⟨t, rfl, h1, Or.inr h2⟩
      · rw [if_neg hst2] at hrun
        obtain ⟨t, h1, h2⟩ := hfin db2 [] sc.2 (by simp) rfl (fun _ => hs) (by simp)
          (Option.some.inj hrun).symm
        exact ⟨t, rfl, h1, Or.inr h2⟩
    · -- the scan failed, or was not entered: restore and roll back
      rw [if_neg hs] at hrun
      obtain ⟨hf1, hf2, hf3⟩ := hsfail hs
      obtain ⟨db2, hdb2⟩ : ∃ db2, db2 = (sc.1.note Event.restore).setCodec iDb
        (some ⟨keys.key1, keys.key1⟩) := ⟨_, rfl⟩
      rw [← hdb2] at hrun
      obtain ⟨rb, hrb⟩ : ∃ rb, rb = db2.ext S (Call.sqlite3PagerRollback iDb) := ⟨_, rfl⟩
      rw [← hrb] at hrun
      have h2c : db2.codec iDb = some ⟨keys.key1, keys.key1⟩ := by
        rw [hdb2]
        apply Conn.codec_setCodec
        rw [Conn.note_aDb, hsa, hpsa, h1l]
        exact hiDb
      have hrbt : rb.1.trace = db.trace ++ Event.loadKey ::
          (tp ++ ts ++ [Event.restore, Event.call (Call.sqlite3PagerRollback iDb) rb.2]) := by
        rw [hrb, Conn.ext_trace, ← hrb, hdb2, Conn.setCodec_trace, Conn.note_trace, hst, hpt,
          h1t]
        simp
      have hrba : rb.1.aDb = db2.aDb := by rw [hrb]; rfl
      obtain ⟨he1, he2, te, he3, he4⟩ := rekeyEnd_spec S rb.1 iDb (decide (rc = S.SQLITE_OK))
        sc.2
      rw [Option.some.inj hrun] at he1 he2 he3
      simp only at he1 he2 he3
      refine ⟨tp ++ ts ++ [Event.restore, Event.call (Call.sqlite3PagerRollback iDb) rb.2]
        ++ te, rfl, ?_, Or.inl ⟨?_, ?_, ⟨rb.2, by simp⟩, by simp, ?_, ?_, ?_⟩⟩
      · rw [he3, hrbt]
        simp
      · rw [he1]
        exact hs
      · rw [Conn.codec_congr db' db2 iDb (by rw [he2, hrba])]
        exact h2c
      · intro hrc
        obtain ⟨e, he, h1, h2⟩ := hf1 hrc
        exact ⟨e, by simp [he], h1, h2⟩
      · intro hrc
        rw [he1]
        exact (hf2 hrc).1
      · apply forall_mem_append_of
        · apply forall_mem_append_of
          · apply forall_mem_append_of
            · intro e he
              have := hpp e he
              refine ⟨this.2.1, this.2.2.2.2.2.1, this.2.2.2.2.1, fun _ => this.1, ?_⟩
              intro hf
              rw [this.1] at hf
              exact absurd hf (by decide)
            · intro e he
              have := hsn e he
              refine ⟨this.1, this.2.2.2.1, this.2.2.1, ?_, ?_⟩
              · intro hrc
                rw [(hf2 hrc).2] at he
                exact absurd he (by simp)
              · intro hf
                rw [he1]
                exact hf3 e he hf
          · intro e he
            simp only [List.mem_cons, List.mem_singleton, List.not_mem_nil, or_false] at he
            rcases he with rfl | rfl <;> simp [Event.isCommit, Event.failed]
        · intro e he
          have := he4 e he
          refine ⟨this.2.1, this.2.2.2.2.2.1, this.2.2.2.2.1, fun _ => this.1, ?_⟩
          intro hf
          rw [this.1] at hf
          exact absurd hf (by decide)

/-- What `sqlite3_rekey_v2` does once the codec is found.  Either it leaves
before `loadKey` (a shared lock or `sqlite3PagerBegin` failed; the slots are
untouched), or the candidate key is loaded and the run ends in one of the two
ways of `rekeyBody_spec`. -/
theorem rekeyLocked_spec {K σ : Type} (B : Backend K) (S : Sqlite σ) (db : Conn K σ)
    (iDb : Nat) (keys : KeySlots K) (pKey : Option (List Nat)) (nKey : Int)
    (r : Nat) (db' : Conn K σ) (hne : S.SQLITE_INTERRUPT ≠ S.SQLITE_OK)
    (hiDb : iDb < db.aDb.length)
    (hrun : rekeyLocked B S db iDb keys pKey nKey = some (r, db')) :
    ∃ t, db'.trace = db.trace ++ t ∧
      ((db'.codec iDb = db.codec iDb ∧ (∃ e ∈ t, e.failed S = true) ∧
          ∀ e ∈ t, e ≠ Event.loadKey ∧ e.isCommit = false ∧ e.isRollback = false ∧
            (e.inScan = true → e.failed S = false)) ∨
       ∃ k0, B.loadKey keys.key0 pKey nKey = some k0 ∧ Event.loadKey ∈ t ∧
        ((r ≠ S.SQLITE_OK ∧ db'.codec iDb = some ⟨keys.key1, keys.key1⟩ ∧
            (∃ x, Event.call (Call.sqlite3PagerRollback iDb) x ∈ t) ∧ Event.restore ∈ t ∧
            (∃ e ∈ t, e.inScan = true ∧ e.failed S = true) ∧
            ∀ e ∈ t, e.isCommit = false ∧ e ≠ Event.promote ∧
              (e.failed S = true → r = e.status S)) ∨
         (db'.codec iDb = some ⟨k0, k0⟩ ∧ Event.promote ∈ t ∧
            ((∀ e ∈ t, e.failed S = false) → r = S.SQLITE_OK) ∧
            ∀ e ∈ t, e.isRollback = false ∧ e ≠ Event.restore ∧
              (e.inScan = true → e.failed S = false) ∧
              (e.failed S = true → e.isCommit = true ∧ r = e.status S)))) := by
  unfold rekeyLocked at hrun
  dsimp only at hrun
  obtain ⟨st, hst⟩ : ∃ st, st = db.ext S (Call.sqlite3PagerState iDb) := ⟨_, rfl⟩
  rw [← hst] at hrun
  obtain ⟨lk, hlk⟩ : ∃ lk, lk = (if st.2 = S.PAGER_OPEN then
    st.1.ext S (Call.sqlite3PagerSharedLock iDb) else (st.1, 0)) := ⟨_, rfl⟩
  rw [← hlk] at hrun
  have hstt : st.1.trace = db.trace ++ [Event.call (Call.sqlite3PagerState iDb) st.2] := by
    rw [hst]; rfl
  have hsta : st.1.aDb = db.aDb := by rw [hst]; rfl
  have hlka : lk.1.aDb = db.aDb := by
    by_cases h : st.2 = S.PAGER_OPEN
    · rw [if_pos h] at hlk; rw [hlk, Conn.ext_aDb, hsta]
    · rw [if_neg h] at hlk; rw [hlk, hsta]
  -- the events up to the shared lock
  have hlkt : ∃ tl, lk.1.trace = db.trace ++ tl ∧
      (lk.2 ≠ 0 → ∃ e ∈ tl, e.failed S = true) ∧
      ∀ e ∈ tl, e ≠ Event.loadKey ∧ e ≠ Event.promote ∧ e ≠ Event.restore ∧
        e.isCommit = false ∧ e.isRollback = false ∧ e.inScan = false ∧
        (lk.2 = 0 → e.failed S = false) := by
    by_cases h : st.2 = S.PAGER_OPEN
    · rw [if_pos h] at hlk
      refine ⟨[Event.call (Call.sqlite3PagerState iDb) st.2,
        Event.call (Call.sqlite3PagerSharedLock iDb) lk.2], ?_, ?_, ?_⟩
      · rw [hlk, Conn.ext_trace, hstt]
        simp
      · intro h0
        exact ⟨Event.call (Call.sqlite3PagerSharedLock iDb) lk.2, by simp,
          by simp [Event.failed, h0]⟩
      · intro e he
        simp only [List.mem_cons, List.mem_singleton, List.not_mem_nil, or_false] at he
        rcases he with rfl | rfl <;>
          simp [Event.failed, Event.isCommit, Event.isRollback, Event.inScan]
    · rw [if_neg h] at hlk
      refine ⟨[Event.call (Call.sqlite3PagerState iDb) st.2], by rw [hlk, hstt], ?_, ?_⟩
      · intro h0
        rw [hlk] at h0
        exact absurd rfl h0
      · intro e he
        simp only [List.mem_singleton] at he
        subst he
        simp [Event.failed, Event.isCommit, Event.isRollback, Event.inScan]
  obtain ⟨tl, hlt, hlf, hlp⟩ := hlkt
  by_cases hl0 : lk.2 = 0
  · rw [if_neg (not_not.2 hl0)] at hrun
    obtain ⟨g, hg⟩ : ∃ g, g = lk.1.ext S (Call.sqlite3PagerGet iDb 1) := ⟨_, rfl⟩
    rw [← hg] at hrun
    have hgt : g.1.trace = db.trace ++ (tl ++ [Event.call (Call.sqlite3PagerGet iDb 1) g.2]) := by
      rw [hg, Conn.ext_trace, hlt, ← hg]
      simp
    have hga : g.1.aDb = db.aDb := by rw [hg, Conn.ext_aDb, hlka]
    -- the run from `loadKey` on, after the events `tq` that precede it
    have hbody : ∀ (dbq : Conn K σ) (tq : List Event) (rc nPage : Nat),
        dbq.trace = db.trace ++ tq → dbq.aDb = db.aDb →
        (rc = S.SQLITE_OK → ∀ e ∈ tq, e.failed S = false) →
        (rc ≠ S.SQLITE_OK → ∃ e ∈ tq, e.inScan = true ∧ e.failed S = true) →
        (∀ e ∈ tq, e ≠ Event.loadKey ∧ e ≠ Event.promote ∧ e ≠ Event.restore ∧
          e.isCommit = false ∧ e.isRollback = false ∧
          (e.failed S = true → rc = e.status S)) →
        rekeyBody B S dbq iDb keys st.2 rc nPage pKey nKey = some (r, db') →
        ∃ t, db'.trace = db.trace ++ t ∧
          ((db'.codec iDb = db.codec iDb ∧ (∃ e ∈ t, e.failed S = true) ∧
              ∀ e ∈ t, e ≠ Event.loadKey ∧ e.isCommit = false ∧ e.isRollback = false ∧
                (e.inScan = true → e.failed S = false)) ∨
           ∃ k0, B.loadKey keys.key0 pKey nKey = some k0 ∧ Event.loadKey ∈ t ∧
            ((r ≠ S.SQLITE_OK ∧ db'.codec iDb = some ⟨keys.key1, keys.key1⟩ ∧
                (∃ x, Event.call (Call.sqlite3PagerRollback iDb) x ∈ t) ∧ Event.restore ∈ t ∧
                (∃ e ∈ t, e.inScan = true ∧ e.failed S = true) ∧
                ∀ e ∈ t, e.isCommit = false ∧ e ≠ Event.promote ∧
                  (e.failed S = true → r = e.status S)) ∨
             (db'.codec iDb = some ⟨k0, k0⟩ ∧ Event.promote ∈ t ∧
                ((∀ e ∈ t, e.failed S = false) → r = S.SQLITE_OK) ∧
                ∀ e ∈ t, e.isRollback = false ∧ e ≠ Event.restore ∧
                  (e.inScan = true → e.failed S = false) ∧
                  (e.failed S = true → e.isCommit = true ∧ r = e.status S)))) := by
      intro dbq tq rc nPage hqt hqa hqok hqfail hqp hb
      obtain ⟨k0, t, hk, ht, hcase⟩ := rekeyBody_spec B S dbq iDb keys st.2 rc nPage pKey nKey
        r db' hne (by rw [hqa]; exact hiDb) hb
      refine ⟨tq ++ Event.loadKey :: t, by rw [ht, hqt, List.append_assoc], Or.inr
        ⟨k0, hk, by simp, ?_⟩⟩
      rcases hcase with ⟨h1, h2, ⟨x, h3⟩, h4, h5, h6, h7⟩ | ⟨h1, h2, h3, h4, h5⟩
      · refine Or.inl ⟨h1, h2, ⟨x, by simp [h3]⟩, by simp [h4], ?_, ?_⟩
        · by_cases hrc : rc = S.SQLITE_OK
          · obtain ⟨e, he, hh⟩ := h5 hrc
            exact ⟨e, by simp [he], hh⟩
          · obtain ⟨e, he, hh⟩ := hqfail hrc
            exact ⟨e, by simp [he], hh⟩
        · apply forall_mem_append_of
          · intro e he
            have := hqp e he
            refine ⟨this.2.2.2.1, this.2.1, ?_⟩
            intro hf
            by_cases hrc : rc = S.SQLITE_OK
            · rw [hqok hrc e he] at hf
              exact absurd hf (by decide)
            · rw [h6 hrc]
              exact this.2.2.2.2.2 hf
          · intro e he
            rcases List.mem_cons.1 he with rfl | he
            · simp [Event.isCommit, Event.failed]
            · have := h7 e he
              exact ⟨this.1, this.2.1, this.2.2.2.2⟩
      · refine Or.inr ⟨h2, by simp [h3], ?_, ?_⟩
        · intro hall
          apply h4
          intro e he
          exact hall e (by simp [he])
        · apply forall_mem_append_of
          · intro e he
            have := hqp e he
            have hnf := hqok h1 e he
            refine ⟨this.2.2.2.2.1, this.2.2.1, fun _ => hnf, ?_⟩
            intro hf
            rw [hnf] at hf
            exact absurd hf (by decide)
          · intro e he
            rcases List.mem_cons.1 he with rfl | he
            · simp [Event.isRollback, Event.inScan, Event.failed]
            · have := h5 e he
              exact ⟨this.1, this.2.1, this.2.2.2⟩
    have hgp : ∀ e ∈ tl ++ [Event.call (Call.sqlite3PagerGet iDb 1) g.2],
        e ≠ Event.loadKey ∧ e ≠ Event.promote ∧ e ≠ Event.restore ∧
          e.isCommit = false ∧ e.isRollback = false ∧
          (e.failed S = true → g.2 = e.status S) ∧
          (g.2 = S.SQLITE_OK → e.failed S = false) := by
      apply forall_mem_append_of
      · intro e he
        have := hlp e he
        refine ⟨this.1, this.2.1, this.2.2.1, this.2.2.2.1, this.2.2.2.2.1, ?_,
          fun _ => this.2.2.2.2.2.2 hl0⟩
        intro hf
        rw [this.2.2.2.2.2.2 hl0] at hf
        exact absurd hf (by decide)
      · intro e he
        simp only [List.mem_singleton] at he
        subst he
        simp [Event.isCommit, Event.isRollback, Event.status, Event.failed]
    by_cases hgok : g.2 = S.SQLITE_OK
    · by_cases hes : st.2 ≤ S.PAGER_READER
      · rw [if_pos ⟨hgok, hes⟩] at hrun
        obtain ⟨b, hb⟩ : ∃ b, b = g.1.ext S (Call.sqlite3PagerBegin iDb) := ⟨_, rfl⟩
        rw [← hb] at hrun
        have hbt : b.1.trace = db.trace ++ (tl ++ [Event.call (Call.sqlite3PagerGet iDb 1) g.2,
            Event.call (Call.sqlite3PagerBegin iDb) b.2]) := by
          rw [hb, Conn.ext_trace, hgt, ← hb]
          simp
        have hba : b.1.aDb = db.aDb := by rw [hb, Conn.ext_aDb, hga]
        by_cases hbok : b.2 = S.SQLITE_OK
        · rw [if_neg (not_not.2 hbok)] at hrun
          obtain ⟨pc, hpc⟩ : ∃ pc, pc = b.1.ext S (Call.sqlite3PagerPagecount iDb) := ⟨_, rfl⟩
          rw [← hpc] at hrun
          have hpq : ∀ e ∈ tl ++ [Event.call (Call.sqlite3PagerGet iDb 1) g.2,
              Event.call (Call.sqlite3PagerBegin iDb) b.2,
              Event.call (Call.sqlite3PagerPagecount iDb) pc.2],
              e ≠ Event.loadKey ∧ e ≠ Event.promote ∧ e ≠ Event.restore ∧
                e.isCommit = false ∧ e.isRollback = false ∧ e.failed S = false := by
            apply forall_mem_append_of
            · intro e he
              have := hlp e he
              exact ⟨this.1, this.2.1, this.2.2.1, this.2.2.2.1, this.2.2.2.2.1,
                this.2.2.2.2.2.2 hl0⟩
            · intro e he
              simp only [List.mem_cons, List.mem_singleton, List.not_mem_nil, or_false] at he
              rcases he with rfl | rfl | rfl <;>
                simp [Event.isCommit, Event.isRollback, Event.failed, hgok, hbok]
          exact hbody pc.1 _ b.2 pc.2
            (by rw [hpc, Conn.ext_trace, hbt, ← hpc]; simp)
            (by rw [hpc, Conn.ext_aDb, hba])
            (fun _ e he => (hpq e he).2.2.2.2.2)
            (fun h => absurd hbok h)
            (by
              intro e he
              have := hpq e he
              refine ⟨this.1, this.2.1, this.2.2.1, this.2.2.2.1, this.2.2.2.2.1, ?_⟩
              intro hf
              rw [this.2.2.2.2.2] at hf
              exact absurd hf (by decide))
            hrun
        · rw [if_pos hbok] at hrun
          obtain ⟨he1, he2, te, he3, he4⟩ := rekeyEnd_spec S b.1 iDb true b.2
          rw [Option.some.inj hrun] at he2 he3
          refine ⟨_, by rw [he3, hbt, List.append_assoc], Or.inl ⟨?_, ?_, ?_⟩⟩
          · unfold Conn.codec
            rw [he2, hba]
          · exact ⟨Event.call (Call.sqlite3PagerBegin iDb) b.2, by simp,
              by simp [Event.failed, hbok]⟩
          · apply forall_mem_append_of
            · apply forall_mem_append_of
              · intro e he
                have := hlp e he
                refine ⟨this.1, this.2.2.2.1, this.2.2.2.2.1, ?_⟩
                intro hi
                rw [this.2.2.2.2.2.1] at hi
                exact absurd hi (by decide)
              · intro e he
                simp only [List.mem_cons, List.mem_singleton, List.not_mem_nil, or_false] at he
                rcases he with rfl | rfl <;>
                  simp [Event.isCommit, Event.isRollback, Event.failed, Event.inScan, hgok]
            · intro e he
              have := he4 e he
              exact ⟨this.2.2.2.2.1, this.2.1, this.2.2.1, fun _ => this.1⟩
      · rw [if_neg (fun h => hes h.2), if_pos hgok] at hrun
        obtain ⟨pc, hpc⟩ : ∃ pc, pc = g.1.ext S (Call.sqlite3PagerPagecount iDb) := ⟨_, rfl⟩
        rw [← hpc] at hrun
        have hpq : ∀ e ∈ tl ++ [Event.call (Call.sqlite3PagerGet iDb 1) g.2,
            Event.call (Call.sqlite3PagerPagecount iDb) pc.2],
            e ≠ Event.loadKey ∧ e ≠ Event.promote ∧ e ≠ Event.restore ∧
              e.isCommit = false ∧ e.isRollback = false ∧ e.failed S = false := by
          apply forall_mem_append_of
          · intro e he
            have := hlp e he
            exact ⟨this.1, this.2.1, this.2.2.1, this.2.2.2.1, this.2.2.2.2.1,
              this.2.2.2.2.2.2 hl0⟩
          · intro e he
            simp only [List.mem_cons, List.mem_singleton, List.not_mem_nil, or_false] at he
            rcases he with rfl | rfl <;>
              simp [Event.isCommit, Event.isRollback, Event.failed, hgok]
        exact hbody pc.1 _ g.2 pc.2
          (by rw [hpc, Conn.ext_trace, hgt, ← hpc]; simp)
          (by rw [hpc, Conn.ext_aDb, hga])
          (fun _ e he => (hpq e he).2.2.2.2.2)
          (fun h => absurd hgok h)
          (by
            intro e he
            have := hpq e he
            refine ⟨this.1, this.2.1, this.2.2.1, this.2.2.2.1, this.2.2.2.2.1, ?_⟩
            intro hf
            rw [this.2.2.2.2.2] at hf
            exact absurd hf (by decide))
          hrun
    · rw [if_neg (fun h => hgok h.1), if_neg hgok] at hrun
      exact hbody g.1 _ g.2 0 hgt hga
        (fun h => absurd h hgok)
        (fun _ => ⟨Event.call (Call.sqlite3PagerGet iDb 1) g.2, by simp,
          by simp [Event.inScan], by simp [Event.failed, hgok]⟩)
        (by
          intro e he
          have := hgp e he
          exact ⟨this.1, this.2.1, this.2.2.1, this.2.2.2.1, this.2.2.2.2.1,
            this.2.2.2.2.2.1⟩)
        hrun
  · rw [if_pos hl0] at hrun
    obtain ⟨he1, he2, te, he3, he4⟩ := rekeyEnd_spec S lk.1 iDb false lk.2
    rw [Option.some.inj hrun] at he2 he3
    refine ⟨_, by rw [he3, hlt, List.append_assoc], Or.inl ⟨?_, ?_, ?_⟩⟩
    · unfold Conn.codec
      rw [he2, hlka]
    · obtain ⟨e, he, hf⟩ := hlf hl0
      exact ⟨e, by simp [he], hf⟩
    · apply forall_mem_append_of
      · intro e he
        have := hlp e he
        refine ⟨this.1, this.2.2.2.1, this.2.2.2.2.1, ?_⟩
        intro hi
        rw [this.2.2.2.2.2.1] at hi
        exact absurd hi (by decide)
      · intro e he
        have := he4 e he
        exact ⟨this.2.2.2.2.1, this.2.1, this.2.2.1, fun _ => this.1⟩

/-- The events `sqlite3CodecAttach` adds are an allocation and the two calls
that install the codec. -/
theorem sqlite3CodecAttach_trace {K σ : Type} (B : Backend K) (S : Sqlite σ) (db : Conn K σ)
    (iDb : Nat) (pKey : Option (List Nat)) (nKey : Int) (a : Nat × Conn K σ)
    (h : sqlite3CodecAttach B S db iDb pKey nKey = some a) :
    ∃ t, a.2.trace = db.trace ++ t ∧
      ∀ e ∈ t, e ≠ Event.loadKey ∧ e ≠ Event.promote ∧ e ≠ Event.restore ∧
        e.isCommit = false ∧ e.isRollback = false ∧ e.inScan = false ∧
        e.failed S = false := by
  unfold sqlite3CodecAttach at h
  cases hd : db.aDb[iDb]? with
  | none => rw [hd] at h; exact absurd h (by simp)
  | some pDb =>
    rw [hd] at h
    dsimp only at h
    by_cases hbt : pDb.pBt = true
    · rw [if_pos hbt] at h
      obtain ⟨m, hm⟩ : ∃ m, m = db.ext S Call.sqlite3_malloc := ⟨_, rfl⟩
      rw [← hm] at h
      have hmt : m.1.trace = db.trace ++ [Event.call Call.sqlite3_malloc m.2] := by
        rw [hm]; rfl
      by_cases hm0 : m.2 = 0
      · rw [if_pos hm0] at h
        rw [← Option.some.inj h]
        refine ⟨_, hmt, ?_⟩
        intro e he
        simp only [List.mem_singleton] at he
        subst he
        simp [Event.isCommit, Event.isRollback, Event.inScan, Event.failed]
      · rw [if_neg hm0] at h
        cases hk : B.loadKey B.zeroKey pKey nKey with
        | none => rw [hk] at h; exact absurd h (by simp)
        | some k =>
          rw [hk] at h
          cases hr : B.nReserve with
          | none =>
            rw [hr] at h
            dsimp only at h
            rw [← Option.some.inj h]
            refine ⟨[Event.call Call.sqlite3_malloc m.2,
              Event.call (Call.sqlite3PagerSetCodec iDb)
                (m.1.ext S (Call.sqlite3PagerSetCodec iDb)).2], ?_, ?_⟩
            · rw [Conn.setCodec_trace, Conn.ext_trace, hmt]
              simp
            · intro e he
              simp only [List.mem_cons, List.mem_singleton, List.not_mem_nil, or_false] at he
              rcases he with rfl | rfl <;>
                simp [Event.isCommit, Event.isRollback, Event.inScan, Event.failed]
          | some n =>
            rw [hr] at h
            dsimp only at h
            rw [← Option.some.inj h]
            refine ⟨[Event.call Call.sqlite3_malloc m.2,
              Event.call (Call.sqlite3BtreeSetPageSize iDb n)
                (m.1.ext S (Call.sqlite3BtreeSetPageSize iDb n)).2,
              Event.call (Call.sqlite3PagerSetCodec iDb)
                ((m.1.ext S (Call.sqlite3BtreeSetPageSize iDb n)).1.ext S
                  (Call.sqlite3PagerSetCodec iDb)).2], ?_, ?_⟩
            · rw [Conn.setCodec_trace, Conn.ext_trace, Conn.ext_trace, hmt]
              simp
            · intro e he
              simp only [List.mem_cons, List.mem_singleton, List.not_mem_nil, or_false] at he
              rcases he with rfl | rfl | rfl <;>
                simp [Event.isCommit, Event.isRollback, Event.inScan, Event.failed]
    · rw [if_neg hbt] at h
      rw [← Option.some.inj h]
      exact ⟨[], by simp, by simp⟩

/-- The database a name resolves to depends on `aDb` only. -/
theorem sqlite3NameToDb_congr {K σ : Type} (S : Sqlite σ) (db1 db2 : Conn K σ)
    (zDbName : Option String) (h : db1.aDb = db2.aDb) :
    sqlite3NameToDb S db1 zDbName = sqlite3NameToDb S db2 zDbName := by
  unfold sqlite3NameToDb
  rw [h]

/-- The ways a run of `sqlite3_rekey_v2` can end.  Either it never loads the
candidate key (no commit, no rollback, no failing scan step in its trace), or
it loads it into slot 0 of the codec `keys` it found and then either restores
and rolls back, with the status of the failing scan step, or promotes and
commits, where only a commit phase can have failed. -/
theorem sqlite3_rekey_v2_spec {K σ : Type} (B : Backend K) (S : Sqlite σ)
    (encryptionEnabled : Bool) (db : Conn K σ) (zDbName : Option String)
    (pKey : Option (List Nat)) (nKey : Int) (r : Nat) (db' : Conn K σ)
    (hne : S.SQLITE_INTERRUPT ≠ S.SQLITE_OK)
    (hrun : sqlite3_rekey_v2 B S encryptionEnabled db zDbName pKey nKey = some (r, db')) :
    (∀ e ∈ db'.trace, e ≠ Event.loadKey ∧ e.isCommit = false ∧ e.isRollback = false ∧
        (e.inScan = true → e.failed S = false)) ∨
    ∃ keys k0, (∀ ks, db.codec (sqlite3NameToDb S db zDbName).toNat = some ks → ks = keys) ∧
      B.loadKey keys.key0 pKey nKey = some k0 ∧ Event.loadKey ∈ db'.trace ∧
      ((r ≠ S.SQLITE_OK ∧
          db'.codec (sqlite3NameToDb S db zDbName).toNat = some ⟨keys.key1, keys.key1⟩ ∧
          (∃ x, Event.call (Call.sqlite3PagerRollback (sqlite3NameToDb S db zDbName).toNat) x
            ∈ db'.trace) ∧ Event.restore ∈ db'.trace ∧
          (∃ e ∈ db'.trace, e.inScan = true ∧ e.failed S = true) ∧
          ∀ e ∈ db'.trace, e.isCommit = false ∧ e ≠ Event.promote ∧
            (e.failed S = true → r = e.status S)) ∨
       (db'.codec (sqlite3NameToDb S db zDbName).toNat = some ⟨k0, k0⟩ ∧
          Event.promote ∈ db'.trace ∧
          ((∀ e ∈ db'.trace, e.failed S = false) → r = S.SQLITE_OK) ∧
          ∀ e ∈ db'.trace, e.isRollback = false ∧ e ≠ Event.restore ∧
            (e.inScan = true → e.failed S = false) ∧
            (e.failed S = true → e.isCommit = true ∧ r = e.status S))) := by
  unfold sqlite3_rekey_v2 at hrun
  dsimp only at hrun
  by_cases hen : encryptionEnabled = false
  · rw [if_pos hen] at hrun
    have hdb : db'.trace = [] := by
      have := congrArg (fun p => p.2.trace) (Option.some.inj hrun)
      exact this.symm
    rw [hdb]
    exact Or.inl (by simp)
  rw [if_neg hen] at hrun
  obtain ⟨db1, hdb1⟩ : ∃ db1, db1 = (({ db with trace := [] }).ext S
    Call.sqlite3_mutex_enter).1.ext S Call.sqlite3BtreeEnterAll := ⟨_, rfl⟩
  rw [← hdb1] at hrun
  have h1a : db1.1.aDb = db.aDb := by rw [hdb1]; rfl
  have hname : sqlite3NameToDb S db1.1 zDbName = sqlite3NameToDb S db zDbName :=
    sqlite3NameToDb_congr S db1.1 db zDbName h1a
  rw [hname] at hrun
  have h1t : ∃ t1, db1.1.trace = t1 ∧
      ∀ e ∈ t1, e ≠ Event.loadKey ∧ e ≠ Event.promote ∧ e ≠ Event.restore ∧
        e.isCommit = false ∧ e.isRollback = false ∧ e.inScan = false ∧
        e.failed S = false := by
    refine ⟨_, rfl, ?_⟩
    intro e he
    rw [hdb1] at he
    simp only [Conn.ext_trace, List.nil_append, List.cons_append, List.mem_cons,
      List.mem_singleton, List.not_mem_nil, or_false] at he
    rcases he with rfl | rfl <;>
      simp [Event.isCommit, Event.isRollback, Event.inScan, Event.failed]
  obtain ⟨t1, ht1, hp1⟩ := h1t
  -- an exit through `end_rekey` before the codec is looked at
  have hearly : ∀ (dbq : Conn K σ) (tq : List Event) (i : Nat) (rc : Nat),
      dbq.trace = t1 ++ tq →
      (∀ e ∈ tq, e ≠ Event.loadKey ∧ e ≠ Event.promote ∧ e ≠ Event.restore ∧
        e.isCommit = false ∧ e.isRollback = false ∧ e.inScan = false ∧
        e.failed S = false) →
      (r, db') = rekeyEnd S dbq i false rc →
      ∀ e ∈ db'.trace, e ≠ Event.loadKey ∧ e.isCommit = false ∧ e.isRollback = false ∧
        (e.inScan = true → e.failed S = false) := by
    intro dbq tq i rc hq hqp hend
    obtain ⟨_, _, te, he3, he4⟩ := rekeyEnd_spec S dbq i false rc
    rw [← hend] at he3
    simp only at he3
    rw [he3, hq]
    apply forall_mem_append_of
    · apply forall_mem_append_of
      · intro e he
        have := hp1 e he
        exact ⟨this.1, this.2.2.2.1, this.2.2.2.2.1, fun _ => this.2.2.2.2.2.2⟩
      · intro e he
        have := hqp e he
        exact ⟨this.1, this.2.2.2.1, this.2.2.2.2.1, fun _ => this.2.2.2.2.2.2⟩
    · intro e he
      have := he4 e he
      exact ⟨this.2.2.2.2.1, this.2.1, this.2.2.1, fun _ => this.1⟩
  -- the run once the codec `keys` is found, after the events `tq`
  have hlocked : ∀ (dbq : Conn K σ) (tq : List Event) (keys : KeySlots K),
      dbq.trace = t1 ++ tq →
      (∀ e ∈ tq, e ≠ Event.loadKey ∧ e ≠ Event.promote ∧ e ≠ Event.restore ∧
        e.isCommit = false ∧ e.isRollback = false ∧ e.inScan = false ∧
        e.failed S = false) →
      (sqlite3NameToDb S db zDbName).toNat < dbq.aDb.length →
      dbq.codec (sqlite3NameToDb S db zDbName).toNat = some keys →
      (∀ ks, db.codec (sqlite3NameToDb S db zDbName).toNat = some ks → ks = keys) →
      rekeyLocked B S dbq (sqlite3NameToDb S db zDbName).toNat keys pKey nKey =
        some (r, db') →
      (∀ e ∈ db'.trace, e ≠ Event.loadKey ∧ e.isCommit = false ∧ e.isRollback = false ∧
          (e.inScan = true → e.failed S = false)) ∨
      ∃ keys k0, (∀ ks, db.codec (sqlite3NameToDb S db zDbName).toNat = some ks →
          ks = keys) ∧
        B.loadKey keys.key0 pKey nKey = some k0 ∧ Event.loadKey ∈ db'.trace ∧
        ((r ≠ S.SQLITE_OK ∧
            db'.codec (sqlite3NameToDb S db zDbName).toNat = some ⟨keys.key1, keys.key1⟩ ∧
            (∃ x, Event.call (Call.sqlite3PagerRollback
              (sqlite3NameToDb S db zDbName).toNat) x ∈ db'.trace) ∧
            Event.restore ∈ db'.trace ∧
            (∃ e ∈ db'.trace, e.inScan = true ∧ e.failed S = true) ∧
            ∀ e ∈ db'.trace, e.isCommit = false ∧ e ≠ Event.promote ∧
              (e.failed S = true → r = e.status S)) ∨
         (db'.codec (sqlite3NameToDb S db zDbName).toNat = some ⟨k0, k0⟩ ∧
            Event.promote ∈ db'.trace ∧
            ((∀ e ∈ db'.trace, e.failed S = false) → r = S.SQLITE_OK) ∧
            ∀ e ∈ db'.trace, e.isRollback = false ∧ e ≠ Event.restore ∧
              (e.inScan = true → e.failed S = false) ∧
              (e.failed S = true → e.isCommit = true ∧ r = e.status S))) := by
    intro dbq tq keys hq hqp hlen hcodec hbefore hl
    obtain ⟨t, ht, hcase⟩ := rekeyLocked_spec B S dbq _ keys pKey nKey r db' hne hlen hl
    have hpre : ∀ e ∈ t1 ++ tq, e ≠ Event.loadKey ∧ e ≠ Event.promote ∧
        e ≠ Event.restore ∧ e.isCommit = false ∧ e.isRollback = false ∧
        e.inScan = false ∧ e.failed S = false :=
      forall_mem_append_of hp1 hqp
    rw [hq] at ht
    rcases hcase with ⟨_, _, h3⟩ | ⟨k0, hk, hload, hcase⟩
    · left
      rw [ht]
      apply forall_mem_append_of
      · intro e he
        have := hpre e he
        exact ⟨this.1, this.2.2.2.1, this.2.2.2.2.1, fun _ => this.2.2.2.2.2.2⟩
      · exact h3
    · right
      refine ⟨keys, k0, hbefore, hk, by rw [ht]; exact List.mem_append.2 (Or.inr hload), ?_⟩
      rcases hcase with ⟨h1, h2, ⟨x, h3⟩, h4, ⟨e, h5, h5'⟩, h6⟩ | ⟨h1, h2, h3, h4⟩
      · refine Or.inl ⟨h1, h2, ⟨x, by rw [ht]; exact List.mem_append.2 (Or.inr h3)⟩,
          by rw [ht]; exact List.mem_append.2 (Or.inr h4),
          ⟨e, by rw [ht]; exact List.mem_append.2 (Or.inr h5), h5'⟩, ?_⟩
        rw [ht]
        apply forall_mem_append_of
        · intro e he
          have := hpre e he
          refine ⟨this.2.2.2.1, this.2.1, ?_⟩
          intro hf
          rw [this.2.2.2.2.2.2] at hf
          exact absurd hf (by decide)
        · exact h6
      · refine Or.inr ⟨h1, by rw [ht]; exact List.mem_append.2 (Or.inr h2), ?_, ?_⟩
        · intro hall
          apply h3
          intro e he
          exact hall e (by rw [ht]; exact List.mem_append.2 (Or.inr he))
        · rw [ht]
          apply forall_mem_append_of
          · intro e he
            have := hpre e he
            refine ⟨this.2.2.2.2.1, this.2.2.1, fun _ => this.2.2.2.2.2.2, ?_⟩
            intro hf
            rw [this.2.2.2.2.2.2] at hf
            exact absurd hf (by decide)
          · exact h4
  by_cases hi : sqlite3NameToDb S db zDbName < 0
  · rw [if_pos hi] at hrun
    exact Or.inl (hearly db1.1 [] 0 _ (by rw [ht1]; simp) (by simp)
      (Option.some.inj hrun).symm)
  rw [if_neg hi] at hrun
  cases hd : db1.1.aDb[(sqlite3NameToDb S db zDbName).toNat]? with
  | none => rw [hd] at hrun; exact absurd hrun (by simp)
  | some pDb =>
    rw [hd] at hrun
    dsimp only at hrun
    have hlen : (sqlite3NameToDb S db zDbName).toNat < db1.1.aDb.length := by
      by_contra hc
      rw [List.getElem?_eq_none (Nat.le_of_not_lt hc)] at hd
      exact absurd hd (by simp)
    by_cases hbt : pDb.pBt = false
    · rw [if_pos hbt] at hrun
      exact absurd hrun (by simp)
    rw [if_neg hbt] at hrun
    by_cases hro : pDb.readOnly = true
    · rw [if_pos hro] at hrun
      exact Or.inl (hearly db1.1 [] _ _ (by rw [ht1]; simp) (by simp)
        (Option.some.inj hrun).symm)
    rw [if_neg hro] at hrun
    have hcb : db.codec (sqlite3NameToDb S db zDbName).toNat = pDb.pCodec := by
      unfold Conn.codec
      rw [← h1a, hd]
      rfl
    cases hc : pDb.pCodec with
    | some keys =>
      rw [hc] at hrun
      dsimp only at hrun
      refine hlocked db1.1 [] keys (by rw [ht1]; simp) (by simp) hlen ?_ ?_ hrun
      · unfold Conn.codec
        rw [hd]
        exact hc
      · intro ks hks
        rw [hcb, hc] at hks
        exact (Option.some.inj hks).symm
    | none =>
      rw [hc] at hrun
      dsimp only at hrun
      cases ha : sqlite3CodecAttach B S db1.1 0 (some [0]) 0 with
      | none => rw [ha] at hrun; exact absurd hrun (by simp)
      | some a =>
        rw [ha] at hrun
        dsimp only at hrun
        obtain ⟨ta, hta, hpa⟩ := sqlite3CodecAttach_trace B S db1.1 0 (some [0]) 0 a ha
        cases hca : (a.2.aDb[(sqlite3NameToDb S db zDbName).toNat]?).bind
            (fun d => d.pCodec) with
        | none =>
          rw [hca] at hrun
          dsimp only at hrun
          exact Or.inl (hearly a.2 ta _ _ (by rw [hta, ht1]) hpa
            (Option.some.inj hrun).symm)
        | some keys =>
          rw [hca] at hrun
          dsimp only at hrun
          refine hlocked a.2 ta keys (by rw [hta, ht1]) hpa ?_ hca ?_ hrun
          · by_contra hcl
            rw [List.getElem?_eq_none (Nat.le_of_not_lt hcl)] at hca
            exact absurd hca (by simp)
          · intro ks hks
            rw [hcb, hc] at hks
            exact absurd hks (by simp)

/-- The status of a failed commit phase is not `SQLITE_OK`. -/
theorem commit_failed_status {σ : Type} (S : Sqlite σ) (e : Event) (h1 : e.isCommit = true)
    (h2 : e.failed S = true) : e.status S ≠ S.SQLITE_OK := by
  rcases e with ⟨c, x⟩ | _ | _ | _
  · cases c <;> simp [Event.isCommit, Event.failed, Event.status] at h1 h2 ⊢
    · exact h2
    · exact h2
  · simp [Event.isCommit] at h1
  · simp [Event.isCommit] at h1
  · simp [Event.isCommit] at h1

/-- C8. Re-key rollback on scan failure.  In a run of `sqlite3_rekey_v2` that
returns (status `rc`, connection `db'`) and in which a page fetch (the fetch
of page 1 ahead of the scan among them) or a mark-dirty returned an error, or
the interrupt flag was found set: the candidate key had been loaded; at the
return slot 0 of the codec equals slot 1, and slot 1 is the key the codec held
in slot 1 before the call; `sqlite3PagerRollback` was called on the pager;
neither commit phase was called; and the status returned is not `SQLITE_OK`
and is the status of the failing step (the error returned, or
`SQLITE_INTERRUPT`). -/
theorem C8_rekey_scan_failure_rolls_back {K σ : Type} (B : Backend K) (S : Sqlite σ)
    (encryptionEnabled : Bool) (db : Conn K σ) (zDbName : Option String)
    (pKey : Option (List Nat)) (nKey : Int) (rc : Nat) (db' : Conn K σ)
    (hne : S.SQLITE_INTERRUPT ≠ S.SQLITE_OK)
    (hrun : sqlite3_rekey_v2 B S encryptionEnabled db zDbName pKey nKey = some (rc, db'))
    (hfail : ∃ e ∈ db'.trace, e.inScan = true ∧ e.failed S = true) :
    Event.loadKey ∈ db'.trace ∧
    (∃ k, db'.codec (sqlite3NameToDb S db zDbName).toNat = some ⟨k, k⟩ ∧
      ∀ keys, db.codec (sqlite3NameToDb S db zDbName).toNat = some keys → k = keys.key1) ∧
    (∃ x, Event.call (Call.sqlite3PagerRollback (sqlite3NameToDb S db zDbName).toNat) x
      ∈ db'.trace) ∧
    (∀ e ∈ db'.trace, e.isCommit = false) ∧
    rc ≠ S.SQLITE_OK ∧ ∀ e ∈ db'.trace, e.failed S = true → rc = e.status S := by
  obtain ⟨e, he, hin, hf⟩ := hfail
  rcases sqlite3_rekey_v2_spec B S encryptionEnabled db zDbName pKey nKey rc db' hne hrun with
    h | ⟨keys, k0, hbefore, _, hload, h | h⟩
  · rw [(h e he).2.2.2 hin] at hf
    exact absurd hf (by decide)
  · obtain ⟨h1, h2, h3, _, _, h6⟩ := h
    refine ⟨hload, ⟨keys.key1, h2, ?_⟩, h3, fun e he => (h6 e he).1, h1,
      fun e he => (h6 e he).2.2⟩
    intro ks hks
    rw [hbefore ks hks]
  · rw [(h.2.2.2 e he).2.2.1 hin] at hf
    exact absurd hf (by decide)

/-- Witness of C8: re-key of a three-page file from the key 5 to the key 9 in
which the mark-dirty of page 2 returns 10. -/
theorem C8_rekey_scan_failure_rolls_back_witness :
    sqlite3_rekey_v2 xorBackend (sqliteStub (pagerThreePages (Call.sqlite3PagerWrite 0 2) 10))
      true connKeyed none (some [9]) 1 = some (10, connWriteFailed) ∧
    (Event.loadKey ∈ connWriteFailed.trace ∧
    (∃ k, connWriteFailed.codec 0 = some ⟨k, k⟩ ∧
      ∀ keys, connKeyed.codec 0 = some keys → k = keys.key1) ∧
    (∃ x, Event.call (Call.sqlite3PagerRollback 0) x ∈ connWriteFailed.trace) ∧
    (∀ e ∈ connWriteFailed.trace, e.isCommit = false) ∧
    10 ≠ 0 ∧
    ∀ e ∈ connWriteFailed.trace,
      e.failed (sqliteStub (pagerThreePages (Call.sqlite3PagerWrite 0 2) 10)) = true →
        10 = e.status (sqliteStub (pagerThreePages (Call.sqlite3PagerWrite 0 2) 10))) :=
  ⟨rfl, C8_rekey_scan_failure_rolls_back xorBackend
    (sqliteStub (pagerThreePages (Call.sqlite3PagerWrite 0 2) 10)) true connKeyed none
    (some [9]) 1 10 connWriteFailed (by decide) rfl
    ⟨Event.call (Call.sqlite3PagerWrite 0 2) 10, by decide, rfl, rfl⟩⟩

/-- C9, what the code does.  In a run of `sqlite3_rekey_v2` that returns
(status `rc`, connection `db'`) and in which commit phase one or commit phase
two returned an error: the slots had been promoted before the commit; at the
return both slots of the codec hold the candidate key that `loadKey` made, so
slot 0 is not restored and slot 1 no longer holds the old key;
`sqlite3PagerRollback` was not called; and the error is returned. -/
theorem C9_rekey_commit_failure_keeps_candidate_key {K σ : Type} (B : Backend K)
    (S : Sqlite σ) (encryptionEnabled : Bool) (db : Conn K σ) (zDbName : Option String)
    (pKey : Option (List Nat)) (nKey : Int) (rc : Nat) (db' : Conn K σ)
    (hne : S.SQLITE_INTERRUPT ≠ S.SQLITE_OK)
    (hrun : sqlite3_rekey_v2 B S encryptionEnabled db zDbName pKey nKey = some (rc, db'))
    (hcommit : ∃ e ∈ db'.trace, e.isCommit = true ∧ e.failed S = true) :
    Event.promote ∈ db'.trace ∧
    (∃ keys k0, (∀ ks, db.codec (sqlite3NameToDb S db zDbName).toNat = some ks → ks = keys) ∧
      B.loadKey keys.key0 pKey nKey = some k0 ∧
      db'.codec (sqlite3NameToDb S db zDbName).toNat = some ⟨k0, k0⟩) ∧
    (∀ e ∈ db'.trace, e.isRollback = false ∧ e ≠ Event.restore) ∧
    rc ≠ S.SQLITE_OK ∧ ∀ e ∈ db'.trace, e.failed S = true → rc = e.status S := by
  obtain ⟨e, he, hin, hf⟩ := hcommit
  rcases sqlite3_rekey_v2_spec B S encryptionEnabled db zDbName pKey nKey rc db' hne hrun with
    h | ⟨keys, k0, hbefore, hk, _, h | h⟩
  · rw [(h e he).2.1] at hin
    exact absurd hin (by decide)
  · rw [(h.2.2.2.2.2 e he).1] at hin
    exact absurd hin (by decide)
  · obtain ⟨h1, h2, _, h4⟩ := h
    refine ⟨h2, ⟨keys, k0, hbefore, hk, h1⟩, fun e he => ⟨(h4 e he).1, (h4 e he).2.1⟩, ?_,
      fun e he hfe => ((h4 e he).2.2.2 hfe).2⟩
    rw [((h4 e he).2.2.2 hf).2]
    exact commit_failed_status S e hin hf

/-- Witness of C9: re-key of a three-page file from the key 5 to the key 9 in
which commit phase one returns 13; both slots are left holding the key 9. -/
theorem C9_rekey_commit_failure_keeps_candidate_key_witness :
    sqlite3_rekey_v2 xorBackend
      (sqliteStub (pagerThreePages (Call.sqlite3PagerCommitPhaseOne 0) 13))
      true connKeyed none (some [9]) 1 = some (13, connCommitFailed) ∧
    connCommitFailed.codec 0 = some ⟨xorKeyNines, xorKeyNines⟩ ∧
    (Event.promote ∈ connCommitFailed.trace ∧
    (∃ keys k0, (∀ ks, connKeyed.codec 0 = some ks → ks = keys) ∧
      xorBackend.loadKey keys.key0 (some [9]) 1 = some k0 ∧
      connCommitFailed.codec 0 = some ⟨k0, k0⟩) ∧
    (∀ e ∈ connCommitFailed.trace, e.isRollback = false ∧ e ≠ Event.restore) ∧
    13 ≠ 0 ∧
    ∀ e ∈ connCommitFailed.trace,
      e.failed (sqliteStub (pagerThreePages (Call.sqlite3PagerCommitPhaseOne 0) 13)) = true →
        13 = e.status (sqliteStub (pagerThreePages (Call.sqlite3PagerCommitPhaseOne 0) 13))) :=
  ⟨rfl, rfl, C9_rekey_commit_failure_keeps_candidate_key xorBackend
    (sqliteStub (pagerThreePages (Call.sqlite3PagerCommitPhaseOne 0) 13)) true connKeyed none
    (some [9]) 1 13 connCommitFailed (by decide) rfl
    ⟨Event.call (Call.sqlite3PagerCommitPhaseOne 0) 13, by decide, rfl, rfl⟩⟩

/-- C12. Re-key on a read-only file.  For a database that the name resolves
to, with a b-tree whose pager is read-only, `sqlite3_rekey_v2` returns
`SQLITE_READONLY`; the databases and their codecs (both key slots) are as
before the call; and the calls of the run are exactly `sqlite3_mutex_enter`,
`sqlite3BtreeEnterAll`, `sqlite3BtreeLeaveAll` and `sqlite3_mutex_leave`: no
pager transaction is begun, no page is fetched or marked dirty and no codec is
attached. -/
theorem C12_rekey_read_only {K σ : Type} (B : Backend K) (S : Sqlite σ) (db : Conn K σ)
    (zDbName : Option String) (pKey : Option (List Nat)) (nKey : Int) (pDb : Db K)
    (hname : 0 ≤ sqlite3NameToDb S db zDbName)
    (hdb : db.aDb[(sqlite3NameToDb S db zDbName).toNat]? = some pDb)
    (hbt : pDb.pBt = true) (hro : pDb.readOnly = true) :
    ∃ db', sqlite3_rekey_v2 B S true db zDbName pKey nKey = some (S.SQLITE_READONLY, db') ∧
      db'.aDb = db.aDb ∧
      ∃ r1 r2 r3 r4, db'.trace =
        [Event.call Call.sqlite3_mutex_enter r1, Event.call Call.sqlite3BtreeEnterAll r2,
         Event.call Call.sqlite3BtreeLeaveAll r3, Event.call Call.sqlite3_mutex_leave r4] := by
  have hnm : sqlite3NameToDb S ((({ db with trace := [] } : Conn K σ).ext S
      Call.sqlite3_mutex_enter).1.ext S Call.sqlite3BtreeEnterAll).1 zDbName =
      sqlite3NameToDb S db zDbName := sqlite3NameToDb_congr S _ db zDbName rfl
  have hd : ((({ db with trace := [] } : Conn K σ).ext S
      Call.sqlite3_mutex_enter).1.ext S Call.sqlite3BtreeEnterAll).1.aDb[
        (sqlite3NameToDb S db zDbName).toNat]? = some pDb := hdb
  have hrun : sqlite3_rekey_v2 B S true db zDbName pKey nKey =
      some (rekeyEnd S ((({ db with trace := [] } : Conn K σ).ext S
        Call.sqlite3_mutex_enter).1.ext S Call.sqlite3BtreeEnterAll).1
        (sqlite3NameToDb S db zDbName).toNat false S.SQLITE_READONLY) := by
    unfold sqlite3_rekey_v2
    dsimp only
    rw [if_neg (by decide), hnm, if_neg (not_lt.2 hname), hd]
    dsimp only
    rw [if_neg (by rw [hbt]; decide), if_pos hro]
  refine ⟨_, hrun, ?_, ?_⟩
  · by_cases h : S.SQLITE_READONLY = 0 <;> simp [rekeyEnd, h, Conn.ext]
  · by_cases h : S.SQLITE_READONLY = 0 <;> simp [rekeyEnd, h, Conn.ext]

/-- Witness of C12: re-key of the read-only database of `connReadOnly`. -/
theorem C12_rekey_read_only_witness :
    ∃ db', sqlite3_rekey_v2 xorBackend (sqliteStub (pagerThreePages Call.sqlite3_mutex_enter 0))
        true connReadOnly none (some [9]) 1 = some (8, db') ∧
      db'.aDb = connReadOnly.aDb ∧
      ∃ r1 r2 r3 r4, db'.trace =
        [Event.call Call.sqlite3_mutex_enter r1, Event.call Call.sqlite3BtreeEnterAll r2,
         Event.call Call.sqlite3BtreeLeaveAll r3, Event.call Call.sqlite3_mutex_leave r4] :=
  C12_rekey_read_only xorBackend (sqliteStub (pagerThreePages Call.sqlite3_mutex_enter 0))
    connReadOnly none (some [9]) 1
    { zDbSName := "main", pBt := true, readOnly := true,
      pCodec := some ⟨xorKeyFives, xorKeyFives⟩ }
    (by decide) rfl rfl rfl

/-- C14. Attach.  For every key argument that `loadKey` makes a slot `k` of,
starting from the zeroed codec: on every connection, for a database with a
b-tree and an allocation that succeeds, `sqlite3CodecAttach` returns
`SQLITE_OK` and the codec of the database has `k` in slot 0 and the same `k`
in slot 1, whatever codec was attached before; a second attach with the same
key that succeeds leaves the same two slots. -/
theorem C14_attach {K σ : Type} (B : Backend K) (S : Sqlite σ) (pKey : Option (List Nat))
    (nKey : Int) (k : K) (hk : B.loadKey B.zeroKey pKey nKey = some k) :
    (∀ (db : Conn K σ) (iDb : Nat) (pDb : Db K), db.aDb[iDb]? = some pDb → pDb.pBt = true →
      (S.call db.world Call.sqlite3_malloc).2 ≠ 0 →
      ∃ db', sqlite3CodecAttach B S db iDb pKey nKey = some (S.SQLITE_OK, db') ∧
        db'.codec iDb = some ⟨k, k⟩ ∧
        ∃ pDb', db'.aDb[iDb]? = some pDb' ∧ pDb'.pBt = true) ∧
    (∀ (db db' db'' : Conn K σ) (iDb : Nat) (pDb : Db K), db.aDb[iDb]? = some pDb →
      pDb.pBt = true → (S.call db.world Call.sqlite3_malloc).2 ≠ 0 →
      (S.call db'.world Call.sqlite3_malloc).2 ≠ 0 →
      sqlite3CodecAttach B S db iDb pKey nKey = some (S.SQLITE_OK, db') →
      sqlite3CodecAttach B S db' iDb pKey nKey = some (S.SQLITE_OK, db'') →
      db''.codec iDb = db'.codec iDb ∧ db'.codec iDb = some ⟨k, k⟩) := by
  have h1 : ∀ (db : Conn K σ) (iDb : Nat) (pDb : Db K), db.aDb[iDb]? = some pDb →
      pDb.pBt = true → (S.call db.world Call.sqlite3_malloc).2 ≠ 0 →
      ∃ db', sqlite3CodecAttach B S db iDb pKey nKey = some (S.SQLITE_OK, db') ∧
        db'.codec iDb = some ⟨k, k⟩ ∧
        ∃ pDb', db'.aDb[iDb]? = some pDb' ∧ pDb'.pBt = true := by
    intro db iDb pDb hdb hbt hm
    have hlen : iDb < db.aDb.length := by
      by_contra hc
      rw [List.getElem?_eq_none (Nat.le_of_not_lt hc)] at hdb
      exact absurd hdb (by simp)
    have hm' : ¬ (db.ext S Call.sqlite3_malloc).2 = 0 := hm
    unfold sqlite3CodecAttach
    rw [hdb]
    dsimp only
    rw [if_pos hbt, if_neg hm', hk]
    refine ⟨_, rfl, ?_, ?_⟩
    · apply Conn.codec_setCodec
      cases B.nReserve <;> exact hlen
    · have hget : db.aDb[iDb] = pDb := List.getElem_eq_iff.2 hdb
      rw [Conn.setCodec_aDb, List.getElem?_modify]
      cases hr : B.nReserve <;>
        simp [Conn.ext, List.getElem?_eq_getElem hlen, hget, hbt]
  refine ⟨h1, ?_⟩
  intro db db' db'' iDb pDb hdb hbt hm hm' hrun hrun'
  obtain ⟨d1, hd1, hc1, pDb', hdb', hbt'⟩ := h1 db iDb pDb hdb hbt hm
  rw [hd1] at hrun
  have e1 : d1 = db' := by
    have := Option.some.inj hrun
    exact congrArg Prod.snd this
  subst e1
  obtain ⟨d2, hd2, hc2, _⟩ := h1 d1 iDb pDb' hdb' hbt' hm'
  rw [hd2] at hrun'
  have e2 : d2 = db'' := congrArg Prod.snd (Option.some.inj hrun')
  subst e2
  exact ⟨by rw [hc2, hc1], hc1⟩

/-- Witness of C14: the XOR codec attached to the keyed database of
`connKeyed` with the one-byte key 9. -/
theorem C14_attach_witness :
    xorBackend.loadKey xorBackend.zeroKey (some [9]) 1 = some xorKeyNines ∧
    ∃ db', sqlite3CodecAttach xorBackend (sqliteStub (pagerThreePages Call.sqlite3_mutex_enter 0))
        connKeyed 0 (some [9]) 1 = some (0, db') ∧
      db'.codec 0 = some ⟨xorKeyNines, xorKeyNines⟩ ∧
      ∃ pDb', db'.aDb[0]? = some pDb' ∧ pDb'.pBt = true :=
  ⟨rfl, (C14_attach xorBackend (sqliteStub (pagerThreePages Call.sqlite3_mutex_enter 0))
    (some [9]) 1 xorKeyNines rfl).1 connKeyed 0
    { zDbSName := "main", pBt := true, readOnly := false,
      pCodec := some ⟨xorKeyFives, xorKeyFives⟩ } rfl rfl (by decide)⟩

/-! ## Loading a key -/

/-- Up to and including its terminator, a buffer reads as its text: the bytes
before the first NUL. -/
theorem getD_takeWhile_text (z : List Nat) (n : Nat)
    (hn : n ≤ (z.takeWhile (fun c => c ≠ 0)).length) :
    z.getD n 0 = (z.takeWhile (fun c => c ≠ 0)).getD n 0 := by
  induction z generalizing n with
  | nil => simp
  | cons a z ih =>
    by_cases ha : a = 0
    · subst ha
      simp only [ne_eq, not_true_eq_false, decide_False, List.takeWhile_cons_of_neg,
        Bool.false_eq_true, not_false_eq_true, List.length_nil, Nat.le_zero] at hn ⊢
      subst hn
      simp
    · have e : List.takeWhile (fun c => decide (c ≠ 0)) (a :: z) =
          a :: List.takeWhile (fun c => decide (c ≠ 0)) z := by
        simp [List.takeWhile_cons, ha]
      rw [e] at hn ⊢
      cases n with
      | zero => simp
      | succ n =>
        simp only [List.length_cons, Nat.add_le_add_iff_right] at hn
        simp only [List.getD_cons_succ]
        exact ih n hn

/-- The byte at the end of the text is the terminator (or lies past the
buffer, where the model reads 0). -/
theorem getD_text_end (z : List Nat) :
    z.getD (z.takeWhile (fun c => c ≠ 0)).length 0 = 0 := by
  rw [getD_takeWhile_text z _ (Nat.le_refl _)]
  simp [List.getD_eq_default]

/-- The mixing loop of `pwHash` reads the pass phrase up to its terminator
only. -/
theorem pwHashMix_text (z : List Nat) :
    ∀ (f m n j : Nat) (s : List Nat), n ≤ (z.takeWhile (fun c => c ≠ 0)).length →
      pwHashMix z f m n j s = pwHashMix (z.takeWhile (fun c => c ≠ 0)) f m n j s := by
  intro f
  induction f with
  | zero => intro m n j s _; rfl
  | succ f ih =>
    intro m n j s hn
    have hc := getD_takeWhile_text z n hn
    simp only [pwHashMix]
    rw [← hc]
    by_cases h0 : z.getD n 0 = 0
    · simp only [h0, if_true]
      exact ih _ _ _ _ (Nat.zero_le _)
    · simp only [h0, if_false]
      apply ih
      by_contra hlt
      have : n = (z.takeWhile (fun c => c ≠ 0)).length := by omega
      rw [this] at h0
      exact h0 (getD_text_end z)

/-- The hash `pwHash` is a function of the text of the pass phrase: the bytes
before the first NUL. -/
theorem pwHash_text (z : List Nat) (N : Nat) :
    pwHash z N = pwHash (z.takeWhile (fun c => c ≠ 0)) N := by
  unfold pwHash
  dsimp only
  rw [getD_takeWhile_text z 0 (Nat.zero_le _), pwHashMix_text z 256 0 0 0 _ (Nat.zero_le _)]

/-- The output loop of `pwHash` gives as many bytes as it makes turns. -/
theorem length_pwHashOut : ∀ (f i j : Nat) (s : List Nat), (pwHashOut f i j s).length = f := by
  intro f
  induction f with
  | zero => intro i j s; rfl
  | succ f ih => intro i j s; simp [pwHashOut, ih]

/-- The hash `pwHash` gives `N` bytes. -/
theorem length_pwHash (z : List Nat) (N : Nat) : (pwHash z N).length = N := by
  unfold pwHash
  exact length_pwHashOut _ _ _ _

/-- The bytes of a repeated key. -/
theorem getD_repeatKey (zKey : List Nat) (nKey keySz i : Nat) (h : i < keySz) :
    (repeatKey zKey nKey keySz).getD i 0 = zKey.getD (i % nKey) 0 := by
  unfold repeatKey
  rw [List.getD_eq_getElem?_getD, List.getElem?_map, List.getElem?_range h]
  rfl

/-- The length of a repeated key. -/
theorem length_repeatKey (zKey : List Nat) (nKey keySz : Nat) :
    (repeatKey zKey nKey keySz).length = keySz := by
  simp [repeatKey]

/-- A key of at least `keySz` bytes, taken modulo `keySz`, is stored as its
first `keySz` bytes. -/
theorem repeatKey_take (zKey : List Nat) (keySz : Nat) (h : keySz ≤ zKey.length) :
    repeatKey zKey keySz keySz = zKey.take keySz := by
  apply ext_of_getD
  · rw [length_repeatKey, List.length_take, Nat.min_eq_left h]
  · intro i hi
    rw [length_repeatKey] at hi
    rw [getD_repeatKey _ _ _ _ hi, Nat.mod_eq_of_lt hi, getD_take _ _ _ hi]

/-- The slot `loadKeyAes128Ccm` makes of a key given with a length other than
zero. -/
theorem loadKeyAes128Ccm_key (A : Rijndael) (key0 : KeyAes128Ccm) (z : List Nat) (nKey : Int)
    (hn : nKey ≠ 0) :
    loadKeyAes128Ccm A key0 (some z) nKey = some
      { nByte := (if nKey < 0 then 16 else if 16 < nKey.toNat then 16 else nKey.toNat) % 256,
        nullKey := 0,
        keySchedule := A.rijndaelKeySetupEnc128Ccm
          (if nKey < 0 then pwHash z 16
           else repeatKey z (if 16 < nKey.toNat then 16 else nKey.toNat) 16),
        repeat_ := if nKey < 0 then pwHash z 16
          else repeatKey z (if 16 < nKey.toNat then 16 else nKey.toNat) 16 } := by
  simp only [loadKeyAes128Ccm, hn, ne_eq, not_false_eq_true, if_true]

/-- The slot `loadKeyCCCrypt` makes of a key given with a length other than
zero. -/
theorem loadKeyCCCrypt_key (key0 : KeyCCCrypto) (z : List Nat) (nKey : Int) (hn : nKey ≠ 0) :
    loadKeyCCCrypt key0 (some z) nKey = some
      { nByte := (if nKey < 0 then 16 else if 16 < nKey.toNat then 16 else nKey.toNat) % 256,
        nullKey := 0,
        repeat_ := if nKey < 0 then pwHash z 16
          else repeatKey z (if 16 < nKey.toNat then 16 else nKey.toNat) 16 } := by
  simp only [loadKeyCCCrypt, hn, ne_eq, not_false_eq_true, if_true]

/-- The slot `loadKeyRc4` makes of a key given with a length other than zero,
when the length `m` it comes to use is not zero. -/
theorem loadKeyRc4_key (key0 : KeyRc4) (z : List Nat) (nKey : Int) (m : Nat) (hn : nKey ≠ 0)
    (hm : m = if 256 < (if nKey < 0 then strlen z % 16777216 else nKey.toNat) then 256
      else (if nKey < 0 then strlen z % 16777216 else nKey.toNat))
    (hm0 : m ≠ 0) :
    loadKeyRc4 key0 (some z) nKey =
      some { nByte := m % 256, nullKey := 0, repeat_ := repeatKey z m 256 } := by
  simp only [loadKeyRc4, hn, ne_eq, not_false_eq_true, if_true]
  rw [← hm, if_neg hm0]

/-- The slot `loadKeyXor` makes of a key given with a length other than zero,
when the length `m` it comes to use is not zero. -/
theorem loadKeyXor_key (key0 : KeyXor) (z : List Nat) (nKey : Int) (m : Nat) (hn : nKey ≠ 0)
    (hm : m = if 32 < (if nKey < 0 then strlen z % 16777216 else nKey.toNat) then 32
      else (if nKey < 0 then strlen z % 16777216 else nKey.toNat))
    (hm0 : m ≠ 0) :
    loadKeyXor key0 (some z) nKey =
      some { nByte := m % 256, nullKey := 0, repeat_ := repeatKey z m 32 } := by
  simp only [loadKeyXor, hn, ne_eq, not_false_eq_true, if_true]
  rw [← hm, if_neg hm0]

/-- The length `loadKey` comes to use is not zero unless the key is a text of
length zero (modulo 2^24) given with a negative length. -/
theorem keyLength_ne_zero (z : List Nat) (nKey : Int) (keySz : Nat) (hk : keySz ≠ 0)
    (hn : nKey ≠ 0) (hz : nKey < 0 → strlen z % 16777216 ≠ 0) :
    (if keySz < (if nKey < 0 then strlen z % 16777216 else nKey.toNat) then keySz
      else (if nKey < 0 then strlen z % 16777216 else nKey.toNat)) ≠ 0 := by
  have h1 : (if nKey < 0 then strlen z % 16777216 else nKey.toNat) ≠ 0 := by
    by_cases hneg : nKey < 0
    · rw [if_pos hneg]
      exact hz hneg
    · rw [if_neg hneg]
      omega
  by_cases h2 : keySz < (if nKey < 0 then strlen z % 16777216 else nKey.toNat)
  · rw [if_pos h2]
    exact hk
  · rw [if_neg h2]
    exact h1

/-- C15. The null rule of `loadKey`.  In the AES-CCM and the CommonCrypto
backend `loadKey` returns on every input, in the RC4 and the XOR backend on
every input but a text of length zero (modulo 2^24) given with a negative
length; and in all four the slot 0 it leaves is marked null (`nullKey = 1`,
`nByte = 0`) if and only if the key pointer is absent or the length is 0, and
has `nullKey = 0` for every other input.  In every backend slot 1 is what it
was before `loadKey`. -/
theorem C15_loadKey_null_rule (pKey : Option (List Nat)) (nKey : Int) :
    (∀ (A : Rijndael) (key0 : KeyAes128Ccm),
      ∃ k, loadKeyAes128Ccm A key0 pKey nKey = some k ∧
        ((k.nullKey = 1 ∧ k.nByte = 0) ↔ (pKey = none ∨ nKey = 0)) ∧
        (¬ (pKey = none ∨ nKey = 0) → k.nullKey = 0)) ∧
    (∀ key0 : KeyCCCrypto,
      ∃ k, loadKeyCCCrypt key0 pKey nKey = some k ∧
        ((k.nullKey = 1 ∧ k.nByte = 0) ↔ (pKey = none ∨ nKey = 0)) ∧
        (¬ (pKey = none ∨ nKey = 0) → k.nullKey = 0)) ∧
    (∀ key0 : KeyRc4, (∀ z, pKey = some z → nKey < 0 → strlen z % 16777216 ≠ 0) →
      ∃ k, loadKeyRc4 key0 pKey nKey = some k ∧
        ((k.nullKey = 1 ∧ k.nByte = 0) ↔ (pKey = none ∨ nKey = 0)) ∧
        (¬ (pKey = none ∨ nKey = 0) → k.nullKey = 0)) ∧
    (∀ key0 : KeyXor, (∀ z, pKey = some z → nKey < 0 → strlen z % 16777216 ≠ 0) →
      ∃ k, loadKeyXor key0 pKey nKey = some k ∧
        ((k.nullKey = 1 ∧ k.nByte = 0) ↔ (pKey = none ∨ nKey = 0)) ∧
        (¬ (pKey = none ∨ nKey = 0) → k.nullKey = 0)) ∧
    (∀ (K : Type) (B : Backend K) (keys keys' : KeySlots K),
      B.loadSlots keys pKey nKey = some keys' → keys'.key1 = keys.key1) := by
  refine ⟨?_, ?_, ?_, ?_, ?_⟩
  · intro A key0
    cases pKey with
    | none => exact ⟨_, rfl, by simp, by simp⟩
    | some z =>
      by_cases hn : nKey = 0
      · subst hn
        exact ⟨_, rfl, by simp, by simp⟩
      · exact ⟨_, loadKeyAes128Ccm_key A key0 z nKey hn, by simp [hn], fun _ => rfl⟩
  · intro key0
    cases pKey with
    | none => exact ⟨_, rfl, by simp, by simp⟩
    | some z =>
      by_cases hn : nKey = 0
      · subst hn
        exact ⟨_, rfl, by simp, by simp⟩
      · exact ⟨_, loadKeyCCCrypt_key key0 z nKey hn, by simp [hn], fun _ => rfl⟩
  · intro key0 hz
    cases pKey with
    | none => exact ⟨_, rfl, by simp, by simp⟩
    | some z =>
      by_cases hn : nKey = 0
      · subst hn
        exact ⟨_, rfl, by simp, by simp⟩
      · exact ⟨_, loadKeyRc4_key key0 z nKey _ hn rfl
          (keyLength_ne_zero z nKey 256 (by decide) hn (hz z rfl)), by simp [hn], fun _ => rfl⟩
  · intro key0 hz
    cases pKey with
    | none => exact ⟨_, rfl, by simp, by simp⟩
    | some z =>
      by_cases hn : nKey = 0
      · subst hn
        exact ⟨_, rfl, by simp, by simp⟩
      · exact ⟨_, loadKeyXor_key key0 z nKey _ hn rfl
          (keyLength_ne_zero z nKey 32 (by decide) hn (hz z rfl)), by simp [hn], fun _ => rfl⟩
  · intro K B keys keys' h
    unfold Backend.loadSlots at h
    cases hk : B.loadKey keys.key0 pKey nKey with
    | none => rw [hk] at h; exact absurd h (by simp)
    | some k =>
      rw [hk] at h
      rw [← Option.some.inj h]

/-- C16. Passphrase mode in the block-cipher backends.  Given a negative
length and a buffer `z` holding a NUL-terminated text, `loadKeyAes128Ccm` and
`loadKeyCCCrypt` install in slot 0 the key bytes `pwHash(z, 16)`, sixteen of
them (`KEY_SZ` is 16), with `nByte = 16` and `nullKey = 0` (and, for AES-CCM,
the key schedule of those bytes); the slot depends neither on the slot before
nor on the length given, and `pwHash(z, 16)` is a function of the text alone:
the bytes of `z` before the first NUL. -/
theorem C16_passphrase_block_backends (z : List Nat) (nKey : Int) (hneg : nKey < 0) :
    (∀ (A : Rijndael) (key0 : KeyAes128Ccm),
      loadKeyAes128Ccm A key0 (some z) nKey = some
        { nByte := 16, nullKey := 0,
          keySchedule := A.rijndaelKeySetupEnc128Ccm (pwHash z 16),
          repeat_ := pwHash z 16 }) ∧
    (∀ key0 : KeyCCCrypto,
      loadKeyCCCrypt key0 (some z) nKey = some
        { nByte := 16, nullKey := 0, repeat_ := pwHash z 16 }) ∧
    (pwHash z 16).length = 16 ∧
    pwHash z 16 = pwHash (z.takeWhile (fun c => c ≠ 0)) 16 := by
  have hn : nKey ≠ 0 := by omega
  refine ⟨?_, ?_, length_pwHash z 16, pwHash_text z 16⟩
  · intro A key0
    rw [loadKeyAes128Ccm_key A key0 z nKey hn]
    simp only [hneg, if_true]
  · intro key0
    rw [loadKeyCCCrypt_key key0 z nKey hn]
    simp only [hneg, if_true]

/-- Witness of C16: the pass phrase "a" given with length -1. -/
theorem C16_passphrase_block_backends_witness :
    ((-1 : Int) < 0) ∧
    loadKeyCCCrypt cccryptKeySevens (some [97, 0]) (-1) = some
      { nByte := 16, nullKey := 0, repeat_ := pwHash [97, 0] 16 } :=
  ⟨by decide, (C16_passphrase_block_backends [97, 0] (-1) (by decide)).2.1 cccryptKeySevens⟩

/-- C18. Key coercion to the fixed size of the backend.  For an explicit key
of `n > 0` bytes, `loadKey` returns in each of the four backends, and the
`KEY_SZ` bytes of slot 0 (256 for RC4, 32 for XOR, 16 for AES-CCM and
CommonCrypto) are `key[i mod m]` for `i` in `[0, KEY_SZ)`, where
`m = min(n, KEY_SZ)`; so a key of at least `KEY_SZ` bytes is stored as its
first `KEY_SZ` bytes, and a key of exactly `KEY_SZ` bytes verbatim. -/
theorem C18_key_coercion (zKey : List Nat) (n : Nat) (hn : 0 < n) :
    (∀ key0 : KeyRc4, ∃ k, loadKeyRc4 key0 (some zKey) (n : Int) = some k ∧
      k.repeat_.length = 256 ∧
      (∀ i, i < 256 → k.repeat_.getD i 0 = zKey.getD (i % min n 256) 0) ∧
      (256 ≤ n → n ≤ zKey.length → k.repeat_ = zKey.take 256) ∧
      (n = 256 → zKey.length = 256 → k.repeat_ = zKey)) ∧
    (∀ key0 : KeyXor, ∃ k, loadKeyXor key0 (some zKey) (n : Int) = some k ∧
      k.repeat_.length = 32 ∧
      (∀ i, i < 32 → k.repeat_.getD i 0 = zKey.getD (i % min n 32) 0) ∧
      (32 ≤ n → n ≤ zKey.length → k.repeat_ = zKey.take 32) ∧
      (n = 32 → zKey.length = 32 → k.repeat_ = zKey)) ∧
    (∀ (A : Rijndael) (key0 : KeyAes128Ccm),
      ∃ k, loadKeyAes128Ccm A key0 (some zKey) (n : Int) = some k ∧
      k.repeat_.length = 16 ∧
      (∀ i, i < 16 → k.repeat_.getD i 0 = zKey.getD (i % min n 16) 0) ∧
      (16 ≤ n → n ≤ zKey.length → k.repeat_ = zKey.take 16) ∧
      (n = 16 → zKey.length = 16 → k.repeat_ = zKey)) ∧
    (∀ key0 : KeyCCCrypto, ∃ k, loadKeyCCCrypt key0 (some zKey) (n : Int) = some k ∧
      k.repeat_.length = 16 ∧
      (∀ i, i < 16 → k.repeat_.getD i 0 = zKey.getD (i % min n 16) 0) ∧
      (16 ≤ n → n ≤ zKey.length → k.repeat_ = zKey.take 16) ∧
      (n = 16 → zKey.length = 16 → k.repeat_ = zKey)) := by
  have hn0 : (n : Int) ≠ 0 := by omega
  have hneg : ¬ ((n : Int) < 0) := by omega
  have htn : (n : Int).toNat = n := Int.toNat_ofNat n
  -- the length used, for a backend with keys of `keySz` bytes
  have hmin : ∀ keySz : Nat, (if keySz < n then keySz else n) = min n keySz := by
    intro keySz
    by_cases h : keySz < n
    · rw [if_pos h, Nat.min_eq_right (Nat.le_of_lt h)]
    · rw [if_neg h, Nat.min_eq_left (Nat.le_of_not_lt h)]
  -- what follows for the repeated key
  have hrep : ∀ keySz : Nat, 0 < keySz →
      (repeatKey zKey (min n keySz) keySz).length = keySz ∧
      (∀ i, i < keySz → (repeatKey zKey (min n keySz) keySz).getD i 0 =
        zKey.getD (i % min n keySz) 0) ∧
      (keySz ≤ n → n ≤ zKey.length → repeatKey zKey (min n keySz) keySz = zKey.take keySz) ∧
      (n = keySz → zKey.length = keySz → repeatKey zKey (min n keySz) keySz = zKey) := by
    intro keySz _
    refine ⟨length_repeatKey _ _ _, fun i hi => getD_repeatKey _ _ _ _ hi, ?_, ?_⟩
    · intro h1 h2
      rw [Nat.min_eq_right h1]
      exact repeatKey_take zKey keySz (Nat.le_trans h1 h2)
    · intro h1 h2
      rw [h1, Nat.min_self, repeatKey_take zKey keySz (Nat.le_of_eq h2.symm), ← h2,
        List.take_length]
  refine ⟨?_, ?_, ?_, ?_⟩
  · intro key0
    have hm : min n 256 = if 256 < (if (n : Int) < 0 then strlen zKey % 16777216
        else (n : Int).toNat) then 256
        else (if (n : Int) < 0 then strlen zKey % 16777216 else (n : Int).toNat) := by
      rw [if_neg hneg, htn, hmin 256]
    refine ⟨_, loadKeyRc4_key key0 zKey n (min n 256) hn0 hm (by omega), ?_⟩
    exact hrep 256 (by decide)
  · intro key0
    have hm : min n 32 = if 32 < (if (n : Int) < 0 then strlen zKey % 16777216
        else (n : Int).toNat) then 32
        else (if (n : Int) < 0 then strlen zKey % 16777216 else (n : Int).toNat) := by
      rw [if_neg hneg, htn, hmin 32]
    refine ⟨_, loadKeyXor_key key0 zKey n (min n 32) hn0 hm (by omega), ?_⟩
    exact hrep 32 (by decide)
  · intro A key0
    refine ⟨_, loadKeyAes128Ccm_key A key0 zKey n hn0, ?_⟩
    simp only [if_neg hneg, htn, hmin 16]
    exact hrep 16 (by decide)
  · intro key0
    refine ⟨_, loadKeyCCCrypt_key key0 zKey n hn0, ?_⟩
    simp only [if_neg hneg, htn, hmin 16]
    exact hrep 16 (by decide)

/-- Witness of C18: the three-byte key "Key" in the RC4 backend. -/
theorem C18_key_coercion_witness :
    (0 < 3) ∧
    ∃ k, loadKeyRc4 rc4KeyNull (some [75, 101, 121]) ((3 : Nat) : Int) = some k ∧
      k.repeat_.length = 256 ∧
      (∀ i, i < 256 → k.repeat_.getD i 0 = [75, 101, 121].getD (i % min 3 256) 0) ∧
      (256 ≤ 3 → 3 ≤ [75, 101, 121].length → k.repeat_ = [75, 101, 121].take 256) ∧
      (3 = 256 → [75, 101, 121].length = 256 → k.repeat_ = [75, 101, 121]) :=
  ⟨by decide, (C18_key_coercion [75, 101, 121] 3 (by decide)).1 rc4KeyNull⟩

set_option maxRecDepth 100000 in
/-- Counterexample to C17.  The RC4 backend, given the pass phrase "a" with
length -1, installs 256 bytes 97 (the text itself, repeated) with `nByte = 1`;
the hash `pwHash` of that text begins with the byte 111. -/
theorem C17_passphrase_stream_counterexample :
    ((-1 : Int) < 0) ∧
    loadKeyRc4 rc4KeyNull (some [97, 0]) (-1) =
      some { nByte := 1, nullKey := 0, repeat_ := List.replicate 256 97 } ∧
    (List.replicate 256 97).getD 0 0 = 97 ∧
    (pwHash [97, 0] 256).getD 0 0 = 111 :=
  ⟨by decide, rfl, rfl, rfl⟩

/-- C17 as amended.  Passphrase mode in the RC4 and the XOR backend: given a
negative length and a buffer `z` holding a NUL-terminated text that is not
empty (its length modulo 2^24 is not zero), `loadKey` runs no hash; it takes
the length of the text as the length of the key and installs what it installs
for an explicit key of that length: the `KEY_SZ` bytes `z[i mod m]`, with
`m = min(strlen(z) mod 2^24, KEY_SZ)` (`KEY_SZ` is 256 for RC4, 32 for XOR),
`nByte = m mod 256` and `nullKey = 0`. -/
theorem C17_passphrase_stream_amended (z : List Nat) (nKey : Int) (hneg : nKey < 0)
    (htxt : strlen z % 16777216 ≠ 0) :
    (∀ key0 : KeyRc4,
      loadKeyRc4 key0 (some z) nKey = some
        { nByte := min (strlen z % 16777216) 256 % 256, nullKey := 0,
          repeat_ := repeatKey z (min (strlen z % 16777216) 256) 256 } ∧
      loadKeyRc4 key0 (some z) nKey =
        loadKeyRc4 key0 (some z) ((strlen z % 16777216 : Nat) : Int)) ∧
    (∀ key0 : KeyXor,
      loadKeyXor key0 (some z) nKey = some
        { nByte := min (strlen z % 16777216) 32 % 256, nullKey := 0,
          repeat_ := repeatKey z (min (strlen z % 16777216) 32) 32 } ∧
      loadKeyXor key0 (some z) nKey =
        loadKeyXor key0 (some z) ((strlen z % 16777216 : Nat) : Int)) ∧
    (∀ i, i < 256 → (repeatKey z (min (strlen z % 16777216) 256) 256).getD i 0 =
      z.getD (i % min (strlen z % 16777216) 256) 0) ∧
    (∀ i, i < 32 → (repeatKey z (min (strlen z % 16777216) 32) 32).getD i 0 =
      z.getD (i % min (strlen z % 16777216) 32) 0) := by
  have hn : nKey ≠ 0 := by omega
  have hL0 : ((strlen z % 16777216 : Nat) : Int) ≠ 0 := by omega
  have hLneg : ¬ (((strlen z % 16777216 : Nat) : Int) < 0) := by omega
  have hmin : ∀ keySz : Nat, (if keySz < strlen z % 16777216 then keySz
      else strlen z % 16777216) = min (strlen z % 16777216) keySz := by
    intro keySz
    by_cases h : keySz < strlen z % 16777216
    · rw [if_pos h, Nat.min_eq_right (Nat.le_of_lt h)]
    · rw [if_neg h, Nat.min_eq_left (Nat.le_of_not_lt h)]
  refine ⟨?_, ?_, fun i hi => getD_repeatKey _ _ _ _ hi, fun i hi => getD_repeatKey _ _ _ _ hi⟩
  · intro key0
    have h1 := loadKeyRc4_key key0 z nKey (min (strlen z % 16777216) 256) hn
      (by rw [if_pos hneg, hmin 256]) (by omega)
    have h2 := loadKeyRc4_key key0 z ((strlen z % 16777216 : Nat) : Int)
      (min (strlen z % 16777216) 256) hL0
      (by rw [if_neg hLneg, Int.toNat_ofNat, hmin 256]) (by omega)
    exact ⟨h1, by rw [h1, h2]⟩
  · intro key0
    have h1 := loadKeyXor_key key0 z nKey (min (strlen z % 16777216) 32) hn
      (by rw [if_pos hneg, hmin 32]) (by omega)
    have h2 := loadKeyXor_key key0 z ((strlen z % 16777216 : Nat) : Int)
      (min (strlen z % 16777216) 32) hL0
      (by rw [if_neg hLneg, Int.toNat_ofNat, hmin 32]) (by omega)
    exact ⟨h1, by rw [h1, h2]⟩

/-- Witness of the amended C17: the pass phrase "a" given with length -1 to
the XOR backend. -/
theorem C17_passphrase_stream_amended_witness :
    ((-1 : Int) < 0) ∧ strlen [97, 0] % 16777216 ≠ 0 ∧
    loadKeyXor xorKeyNull (some [97, 0]) (-1) = some
      { nByte := min (strlen [97, 0] % 16777216) 32 % 256, nullKey := 0,
        repeat_ := repeatKey [97, 0] (min (strlen [97, 0] % 16777216) 32) 32 } :=
  ⟨by decide, by decide,
    ((C17_passphrase_stream_amended [97, 0] (-1) (by decide) (by decide)).2.1 xorKeyNull).1⟩

/-! ## Reading the key back, block alignment, re-key of an un-keyed file -/

/-- What `sqlite3CodecGetKey` stores for a database with a codec attached:
the bytes of slot 0 and its `nByte`. -/
theorem sqlite3CodecGetKey_attached {K σ : Type} (nByte : K → Nat) (repeat_ : K → List Nat)
    (db : Conn K σ) (iDb : Nat) (pDb : Db K) (keys : KeySlots K)
    (hdb : db.aDb[iDb]? = some pDb) (hbt : pDb.pBt = true) (hc : pDb.pCodec = some keys) :
    sqlite3CodecGetKey nByte repeat_ db iDb =
      some (some (repeat_ keys.key0), nByte keys.key0) := by
  unfold sqlite3CodecGetKey
  rw [hdb]
  dsimp only
  rw [if_neg (by rw [hbt]; decide), hc]

/-- What `sqlite3CodecGetKey` stores for a database without a codec: the
`NULL` pointer and the length 0. -/
theorem sqlite3CodecGetKey_none {K σ : Type} (nByte : K → Nat) (repeat_ : K → List Nat)
    (db : Conn K σ) (iDb : Nat) (pDb : Db K)
    (hdb : db.aDb[iDb]? = some pDb) (hbt : pDb.pBt = true) (hc : pDb.pCodec = none) :
    sqlite3CodecGetKey nByte repeat_ db iDb = some (none, 0) := by
  unfold sqlite3CodecGetKey
  rw [hdb]
  dsimp only
  rw [if_neg (by rw [hbt]; decide), hc]

/-- C19, what the code does.  With a codec attached whose slot 0 was loaded
with an explicit key of `n >= 1` bytes, `sqlite3CodecGetKey` stores the
`KEY_SZ` key bytes of slot 0 and, as the length, the byte `nByte`:
`min(n, KEY_SZ)` in the XOR, AES-CCM and CommonCrypto backends, but
`min(n, 256) mod 256` in the RC4 backend, which is 0, not 256, for every key
of 256 or more bytes.  With no codec attached it stores the `NULL` pointer and
the length 0. -/
theorem C19_getKey_length_is_nByte (zKey : List Nat) (n : Nat) (hn : 1 ≤ n) :
    (∀ (σ : Type) (db : Conn KeyRc4 σ) (iDb : Nat) (pDb : Db KeyRc4) (keys : KeySlots KeyRc4)
      (key0 : KeyRc4), db.aDb[iDb]? = some pDb → pDb.pBt = true → pDb.pCodec = some keys →
      loadKeyRc4 key0 (some zKey) (n : Int) = some keys.key0 →
      sqlite3CodecGetKey_rc4 db iDb =
        some (some (repeatKey zKey (min n 256) 256), min n 256 % 256) ∧
      (256 ≤ n → sqlite3CodecGetKey_rc4 db iDb = some (some (repeatKey zKey 256 256), 0))) ∧
    (∀ (σ : Type) (db : Conn KeyXor σ) (iDb : Nat) (pDb : Db KeyXor) (keys : KeySlots KeyXor)
      (key0 : KeyXor), db.aDb[iDb]? = some pDb → pDb.pBt = true → pDb.pCodec = some keys →
      loadKeyXor key0 (some zKey) (n : Int) = some keys.key0 →
      sqlite3CodecGetKey_xor db iDb = some (some (repeatKey zKey (min n 32) 32), min n 32)) ∧
    (∀ (σ : Type) (A : Rijndael) (db : Conn KeyAes128Ccm σ) (iDb : Nat) (pDb : Db KeyAes128Ccm)
      (keys : KeySlots KeyAes128Ccm) (key0 : KeyAes128Ccm), db.aDb[iDb]? = some pDb →
      pDb.pBt = true → pDb.pCodec = some keys →
      loadKeyAes128Ccm A key0 (some zKey) (n : Int) = some keys.key0 →
      sqlite3CodecGetKey_aes128ccm db iDb =
        some (some (repeatKey zKey (min n 16) 16), min n 16)) ∧
    (∀ (σ : Type) (db : Conn KeyCCCrypto σ) (iDb : Nat) (pDb : Db KeyCCCrypto)
      (keys : KeySlots KeyCCCrypto) (key0 : KeyCCCrypto), db.aDb[iDb]? = some pDb →
      pDb.pBt = true → pDb.pCodec = some keys →
      loadKeyCCCrypt key0 (some zKey) (n : Int) = some keys.key0 →
      sqlite3CodecGetKey_cccryptor db iDb =
        some (some (repeatKey zKey (min n 16) 16), min n 16)) ∧
    (∀ (σ : Type) (db : Conn KeyRc4 σ) (iDb : Nat) (pDb : Db KeyRc4),
      db.aDb[iDb]? = some pDb → pDb.pBt = true → pDb.pCodec = none →
      sqlite3CodecGetKey_rc4 db iDb = some (none, 0)) := by
  have hn0 : (n : Int) ≠ 0 := by omega
  have hneg : ¬ ((n : Int) < 0) := by omega
  have htn : (n : Int).toNat = n := Int.toNat_ofNat n
  have hmin : ∀ keySz : Nat, (if keySz < n then keySz else n) = min n keySz := by
    intro keySz
    by_cases h : keySz < n
    · rw [if_pos h, Nat.min_eq_right (Nat.le_of_lt h)]
    · rw [if_neg h, Nat.min_eq_left (Nat.le_of_not_lt h)]
  refine ⟨?_, ?_, ?_, ?_, ?_⟩
  · intro σ db iDb pDb keys key0 hdb hbt hc hload
    have hm : min n 256 = if 256 < (if (n : Int) < 0 then strlen zKey % 16777216
        else (n : Int).toNat) then 256
        else (if (n : Int) < 0 then strlen zKey % 16777216 else (n : Int).toNat) := by
      rw [if_neg hneg, htn, hmin 256]
    rw [loadKeyRc4_key key0 zKey n (min n 256) hn0 hm (by omega)] at hload
    have hk := (Option.some.inj hload).symm
    have h1 : sqlite3CodecGetKey_rc4 db iDb =
        some (some (repeatKey zKey (min n 256) 256), min n 256 % 256) := by
      unfold sqlite3CodecGetKey_rc4
      rw [sqlite3CodecGetKey_attached _ _ db iDb pDb keys hdb hbt hc, hk]
    refine ⟨h1, ?_⟩
    intro h256
    rw [h1, Nat.min_eq_right h256]
  · intro σ db iDb pDb keys key0 hdb hbt hc hload
    have hm : min n 32 = if 32 < (if (n : Int) < 0 then strlen zKey % 16777216
        else (n : Int).toNat) then 32
        else (if (n : Int) < 0 then strlen zKey % 16777216 else (n : Int).toNat) := by
      rw [if_neg hneg, htn, hmin 32]
    rw [loadKeyXor_key key0 zKey n (min n 32) hn0 hm (by omega)] at hload
    have hk := (Option.some.inj hload).symm
    unfold sqlite3CodecGetKey_xor
    rw [sqlite3CodecGetKey_attached _ _ db iDb pDb keys hdb hbt hc, hk]
    have : min n 32 % 256 = min n 32 := Nat.mod_eq_of_lt (by omega)
    simp only [this]
  · intro σ A db iDb pDb keys key0 hdb hbt hc hload
    rw [loadKeyAes128Ccm_key A key0 zKey n hn0] at hload
    have hk := (Option.some.inj hload).symm
    unfold sqlite3CodecGetKey_aes128ccm
    rw [sqlite3CodecGetKey_attached _ _ db iDb pDb keys hdb hbt hc, hk]
    have : min n 16 % 256 = min n 16 := Nat.mod_eq_of_lt (by omega)
    simp only [if_neg hneg, htn, hmin 16, this]
  · intro σ db iDb pDb keys key0 hdb hbt hc hload
    rw [loadKeyCCCrypt_key key0 zKey n hn0] at hload
    have hk := (Option.some.inj hload).symm
    unfold sqlite3CodecGetKey_cccryptor
    rw [sqlite3CodecGetKey_attached _ _ db iDb pDb keys hdb hbt hc, hk]
    have : min n 16 % 256 = min n 16 := Nat.mod_eq_of_lt (by omega)
    simp only [if_neg hneg, htn, hmin 16, this]
  · intro σ db iDb pDb hdb hbt hc
    exact sqlite3CodecGetKey_none _ _ db iDb pDb hdb hbt hc

set_option maxRecDepth 100000 in
/-- Witness of C19: an RC4 codec loaded with a key of 256 bytes 7 reports the
length 0. -/
theorem C19_getKey_length_is_nByte_witness :
    (1 ≤ 256) ∧
    loadKeyRc4 rc4KeyNull (some (List.replicate 256 7)) ((256 : Nat) : Int) = some rc4KeyLong ∧
    sqlite3CodecGetKey_rc4 connRc4Long 0 =
      some (some (repeatKey (List.replicate 256 7) 256 256), 0) :=
  ⟨by decide, rfl,
    ((C19_getKey_length_is_nByte (List.replicate 256 7) 256 (by decide)).1 Unit connRc4Long 0
      { zDbSName := "main", pBt := true, readOnly := false,
        pCodec := some ⟨rc4KeyLong, rc4KeyLong⟩ }
      ⟨rc4KeyLong, rc4KeyLong⟩ rc4KeyNull rfl rfl rfl rfl).2 (by decide)⟩

/-- The test `usable & (AES_BLOCK_SZ-1)` is the remainder modulo 16. -/
theorem and_fifteen (x : Nat) : x &&& 15 = x % 16 :=
  Nat.and_pow_two_sub_one_eq_mod x 4

/-- Counterexample to C20.  An AES-CCM codec with a non-null key on pages of
512 bytes of which 40 are reserved (usable 472, not a multiple of 16): the
encode of a page returns the caller's page, byte for byte, and not the `NULL`
pointer that reports a failure. -/
theorem C20_aes_unaligned_counterexample :
    (aesFresh 512 40).usable % 16 ≠ 0 ∧ ((aesFresh 512 40).key (6 &&& 1)).nullKey = 0 ∧
    ∃ r, sqliteCodecAes128Ccm xorRijndael hostOnes (aesFresh 512 40)
        (List.replicate 512 9) 2 6 = some r ∧
      r.ret ≠ Ret.null ∧ pageAes r = some (List.replicate 512 9) := by
  refine ⟨by decide, rfl, ⟨aesFresh 512 40, List.replicate 512 9, Ret.pageData⟩, ?_,
    by decide, rfl⟩
  exact aes_gate xorRijndael hostOnes (aesFresh 512 40) _ 2 6 rfl rfl (Or.inr (by decide))

/-- C20 as amended.  Block alignment in the AES-CCM backend: when `usable` is
not a multiple of 16, with the mask not allocated yet and no failed allocation
on record, the transform reports no failure and does not encrypt: for every
op, page number and page it returns the caller's page unchanged and leaves the
codec as it was.  The size-change callback frees the mask whenever `usable`
changes, so the test is made again under the new size. -/
theorem C20_aes_unaligned_amended (A : Rijndael) (h : Host) (c : CodecAes128Ccm)
    (B : List Nat) (pgno op : Nat) (hm : c.mask = none) (hf : c.mallocFailed = 0)
    (hu : c.usable % 16 ≠ 0) :
    sqliteCodecAes128Ccm A h c B pgno op = some ⟨c, B, Ret.pageData⟩ ∧
    (∀ (p : CodecAes128Ccm) (pageSize nReserve : Nat),
      (sqliteCodecAes128CcmSizeChng p pageSize nReserve).usable ≠ p.usable →
      (sqliteCodecAes128CcmSizeChng p pageSize nReserve).mask = none) := by
  refine ⟨aes_gate A h c B pgno op hm hf (Or.inr (by rw [and_fifteen]; exact hu)), ?_⟩
  intro p pageSize nReserve hne
  unfold sqliteCodecAes128CcmSizeChng at hne ⊢
  simp only at hne ⊢
  rw [if_pos (fun e => hne e.symm)]

/-- Witness of the amended C20: pages of 512 bytes with 40 reserved. -/
theorem C20_aes_unaligned_amended_witness :
    (aesFresh 512 40).mask = none ∧ (aesFresh 512 40).mallocFailed = 0 ∧
    (aesFresh 512 40).usable % 16 ≠ 0 ∧
    sqliteCodecAes128Ccm xorRijndael hostOnes (aesFresh 512 40) (List.replicate 512 9) 2 6 =
      some ⟨aesFresh 512 40, List.replicate 512 9, Ret.pageData⟩ :=
  ⟨rfl, rfl, by decide,
    (C20_aes_unaligned_amended xorRijndael hostOnes (aesFresh 512 40) (List.replicate 512 9)
      2 6 rfl rfl (by decide)).1⟩

/-- What `sqlite3CodecAttach` on database 0 does to a connection: the codecs
of the other databases stay, the calls it makes name database 0, and if its
allocation succeeded database 0 has the new codec. -/
theorem sqlite3CodecAttach_zero {K σ : Type} (B : Backend K) (S : Sqlite σ) (db : Conn K σ)
    (pKey : Option (List Nat)) (nKey : Int) (d0 : Db K) (k : K)
    (h0 : db.aDb[0]? = some d0) (hk : B.loadKey B.zeroKey pKey nKey = some k) :
    ∃ a, sqlite3CodecAttach B S db 0 pKey nKey = some a ∧
      (∀ i, i ≠ 0 → a.2.codec i = db.codec i) ∧
      ∃ t, a.2.trace = db.trace ++ t ∧
        (∀ e ∈ t, e ≠ Event.loadKey ∧
          ∀ i x, i ≠ 0 → e ≠ Event.call (Call.sqlite3PagerSetCodec i) x) ∧
        (∀ x, x ≠ 0 → Event.call Call.sqlite3_malloc x ∈ t → a.2.codec 0 = some ⟨k, k⟩) := by
  have hlen : 0 < db.aDb.length := by
    by_contra hc
    rw [List.getElem?_eq_none (Nat.le_of_not_lt hc)] at h0
    exact absurd h0 (by simp)
  have hother : ∀ (c : Conn K σ) (ks : Option (KeySlots K)) (i : Nat), i ≠ 0 →
      c.aDb = db.aDb → (c.setCodec 0 ks).codec i = db.codec i := by
    intro c ks i hi hc
    unfold Conn.codec
    rw [Conn.setCodec_aDb, List.getElem?_modify, hc]
    simp [Ne.symm hi]
  unfold sqlite3CodecAttach
  rw [h0]
  dsimp only
  by_cases hbt : d0.pBt = true
  · rw [if_pos hbt]
    by_cases hm0 : (db.ext S Call.sqlite3_malloc).2 = 0
    · rw [if_pos hm0]
      refine ⟨_, rfl, fun i _ => rfl, [Event.call Call.sqlite3_malloc
        (db.ext S Call.sqlite3_malloc).2], rfl, ?_, ?_⟩
      · intro e he
        simp only [List.mem_singleton] at he
        subst he
        simp
      · intro x hx hmem
        simp only [List.mem_singleton, Event.call.injEq, true_and] at hmem
        rw [hmem] at hx
        exact absurd hm0 hx
    · rw [if_neg hm0, hk]
      dsimp only
      cases hr : B.nReserve with
      | none =>
        dsimp only
        refine ⟨_, rfl, fun i hi => hother _ _ i hi rfl,
          [Event.call Call.sqlite3_malloc (db.ext S Call.sqlite3_malloc).2,
            Event.call (Call.sqlite3PagerSetCodec 0)
              ((db.ext S Call.sqlite3_malloc).1.ext S (Call.sqlite3PagerSetCodec 0)).2],
          by simp, ?_, ?_⟩
        · intro e he
          simp only [List.mem_cons, List.mem_singleton, List.not_mem_nil, or_false] at he
          rcases he with rfl | rfl
          · simp
          · refine ⟨by simp, ?_⟩
            intro i x hi
            simp [Ne.symm hi]
        · intro _ _ _
          exact Conn.codec_setCodec _ 0 _ hlen
      | some n =>
        dsimp only
        refine ⟨_, rfl, fun i hi => hother _ _ i hi rfl,
          [Event.call Call.sqlite3_malloc (db.ext S Call.sqlite3_malloc).2,
            Event.call (Call.sqlite3BtreeSetPageSize 0 n)
              ((db.ext S Call.sqlite3_malloc).1.ext S (Call.sqlite3BtreeSetPageSize 0 n)).2,
            Event.call (Call.sqlite3PagerSetCodec 0)
              (((db.ext S Call.sqlite3_malloc).1.ext S
                (Call.sqlite3BtreeSetPageSize 0 n)).1.ext S (Call.sqlite3PagerSetCodec 0)).2],
          by simp, ?_, ?_⟩
        · intro e he
          simp only [List.mem_cons, List.mem_singleton, List.not_mem_nil, or_false] at he
          rcases he with rfl | rfl | rfl
          · simp
          · simp
          · refine ⟨by simp, ?_⟩
            intro i x hi
            simp [Ne.symm hi]
        · intro _ _ _
          exact Conn.codec_setCodec _ 0 _ hlen
  · rw [if_neg hbt]
    exact ⟨_, rfl, fun i _ => rfl, [], by simp, by simp, by simp⟩

/-- The events of the label `end_rekey`: the release of page 1, if held, and
the two leaves. -/
theorem rekeyEnd_events {K σ : Type} (S : Sqlite σ) (db : Conn K σ) (iDb : Nat) (p : Bool)
    (rc : Nat) :
    ∃ t, (rekeyEnd S db iDb p rc).2.trace = db.trace ++ t ∧
      ∀ e ∈ t, ∃ x, e = Event.call (Call.sqlite3PagerUnrefPageOne iDb) x ∨
        e = Event.call Call.sqlite3BtreeLeaveAll x ∨ e = Event.call Call.sqlite3_mutex_leave x := by
  cases p
  · refine ⟨[Event.call Call.sqlite3BtreeLeaveAll (db.ext S Call.sqlite3BtreeLeaveAll).2,
      Event.call Call.sqlite3_mutex_leave
        ((db.ext S Call.sqlite3BtreeLeaveAll).1.ext S Call.sqlite3_mutex_leave).2], ?_, ?_⟩
    · unfold rekeyEnd
      by_cases h : rc = 0 <;> simp [h]
    · intro e he
      simp only [List.mem_cons, List.mem_singleton, List.not_mem_nil, or_false] at he
      rcases he with rfl | rfl
      · exact ⟨_, Or.inr (Or.inl rfl)⟩
      · exact ⟨_, Or.inr (Or.inr rfl)⟩
  · refine ⟨[Event.call (Call.sqlite3PagerUnrefPageOne iDb)
        (db.ext S (Call.sqlite3PagerUnrefPageOne iDb)).2,
      Event.call Call.sqlite3BtreeLeaveAll
        ((db.ext S (Call.sqlite3PagerUnrefPageOne iDb)).1.ext S Call.sqlite3BtreeLeaveAll).2,
      Event.call Call.sqlite3_mutex_leave
        (((db.ext S (Call.sqlite3PagerUnrefPageOne iDb)).1.ext S
          Call.sqlite3BtreeLeaveAll).1.ext S Call.sqlite3_mutex_leave).2], ?_, ?_⟩
    · unfold rekeyEnd
      by_cases h : rc = 0 <;> simp [h]
    · intro e he
      simp only [List.mem_cons, List.mem_singleton, List.not_mem_nil, or_false] at he
      rcases he with rfl | rfl | rfl
      · exact ⟨_, Or.inl rfl⟩
      · exact ⟨_, Or.inr (Or.inl rfl)⟩
      · exact ⟨_, Or.inr (Or.inr rfl)⟩

/-- C13, what the code does.  For a database at an index other than 0 that
the name resolves to, with a b-tree, writable and without a codec,
`sqlite3_rekey_v2` calls `sqlite3CodecAttach` on database 0, not on the
database named: it returns `SQLITE_NOMEM`, the database named still has no
codec, `sqlite3PagerSetCodec` is not called on its pager and the candidate key
is never loaded; and if the allocation of the attach succeeded, the codec of
database 0 has been replaced by one with two null slots. -/
theorem C13_rekey_unkeyed_attaches_to_database_zero {K σ : Type} (B : Backend K)
    (S : Sqlite σ) (db : Conn K σ) (zDbName : Option String) (pKey : Option (List Nat))
    (nKey : Int) (pDb d0 : Db K) (k0 : K)
    (hname : 0 < sqlite3NameToDb S db zDbName)
    (hdb : db.aDb[(sqlite3NameToDb S db zDbName).toNat]? = some pDb)
    (hbt : pDb.pBt = true) (hrw : pDb.readOnly = false) (hcodec : pDb.pCodec = none)
    (h0 : db.aDb[0]? = some d0) (hk0 : B.loadKey B.zeroKey (some [0]) 0 = some k0) :
    ∃ db', sqlite3_rekey_v2 B S true db zDbName pKey nKey = some (S.SQLITE_NOMEM, db') ∧
      db'.codec (sqlite3NameToDb S db zDbName).toNat = none ∧
      Event.loadKey ∉ db'.trace ∧
      (∀ x, Event.call (Call.sqlite3PagerSetCodec (sqlite3NameToDb S db zDbName).toNat) x ∉
        db'.trace) ∧
      (∀ x, x ≠ 0 → Event.call Call.sqlite3_malloc x ∈ db'.trace →
        db'.codec 0 = some ⟨k0, k0⟩) := by
  have hi0 : (sqlite3NameToDb S db zDbName).toNat ≠ 0 := by omega
  obtain ⟨db1, hdb1⟩ : ∃ db1, db1 = ((({ db with trace := [] } : Conn K σ).ext S
      Call.sqlite3_mutex_enter).1.ext S Call.sqlite3BtreeEnterAll).1 := ⟨_, rfl⟩
  have h1a : db1.aDb = db.aDb := by rw [hdb1]; rfl
  have h1t : db1.trace = [Event.call Call.sqlite3_mutex_enter
      (({ db with trace := [] } : Conn K σ).ext S Call.sqlite3_mutex_enter).2,
      Event.call Call.sqlite3BtreeEnterAll
        ((({ db with trace := [] } : Conn K σ).ext S Call.sqlite3_mutex_enter).1.ext S
          Call.sqlite3BtreeEnterAll).2] := by
    rw [hdb1]; rfl
  have hnm : sqlite3NameToDb S db1 zDbName = sqlite3NameToDb S db zDbName :=
    sqlite3NameToDb_congr S db1 db zDbName h1a
  obtain ⟨a, ha, hao, ta, hat, hap, ham⟩ := sqlite3CodecAttach_zero B S db1 (some [0]) 0 d0 k0
    (by rw [h1a]; exact h0) hk0
  have hca : (a.2.aDb[(sqlite3NameToDb S db zDbName).toNat]?).bind (fun d => d.pCodec) =
      none := by
    have := hao _ hi0
    unfold Conn.codec at this
    rw [this, h1a, hdb]
    exact hcodec
  have hrun : sqlite3_rekey_v2 B S true db zDbName pKey nKey =
      some (rekeyEnd S a.2 (sqlite3NameToDb S db zDbName).toNat false S.SQLITE_NOMEM) := by
    unfold sqlite3_rekey_v2
    dsimp only
    rw [if_neg (by decide), ← hdb1, hnm, if_neg (not_lt.2 (Int.le_of_lt hname)), h1a, hdb]
    dsimp only
    rw [if_neg (by rw [hbt]; decide), if_neg (by rw [hrw]; decide), hcodec]
    dsimp only
    rw [ha]
    dsimp only
    rw [hca]
  obtain ⟨_, he2, _⟩ := rekeyEnd_spec S a.2
    (sqlite3NameToDb S db zDbName).toNat false S.SQLITE_NOMEM
  obtain ⟨te, he3, he4⟩ := rekeyEnd_events S a.2
    (sqlite3NameToDb S db zDbName).toNat false S.SQLITE_NOMEM
  -- an event of the run is one of the two enters, one of the attach, or one of the end
  have hsplit : ∀ e ∈ (rekeyEnd S a.2 (sqlite3NameToDb S db zDbName).toNat false
      S.SQLITE_NOMEM).2.trace,
      (∃ x, e = Event.call Call.sqlite3_mutex_enter x ∨
        e = Event.call Call.sqlite3BtreeEnterAll x) ∨ e ∈ ta ∨
      (∃ x, e = Event.call (Call.sqlite3PagerUnrefPageOne
          (sqlite3NameToDb S db zDbName).toNat) x ∨
        e = Event.call Call.sqlite3BtreeLeaveAll x ∨
        e = Event.call Call.sqlite3_mutex_leave x) := by
    intro e hmem
    rw [he3, hat, h1t] at hmem
    rcases List.mem_append.1 hmem with hmem | hmem
    · rcases List.mem_append.1 hmem with hmem | hmem
      · simp only [List.mem_cons, List.mem_singleton, List.not_mem_nil, or_false] at hmem
        rcases hmem with rfl | rfl
        · exact Or.inl ⟨_, Or.inl rfl⟩
        · exact Or.inl ⟨_, Or.inr rfl⟩
      · exact Or.inr (Or.inl hmem)
    · exact Or.inr (Or.inr (he4 e hmem))
  refine ⟨(rekeyEnd S a.2 (sqlite3NameToDb S db zDbName).toNat false S.SQLITE_NOMEM).2,
    hrun, ?_, ?_, ?_, ?_⟩
  · unfold Conn.codec
    rw [he2]
    exact hca
  · intro hmem
    rcases hsplit _ hmem with ⟨x, h | h⟩ | h | ⟨x, h | h | h⟩
    · exact absurd h (by simp)
    · exact absurd h (by simp)
    · exact (hap _ h).1 rfl
    · exact absurd h (by simp)
    · exact absurd h (by simp)
    · exact absurd h (by simp)
  · intro x hmem
    rcases hsplit _ hmem with ⟨y, h | h⟩ | h | ⟨y, h | h | h⟩
    · exact absurd h (by simp)
    · exact absurd h (by simp)
    · exact (hap _ h).2 _ x hi0 rfl
    · exact absurd h (by simp)
    · exact absurd h (by simp)
    · exact absurd h (by simp)
  · intro x hx hmem
    rw [Conn.codec_congr _ a.2 0 he2]
    apply ham x hx
    rcases hsplit _ hmem with ⟨y, h | h⟩ | h | ⟨y, h | h | h⟩
    · exact absurd h (by simp)
    · exact absurd h (by simp)
    · exact h
    · exact absurd h (by simp)
    · exact absurd h (by simp)
    · exact absurd h (by simp)

/-- Witness of C13: in `connTwo` the re-key of "aux", which has no codec,
returns 7 (`SQLITE_NOMEM`) after replacing the codec of "main". -/
theorem C13_rekey_unkeyed_attaches_to_database_zero_witness :
    sqlite3_rekey_v2 xorBackend (sqliteStub (pagerThreePages Call.sqlite3_mutex_enter 0))
      true connTwo (some "aux") (some [9]) 1 = some (7, connTwoAfter) ∧
    connTwoAfter.codec 1 = none ∧
    connTwoAfter.codec 0 = some ⟨xorKeyNull, xorKeyNull⟩ ∧
    ∃ db', sqlite3_rekey_v2 xorBackend
        (sqliteStub (pagerThreePages Call.sqlite3_mutex_enter 0))
        true connTwo (some "aux") (some [9]) 1 = some (7, db') ∧
      db'.codec 1 = none ∧
      Event.loadKey ∉ db'.trace ∧
      (∀ x, Event.call (Call.sqlite3PagerSetCodec 1) x ∉ db'.trace) ∧
      (∀ x, x ≠ 0 → Event.call Call.sqlite3_malloc x ∈ db'.trace →
        db'.codec 0 = some ⟨xorKeyNull, xorKeyNull⟩) :=
  ⟨rfl, rfl, rfl,
    C13_rekey_unkeyed_attaches_to_database_zero xorBackend
      (sqliteStub (pagerThreePages Call.sqlite3_mutex_enter 0)) connTwo (some "aux") (some [9])
      1 { zDbSName := "aux", pBt := true, readOnly := false, pCodec := none }
      { zDbSName := "main", pBt := true, readOnly := false,
        pCodec := some ⟨xorKeyFives, xorKeyFives⟩ }
      xorKeyNull (by decide) rfl rfl rfl rfl rfl rfl⟩

/-! ## The order of the events of a re-key -/

/-- The empty scan. -/
theorem ScanSegment.nil {σ : Type} (S : Sqlite σ) (iDb i0 rc : Nat) :
    ScanSegment S iDb i0 [] rc := by
  refine ⟨by simp, ?_, ?_, ?_, by simp, ?_⟩
  · intro k r h; simp at h
  · intro k p x h; simp at h
  · intro k k' p p' x x' _ h; simp at h
  · intro k i x r h; simp at h

/-- A scan from page `i0 + 1` on is a scan from page `i0` on (the page
skipped). -/
theorem ScanSegment.skip {σ : Type} (S : Sqlite σ) (iDb i0 rc : Nat) (t : List Event)
    (h : ScanSegment S iDb (i0 + 1) t rc) : ScanSegment S iDb i0 t rc := by
  obtain ⟨h1, h2, h3, h4, h5, h6⟩ := h
  refine ⟨h1, h2, ?_, h4, ?_, h6⟩
  · intro k p x hk
    exact ⟨Nat.le_of_succ_le (h3 k p x hk).1, (h3 k p x hk).2⟩
  · intro j y hj
    exact Nat.le_of_succ_le (h5 j y hj)

/-- A scan that ends with a fetch that failed. -/
theorem ScanSegment.getFailed {σ : Type} (S : Sqlite σ) (iDb i rc x : Nat)
    (hx : x ≠ S.SQLITE_OK) :
    ScanSegment S iDb i [Event.call (Call.sqlite3PagerGet iDb i) x] rc := by
  refine ⟨?_, ?_, ?_, ?_, ?_, ?_⟩
  · intro e he
    simp only [List.mem_singleton] at he
    subst he
    rfl
  · intro k r h
    rcases k with _ | k <;> simp at h
  · intro k p y h
    rcases k with _ | k
    · simp only [List.getElem?_cons_zero, Option.some.injEq, Event.call.injEq,
        Call.sqlite3PagerGet.injEq, true_and] at h
      obtain ⟨hp, hy⟩ := h
      subst hp
      subst hy
      exact ⟨Nat.le_refl _, fun e => absurd e hx⟩
    · simp at h
  · intro k k' p p' y y' hlt _ h'
    rcases k' with _ | k'
    · omega
    · simp at h'
  · intro j y h
    simp at h
  · intro k j y r _ h'
    simp at h'

/-- A scan that ends with the interrupt flag found set. -/
theorem ScanSegment.interrupted {σ : Type} (S : Sqlite σ) (iDb i r y : Nat) :
    ScanSegment S iDb i [Event.call (Call.sqlite3PagerGet iDb i) S.SQLITE_OK,
      Event.call Call.readIsInterrupted r, Event.call Call.clearIsInterrupted y]
      S.SQLITE_INTERRUPT := by
  refine ⟨?_, ?_, ?_, ?_, ?_, ?_⟩
  · intro e he
    simp only [List.mem_cons, List.mem_singleton, List.not_mem_nil, or_false] at he
    rcases he with rfl | rfl | rfl <;> rfl
  · intro k r' h
    rcases k with _ | _ | _ | k
    · simp at h
    · exact ⟨0, i, rfl, rfl⟩
    · simp at h
    · simp at h
  · intro k p x h
    rcases k with _ | _ | _ | k
    · simp only [List.getElem?_cons_zero, Option.some.injEq, Event.call.injEq,
        Call.sqlite3PagerGet.injEq, true_and] at h
      obtain ⟨hp, _⟩ := h
      subst hp
      exact ⟨Nat.le_refl _, fun _ => ⟨r, rfl⟩⟩
    · simp at h
    · simp at h
    · simp at h
  · intro k k' p p' x x' hlt _ h'
    rcases k' with _ | _ | _ | k'
    · omega
    · simp at h'
    · simp at h'
    · simp at h'
  · intro j z h
    simp at h
  · intro k j x r' _ _ _
    exact ⟨by simp, ⟨y, by simp⟩, rfl⟩

/-- A scan that fetches page `i`, finds the flag clear, marks the page dirty
and releases it, and then goes on from page `i + 1`. -/
theorem ScanSegment.step {σ : Type} (S : Sqlite σ) (iDb i rc w u : Nat) (t : List Event)
    (h : ScanSegment S iDb (i + 1) t rc) :
    ScanSegment S iDb i (Event.call (Call.sqlite3PagerGet iDb i) S.SQLITE_OK ::
      Event.call Call.readIsInterrupted 0 :: Event.call (Call.sqlite3PagerWrite iDb i) w ::
      Event.call (Call.sqlite3PagerUnref iDb i) u :: t) rc := by
  obtain ⟨h1, h2, h3, h4, h5, h6⟩ := h
  refine ⟨?_, ?_, ?_, ?_, ?_, ?_⟩
  · intro e he
    simp only [List.mem_cons] at he
    rcases he with rfl | rfl | rfl | rfl | he
    · rfl
    · rfl
    · rfl
    · rfl
    · exact h1 e he
  · intro k r hk
    rcases k with _ | _ | _ | _ | k
    · simp at hk
    · exact ⟨0, i, rfl, rfl⟩
    · simp at hk
    · simp at hk
    · simp only [List.getElem?_cons_succ] at hk
      obtain ⟨k0, p, hk0, hg⟩ := h2 k r hk
      exact ⟨k0 + 4, p, by omega, by simpa using hg⟩
  · intro k p x hk
    rcases k with _ | _ | _ | _ | k
    · simp only [List.getElem?_cons_zero, Option.some.injEq, Event.call.injEq,
        Call.sqlite3PagerGet.injEq, true_and] at hk
      obtain ⟨hp, _⟩ := hk
      subst hp
      exact ⟨Nat.le_refl _, fun _ => ⟨0, rfl⟩⟩
    · simp at hk
    · simp at hk
    · simp at hk
    · simp only [List.getElem?_cons_succ] at hk
      obtain ⟨hp, hr⟩ := h3 k p x hk
      refine ⟨Nat.le_of_succ_le hp, ?_⟩
      intro hx
      obtain ⟨r, hr⟩ := hr hx
      exact ⟨r, by simpa using hr⟩
  · intro k k' p p' x x' hlt hk hk'
    rcases k' with _ | _ | _ | _ | k'
    · omega
    · simp at hk'
    · simp at hk'
    · simp at hk'
    · simp only [List.getElem?_cons_succ] at hk'
      rcases k with _ | _ | _ | _ | k
      · simp only [List.getElem?_cons_zero, Option.some.injEq, Event.call.injEq,
          Call.sqlite3PagerGet.injEq, true_and] at hk
        obtain ⟨hp, _⟩ := hk
        subst hp
        exact (h3 k' p' x' hk').1
      · simp at hk
      · simp at hk
      · simp at hk
      · simp only [List.getElem?_cons_succ] at hk
        exact h4 k k' p p' x x' (by omega) hk hk'
  · intro j y hj
    simp only [List.mem_cons, Event.call.injEq, Call.sqlite3PagerWrite.injEq, true_and,
      reduceCtorEq, false_and, false_or] at hj
    rcases hj with ⟨hj, _⟩ | hj
    · omega
    · exact Nat.le_of_succ_le (h5 j y hj)
  · intro k j x r hk hk' hr
    rcases k with _ | _ | _ | _ | k
    · simp only [List.getElem?_cons_succ, List.getElem?_cons_zero, Option.some.injEq,
        Event.call.injEq, true_and] at hk'
      exact absurd hk'.symm hr
    · simp at hk
    · simp at hk
    · simp at hk
    · simp only [List.getElem?_cons_succ] at hk hk'
      obtain ⟨hw, hc, hrc⟩ := h6 k j x r hk hk' hr
      have hj := (h3 k j x hk).1
      refine ⟨?_, ?_, hrc⟩
      · intro j' y hj'
        simp only [List.mem_cons, Event.call.injEq, Call.sqlite3PagerWrite.injEq, true_and,
          reduceCtorEq, false_and, false_or] at hj'
        rcases hj' with ⟨hj', _⟩ | hj'
        · omega
        · exact hw j' y hj'
      · obtain ⟨y, hy⟩ := hc
        exact ⟨y, by simp [hy]⟩

/-- The events the page scan adds to the trace are a scan segment from its
first page on, ending with its `rc`. -/
theorem rekeyScan_segment {K σ : Type} (S : Sqlite σ) (iDb skip : Nat) :
    ∀ (n i : Nat) (db : Conn K σ),
      ∃ t, (rekeyScan S iDb skip n i db).1.trace = db.trace ++ t ∧
        ScanSegment S iDb i t (rekeyScan S iDb skip n i db).2 := by
  intro n
  induction n with
  | zero =>
    intro i db
    exact ⟨[], by simp [rekeyScan], ScanSegment.nil S iDb i _⟩
  | succ n ih =>
    intro i db
    by_cases hskip : i = skip
    · have e1 : rekeyScan S iDb skip (n + 1) i db = rekeyScan S iDb skip n (i + 1) db := by
        simp [rekeyScan, hskip]
      rw [e1]
      obtain ⟨t, ht, hs⟩ := ih (i + 1) db
      exact ⟨t, ht, ScanSegment.skip S iDb i _ t hs⟩
    · obtain ⟨g, hgd⟩ : ∃ g, g = db.ext S (Call.sqlite3PagerGet iDb i) := ⟨_, rfl⟩
      obtain ⟨f, hfd⟩ : ∃ f, f = g.1.ext S Call.readIsInterrupted := ⟨_, rfl⟩
      obtain ⟨c, hcd⟩ : ∃ c, c = f.1.ext S Call.clearIsInterrupted := ⟨_, rfl⟩
      obtain ⟨w, hwd⟩ : ∃ w, w = f.1.ext S (Call.sqlite3PagerWrite iDb i) := ⟨_, rfl⟩
      obtain ⟨u, hud⟩ : ∃ u, u = w.1.ext S (Call.sqlite3PagerUnref iDb i) := ⟨_, rfl⟩
      have hgt : g.1.trace = db.trace ++ [Event.call (Call.sqlite3PagerGet iDb i) g.2] := by
        rw [hgd]; rfl
      have hft : f.1.trace = g.1.trace ++ [Event.call Call.readIsInterrupted f.2] := by
        rw [hfd]; rfl
      have hct : c.1.trace = f.1.trace ++ [Event.call Call.clearIsInterrupted c.2] := by
        rw [hcd]; rfl
      have hwt : w.1.trace = f.1.trace ++ [Event.call (Call.sqlite3PagerWrite iDb i) w.2] := by
        rw [hwd]; rfl
      have hut : u.1.trace = w.1.trace ++ [Event.call (Call.sqlite3PagerUnref iDb i) u.2] := by
        rw [hud]; rfl
      have e0 : rekeyScan S iDb skip (n + 1) i db =
          if g.2 ≠ S.SQLITE_OK then (g.1, g.2)
          else if f.2 ≠ 0 then (c.1, S.SQLITE_INTERRUPT)
          else if w.2 = S.SQLITE_OK then rekeyScan S iDb skip n (i + 1) u.1
          else (u.1, w.2) := by
        rw [hud, hwd, hcd, hfd, hgd]
        simp only [rekeyScan, if_neg hskip]
      rw [e0]
      by_cases hg : g.2 = S.SQLITE_OK
      · rw [if_neg (not_not.2 hg)]
        by_cases hf : f.2 = 0
        · rw [if_neg (not_not.2 hf)]
          have hput : u.1.trace = db.trace ++ [Event.call (Call.sqlite3PagerGet iDb i)
                S.SQLITE_OK, Event.call Call.readIsInterrupted 0,
                Event.call (Call.sqlite3PagerWrite iDb i) w.2,
                Event.call (Call.sqlite3PagerUnref iDb i) u.2] := by
            rw [hut, hwt, hft, hgt, hg, hf]
            simp
          by_cases hw : w.2 = S.SQLITE_OK
          · rw [if_pos hw]
            obtain ⟨t, ht, hs⟩ := ih (i + 1) u.1
            refine ⟨Event.call (Call.sqlite3PagerGet iDb i) S.SQLITE_OK ::
              Event.call Call.readIsInterrupted 0 ::
              Event.call (Call.sqlite3PagerWrite iDb i) w.2 ::
              Event.call (Call.sqlite3PagerUnref iDb i) u.2 :: t, ?_,
              ScanSegment.step S iDb i _ w.2 u.2 t hs⟩
            rw [ht, hput]
            simp
          · rw [if_neg hw]
            exact ⟨_, hput, ScanSegment.step S iDb i _ w.2 u.2 []
              (ScanSegment.nil S iDb (i + 1) _)⟩
        · rw [if_pos hf]
          refine ⟨[Event.call (Call.sqlite3PagerGet iDb i) S.SQLITE_OK,
            Event.call Call.readIsInterrupted f.2, Event.call Call.clearIsInterrupted c.2],
            ?_, ScanSegment.interrupted S iDb i f.2 c.2⟩
          rw [hct, hft, hgt, hg]
          simp
      · rw [if_pos hg]
        exact ⟨_, hgt, ScanSegment.getFailed S iDb i _ g.2 hg⟩

/-- A step of the scan is neither a setup nor a closing event, but for the
fetch, which the setup makes too. -/
theorem scanStep_kind (e : Event) (h : e.scanStep = true) :
    e.isClosing = false ∧ e ≠ Event.loadKey ∧ e.isCommit = false := by
  rcases e with ⟨c, x⟩ | _ | _ | _
  · cases c <;> simp [Event.scanStep, Event.isClosing, Event.isCommit] at h ⊢
  · simp [Event.scanStep] at h
  · simp [Event.scanStep] at h
  · simp [Event.scanStep] at h

/-- A setup event is not the load of the key, not a read or a clear of the
interrupt flag, not a mark-dirty and not a commit phase. -/
theorem isSetup_kind (e : Event) (h : e.isSetup = true) :
    e ≠ Event.loadKey ∧ e.isCommit = false ∧ e.isClosing = false ∧
    (∀ r, e ≠ Event.call Call.readIsInterrupted r) ∧
    (∀ r, e ≠ Event.call Call.clearIsInterrupted r) ∧
    (∀ d j y, e ≠ Event.call (Call.sqlite3PagerWrite d j) y) := by
  rcases e with ⟨c, x⟩ | _ | _ | _
  · cases c <;> simp [Event.isSetup, Event.isCommit, Event.isClosing] at h ⊢
  · simp [Event.isSetup] at h
  · simp [Event.isSetup] at h
  · simp [Event.isSetup] at h

/-- A closing event is not the load of the key and not a step of the scan. -/
theorem isClosing_kind (e : Event) (h : e.isClosing = true) :
    e ≠ Event.loadKey ∧ e.scanStep = false ∧ e.isSetup = false := by
  rcases e with ⟨c, x⟩ | _ | _ | _
  · cases c <;> simp [Event.isClosing, Event.scanStep, Event.isSetup] at h ⊢
  · simp [Event.isClosing] at h
  · simp [Event.isClosing, Event.scanStep, Event.isSetup]
  · simp [Event.isClosing, Event.scanStep, Event.isSetup]

/-- The events of the label `end_rekey` are closing events, none of them a
commit phase. -/
theorem rekeyEnd_closing {K σ : Type} (S : Sqlite σ) (db : Conn K σ) (iDb : Nat) (p : Bool)
    (rc : Nat) :
    (rekeyEnd S db iDb p rc).1 = rc ∧
    ∃ t, (rekeyEnd S db iDb p rc).2.trace = db.trace ++ t ∧
      ∀ e ∈ t, e.isClosing = true ∧ e.isCommit = false := by
  refine ⟨rfl, ?_⟩
  obtain ⟨t, ht, hp⟩ := rekeyEnd_events S db iDb p rc
  refine ⟨t, ht, ?_⟩
  intro e he
  obtain ⟨x, h | h | h⟩ := hp e he <;> subst h <;> exact ⟨rfl, rfl⟩

/-- The trace of the run from `loadKey` on, after a setup. -/
theorem rekeyBody_trace {K σ : Type} (B : Backend K) (S : Sqlite σ) (db : Conn K σ) (iDb : Nat)
    (keys : KeySlots K) (eState rc nPage : Nat) (pKey : Option (List Nat)) (nKey : Int)
    (r : Nat) (db' : Conn K σ) (hP : ∀ e ∈ db.trace, e.isSetup = true)
    (hrun : rekeyBody B S db iDb keys eState rc nPage pKey nKey = some (r, db')) :
    RekeyTrace S iDb db'.trace r := by
  unfold rekeyBody at hrun
  cases hk : B.loadKey keys.key0 pKey nKey with
  | none => rw [hk] at hrun; exact absurd hrun (by simp)
  | some k0 =>
    rw [hk] at hrun
    dsimp only at hrun
    obtain ⟨db1, hdb1⟩ : ∃ db1, db1 = (db.note Event.loadKey).setCodec iDb
      (some ⟨k0, keys.key1⟩) := ⟨_, rfl⟩
    rw [← hdb1] at hrun
    have h1t : db1.trace = db.trace ++ [Event.loadKey] := by rw [hdb1]; rfl
    obtain ⟨ps, hps⟩ : ∃ ps, ps = (if nPage ≠ 0 then db1.ext S (Call.codecPageSize iDb)
      else (db1, 1)) := ⟨_, rfl⟩
    rw [← hps] at hrun
    have hpst : ∃ tp, ps.1.trace = db1.trace ++ tp ∧
        ∀ e ∈ tp, e.isClosing = true ∧ e.isCommit = false := by
      by_cases hn : nPage ≠ 0
      · rw [if_pos hn] at hps
        refine ⟨[Event.call (Call.codecPageSize iDb) ps.2], by rw [hps]; rfl, ?_⟩
        intro e he
        simp only [List.mem_singleton] at he
        subst he
        exact ⟨rfl, rfl⟩
      · rw [if_neg hn] at hps
        exact ⟨[], by rw [hps]; simp, by simp⟩
    obtain ⟨tp, hpt, hpp⟩ := hpst
    by_cases hz : ps.2 = 0
    · rw [if_pos hz] at hrun
      exact absurd hrun (by simp)
    rw [if_neg hz] at hrun
    obtain ⟨sc, hsc⟩ : ∃ sc, sc = (if rc = S.SQLITE_OK then
        rekeyScan S iDb (if nPage ≠ 0 then S.PENDING_BYTE / ps.2 + 1 else 0) nPage 1 ps.1
      else (ps.1, rc)) := ⟨_, rfl⟩
    rw [← hsc] at hrun
    have hscs : ∃ ts, sc.1.trace = ps.1.trace ++ ts ∧ ScanSegment S iDb 1 ts sc.2 := by
      by_cases hrc : rc = S.SQLITE_OK
      · rw [if_pos hrc] at hsc
        rw [hsc]
        exact rekeyScan_segment S iDb _ nPage 1 ps.1
      · rw [if_neg hrc] at hsc
        exact ⟨[], by rw [hsc]; simp, ScanSegment.nil S iDb 1 _⟩
    obtain ⟨ts, hst, hss⟩ := hscs
    have hsct : sc.1.trace = db.trace ++ Event.loadKey :: (tp ++ ts) := by
      rw [hst, hpt, h1t]
      simp
    -- every way out: the events `tc` after the scan, then `end_rekey`
    have hfin : ∀ (dbc : Conn K σ) (tc : List Event) (p : Bool) (rr : Nat),
        dbc.trace = sc.1.trace ++ tc → (∀ e ∈ tc, e.isClosing = true) →
        (sc.2 ≠ S.SQLITE_OK → rr = sc.2 ∧ ∀ e ∈ tc, e.isCommit = false) →
        (r, db') = rekeyEnd S dbc iDb p rr → RekeyTrace S iDb db'.trace r := by
      intro dbc tc p rr hct hcc hcf hend
      obtain ⟨he1, te, he3, he4⟩ := rekeyEnd_closing S dbc iDb p rr
      rw [← hend] at he1 he3
      simp only at he1 he3
      refine Or.inr ⟨db.trace, tp, ts, tc ++ te, sc.2, ?_, hP, hpp, hss, ?_, ?_⟩
      · rw [he3, hct, hsct]
        simp
      · exact forall_mem_append_of hcc (fun e he => (he4 e he).1)
      · intro hne
        refine ⟨by rw [he1]; exact (hcf hne).1, ?_⟩
        exact forall_mem_append_of (hcf hne).2 (fun e he => (he4 e he).2)
    by_cases hs : sc.2 = S.SQLITE_OK
    · rw [if_pos hs] at hrun
      obtain ⟨db2, hdb2⟩ : ∃ db2, db2 = (sc.1.note Event.promote).setCodec iDb
        (some ⟨k0, k0⟩) := ⟨_, rfl⟩
      rw [← hdb2] at hrun
      have h2t : db2.trace = sc.1.trace ++ [Event.promote] := by rw [hdb2]; rfl
      by_cases hst2 : eState ≤ S.PAGER_READER
      · rw [if_pos hst2] at hrun
        obtain ⟨c1, hc1⟩ : ∃ c1, c1 = db2.ext S (Call.sqlite3PagerCommitPhaseOne iDb) :=
          ⟨_, rfl⟩
        rw [← hc1] at hrun
        have hc1t : c1.1.trace = sc.1.trace ++ [Event.promote,
            Event.call (Call.sqlite3PagerCommitPhaseOne iDb) c1.2] := by
          rw [hc1, Conn.ext_trace, h2t, ← hc1]
          simp
        by_cases hc1ok : c1.2 = S.SQLITE_OK
        · rw [if_pos hc1ok] at hrun
          obtain ⟨c2, hc2⟩ : ∃ c2, c2 = c1.1.ext S (Call.sqlite3PagerCommitPhaseTwo iDb) :=
            ⟨_, rfl⟩
          rw [← hc2] at hrun
          refine hfin c2.1 [Event.promote,
            Event.call (Call.sqlite3PagerCommitPhaseOne iDb) c1.2,
            Event.call (Call.sqlite3PagerCommitPhaseTwo iDb) c2.2] true c2.2 ?_ ?_
            (fun h => absurd hs h) (Option.some.inj hrun).symm
          · rw [hc2, Conn.ext_trace, hc1t, ← hc2]
            simp
          · intro e he
            simp only [List.mem_cons, List.mem_singleton, List.not_mem_nil, or_false] at he
            rcases he with rfl | rfl | rfl <;> rfl
        · rw [if_neg hc1ok] at hrun
          refine hfin c1.1 _ true c1.2 hc1t ?_ (fun h => absurd hs h)
            (Option.some.inj hrun).symm
          intro e he
          simp only [List.mem_cons, List.mem_singleton, List.not_mem_nil, or_false] at he
          rcases he with rfl | rfl <;> rfl
      · rw [if_neg hst2] at hrun
        refine hfin db2 _ true sc.2 h2t ?_ (fun h => absurd hs h) (Option.some.inj hrun).symm
        intro e he
        simp only [List.mem_singleton] at he
        subst he
        rfl
    · rw [if_neg hs] at hrun
      obtain ⟨db2, hdb2⟩ : ∃ db2, db2 = (sc.1.note Event.restore).setCodec iDb
        (some ⟨keys.key1, keys.key1⟩) := ⟨_, rfl⟩
      rw [← hdb2] at hrun
      obtain ⟨rb, hrb⟩ : ∃ rb, rb = db2.ext S (Call.sqlite3PagerRollback iDb) := ⟨_, rfl⟩
      rw [← hrb] at hrun
      refine hfin rb.1 [Event.restore, Event.call (Call.sqlite3PagerRollback iDb) rb.2]
        (decide (rc = S.SQLITE_OK)) sc.2 ?_ ?_ ?_ (Option.some.inj hrun).symm
      · rw [hrb, Conn.ext_trace, ← hrb, hdb2, Conn.setCodec_trace, Conn.note_trace]
        simp
      · intro e he
        simp only [List.mem_cons, List.mem_singleton, List.not_mem_nil, or_false] at he
        rcases he with rfl | rfl <;> rfl
      · intro _
        refine ⟨rfl, ?_⟩
        intro e he
        simp only [List.mem_cons, List.mem_singleton, List.not_mem_nil, or_false] at he
        rcases he with rfl | rfl <;> rfl

/-- The trace of the run once the codec is found, after a setup. -/
theorem rekeyLocked_trace {K σ : Type} (B : Backend K) (S : Sqlite σ) (db : Conn K σ)
    (iDb : Nat) (keys : KeySlots K) (pKey : Option (List Nat)) (nKey : Int)
    (r : Nat) (db' : Conn K σ) (hP : ∀ e ∈ db.trace, e.isSetup = true)
    (hrun : rekeyLocked B S db iDb keys pKey nKey = some (r, db')) :
    RekeyTrace S iDb db'.trace r := by
  unfold rekeyLocked at hrun
  dsimp only at hrun
  obtain ⟨st, hst⟩ : ∃ st, st = db.ext S (Call.sqlite3PagerState iDb) := ⟨_, rfl⟩
  rw [← hst] at hrun
  obtain ⟨lk, hlk⟩ : ∃ lk, lk = (if st.2 = S.PAGER_OPEN then
    st.1.ext S (Call.sqlite3PagerSharedLock iDb) else (st.1, 0)) := ⟨_, rfl⟩
  rw [← hlk] at hrun
  have hstP : ∀ e ∈ st.1.trace, e.isSetup = true := by
    rw [hst, Conn.ext_trace]
    exact forall_mem_append_of hP (by
      intro e he
      simp only [List.mem_singleton] at he
      subst he
      rfl)
  have hlkP : ∀ e ∈ lk.1.trace, e.isSetup = true := by
    by_cases h : st.2 = S.PAGER_OPEN
    · rw [if_pos h] at hlk
      rw [hlk, Conn.ext_trace]
      exact forall_mem_append_of hstP (by
        intro e he
        simp only [List.mem_singleton] at he
        subst he
        rfl)
    · rw [if_neg h] at hlk
      rw [hlk]
      exact hstP
  -- an exit through `end_rekey` before the key is loaded
  have hearly : ∀ (dbq : Conn K σ) (p : Bool) (rr : Nat), (∀ e ∈ dbq.trace, e.isSetup = true) →
      (r, db') = rekeyEnd S dbq iDb p rr → RekeyTrace S iDb db'.trace r := by
    intro dbq p rr hq hend
    obtain ⟨_, te, he3, he4⟩ := rekeyEnd_closing S dbq iDb p rr
    rw [← hend] at he3
    simp only at he3
    left
    rw [he3]
    exact forall_mem_append_of (fun e he => Or.inl (hq e he))
      (fun e he => Or.inr (he4 e he).1)
  have hext : ∀ (dbq : Conn K σ) (c : Call), (∀ e ∈ dbq.trace, e.isSetup = true) →
      (∀ x, (Event.call c x).isSetup = true) →
      ∀ e ∈ (dbq.ext S c).1.trace, e.isSetup = true := by
    intro dbq c hq hc
    rw [Conn.ext_trace]
    exact forall_mem_append_of hq (by
      intro e he
      simp only [List.mem_singleton] at he
      subst he
      exact hc _)
  by_cases hl0 : lk.2 = 0
  · rw [if_neg (not_not.2 hl0)] at hrun
    obtain ⟨g, hg⟩ : ∃ g, g = lk.1.ext S (Call.sqlite3PagerGet iDb 1) := ⟨_, rfl⟩
    rw [← hg] at hrun
    have hgP : ∀ e ∈ g.1.trace, e.isSetup = true := by
      rw [hg]
      exact hext lk.1 _ hlkP (fun _ => rfl)
    by_cases hgok : g.2 = S.SQLITE_OK
    · by_cases hes : st.2 ≤ S.PAGER_READER
      · rw [if_pos ⟨hgok, hes⟩] at hrun
        obtain ⟨b, hb⟩ : ∃ b, b = g.1.ext S (Call.sqlite3PagerBegin iDb) := ⟨_, rfl⟩
        rw [← hb] at hrun
        have hbP : ∀ e ∈ b.1.trace, e.isSetup = true := by
          rw [hb]
          exact hext g.1 _ hgP (fun _ => rfl)
        by_cases hbok : b.2 = S.SQLITE_OK
        · rw [if_neg (not_not.2 hbok)] at hrun
          exact rekeyBody_trace B S _ iDb keys _ _ _ pKey nKey r db'
            (hext b.1 (Call.sqlite3PagerPagecount iDb) hbP (fun _ => rfl)) hrun
        · rw [if_pos hbok] at hrun
          exact hearly b.1 true b.2 hbP (Option.some.inj hrun).symm
      · rw [if_neg (fun h => hes h.2), if_pos hgok] at hrun
        exact rekeyBody_trace B S _ iDb keys _ _ _ pKey nKey r db'
          (hext g.1 (Call.sqlite3PagerPagecount iDb) hgP (fun _ => rfl)) hrun
    · rw [if_neg (fun h => hgok h.1), if_neg hgok] at hrun
      exact rekeyBody_trace B S _ iDb keys _ _ _ pKey nKey r db' hgP hrun
  · rw [if_pos hl0] at hrun
    exact hearly lk.1 false lk.2 hlkP (Option.some.inj hrun).symm

/-- The events `sqlite3CodecAttach` adds are setup events. -/
theorem sqlite3CodecAttach_setup {K σ : Type} (B : Backend K) (S : Sqlite σ) (db : Conn K σ)
    (iDb : Nat) (pKey : Option (List Nat)) (nKey : Int) (a : Nat × Conn K σ)
    (hP : ∀ e ∈ db.trace, e.isSetup = true)
    (h : sqlite3CodecAttach B S db iDb pKey nKey = some a) :
    ∀ e ∈ a.2.trace, e.isSetup = true := by
  unfold sqlite3CodecAttach at h
  cases hd : db.aDb[iDb]? with
  | none => rw [hd] at h; exact absurd h (by simp)
  | some pDb =>
    rw [hd] at h
    dsimp only at h
    by_cases hbt : pDb.pBt = true
    · rw [if_pos hbt] at h
      by_cases hm0 : (db.ext S Call.sqlite3_malloc).2 = 0
      · rw [if_pos hm0] at h
        rw [← Option.some.inj h]
        intro e he
        simp only [Conn.ext_trace, List.mem_append, List.mem_singleton] at he
        rcases he with he | rfl
        · exact hP e he
        · rfl
      · rw [if_neg hm0] at h
        cases hk : B.loadKey B.zeroKey pKey nKey with
        | none => rw [hk] at h; exact absurd h (by simp)
        | some k =>
          rw [hk] at h
          cases hr : B.nReserve with
          | none =>
            rw [hr] at h
            dsimp only at h
            rw [← Option.some.inj h]
            intro e he
            simp only [Conn.setCodec_trace, Conn.ext_trace, List.mem_append,
              List.mem_singleton] at he
            rcases he with (he | rfl) | rfl
            · exact hP e he
            · rfl
            · rfl
          | some n =>
            rw [hr] at h
            dsimp only at h
            rw [← Option.some.inj h]
            intro e he
            simp only [Conn.setCodec_trace, Conn.ext_trace, List.mem_append,
              List.mem_singleton] at he
            rcases he with ((he | rfl) | rfl) | rfl
            · exact hP e he
            · rfl
            · rfl
            · rfl
    · rw [if_neg hbt] at h
      rw [← Option.some.inj h]
      exact hP

/-- The trace of a run of `sqlite3_rekey_v2`. -/
theorem sqlite3_rekey_v2_trace {K σ : Type} (B : Backend K) (S : Sqlite σ)
    (encryptionEnabled : Bool) (db : Conn K σ) (zDbName : Option String)
    (pKey : Option (List Nat)) (nKey : Int) (r : Nat) (db' : Conn K σ)
    (hrun : sqlite3_rekey_v2 B S encryptionEnabled db zDbName pKey nKey = some (r, db')) :
    RekeyTrace S (sqlite3NameToDb S db zDbName).toNat db'.trace r := by
  unfold sqlite3_rekey_v2 at hrun
  dsimp only at hrun
  by_cases hen : encryptionEnabled = false
  · rw [if_pos hen] at hrun
    have hdb : db'.trace = [] := (congrArg (fun p => p.2.trace) (Option.some.inj hrun)).symm
    left
    rw [hdb]
    simp
  rw [if_neg hen] at hrun
  obtain ⟨db1, hdb1⟩ : ∃ db1, db1 = (({ db with trace := [] }).ext S
    Call.sqlite3_mutex_enter).1.ext S Call.sqlite3BtreeEnterAll := ⟨_, rfl⟩
  rw [← hdb1] at hrun
  have h1a : db1.1.aDb = db.aDb := by rw [hdb1]; rfl
  have hname : sqlite3NameToDb S db1.1 zDbName = sqlite3NameToDb S db zDbName :=
    sqlite3NameToDb_congr S db1.1 db zDbName h1a
  rw [hname] at hrun
  have h1P : ∀ e ∈ db1.1.trace, e.isSetup = true := by
    intro e he
    rw [hdb1] at he
    simp only [Conn.ext_trace, List.nil_append, List.cons_append, List.mem_cons,
      List.mem_singleton, List.not_mem_nil, or_false] at he
    rcases he with rfl | rfl <;> rfl
  have hearly : ∀ (dbq : Conn K σ) (i : Nat) (rr : Nat), (∀ e ∈ dbq.trace, e.isSetup = true) →
      (r, db') = rekeyEnd S dbq i false rr →
      RekeyTrace S (sqlite3NameToDb S db zDbName).toNat db'.trace r := by
    intro dbq i rr hq hend
    obtain ⟨_, te, he3, he4⟩ := rekeyEnd_closing S dbq i false rr
    rw [← hend] at he3
    simp only at he3
    left
    rw [he3]
    exact forall_mem_append_of (fun e he => Or.inl (hq e he))
      (fun e he => Or.inr (he4 e he).1)
  by_cases hi : sqlite3NameToDb S db zDbName < 0
  · rw [if_pos hi] at hrun
    exact hearly db1.1 0 _ h1P (Option.some.inj hrun).symm
  rw [if_neg hi] at hrun
  cases hd : db1.1.aDb[(sqlite3NameToDb S db zDbName).toNat]? with
  | none => rw [hd] at hrun; exact absurd hrun (by simp)
  | some pDb =>
    rw [hd] at hrun
    dsimp only at hrun
    by_cases hbt : pDb.pBt = false
    · rw [if_pos hbt] at hrun
      exact absurd hrun (by simp)
    rw [if_neg hbt] at hrun
    by_cases hro : pDb.readOnly = true
    · rw [if_pos hro] at hrun
      exact hearly db1.1 _ _ h1P (Option.some.inj hrun).symm
    rw [if_neg hro] at hrun
    cases hc : pDb.pCodec with
    | some keys =>
      rw [hc] at hrun
      dsimp only at hrun
      exact rekeyLocked_trace B S db1.1 _ keys pKey nKey r db' h1P hrun
    | none =>
      rw [hc] at hrun
      dsimp only at hrun
      cases ha : sqlite3CodecAttach B S db1.1 0 (some [0]) 0 with
      | none => rw [ha] at hrun; exact absurd hrun (by simp)
      | some a =>
        rw [ha] at hrun
        dsimp only at hrun
        have haP := sqlite3CodecAttach_setup B S db1.1 0 (some [0]) 0 a h1P ha
        cases hca : (a.2.aDb[(sqlite3NameToDb S db zDbName).toNat]?).bind
            (fun d => d.pCodec) with
        | none =>
          rw [hca] at hrun
          dsimp only at hrun
          exact hearly a.2 _ _ haP (Option.some.inj hrun).symm
        | some keys =>
          rw [hca] at hrun
          dsimp only at hrun
          exact rekeyLocked_trace B S a.2 _ keys pKey nKey r db' haP hrun

/-- Where an event of a trace in five parts lies. -/
theorem getElem?_parts (P tp ts q : List Event) (l e : Event) (k : Nat)
    (h : (P ++ l :: (tp ++ ts ++ q))[k]? = some e) :
    (k < P.length ∧ e ∈ P) ∨ (k = P.length ∧ e = l) ∨ (P.length < k ∧ e ∈ tp) ∨
    (P.length + 1 + tp.length ≤ k ∧ ts[k - (P.length + 1 + tp.length)]? = some e) ∨
    (P.length < k ∧ e ∈ q) := by
  by_cases h1 : k < P.length
  · rw [List.getElem?_append_left h1] at h
    exact Or.inl ⟨h1, List.getElem?_mem h⟩
  · rw [List.getElem?_append_right (Nat.le_of_not_lt h1)] at h
    by_cases h2 : k = P.length
    · rw [h2, Nat.sub_self, List.getElem?_cons_zero] at h
      exact Or.inr (Or.inl ⟨h2, (Option.some.inj h).symm⟩)
    · have h3 : P.length < k := by omega
      obtain ⟨m, hm⟩ : ∃ m, k - P.length = m + 1 := ⟨k - P.length - 1, by omega⟩
      rw [hm, List.getElem?_cons_succ] at h
      by_cases h4 : m < tp.length
      · rw [List.append_assoc, List.getElem?_append_left h4] at h
        exact Or.inr (Or.inr (Or.inl ⟨h3, List.getElem?_mem h⟩))
      · rw [List.append_assoc, List.getElem?_append_right (Nat.le_of_not_lt h4)] at h
        by_cases h5 : m - tp.length < ts.length
        · rw [List.getElem?_append_left h5] at h
          refine Or.inr (Or.inr (Or.inr (Or.inl ⟨by omega, ?_⟩)))
          have : k - (P.length + 1 + tp.length) = m - tp.length := by omega
          rw [this]
          exact h
        · rw [List.getElem?_append_right (Nat.le_of_not_lt h5)] at h
          exact Or.inr (Or.inr (Or.inr (Or.inr ⟨h3, List.getElem?_mem h⟩)))

/-- An event of the fourth part of a trace in five parts. -/
theorem getElem?_parts_scan (P tp ts q : List Event) (l e : Event) (m : Nat)
    (h : ts[m]? = some e) :
    (P ++ l :: (tp ++ ts ++ q))[P.length + 1 + tp.length + m]? = some e := by
  have hm : m < ts.length := by
    by_contra hc
    rw [List.getElem?_eq_none (Nat.le_of_not_lt hc)] at h
    exact absurd h (by simp)
  rw [List.getElem?_append_right (by omega)]
  have e1 : P.length + 1 + tp.length + m - P.length = (tp.length + m) + 1 := by omega
  rw [e1, List.getElem?_cons_succ, List.append_assoc,
    List.getElem?_append_right (by omega)]
  have e2 : tp.length + m - tp.length = m := by omega
  rw [e2, List.getElem?_append_left hm]
  exact h

/-- C11. Re-key cancellation.  In the trace of a run of `sqlite3_rekey_v2`
that returns (status `rc`): every read of the interrupt flag comes right after
a page fetch that succeeded; every fetch that succeeded after the candidate
key was loaded (a fetch of the scan) is followed at once by one read of the
flag; the pages the scan fetches increase, so none is fetched twice; and if
the flag read after the fetch of page `i` was found set, then no page `j >= i`
is marked dirty anywhere in the run, neither commit phase is called, the flag
is cleared, and `rc` is `SQLITE_INTERRUPT`. -/
theorem C11_rekey_cancellation {K σ : Type} (B : Backend K) (S : Sqlite σ)
    (encryptionEnabled : Bool) (db : Conn K σ) (zDbName : Option String)
    (pKey : Option (List Nat)) (nKey : Int) (rc : Nat) (db' : Conn K σ)
    (hne : S.SQLITE_INTERRUPT ≠ S.SQLITE_OK)
    (hrun : sqlite3_rekey_v2 B S encryptionEnabled db zDbName pKey nKey = some (rc, db')) :
    (∀ k r : Nat, db'.trace[k]? = some (Event.call Call.readIsInterrupted r) →
      ∃ k0 p, k = k0 + 1 ∧ db'.trace[k0]? = some (Event.call
        (Call.sqlite3PagerGet (sqlite3NameToDb S db zDbName).toNat p) S.SQLITE_OK)) ∧
    (∀ k0 k p : Nat, db'.trace[k0]? = some Event.loadKey → k0 < k →
      db'.trace[k]? = some (Event.call
        (Call.sqlite3PagerGet (sqlite3NameToDb S db zDbName).toNat p) S.SQLITE_OK) →
      ∃ r, db'.trace[k + 1]? = some (Event.call Call.readIsInterrupted r)) ∧
    (∀ k0 k k' p p' x x' : Nat, db'.trace[k0]? = some Event.loadKey → k0 < k → k < k' →
      db'.trace[k]? = some (Event.call
        (Call.sqlite3PagerGet (sqlite3NameToDb S db zDbName).toNat p) x) →
      db'.trace[k']? = some (Event.call
        (Call.sqlite3PagerGet (sqlite3NameToDb S db zDbName).toNat p') x') → p < p') ∧
    (∀ k i x r : Nat,
      db'.trace[k]? = some (Event.call
        (Call.sqlite3PagerGet (sqlite3NameToDb S db zDbName).toNat i) x) →
      db'.trace[k + 1]? = some (Event.call Call.readIsInterrupted r) → r ≠ 0 →
      (∀ j y : Nat, i ≤ j → Event.call
        (Call.sqlite3PagerWrite (sqlite3NameToDb S db zDbName).toNat j) y ∉ db'.trace) ∧
      (∀ e ∈ db'.trace, e.isCommit = false) ∧
      (∃ y, Event.call Call.clearIsInterrupted y ∈ db'.trace) ∧
      rc = S.SQLITE_INTERRUPT) := by
  rcases sqlite3_rekey_v2_trace B S encryptionEnabled db zDbName pKey nKey rc db' hrun with
    hE | ⟨P, tp, ts, q, src, hT, hP, htp, hseg, hq, hsrc⟩
  · -- the run left before the key was loaded: no flag read, no load in the trace
    have hno : ∀ e ∈ db'.trace, e.isSetup = true ∨ e.isClosing = true := hE
    have hread : ∀ k r : Nat, db'.trace[k]? = some (Event.call Call.readIsInterrupted r) →
        False := by
      intro k r h
      rcases hno _ (List.getElem?_mem h) with h1 | h1 <;> simp [Event.isSetup,
        Event.isClosing] at h1
    have hload : ∀ k : Nat, db'.trace[k]? = some Event.loadKey → False := by
      intro k h
      rcases hno _ (List.getElem?_mem h) with h1 | h1 <;> simp [Event.isSetup,
        Event.isClosing] at h1
    refine ⟨fun k r h => (hread k r h).elim, fun k0 k p h => (hload k0 h).elim,
      fun k0 k k' p p' x x' h => (hload k0 h).elim, fun k i x r _ h => (hread _ r h).elim⟩
  · obtain ⟨h1, h2, h3, h4, h5, h6⟩ := hseg
    rw [hT]
    -- a read of the flag is an event of the scan
    have hread : ∀ k r : Nat, (P ++ Event.loadKey :: (tp ++ ts ++ q))[k]? =
        some (Event.call Call.readIsInterrupted r) →
        P.length + 1 + tp.length ≤ k ∧
        ts[k - (P.length + 1 + tp.length)]? = some (Event.call Call.readIsInterrupted r) := by
      intro k r h
      rcases getElem?_parts P tp ts q _ _ k h with ⟨_, h'⟩ | ⟨_, h'⟩ | ⟨_, h'⟩ | h' | ⟨_, h'⟩
      · exact absurd rfl ((isSetup_kind _ (hP _ h')).2.2.2.1 r)
      · exact absurd h' (by simp)
      · have := (htp _ h').1
        simp [Event.isClosing] at this
      · exact h'
      · have := hq _ h'
        simp [Event.isClosing] at this
    -- the load of the key is not before the end of the setup
    have hload : ∀ k0 : Nat, (P ++ Event.loadKey :: (tp ++ ts ++ q))[k0]? =
        some Event.loadKey →
        P.length ≤ k0 := by
      intro k0 h
      rcases getElem?_parts P tp ts q _ _ k0 h with ⟨_, h'⟩ | ⟨hk, _⟩ | ⟨hk, _⟩ | ⟨hk, _⟩ |
        ⟨hk, _⟩
      · exact absurd rfl (isSetup_kind _ (hP _ h')).1
      · omega
      · omega
      · omega
      · omega
    -- a fetch after the end of the setup is an event of the scan
    have hget : ∀ k p x : Nat, P.length < k → (P ++ Event.loadKey :: (tp ++ ts ++ q))[k]? =
        some (Event.call (Call.sqlite3PagerGet (sqlite3NameToDb S db zDbName).toNat p) x) →
        P.length + 1 + tp.length ≤ k ∧
        ts[k - (P.length + 1 + tp.length)]? =
          some (Event.call (Call.sqlite3PagerGet (sqlite3NameToDb S db zDbName).toNat p) x) := by
      intro k p x hk h
      rcases getElem?_parts P tp ts q _ _ k h with ⟨hk', _⟩ | ⟨hk', _⟩ | ⟨_, h'⟩ | h' | ⟨_, h'⟩
      · omega
      · omega
      · have := (htp _ h').1
        simp [Event.isClosing] at this
      · exact h'
      · have := hq _ h'
        simp [Event.isClosing] at this
    refine ⟨?_, ?_, ?_, ?_⟩
    · intro k r h
      obtain ⟨hk, hts⟩ := hread k r h
      obtain ⟨m0, p, hm, hg⟩ := h2 _ r hts
      refine ⟨P.length + 1 + tp.length + m0, p, by omega, ?_⟩
      exact getElem?_parts_scan P tp ts q _ _ m0 hg
    · intro k0 k p hl hlt h
      have hk0 := hload k0 hl
      obtain ⟨hk, hts⟩ := hget k p _ (by omega) h
      obtain ⟨r, hr⟩ := (h3 _ p _ hts).2 rfl
      refine ⟨r, ?_⟩
      have := getElem?_parts_scan P tp ts q Event.loadKey _ _ hr
      have e : P.length + 1 + tp.length + (k - (P.length + 1 + tp.length) + 1) = k + 1 := by
        omega
      rw [e] at this
      exact this
    · intro k0 k k' p p' x x' hl hlt hlt' h h'
      have hk0 := hload k0 hl
      obtain ⟨hk, hts⟩ := hget k p x (by omega) h
      obtain ⟨hk', hts'⟩ := hget k' p' x' (by omega) h'
      exact h4 _ _ p p' x x' (by omega) hts hts'
    · intro k i x r h h' hr
      obtain ⟨hk', hts'⟩ := hread (k + 1) r h'
      obtain ⟨m0, p, hm, hg⟩ := h2 _ r hts'
      have hkm : k = P.length + 1 + tp.length + m0 := by omega
      have hg' := getElem?_parts_scan P tp ts q Event.loadKey _ m0 hg
      rw [← hkm, h] at hg'
      have hts : ts[m0]? = some (Event.call
          (Call.sqlite3PagerGet (sqlite3NameToDb S db zDbName).toNat i) x) := by
        rw [hg, ← Option.some.inj hg']
      have hts1 : ts[m0 + 1]? = some (Event.call Call.readIsInterrupted r) := by
        rw [← hm]
        exact hts'
      obtain ⟨hw, ⟨y, hy⟩, hrc⟩ := h6 m0 i x r hts hts1 hr
      have hsne : src ≠ S.SQLITE_OK := by rw [hrc]; exact hne
      obtain ⟨hrc2, hqc⟩ := hsrc hsne
      -- an event of the trace is in one of its five parts
      have hmem : ∀ e ∈ P ++ Event.loadKey :: (tp ++ ts ++ q),
          e ∈ P ∨ e = Event.loadKey ∨ e ∈ tp ∨ e ∈ ts ∨ e ∈ q := by
        intro e he
        simp only [List.mem_append, List.mem_cons] at he
        tauto
      refine ⟨?_, ?_, ⟨y, by simp [hy]⟩, by rw [hrc2, hrc]⟩
      · intro j z hj hmemw
        rcases hmem _ hmemw with h0 | h0 | h0 | h0 | h0
        · exact absurd rfl ((isSetup_kind _ (hP _ h0)).2.2.2.2.2 _ j z)
        · exact absurd h0 (by simp)
        · have := (htp _ h0).1
          simp [Event.isClosing] at this
        · have := hw j z h0
          omega
        · have := hq _ h0
          simp [Event.isClosing] at this
      · intro e he
        rcases hmem e he with h0 | h0 | h0 | h0 | h0
        · exact (isSetup_kind _ (hP _ h0)).2.1
        · rw [h0]; rfl
        · exact (htp _ h0).2
        · exact (scanStep_kind _ (h1 _ h0)).2.2
        · exact hqc e h0

/-- Witness of C11: a re-key of a three-page file interrupted at page 2. -/
theorem C11_rekey_cancellation_witness :
    sqlite3_rekey_v2 xorBackend (sqliteInterruptAt 2) true connCounting none (some [9]) 1 =
      some (9, connInterrupted) ∧
    connInterrupted.trace[13]? = some (Event.call (Call.sqlite3PagerGet 0 2) 0) ∧
    connInterrupted.trace[13 + 1]? = some (Event.call Call.readIsInterrupted 1) ∧
    ((∀ j y : Nat, 2 ≤ j → Event.call (Call.sqlite3PagerWrite 0 j) y ∉ connInterrupted.trace) ∧
      (∀ e ∈ connInterrupted.trace, e.isCommit = false) ∧
      (∃ y, Event.call Call.clearIsInterrupted y ∈ connInterrupted.trace) ∧
      9 = 9) :=
  ⟨rfl, rfl, rfl,
    (C11_rekey_cancellation xorBackend (sqliteInterruptAt 2) true connCounting none (some [9]) 1
      9 connInterrupted (by decide) rfl).2.2.2 13 2 0 1 rfl rfl (by decide)⟩

/-! ## What an encode writes into the caller's page -/

/-- A `memcpy` into a buffer leaves its length and the bytes outside the
destination as they are. -/
theorem writeAt_frame (buf src : List Nat) (off : Nat) (h : off + src.length ≤ buf.length) :
    (writeAt buf off src).length = buf.length ∧
    ∀ k, (k < off ∨ off + src.length ≤ k) → (writeAt buf off src).getD k 0 = buf.getD k 0 := by
  refine ⟨length_writeAt buf src off h, ?_⟩
  intro k hk
  rcases hk with hk | hk
  · exact getD_writeAt_lt buf src off k (by omega) hk
  · exact getD_writeAt_ge buf src off k (by omega) hk

/-- The caller's page after an RC4 encode: as it was, or with the fresh nonce
stored behind the payload. -/
theorem rc4_encode_pageData (h : Host) (c : CodecRc4) (B : List Nat) (pgno op : Nat)
    (hop : op = 6 ∨ op = 7) :
    (sqliteCodecRc4 h c B pgno op).pageData = B ∨
    (sqliteCodecRc4 h c B pgno op).pageData =
      writeAt B c.usable (h.sqlite3_randomness c.nonceSize) := by
  have h0 : op ≠ 0 := by rcases hop with rfl | rfl <;> decide
  have h4 : op &&& 4 ≠ 0 := by rcases hop with rfl | rfl <;> decide
  cases c with
  | mk key0 key1 nullKey nonceSize mallocFailed pageSize usable mask outbuf =>
  have hk : ∀ (c : CodecRc4) (mask : List Nat), c.usable = usable → c.nonceSize = nonceSize →
      (rc4Keyed h c mask B pgno op).pageData = B ∨
      (rc4Keyed h c mask B pgno op).pageData =
        writeAt B usable (h.sqlite3_randomness nonceSize) := by
    intro c mask hu hn
    simp only [rc4Keyed, h0, if_false]
    by_cases hk : (c.key (op &&& 1)).nullKey ≠ 0
    · simp only [if_pos hk]; exact Or.inl trivial
    · simp only [if_neg hk, rc4Crypt, if_pos h4, hu, hn]
      by_cases hz : 0 < nonceSize ∧ op &&& 4 ≠ 0
      · simp only [if_pos hz]; exact Or.inr trivial
      · simp only [if_neg hz]; exact Or.inl trivial
  cases mask with
  | some mask =>
    simp only [sqliteCodecRc4]
    exact hk _ mask rfl rfl
  | none =>
    simp only [sqliteCodecRc4]
    by_cases hf : mallocFailed ≠ 0
    · simp only [if_pos hf]; exact Or.inl trivial
    · simp only [if_neg hf]
      cases h.malloc (pageSize * 2 + 8) with
      | none => exact Or.inl rfl
      | some blk => exact hk _ _ rfl rfl

/-- The caller's page after a CommonCrypto encode: as it was, or with the fresh
nonce stored behind the payload. -/
theorem cccrypt_encode_pageData (h : Host) (c : CodecCCCrypto) (B : List Nat) (pgno op : Nat)
    (hop : op = 6 ∨ op = 7) :
    (sqliteCodecCCCrypto h c B pgno op).pageData = B ∨
    (sqliteCodecCCCrypto h c B pgno op).pageData =
      writeAt B c.usable (h.sqlite3_randomness c.nonceUsable) := by
  have h0 : op ≠ 0 := by rcases hop with rfl | rfl <;> decide
  have h4 : op &&& 4 ≠ 0 := by rcases hop with rfl | rfl <;> decide
  cases c with
  | mk key0 key1 nullKey nonceUsable mallocFailed nonceZero pageSize usable pZero mask outbuf =>
  have hk : ∀ (c : CodecCCCrypto) (mask : List Nat), c.usable = usable →
      c.nonceUsable = nonceUsable →
      (cccryptCrypt h c mask B pgno op).pageData = B ∨
      (cccryptCrypt h c mask B pgno op).pageData =
        writeAt B usable (h.sqlite3_randomness nonceUsable) := by
    intro c mask hu hn
    simp only [cccryptCrypt, if_pos h4, hu, hn]
    by_cases hz : 0 < nonceUsable ∧ op &&& 4 ≠ 0
    · simp only [if_pos hz]; exact Or.inr trivial
    · simp only [if_neg hz]; exact Or.inl trivial
  simp only [sqliteCodecCCCrypto, h0, if_false]
  by_cases hkey : (CodecCCCrypto.key ⟨key0, key1, nullKey, nonceUsable, mallocFailed, nonceZero,
      pageSize, usable, pZero, mask, outbuf⟩ (op &&& 1)).nullKey ≠ 0
  · simp only [if_pos hkey]; exact Or.inl trivial
  · simp only [if_neg hkey]
    cases mask with
    | some mask =>
      simp only [cccryptAlloc]
      exact hk _ mask rfl rfl
    | none =>
      simp only [cccryptAlloc]
      by_cases hf : mallocFailed ≠ 0
      · simp only [if_pos hf]; exact Or.inl trivial
      · simp only [if_neg hf]
        cases h.malloc (pageSize * 3) with
        | none => exact Or.inl rfl
        | some blk => exact hk _ _ rfl rfl

/-- The caller's page after an XOR encode: as it was. -/
theorem xor_encode_pageData (h : Host) (c : CodecXor) (beyond B : List Nat) (pgno op : Nat)
    (hop : op = 6 ∨ op = 7) :
    (sqliteCodecXor h c beyond B pgno op).pageData = B := by
  have h0 : op ≠ 0 := by rcases hop with rfl | rfl <;> decide
  have h4 : op &&& 4 ≠ 0 := by rcases hop with rfl | rfl <;> decide
  have hk : ∀ (c : CodecXor) (o : List Nat), (xorKeyed c o beyond B pgno op).pageData = B := by
    intro c o
    simp only [xorKeyed, h0, if_false]
    by_cases hk : (c.key (op &&& 1)).nullKey ≠ 0
    · simp only [if_pos hk]
    · simp only [if_neg hk, xorCrypt, if_pos h4]
  unfold sqliteCodecXor
  cases c.outbuf with
  | some o => exact hk _ o
  | none =>
    simp only []
    by_cases hf : c.mallocFailed ≠ 0
    · simp only [if_pos hf]
    · simp only [if_neg hf]
      cases h.malloc c.pageSize with
      | none => rfl
      | some blk => exact hk _ _

/-- The caller's page after an AES-CCM encode: as it was, or with the fresh
nonce and the MAC stored behind the payload; and the call returns when the
payload is a multiple of 4 bytes. -/
theorem aes_encode_pageData (A : Rijndael) (h : Host) (c : CodecAes128Ccm) (B : List Nat)
    (pgno op : Nat) (hop : op = 6 ∨ op = 7) :
    (c.usable % 4 = 0 → ∃ r, sqliteCodecAes128Ccm A h c B pgno op = some r) ∧
    ∀ r, sqliteCodecAes128Ccm A h c B pgno op = some r →
      r.pageData = B ∨
      ∃ mac : List Nat, mac.length = 16 ∧
        r.pageData = writeAt (writeAt B (c.usable + 16) (h.sqlite3_randomness 16)) c.usable mac := by
  have h0 : op ≠ 0 := by rcases hop with rfl | rfl <;> decide
  have h4 : ¬ op &&& 4 = 0 := by rcases hop with rfl | rfl <;> decide
  have h4' : op &&& 4 ≠ 0 := h4
  cases c with
  | mk key0 key1 nullKey mallocFailed pageSize usable mask outbuf =>
  have hk : ∀ (c : CodecAes128Ccm) (mask : List Nat), c.usable = usable →
      (usable % 4 = 0 → ∃ r, aesKeyed A h c mask B pgno op = some r) ∧
      ∀ r, aesKeyed A h c mask B pgno op = some r →
        r.pageData = B ∨
        ∃ mac : List Nat, mac.length = 16 ∧
          r.pageData = writeAt (writeAt B (usable + 16) (h.sqlite3_randomness 16)) usable mac := by
    intro c mask hu
    simp only [aesKeyed, h0, if_false]
    by_cases hk : (c.key (op &&& 1)).nullKey ≠ 0
    · simp only [if_pos hk]
      refine ⟨fun _ => ⟨_, rfl⟩, ?_⟩
      intro r hr
      rw [← Option.some.inj hr]
      exact Or.inl rfl
    · simp only [if_neg hk, aesCrypt, if_neg h4, aesNonce, if_pos h4', hu]
      constructor
      · intro h4u
        have hx : (usable + 16) % 4 = 0 := by omega
        simp only [aesXor, xorBuffersAes, hx, if_true, Option.some_bind]
        split_ifs
        · simp only [aesPage1, xorBuffersAes, Nat.reduceMod, if_true, Option.map_some',
            Option.some_bind]
          exact ⟨_, rfl⟩
        · exact ⟨_, rfl⟩
      · intro r hr
        simp only [Option.bind_eq_some] at hr
        obtain ⟨o, _, hr⟩ := hr
        rw [← Option.some.inj hr]
        exact Or.inr ⟨_, length_computeMac _ _ _ _ _, rfl⟩
  cases mask with
  | some mask =>
    simp only [sqliteCodecAes128Ccm, aesAlloc]
    exact hk _ mask rfl
  | none =>
    simp only [sqliteCodecAes128Ccm, aesAlloc]
    by_cases hf : mallocFailed ≠ 0
    · simp only [if_pos hf]
      exact ⟨fun _ => ⟨_, rfl⟩, fun r hr => by rw [← Option.some.inj hr]; exact Or.inl rfl⟩
    · simp only [if_neg hf]
      by_cases hg1 : (pageSize : Int) - (usable : Int) < 32
      · simp only [if_pos hg1]
        exact ⟨fun _ => ⟨_, rfl⟩, fun r hr => by rw [← Option.some.inj hr]; exact Or.inl rfl⟩
      · simp only [if_neg hg1]
        by_cases hg2 : usable &&& 15 ≠ 0
        · simp only [if_pos hg2]
          exact ⟨fun _ => ⟨_, rfl⟩, fun r hr => by rw [← Option.some.inj hr]; exact Or.inl rfl⟩
        · simp only [if_neg hg2]
          cases h.malloc (pageSize * 2 + 8) with
          | none =>
            exact ⟨fun _ => ⟨_, rfl⟩,
              fun r hr => by rw [← Option.some.inj hr]; exact Or.inl rfl⟩
          | some blk => exact hk _ _ rfl


set_option maxRecDepth 100000 in
/-- Counterexample to C21.  An RC4 encode (op 6) of page 2 of 512 zero bytes,
with the 4 reserved bytes of the backend: the page is returned in `outbuf`,
and byte 508 of the caller's buffer, 0 before the call, is 1 after it (the
first byte of the nonce the encoder drew and stored behind the payload). -/
theorem C21_encode_writes_nonce_counterexample :
    (sqliteCodecRc4 hostOnes (rc4Fresh 512) (List.replicate 512 0) 2 6).ret = Ret.outbuf ∧
    (List.replicate 512 0).getD 508 0 = 0 ∧
    (sqliteCodecRc4 hostOnes (rc4Fresh 512) (List.replicate 512 0) 2 6).pageData.getD 508 0
      = 1 := by
  refine ⟨rfl, rfl, ?_⟩
  rfl

/-! ## The key display tool -/

/-- The length of a text followed by its terminator. -/
theorem strlen_text (R rest : List Nat) (hR : ∀ b ∈ R, b ≠ 0) :
    strlen (R ++ 0 :: rest) = R.length := by
  induction R with
  | nil => simp [strlen]
  | cons a R ih =>
    have ha : a ≠ 0 := hR a (List.mem_cons_self _ _)
    have h1 := ih (fun b hb => hR b (List.mem_cons_of_mem _ hb))
    unfold strlen at h1 ⊢
    have e : List.takeWhile (fun c => decide (c ≠ 0)) (a :: R ++ 0 :: rest)
        = a :: List.takeWhile (fun c => decide (c ≠ 0)) (R ++ 0 :: rest) := by
      simp [List.takeWhile_cons, ha]
    rw [e, List.length_cons, h1, List.length_cons]

/-- A text repeated with a period within its length does not read its
terminator. -/
theorem repeatKey_text (R rest : List Nat) (m keySz : Nat) (hm : 0 < m) (hmR : m ≤ R.length) :
    repeatKey (R ++ rest) m keySz = repeatKey R m keySz := by
  apply ext_of_getD
  · rw [length_repeatKey, length_repeatKey]
  · intro i hi
    rw [length_repeatKey] at hi
    rw [getD_repeatKey _ _ _ _ hi, getD_repeatKey _ _ _ _ hi]
    exact getD_append_left R rest _ (Nat.lt_of_lt_of_le (Nat.mod_lt _ hm) hmR)

/-- C22. What `showKey` prints for a line "rc4:" followed by a text `R` that is
not empty, and what `loadKeyRc4` installs for `R` given with a negative
length.  `showKey` cuts the length of the whole line to 256 before it removes
the four characters "rc4:", so the key it prints is `R` repeated with the
period `min(len(R), 252)`; `loadKeyRc4` repeats `R` with the period
`min(len(R), 256)`.  The two agree for texts of up to 252 characters and
differ for longer ones, although the tool is to show "what the encryption key
would be". -/
theorem C22_keyhash_rc4_cuts_before_strip (R : List Nat) (key0 : KeyRc4) (hne : R ≠ [])
    (hR : ∀ b ∈ R, b ≠ 0) (hlen : R.length < 16777216) :
    showKey ([114, 99, 52, 58] ++ R ++ [0]) =
      hexBytes (repeatKey R (min R.length 252) 256) ++ [10] ∧
    loadKeyRc4 key0 (some (R ++ [0])) (-1) =
      some { nByte := min R.length 256 % 256, nullKey := 0,
             repeat_ := repeatKey R (min R.length 256) 256 } := by
  have hpos : 0 < R.length := List.length_pos.mpr hne
  constructor
  · have hs : strlen ([114, 99, 52, 58] ++ R ++ [0]) = 4 + R.length := by
      have h4 : ∀ b ∈ [114, 99, 52, 58] ++ R, b ≠ 0 := by
        intro b hb
        rcases List.mem_append.mp hb with hb | hb
        · intro h0; subst h0; revert hb; decide
        · exact hR b hb
      have := strlen_text ([114, 99, 52, 58] ++ R) [] h4
      rw [List.length_append] at this
      exact this
    have ht : ([114, 99, 52, 58] ++ R ++ [0]).take 4 = [114, 99, 52, 58] := by
      simp
    have hd : ([114, 99, 52, 58] ++ R ++ [0]).drop 4 = R ++ [0] := by
      simp
    have hn1 : 4 < (if 256 < 4 + R.length then 256 else 4 + R.length) := by
      split_ifs <;> omega
    have hn2 : (if 256 < 4 + R.length then 256 else 4 + R.length) - 4 = min R.length 252 := by
      split_ifs <;> omega
    have hn3 : ¬ 256 < min R.length 252 := by omega
    unfold showKey showKeyBytes
    simp only [hs, ht, hn1, and_self, if_true, hd, hn2, szKey, List.getD_cons_zero,
      Bool.false_eq_true, if_false, hn3]
    rw [← repeatKey_text R [0] _ 256 (by omega : 0 < min R.length 252) (by omega)]
    rfl
  · have hs : strlen (R ++ [0]) = R.length := strlen_text R [] hR
    have hm : min R.length 256 =
        if 256 < (if (-1 : Int) < 0 then strlen (R ++ [0]) % 16777216 else (-1 : Int).toNat)
        then 256
        else (if (-1 : Int) < 0 then strlen (R ++ [0]) % 16777216 else (-1 : Int).toNat) := by
      have hneg : (-1 : Int) < 0 := by decide
      rw [hs, Nat.mod_eq_of_lt hlen]
      simp only [hneg, if_true]
      split_ifs <;> omega
    rw [loadKeyRc4_key key0 (R ++ [0]) (-1) (min R.length 256) (by decide) hm (by omega),
      repeatKey_text R [0] _ 256 (by omega) (by omega)]

set_option maxRecDepth 100000 in
/-- Witness of C22: the text of 252 "a" and one "b".  The tool prints a key
whose byte 252 is 97 ("a", the text repeated with period 252); the key
installed has 98 ("b") there. -/
theorem C22_keyhash_rc4_cuts_before_strip_witness :
    textLong ≠ [] ∧ (∀ b ∈ textLong, b ≠ 0) ∧ textLong.length < 16777216 ∧
    showKey ([114, 99, 52, 58] ++ textLong ++ [0]) =
      hexBytes (repeatKey textLong (min textLong.length 252) 256) ++ [10] ∧
    loadKeyRc4 rc4KeyNull (some (textLong ++ [0])) (-1) =
      some { nByte := min textLong.length 256 % 256, nullKey := 0,
             repeat_ := repeatKey textLong (min textLong.length 256) 256 } ∧
    (repeatKey textLong (min textLong.length 252) 256).getD 252 0 = 97 ∧
    (repeatKey textLong (min textLong.length 256) 256).getD 252 0 = 98 :=
  ⟨by decide, by decide, by decide,
    (C22_keyhash_rc4_cuts_before_strip textLong rc4KeyNull (by decide) (by decide)
      (by decide)).1,
    (C22_keyhash_rc4_cuts_before_strip textLong rc4KeyNull (by decide) (by decide)
      (by decide)).2,
    by decide, by decide⟩

theorem length_xorPage1Rand (b : List Nat) (n i : Nat) (out : List Nat) :
    (xorPage1Rand b n i out).length = out.length := by
  induction n generalizing i out with
  | zero => rfl
  | succ n ih => simp [xorPage1Rand, ih]

theorem getElem?_xorPage1Rand (b : List Nat) (n i k : Nat) (out : List Nat) :
    (xorPage1Rand b n i out)[k]? =
      if i ≤ k ∧ k < i + n then
        (out[k]?).map (fun x => x ^^^ (b.getD k 0 ^^^ aRand.getD (k &&& 255) 0))
      else out[k]? := by
  induction n generalizing i out with
  | zero =>
    have : ¬ (i ≤ k ∧ k < i) := by omega
    simp [xorPage1Rand, this]
  | succ n ih =>
    simp only [xorPage1Rand]
    rw [ih, List.getElem?_set]
    by_cases h1 : i = k
    · subst h1
      have : ¬ (i + 1 ≤ i ∧ i < i + 1 + n) := by omega
      simp only [this, if_false, if_true]
      have : i ≤ i ∧ i < i + (n + 1) := by omega
      simp only [this, and_self, if_true]
      by_cases h2 : i < out.length
      · simp [h2, List.getD_eq_getElem?_getD, List.getElem?_eq_getElem h2]
      · simp [h2, List.getElem?_eq_none (Nat.le_of_not_lt h2)]
    · simp only [h1, if_false]
      by_cases h3 : i + 1 ≤ k ∧ k < i + 1 + n
      · have : i ≤ k ∧ k < i + (n + 1) := by omega
        simp [h3, this]
      · have : ¬ (i ≤ k ∧ k < i + (n + 1)) := by omega
        simp [h3, this]

/-- The XOR codec, once keyed and with its output buffer at hand, runs the
transformation. -/
theorem sqliteCodecXor_eq_crypt (h : Host) (c : CodecXor) (beyond B : List Nat) (pgno op : Nat)
    (hop : op ≠ 0) (hkey : (c.key (op &&& 1)).nullKey = 0) (hs : xorScratchReady h c) :
    ∃ outbuf, c.pageSize ≤ outbuf.length ∧
      sqliteCodecXor h c beyond B pgno op =
        xorCrypt { c with nullKey := 0, outbuf := some outbuf } outbuf beyond B pgno op := by
  unfold xorScratchReady at hs
  unfold sqliteCodecXor
  cases hm : c.outbuf with
  | some o =>
    rw [hm] at hs
    refine ⟨o, hs, ?_⟩
    simp only [xorKeyed, hop, if_false]
    rw [if_neg (by simpa using hkey)]
    congr 1
    cases c; simp_all
  | none =>
    rw [hm] at hs
    obtain ⟨hmf, hal⟩ := hs
    obtain ⟨g, hg⟩ := Option.isSome_iff_exists.mp hal
    have hblk : h.malloc c.pageSize = some ((List.range c.pageSize).map g) := by
      simp [Host.malloc, hg]
    refine ⟨(List.range c.pageSize).map g, by simp, ?_⟩
    simp only [hmf, ne_eq, not_true_eq_false, if_false, hblk]
    simp only [xorKeyed, hop, if_false]
    rw [if_neg (by simpa [CodecXor.key] using hkey)]

/-- The transformation of the XOR codec is the XOR stage the other codecs
run, followed by its own loop over bytes 16..23 of page 1. -/
theorem xorCrypt_eq_xorPage (c : CodecXor) (outbuf beyond B : List Nat) (pgno op : Nat) :
    xorCrypt c outbuf beyond B pgno op =
      (let b := (c.key (op &&& 1)).repeat_ ++ beyond
       let out2 := xorPage c.usable c.pageSize 0 (decide (op &&& 4 ≠ 0)) outbuf B b
       let out3 := if pgno = 1 then xorPage1Rand b 8 16 out2 else out2
       if op &&& 4 ≠ 0 then ⟨{ c with outbuf := some out3 }, B, Ret.outbuf⟩
       else ⟨c, out3, Ret.pageData⟩) := by
  unfold xorCrypt xorPage
  by_cases h4 : op &&& 4 ≠ 0
  · simp [h4]
  · simp [h4]

theorem and_255 (k : Nat) (hk : k < 256) : k &&& 255 = k := by
  have := Nat.and_pow_two_sub_one_eq_mod k 8
  simp only [Nat.reducePow, Nat.add_one_sub_one] at this
  rw [show (255 : Nat) = 256 - 1 from rfl, this]
  exact Nat.mod_eq_of_lt hk

theorem xor_cancel_mid (a b r : Nat) : (a ^^^ b) ^^^ (b ^^^ r) = a ^^^ r := by
  rw [Nat.xor_assoc, ← Nat.xor_assoc b b r, Nat.xor_self, Nat.zero_xor]

/-- What an encode of the XOR codec returns: the page lies in `outbuf`, the
caller's page is not written; a payload byte `k` is the page byte XORed with
byte `k` of the memory that starts at the key array, except bytes 16..23 of
page 1, which are the page bytes XORed with `aRand[k]`; the trailer is the one
of the page. -/
theorem xor_encode (h : Host) (c : CodecXor) (beyond B : List Nat) (pgno op : Nat)
    (hop : op = 6 ∨ op = 7) (hkey : (c.key (op &&& 1)).nullKey = 0)
    (hbey : c.usable ≤ ((c.key (op &&& 1)).repeat_ ++ beyond).length)
    (hUP : c.usable ≤ c.pageSize) (hU : 24 ≤ c.usable) (hB : B.length = c.pageSize)
    (hs : xorScratchReady h c) :
    ∃ E, pageXor (sqliteCodecXor h c beyond B pgno op) = some E ∧ E.length = c.pageSize ∧
      (sqliteCodecXor h c beyond B pgno op).pageData = B ∧
      (sqliteCodecXor h c beyond B pgno op).ret = Ret.outbuf ∧
      (∀ k, k < c.usable → E.getD k 0 =
        if pgno = 1 ∧ 16 ≤ k ∧ k < 24 then B.getD k 0 ^^^ aRand.getD k 0
        else B.getD k 0 ^^^ ((c.key (op &&& 1)).repeat_ ++ beyond).getD k 0) ∧
      (∀ k, c.usable ≤ k → k < c.pageSize → E.getD k 0 = B.getD k 0) := by
  have hop0 : op ≠ 0 := by rcases hop with rfl | rfl <;> decide
  have hop4 : op &&& 4 ≠ 0 := by rcases hop with rfl | rfl <;> decide
  obtain ⟨o, hol, heq⟩ := sqliteCodecXor_eq_crypt h c beyond B pgno op hop0 hkey hs
  rw [heq, xorCrypt_eq_xorPage]
  simp only [hop4, ne_eq, not_false_eq_true, if_true, decide_True, pageXor, Option.map_some']
  have hkk : ({ c with nullKey := 0, outbuf := some o } : CodecXor).key (op &&& 1) =
      c.key (op &&& 1) := by
    unfold CodecXor.key; split_ifs <;> rfl
  rw [hkk]
  generalize hb : (c.key (op &&& 1)).repeat_ ++ beyond = b at hbey ⊢
  have hcore := fun k hk => getElem?_xorPage_core c.usable c.pageSize true o B b k hUP hB hbey hol hk
  have hlen2 := length_xorPage c.usable c.pageSize 0 true o B b hUP hB hbey hol
  have hlen3 : c.pageSize ≤
      (if pgno = 1 then xorPage1Rand b 8 16 (xorPage c.usable c.pageSize 0 true o B b)
        else xorPage c.usable c.pageSize 0 true o B b).length := by
    split_ifs
    · rw [length_xorPage1Rand]; exact hlen2
    · exact hlen2
  have hget : ∀ k, k < c.pageSize →
      ((if pgno = 1 then xorPage1Rand b 8 16 (xorPage c.usable c.pageSize 0 true o B b)
        else xorPage c.usable c.pageSize 0 true o B b).take c.pageSize).getD k 0 =
      if k < c.usable then
        (if pgno = 1 ∧ 16 ≤ k ∧ k < 24 then B.getD k 0 ^^^ aRand.getD k 0
          else B.getD k 0 ^^^ b.getD k 0)
      else B.getD k 0 := by
    intro k hk
    rw [getD_take _ _ _ hk]
    apply getD_of_getElem?
    by_cases hp : pgno = 1
    · simp only [hp, if_true, true_and]
      rw [getElem?_xorPage1Rand, hcore k hk]
      by_cases hr : 16 ≤ k ∧ k < 16 + 8
      · have h1 : 16 ≤ k ∧ k < 24 := by omega
        have h2 : k < c.usable := by omega
        simp only [hr, and_self, if_true, h1, h2, Option.map_some', and_255 k (by omega),
          xor_cancel_mid]
      · have h1 : ¬ (16 ≤ k ∧ k < 24) := by omega
        simp only [hr, h1, if_false]
        by_cases h2 : k < c.usable <;> simp [h2]
    · simp only [hp, if_false, false_and]
      rw [hcore k hk]
      by_cases h2 : k < c.usable <;> simp [h2]
  refine ⟨_, rfl, by rw [List.length_take]; omega, trivial, trivial, ?_, ?_⟩
  · intro k hk
    rw [hget k (by omega), if_pos hk]
  · intro k hk1 hk2
    rw [hget k hk2, if_neg (by omega)]

theorem xor_ne_self (x r : Nat) (hr : r ≠ 0) : x ^^^ r ≠ x := by
  intro h
  apply hr
  have h1 : x ^^^ (x ^^^ r) = x ^^^ x := by rw [h]
  rw [← Nat.xor_assoc, Nat.xor_self, Nat.zero_xor] at h1
  exact h1

theorem aRand_page1 (k : Nat) (h1 : 16 ≤ k) (h2 : k < 24) : aRand.getD k 0 ≠ 0 := by
  interval_cases k <;> decide

/-- C23. The XOR backend on page 1.  For every non-null key and every page, the
page an encode returns does not have the plaintext in bytes 16..23: each of
these bytes is the plaintext byte XORed with `aRand[k]` (252, 122, 102, 34,
206, 31, 170, 171 for `k` = 16..23, none of them zero), so it differs from the
plaintext byte.  The loop is `out[i] ^= b[i] ^ aRand[(i&0xff)]` under the
comment "Do not encrypt bytes 16-23 of page 1"; the other three backends run
`out[i] ^= b[i]` there. -/
theorem C23_xor_page1_masked_by_aRand (h : Host) (c : CodecXor) (beyond B : List Nat)
    (op : Nat) (hop : op = 6 ∨ op = 7) (hkey : (c.key (op &&& 1)).nullKey = 0)
    (hbey : c.usable ≤ ((c.key (op &&& 1)).repeat_ ++ beyond).length)
    (hUP : c.usable ≤ c.pageSize) (hU : 24 ≤ c.usable) (hB : B.length = c.pageSize)
    (hs : xorScratchReady h c) :
    ∃ E, pageXor (sqliteCodecXor h c beyond B 1 op) = some E ∧ E.length = c.pageSize ∧
      ∀ k, 16 ≤ k → k < 24 →
        E.getD k 0 = B.getD k 0 ^^^ aRand.getD k 0 ∧ E.getD k 0 ≠ B.getD k 0 := by
  obtain ⟨E, hE, hl, _, _, hpay, _⟩ := xor_encode h c beyond B 1 op hop hkey hbey hUP hU hB hs
  refine ⟨E, hE, hl, ?_⟩
  intro k h1 h2
  have hk := hpay k (by omega)
  rw [if_pos ⟨rfl, h1, h2⟩] at hk
  exact ⟨hk, by rw [hk]; exact xor_ne_self _ _ (aRand_page1 k h1 h2)⟩

set_option maxRecDepth 100000 in
/-- Witness of C23: page 1 of 512 zero bytes under the key of bytes 5; byte 16
of the page returned is 252, not 0. -/
theorem C23_xor_page1_masked_by_aRand_witness :
    ((6 : Nat) = 6 ∨ (6 : Nat) = 7) ∧ ((xorFresh 512).key (6 &&& 1)).nullKey = 0 ∧
    (xorFresh 512).usable ≤
      (((xorFresh 512).key (6 &&& 1)).repeat_ ++
        (xorFresh 512).beyondKey0 (List.replicate 446 0)).length ∧
    (xorFresh 512).usable ≤ (xorFresh 512).pageSize ∧ 24 ≤ (xorFresh 512).usable ∧
    (List.replicate 512 0).length = (xorFresh 512).pageSize ∧
    xorScratchReady hostOnes (xorFresh 512) ∧
    ∃ E, pageXor (sqliteCodecXor hostOnes (xorFresh 512)
        ((xorFresh 512).beyondKey0 (List.replicate 446 0)) (List.replicate 512 0) 1 6) = some E ∧
      E.getD 16 0 = 252 ∧ (List.replicate 512 0).getD 16 0 = 0 :=
  ⟨Or.inl rfl, rfl, by decide, by decide, by decide, List.length_replicate 512 0, ⟨rfl, rfl⟩,
    (C23_xor_page1_masked_by_aRand hostOnes (xorFresh 512)
      ((xorFresh 512).beyondKey0 (List.replicate 446 0)) (List.replicate 512 0) 6 (Or.inl rfl) rfl
      (by decide) (by decide) (by decide) (List.length_replicate 512 0) ⟨rfl, rfl⟩).elim
      (fun E hE => ⟨E, hE.1, (hE.2.2 16 (by decide) (by decide)).1.trans (by decide),
        by decide⟩)⟩

/-- C24. The XOR backend away from page 1.  For every non-null key, the byte an
encode combines with page byte `k` is key byte `k` only for `k < 32`: from
offset 32 on it is byte `k - 32` of the memory that lies behind the 32-byte
key array (`xorBuffers` is given the array and the length `usable`), not key
byte `k mod 32`. -/
theorem C24_xor_keystream_reads_past_key (h : Host) (c : CodecXor) (beyond B : List Nat)
    (pgno op : Nat) (hop : op = 6 ∨ op = 7) (hpg : pgno ≠ 1)
    (hkey : (c.key (op &&& 1)).nullKey = 0) (hrep : (c.key (op &&& 1)).repeat_.length = 32)
    (hbey : c.usable ≤ 32 + beyond.length)
    (hUP : c.usable ≤ c.pageSize) (hU : 24 ≤ c.usable) (hB : B.length = c.pageSize)
    (hs : xorScratchReady h c) :
    ∃ E, pageXor (sqliteCodecXor h c beyond B pgno op) = some E ∧ E.length = c.pageSize ∧
      ∀ k, k < c.usable → E.getD k 0 = B.getD k 0 ^^^
        (if k < 32 then (c.key (op &&& 1)).repeat_.getD k 0 else beyond.getD (k - 32) 0) := by
  obtain ⟨E, hE, hl, _, _, hpay, _⟩ := xor_encode h c beyond B pgno op hop hkey
    (by rw [List.length_append, hrep]; exact hbey) hUP hU hB hs
  refine ⟨E, hE, hl, ?_⟩
  intro k hk
  rw [hpay k hk, if_neg (fun hc => hpg hc.1)]
  by_cases h32 : k < 32
  · rw [if_pos h32, getD_append_left _ _ _ (by omega)]
  · rw [if_neg h32, getD_append_right _ _ _ (by omega), hrep]

set_option maxRecDepth 100000 in
/-- Witness of C24: page 2 of 512 zero bytes, both slots keyed with bytes 5.
Byte 33 of the page returned is 0, the flag `key[1].nullKey` that lies one
byte behind the key array, where the key repeated has 5. -/
theorem C24_xor_keystream_reads_past_key_witness :
    ((6 : Nat) = 6 ∨ (6 : Nat) = 7) ∧ (2 : Nat) ≠ 1 ∧
    ((xorFresh 512).key (6 &&& 1)).nullKey = 0 ∧
    ((xorFresh 512).key (6 &&& 1)).repeat_.length = 32 ∧
    (xorFresh 512).usable ≤ 32 + ((xorFresh 512).beyondKey0 (List.replicate 446 0)).length ∧
    (xorFresh 512).usable ≤ (xorFresh 512).pageSize ∧ 24 ≤ (xorFresh 512).usable ∧
    (List.replicate 512 0).length = (xorFresh 512).pageSize ∧
    xorScratchReady hostOnes (xorFresh 512) ∧
    ∃ E, pageXor (sqliteCodecXor hostOnes (xorFresh 512)
        ((xorFresh 512).beyondKey0 (List.replicate 446 0)) (List.replicate 512 0) 2 6) = some E ∧
      E.getD 33 0 = 0 ∧ ((xorFresh 512).key (6 &&& 1)).repeat_.getD (33 % 32) 0 = 5 :=
  ⟨Or.inl rfl, by decide, rfl, rfl, by decide, by decide, by decide,
    List.length_replicate 512 0, ⟨rfl, rfl⟩,
    (C24_xor_keystream_reads_past_key hostOnes (xorFresh 512)
      ((xorFresh 512).beyondKey0 (List.replicate 446 0)) (List.replicate 512 0) 2 6 (Or.inl rfl)
      (by decide) rfl rfl (by decide) (by decide) (by decide) (List.length_replicate 512 0)
      ⟨rfl, rfl⟩).elim
      (fun E hE => ⟨E, hE.1, (hE.2.2 33 (by decide)).trans (by decide), by decide⟩)⟩

/-! ## The RC4 mask -/

theorem succ_mod_step (i m : Nat) (hm : 0 < m) :
    (i + 1) % m = if m ≤ i % m + 1 then 0 else i % m + 1 := by
  have hlt := Nat.mod_lt i hm
  have hdm := Nat.div_add_mod i m
  by_cases h : m ≤ i % m + 1
  · rw [if_pos h]
    have e : i + 1 = m * (i / m + 1) := by
      rw [Nat.mul_add, Nat.mul_one]
      omega
    rw [e, Nat.mul_mod_right]
  · rw [if_neg h]
    have e : i + 1 = m * (i / m) + (i % m + 1) := by omega
    rw [e, Nat.mul_add_mod, Nat.mod_eq_of_lt (by omega)]

/-- The key preparation loop stores `x[i] = kx[i] ^ nonce[i mod (nonceSize+4)]`. -/
theorem rc4KeyPrep_spec (kx nonce : List Nat) (ns : Nat) :
    ∀ n i j, i + n ≤ 256 → j = i % (ns + 4) →
      rc4KeyPrep kx nonce ns n i j =
        (List.range' i n).map (fun t => kx.getD t 0 ^^^ nonce.getD (t % (ns + 4)) 0) := by
  intro n
  induction n with
  | zero => intro i j _ _; rfl
  | succ n ih =>
    intro i j hi hj
    simp only [rc4KeyPrep, List.range'_succ, List.map_cons]
    rw [hj]
    congr 1
    cases n with
    | zero => rfl
    | succ n =>
      have hi1 : (i + 1) % 256 = i + 1 := Nat.mod_eq_of_lt (by omega)
      have hjl : i % (ns + 4) ≤ i := Nat.mod_le _ _
      have hj1 : (i % (ns + 4) + 1) % 256 = i % (ns + 4) + 1 := Nat.mod_eq_of_lt (by omega)
      rw [hi1, hj1]
      exact ih (i + 1) _ (by omega) (succ_mod_step i (ns + 4) (by omega)).symm

theorem rc4KeyPrep_eq (kx nonce : List Nat) (ns : Nat) :
    rc4KeyPrep kx nonce ns 256 0 0 = rc4SpecKey kx nonce ns := by
  rw [rc4KeyPrep_spec kx nonce ns 256 0 0 (by omega) (by simp)]
  unfold rc4SpecKey
  rw [List.range_eq_range']

theorem length_rc4SpecSchedule (x : List Nat) :
    ∀ n i j s, (rc4SpecSchedule x n i j s).1.length = s.length := by
  intro n
  induction n with
  | zero => intro i j s; rfl
  | succ n ih =>
    intro i j s
    simp only [rc4SpecSchedule]
    rw [ih, List.length_set, List.length_set]

/-- Exchanging two elements of a list, in either order of the two stores. -/
theorem swap_set (s : List Nat) (i j : Nat) :
    (s.set j (s.getD i 0)).set i (s.getD j 0) = (s.set i (s.getD j 0)).set j (s.getD i 0) := by
  by_cases h : i = j
  · subst h; rfl
  · exact List.set_comm _ _ _ (fun e => h e.symm)

/-- The key-schedule loop of the codec, while its index does not wrap, is the
key schedule of RC4. -/
theorem rc4Init_spec (x : List Nat) :
    ∀ n i j s, i < 256 → i + n ≤ 256 →
      rc4Init x n ⟨s, i, j⟩ =
        ⟨(rc4SpecSchedule x n i j s).1, (i + n) % 256, (rc4SpecSchedule x n i j s).2⟩ := by
  intro n
  induction n with
  | zero =>
    intro i j s hi _
    simp only [rc4Init, rc4SpecSchedule, Nat.add_zero]
    rw [Nat.mod_eq_of_lt hi]
  | succ n ih =>
    intro i j s hi hin
    simp only [rc4Init]
    rw [swap_set, ih _ _ _ (Nat.mod_lt _ (by decide)) (by omega)]
    cases n with
    | zero =>
      simp only [rc4SpecSchedule, Nat.add_zero]
      congr 1
      omega
    | succ n =>
      have hi1 : (i + 1) % 256 = i + 1 := Nat.mod_eq_of_lt (by omega)
      rw [hi1]
      simp only [rc4SpecSchedule]
      congr 1
      omega

theorem rc4Init_add (x : List Nat) :
    ∀ a b st, rc4Init x (a + b) st = rc4Init x b (rc4Init x a st) := by
  intro a
  induction a with
  | zero => intro b st; simp [rc4Init]
  | succ a ih =>
    intro b st
    rw [Nat.add_right_comm]
    simp only [rc4Init]
    exact ih b _

/-- The output loop of the codec is the output generation of RC4. -/
theorem rc4Generate_spec :
    ∀ n i j s, s.length = 256 → rc4Generate n ⟨s, i, j⟩ = rc4SpecOutput n i j s := by
  intro n
  induction n with
  | zero => intro i j s _; rfl
  | succ n ih =>
    intro i j s hs
    simp only [rc4Generate, rc4SpecOutput]
    have hj : (j + s.getD ((i + 1) % 256) 0) % 256 < 256 := Nat.mod_lt _ (by decide)
    have hget :
        ((s.set ((i + 1) % 256) (s.getD ((j + s.getD ((i + 1) % 256) 0) % 256) 0)).set
          ((j + s.getD ((i + 1) % 256) 0) % 256) (s.getD ((i + 1) % 256) 0)).getD
            ((j + s.getD ((i + 1) % 256) 0) % 256) 0 = s.getD ((i + 1) % 256) 0 := by
      rw [List.getD_eq_getElem?_getD, List.getElem?_set_self (by rw [List.length_set]; omega)]
      rfl
    rw [ih _ _ _ (by rw [List.length_set, List.length_set]; exact hs)]
    congr 2
    rw [hget, Nat.add_comm]

/-- The mask of the codec in terms of the RC4 key schedule and output
generation: two passes of the key schedule, then the output from `i = 0`. -/
theorem rc4Mask_eq_spec (kx nonce : List Nat) (nonceSize usable : Nat) :
    rc4Mask kx nonce nonceSize usable =
      rc4SpecOutput usable 0
        (rc4SpecSchedule (rc4SpecKey kx nonce nonceSize) 256 0
          (rc4SpecSchedule (rc4SpecKey kx nonce nonceSize) 256 0 0 (List.range 256)).2
          (rc4SpecSchedule (rc4SpecKey kx nonce nonceSize) 256 0 0 (List.range 256)).1).2
        (rc4SpecSchedule (rc4SpecKey kx nonce nonceSize) 256 0
          (rc4SpecSchedule (rc4SpecKey kx nonce nonceSize) 256 0 0 (List.range 256)).2
          (rc4SpecSchedule (rc4SpecKey kx nonce nonceSize) 256 0 0 (List.range 256)).1).1 := by
  unfold rc4Mask
  simp only []
  rw [rc4KeyPrep_eq, show (512 : Nat) = 256 + 256 from rfl, rc4Init_add,
    rc4Init_spec _ 256 0 0 _ (by decide) (by decide),
    rc4Init_spec _ 256 _ _ _ (by decide) (by decide)]
  exact rc4Generate_spec usable _ _ _
    (by rw [length_rc4SpecSchedule, length_rc4SpecSchedule, List.length_range])

/-- C25 as amended.  The mask the RC4 backend computes (op bit 1 set) has
exactly `usable` bytes.  It is not the standard keystream with 512 bytes
dropped: the key schedule is run twice over the 256-byte key
`x[i] = key[i] XOR nonce[i mod (nonceSize + 4)]` (512 steps, the index `j` of
the first pass carried into the second), and the mask is the output generated
from there on, from `i = 0` and the `j` the key schedule ended with, no output
byte being discarded. -/
theorem C25_rc4_mask_amended (kx nonce : List Nat) (nonceSize usable : Nat) :
    (rc4Mask kx nonce nonceSize usable).length = usable ∧
    rc4Mask kx nonce nonceSize usable =
      rc4SpecOutput usable 0
        (rc4SpecSchedule (rc4SpecKey kx nonce nonceSize) 256 0
          (rc4SpecSchedule (rc4SpecKey kx nonce nonceSize) 256 0 0 (List.range 256)).2
          (rc4SpecSchedule (rc4SpecKey kx nonce nonceSize) 256 0 0 (List.range 256)).1).2
        (rc4SpecSchedule (rc4SpecKey kx nonce nonceSize) 256 0
          (rc4SpecSchedule (rc4SpecKey kx nonce nonceSize) 256 0 0 (List.range 256)).2
          (rc4SpecSchedule (rc4SpecKey kx nonce nonceSize) 256 0 0 (List.range 256)).1).1 := by
  exact ⟨length_rc4Mask kx nonce nonceSize usable, rc4Mask_eq_spec kx nonce nonceSize usable⟩


/-! ## Evaluation of the RC4 counterexample -/

theorem rc4SpecSchedule_add (x : List Nat) :
    ∀ a b i j s, rc4SpecSchedule x (a + b) i j s =
      rc4SpecSchedule x b (i + a) (rc4SpecSchedule x a i j s).2 (rc4SpecSchedule x a i j s).1 := by
  intro a
  induction a with
  | zero => intro b i j s; simp [rc4SpecSchedule]
  | succ a ih =>
    intro b i j s
    rw [Nat.add_right_comm]
    simp only [rc4SpecSchedule]
    rw [ih, Nat.add_assoc, Nat.add_comm 1 a]

theorem rc4SpecAdvance_add :
    ∀ a b i j s, rc4SpecAdvance (a + b) i j s =
      rc4SpecAdvance b (rc4SpecAdvance a i j s).1 (rc4SpecAdvance a i j s).2.1
        (rc4SpecAdvance a i j s).2.2 := by
  intro a
  induction a with
  | zero => intro b i j s; simp [rc4SpecAdvance]
  | succ a ih =>
    intro b i j s
    rw [Nat.add_right_comm]
    simp only [rc4SpecAdvance]
    rw [ih]

theorem rc4SpecOutput_drop :
    ∀ a b i j s, (rc4SpecOutput (a + b) i j s).drop a =
      rc4SpecOutput b (rc4SpecAdvance a i j s).1 (rc4SpecAdvance a i j s).2.1
        (rc4SpecAdvance a i j s).2.2 := by
  intro a
  induction a with
  | zero => intro b i j s; simp [rc4SpecAdvance]
  | succ a ih =>
    intro b i j s
    rw [Nat.add_right_comm]
    simp only [rc4SpecOutput, rc4SpecAdvance, List.drop_succ_cons]
    rw [ih]

set_option maxRecDepth 100000 in
theorem rc4Cex_key :
    rc4SpecKey rc4KeyKey.repeat_ (littleEndian32 2 ++ List.replicate 256 0) 0 = rc4CexKey := by
  decide!

set_option maxRecDepth 100000 in
theorem rc4Cex_sched1 :
    rc4SpecSchedule rc4CexKey 128 0 0 (List.range 256) = (rc4CexSched1, 196) := by
  decide!

set_option maxRecDepth 100000 in
theorem rc4Cex_sched2 :
    rc4SpecSchedule rc4CexKey 128 128 196 rc4CexSched1 = (rc4CexSched2, 173) := by
  decide!

set_option maxRecDepth 100000 in
theorem rc4Cex_sched3 :
    rc4SpecSchedule rc4CexKey 128 0 173 rc4CexSched2 = (rc4CexSched3, 113) := by
  decide!

set_option maxRecDepth 100000 in
theorem rc4Cex_sched4 :
    rc4SpecSchedule rc4CexKey 128 128 113 rc4CexSched3 = (rc4CexSched4, 124) := by
  decide!

set_option maxRecDepth 100000 in
theorem rc4Cex_out1 :
    rc4SpecAdvance 128 0 0 rc4CexSched2 = (128, 159, rc4CexOut1) := by
  decide!

set_option maxRecDepth 100000 in
theorem rc4Cex_out2 :
    rc4SpecAdvance 128 128 159 rc4CexOut1 = (0, 179, rc4CexOut2) := by
  decide!

set_option maxRecDepth 100000 in
theorem rc4Cex_out3 :
    rc4SpecAdvance 128 0 179 rc4CexOut2 = (128, 103, rc4CexOut3) := by
  decide!

set_option maxRecDepth 100000 in
theorem rc4Cex_out4 :
    rc4SpecAdvance 128 128 103 rc4CexOut3 = (0, 136, rc4CexOut4) := by
  decide!

set_option maxRecDepth 100000 in
theorem rc4Cex_standard :
    rc4SpecOutput 1 0 136 rc4CexOut4 = [125] := by
  decide!

set_option maxRecDepth 100000 in
theorem rc4Cex_codec :
    rc4SpecOutput 1 0 124 rc4CexSched4 = [252] := by
  decide!


/-- The two key-schedule passes of the codec over `rc4CexKey`. -/
theorem rc4Cex_pass1 :
    rc4SpecSchedule rc4CexKey 256 0 0 (List.range 256) = (rc4CexSched2, 173) := by
  rw [show (256 : Nat) = 128 + 128 from rfl, rc4SpecSchedule_add, rc4Cex_sched1]
  exact rc4Cex_sched2

theorem rc4Cex_pass2 :
    rc4SpecSchedule rc4CexKey 256 0 173 rc4CexSched2 = (rc4CexSched4, 124) := by
  rw [show (256 : Nat) = 128 + 128 from rfl, rc4SpecSchedule_add, rc4Cex_sched3]
  exact rc4Cex_sched4

/-- The state of standard RC4 over `rc4CexKey` after 512 output bytes. -/
theorem rc4Cex_advance :
    rc4SpecAdvance 512 0 0 rc4CexSched2 = (0, 136, rc4CexOut4) := by
  rw [show (512 : Nat) = 128 + (128 + (128 + 128)) from rfl, rc4SpecAdvance_add, rc4Cex_out1,
    rc4SpecAdvance_add, rc4Cex_out2, rc4SpecAdvance_add, rc4Cex_out3]
  exact rc4Cex_out4

/-- Counterexample to C25.  Key "Key", page 2, no reserved bytes: the first
byte of the mask the backend computes is 252; byte 512 of the standard RC4
keystream for the same 256-byte key (one key schedule, output from
`i = j = 0`, 512 bytes dropped) is 125. -/
theorem C25_rc4_mask_counterexample :
    rc4Mask rc4KeyKey.repeat_ (littleEndian32 2 ++ List.replicate 256 0) 0 1 = [252] ∧
    (rc4SpecKeystream (rc4SpecKey rc4KeyKey.repeat_ (littleEndian32 2 ++ List.replicate 256 0) 0)
      513).drop 512 = [125] := by
  constructor
  · rw [rc4Mask_eq_spec, rc4Cex_key, rc4Cex_pass1]
    simp only []
    rw [rc4Cex_pass2]
    exact rc4Cex_codec
  · unfold rc4SpecKeystream
    rw [rc4Cex_key, rc4Cex_pass1, show (513 : Nat) = 512 + 1 from rfl, rc4SpecOutput_drop,
      rc4Cex_advance]
    exact rc4Cex_standard

/-! ## The page number in the nonce -/

/-- A `memcpy` to an offset of at least `n` leaves the first `n` bytes. -/
theorem take_writeAt (buf src : List Nat) (off n : Nat) (hn : n ≤ off) (hb : n ≤ buf.length) :
    (writeAt buf off src).take n = buf.take n := by
  unfold writeAt
  rw [List.append_assoc, List.take_append_of_le_length (by rw [List.length_take]; omega),
    List.take_take, Nat.min_eq_left hn]

/-- The four bytes stored for the page number are its little-endian encoding,
on a little-endian machine and, after the byte swap, on a big-endian one. -/
theorem pgnoNonce_littleEndian (b : Bool) (pgno : Nat) : pgnoNonce b pgno = littleEndian32 pgno := by
  cases b <;> rfl

/-- Without reserved bytes the RC4 nonce is the page number followed by
zeros. -/
theorem rc4Nonce_zero (h : Host) (c : CodecRc4) (z : List Nat) (pgno op : Nat)
    (hns : c.nonceSize = 0) :
    rc4Nonce h c z pgno op = littleEndian32 pgno ++ List.replicate 256 0 := by
  unfold rc4Nonce
  rw [if_neg (by omega), pgnoNonce_littleEndian]

/-- C26. The page number in the nonce.  In the RC4 and the CommonCrypto
backend the first four bytes of the nonce are the little-endian encoding of
the page number, whether the machine is little-endian or big-endian (where the
bytes are swapped); with no reserved bytes the rest of the RC4 nonce is zero,
and the page an RC4 encode returns is the same for every host (random source,
byte order, allocator content) and every codec state with the same key in the
selected slot and the same page geometry: its payload is the page XORed with
the mask made from the key and the page number alone, bytes 16..23 of page 1
excepted. -/
theorem C26_page_number_nonce (h : Host) (pgno : Nat) :
    pgnoNonce h.bigEndian pgno = littleEndian32 pgno ∧
    (∀ (c : CodecRc4) (z : List Nat) (op : Nat),
      (rc4Nonce h c z pgno op).take 4 = littleEndian32 pgno) ∧
    (∀ (c : CodecCCCrypto) (z : List Nat) (op : Nat), c.nonceZero ≤ 12 →
      (cccryptNonce h c z pgno op).take 4 = littleEndian32 pgno) ∧
    (∀ (c : CodecRc4) (z : List Nat) (op : Nat), c.nonceSize = 0 →
      (rc4Nonce h c z pgno op).drop 4 = List.replicate 256 0) ∧
    (∀ (h2 : Host) (c c2 : CodecRc4) (B : List Nat) (op : Nat), op = 6 ∨ op = 7 →
      (c.key (op &&& 1)).nullKey = 0 → c.nonceSize = 0 → c.usable = c.pageSize →
      24 ≤ c.usable → B.length = c.pageSize → rc4ScratchReady h c →
      c2.key (op &&& 1) = c.key (op &&& 1) → c2.nonceSize = 0 → c2.pageSize = c.pageSize →
      c2.usable = c.usable → rc4ScratchReady h2 c2 →
      ∃ E, pageRc4 (sqliteCodecRc4 h c B pgno op) = some E ∧
        pageRc4 (sqliteCodecRc4 h2 c2 B pgno op) = some E ∧ E.length = c.pageSize ∧
        ∀ k, k < c.usable → E.getD k 0 =
          if pgno = 1 ∧ 16 ≤ k ∧ k < 24 then B.getD k 0
          else B.getD k 0 ^^^
            (rc4Mask (c.key (op &&& 1)).repeat_ (littleEndian32 pgno ++ List.replicate 256 0)
              0 c.usable).getD k 0) := by
  refine ⟨pgnoNonce_littleEndian _ _, ?_, ?_, ?_, ?_⟩
  · intro c z op
    unfold rc4Nonce
    split_ifs <;>
    · rw [pgnoNonce_littleEndian]
      rfl
  · intro c z op hz
    have hst : ((List.range 16).map h.stackByte).length = 16 := by simp
    have hl0 : (writeAt ((List.range 16).map h.stackByte) 0 (pgnoNonce h.bigEndian pgno)).length
        = 16 := by
      rw [length_writeAt _ _ _ (by rw [hst, pgnoNonce_littleEndian]; show 0 + 4 ≤ 16; omega), hst]
    have ht0 : (writeAt ((List.range 16).map h.stackByte) 0 (pgnoNonce h.bigEndian pgno)).take 4
        = littleEndian32 pgno := by
      rw [pgnoNonce_littleEndian]
      rfl
    have key : ∀ n1 : List Nat, 16 ≤ n1.length → n1.take 4 = littleEndian32 pgno →
        (if 0 < c.nonceZero then
          writeAt n1 (16 - c.nonceZero.toNat) (List.replicate c.nonceZero.toNat 0)
        else n1).take 4 = littleEndian32 pgno := by
      intro n1 hl ht
      split_ifs
      · rw [take_writeAt _ _ _ _ (by omega) (by omega), ht]
      · exact ht
    unfold cccryptNonce
    apply key
    · split_ifs
      · exact Nat.le_trans (Nat.le_of_eq hl0.symm) (length_writeAt_ge _ _ _)
      · exact Nat.le_trans (Nat.le_of_eq hl0.symm) (length_writeAt_ge _ _ _)
      · exact Nat.le_of_eq hl0.symm
    · split_ifs
      · rw [take_writeAt _ _ _ _ (Nat.le_refl 4) (by omega), ht0]
      · rw [take_writeAt _ _ _ _ (Nat.le_refl 4) (by omega), ht0]
      · exact ht0
  · intro c z op hns
    rw [rc4Nonce_zero h c z pgno op hns]
    rfl
  · intro h2 c c2 B op hop hkey hns hUP hU hB hs hk2 hns2 hP2 hU2 hs2
    have hop0 : op ≠ 0 := by rcases hop with rfl | rfl <;> decide
    obtain ⟨m1, o1, hm1, ho1, e1⟩ := sqliteCodecRc4_eq_crypt h c B pgno op hop0 hkey hs
    obtain ⟨m2, o2, hm2, ho2, e2⟩ := sqliteCodecRc4_eq_crypt h2 c2 B pgno op hop0
      (by rw [hk2]; exact hkey) hs2
    obtain ⟨E1, hE1, hl1, hp1, _⟩ := rc4Crypt_encode h
      { c with nullKey := 0, mask := some m1, outbuf := o1 } m1 B pgno op hop
      (by show c.usable + c.nonceSize = c.pageSize; omega) hU hB hm1 ho1
    obtain ⟨E2, hE2, hl2, hp2, _⟩ := rc4Crypt_encode h2
      { c2 with nullKey := 0, mask := some m2, outbuf := o2 } m2 B pgno op hop
      (by show c2.usable + c2.nonceSize = c2.pageSize; omega)
      (by show 24 ≤ c2.usable; omega) (by show B.length = c2.pageSize; omega) hm2 ho2
    have hn1 : rc4Nonce h { c with nullKey := 0, mask := some m1, outbuf := o1 } B pgno op
        = littleEndian32 pgno ++ List.replicate 256 0 := rc4Nonce_zero _ _ _ _ _ hns
    have hn2 : rc4Nonce h2 { c2 with nullKey := 0, mask := some m2, outbuf := o2 } B pgno op
        = littleEndian32 pgno ++ List.replicate 256 0 := rc4Nonce_zero _ _ _ _ _ hns2
    have hka : ({ c with nullKey := 0, mask := some m1, outbuf := o1 } : CodecRc4).key (op &&& 1)
        = c.key (op &&& 1) := by
      unfold CodecRc4.key; split_ifs <;> rfl
    have hkb : ({ c2 with nullKey := 0, mask := some m2, outbuf := o2 } : CodecRc4).key
        (op &&& 1) = c.key (op &&& 1) := by
      rw [← hk2]; unfold CodecRc4.key; split_ifs <;> rfl
    rw [hn1, hka] at hp1
    rw [hn2, hkb] at hp2
    have hp1' : ∀ k, k < c.usable → E1.getD k 0 =
        if pgno = 1 ∧ 16 ≤ k ∧ k < 24 then B.getD k 0
        else B.getD k 0 ^^^
          (rc4Mask (c.key (op &&& 1)).repeat_ (littleEndian32 pgno ++ List.replicate 256 0)
            0 c.usable).getD k 0 := by
      intro k hk
      have h' : E1.getD k 0 =
          if pgno = 1 ∧ 16 ≤ k ∧ k < 24 then B.getD k 0
          else B.getD k 0 ^^^
            (rc4Mask (c.key (op &&& 1)).repeat_ (littleEndian32 pgno ++ List.replicate 256 0)
              c.nonceSize c.usable).getD k 0 := hp1 k hk
      rw [hns] at h'
      exact h' 
    have hp2' : ∀ k, k < c.usable → E2.getD k 0 =
        if pgno = 1 ∧ 16 ≤ k ∧ k < 24 then B.getD k 0
        else B.getD k 0 ^^^
          (rc4Mask (c.key (op &&& 1)).repeat_ (littleEndian32 pgno ++ List.replicate 256 0)
            0 c.usable).getD k 0 := by
      intro k hk
      have h' : E2.getD k 0 =
          if pgno = 1 ∧ 16 ≤ k ∧ k < 24 then B.getD k 0
          else B.getD k 0 ^^^
            (rc4Mask (c.key (op &&& 1)).repeat_ (littleEndian32 pgno ++ List.replicate 256 0)
              c2.nonceSize c2.usable).getD k 0 := hp2 k (by show k < c2.usable; omega)
      rw [hns2, hU2] at h'
      exact h' 
    have hEE : E2 = E1 := by
      apply ext_of_getD
      · rw [hl1, hl2]; exact hP2
      · intro k hk
        have hk' : k < c.usable := by
          rw [hl2] at hk
          have : c2.pageSize = c.pageSize := hP2
          have : ({ c2 with nullKey := 0, mask := some m2, outbuf := o2 } : CodecRc4).pageSize
            = c2.pageSize := rfl
          omega
        rw [hp1' k hk', hp2' k hk']
    refine ⟨E1, by rw [e1]; exact hE1, by rw [e2, hE2, hEE], hl1, hp1'⟩


/-- Witness of C26: page 5 of 512 zero bytes, without reserved bytes, encoded
on a little-endian host and on a big-endian host with another random source
and other allocator content: the same page is returned. -/
theorem C26_page_number_nonce_witness :
    pgnoNonce hostBig.bigEndian 5 = littleEndian32 5 ∧
    ((6 : Nat) = 6 ∨ (6 : Nat) = 7) ∧ ((rc4Plain 512).key (6 &&& 1)).nullKey = 0 ∧
    (rc4Plain 512).nonceSize = 0 ∧ (rc4Plain 512).usable = (rc4Plain 512).pageSize ∧
    24 ≤ (rc4Plain 512).usable ∧ (List.replicate 512 0).length = (rc4Plain 512).pageSize ∧
    rc4ScratchReady hostOnes (rc4Plain 512) ∧ rc4ScratchReady hostBig (rc4Plain 512) ∧
    ∃ E, pageRc4 (sqliteCodecRc4 hostOnes (rc4Plain 512) (List.replicate 512 0) 5 6) = some E ∧
      pageRc4 (sqliteCodecRc4 hostBig (rc4Plain 512) (List.replicate 512 0) 5 6) = some E :=
  ⟨(C26_page_number_nonce hostBig 5).1, Or.inl rfl, rfl, rfl, rfl, by decide,
    List.length_replicate 512 0, ⟨rfl, rfl⟩, ⟨rfl, rfl⟩,
    ((C26_page_number_nonce hostOnes 5).2.2.2.2 hostBig (rc4Plain 512) (rc4Plain 512)
      (List.replicate 512 0) 6 (Or.inl rfl) rfl rfl rfl (by decide)
      (List.length_replicate 512 0) ⟨rfl, rfl⟩ rfl rfl rfl rfl ⟨rfl, rfl⟩).elim
      (fun E hE => ⟨E, hE.1, hE.2.1⟩)⟩

/-! ## The order of the page scan -/

theorem isQuiet_spec (e : Event) (h : e.isQuiet = true) :
    e.dirtied = none ∧ e ≠ Event.loadKey ∧
    ∀ i n, e ≠ Event.call (Call.sqlite3PagerPagecount i) n := by
  rcases e with ⟨c, x⟩ | _ | _ | _
  · cases c <;> simp [Event.isQuiet, Event.dirtied] at h ⊢
  · simp [Event.isQuiet] at h
  · simp [Event.dirtied]
  · simp [Event.dirtied]

theorem isClosing_quiet (e : Event) (h : e.isClosing = true) :
    e.isQuiet = true ∧ e.fetched = none := by
  rcases e with ⟨c, x⟩ | _ | _ | _
  · cases c <;> simp [Event.isClosing, Event.isQuiet, Event.fetched] at h ⊢
  · simp [Event.isClosing] at h
  · simp [Event.isQuiet, Event.fetched]
  · simp [Event.isQuiet, Event.fetched]

theorem scanStep_noPagecount (e : Event) (h : e.scanStep = true) :
    e ≠ Event.loadKey ∧ ∀ i n, e ≠ Event.call (Call.sqlite3PagerPagecount i) n := by
  rcases e with ⟨c, x⟩ | _ | _ | _
  · cases c <;> simp [Event.scanStep] at h ⊢
  · simp [Event.scanStep] at h
  · simp [Event.scanStep] at h
  · simp [Event.scanStep] at h

theorem filterMap_none {β : Type} (f : Event → Option β) (l : List Event)
    (h : ∀ e ∈ l, f e = none) : l.filterMap f = [] := by
  induction l with
  | nil => rfl
  | cons a l ih =>
    rw [List.filterMap_cons, h a (List.mem_cons_self _ _)]
    exact ih (fun e he => h e (List.mem_cons_of_mem _ he))

theorem dropWhile_loadKey (pre rest : List Event) (h : ∀ e ∈ pre, e ≠ Event.loadKey) :
    (pre ++ Event.loadKey :: rest).dropWhile (fun e => e ≠ Event.loadKey) =
      Event.loadKey :: rest := by
  induction pre with
  | nil => simp [List.dropWhile]
  | cons a pre ih =>
    have ha : a ≠ Event.loadKey := h a (List.mem_cons_self _ _)
    rw [List.cons_append, List.dropWhile_cons]
    simp only [ha, ne_eq, not_false_eq_true, decide_True, if_true]
    exact ih (fun e he => h e (List.mem_cons_of_mem _ he))

/-- The pages a scan without failure fetches and marks dirty. -/
theorem rekeyScan_order {K σ : Type} (S : Sqlite σ) (iDb skip : Nat) :
    ∀ (n i : Nat) (db : Conn K σ),
      ∃ t, (rekeyScan S iDb skip n i db).1.trace = db.trace ++ t ∧
        (∀ e ∈ t, e.scanStep = true) ∧
        ((∀ e ∈ t, e.failed S = false) →
          t.filterMap Event.dirtied = (List.range' i n).filter (fun p => p ≠ skip) ∧
          t.filterMap Event.fetched = (List.range' i n).filter (fun p => p ≠ skip)) := by
  intro n
  induction n with
  | zero =>
    intro i db
    exact ⟨[], by simp [rekeyScan], by simp, fun _ => ⟨rfl, rfl⟩⟩
  | succ n ih =>
    intro i db
    by_cases hskip : i = skip
    · have e1 : rekeyScan S iDb skip (n + 1) i db = rekeyScan S iDb skip n (i + 1) db := by
        simp [rekeyScan, hskip]
      rw [e1]
      obtain ⟨t, ht, hs, ho⟩ := ih (i + 1) db
      refine ⟨t, ht, hs, ?_⟩
      intro hg
      have hf : (List.range' i (n + 1)).filter (fun p => p ≠ skip) =
          (List.range' (i + 1) n).filter (fun p => p ≠ skip) := by
        rw [List.range'_succ, List.filter_cons]
        simp [hskip]
      rw [hf]
      exact ho hg
    · obtain ⟨g, hgd⟩ : ∃ g, g = db.ext S (Call.sqlite3PagerGet iDb i) := ⟨_, rfl⟩
      obtain ⟨f, hfd⟩ : ∃ f, f = g.1.ext S Call.readIsInterrupted := ⟨_, rfl⟩
      obtain ⟨c, hcd⟩ : ∃ c, c = f.1.ext S Call.clearIsInterrupted := ⟨_, rfl⟩
      obtain ⟨w, hwd⟩ : ∃ w, w = f.1.ext S (Call.sqlite3PagerWrite iDb i) := ⟨_, rfl⟩
      obtain ⟨u, hud⟩ : ∃ u, u = w.1.ext S (Call.sqlite3PagerUnref iDb i) := ⟨_, rfl⟩
      have hgt : g.1.trace = db.trace ++ [Event.call (Call.sqlite3PagerGet iDb i) g.2] := by
        rw [hgd]; rfl
      have hft : f.1.trace = g.1.trace ++ [Event.call Call.readIsInterrupted f.2] := by
        rw [hfd]; rfl
      have hct : c.1.trace = f.1.trace ++ [Event.call Call.clearIsInterrupted c.2] := by
        rw [hcd]; rfl
      have hwt : w.1.trace = f.1.trace ++ [Event.call (Call.sqlite3PagerWrite iDb i) w.2] := by
        rw [hwd]; rfl
      have hut : u.1.trace = w.1.trace ++ [Event.call (Call.sqlite3PagerUnref iDb i) u.2] := by
        rw [hud]; rfl
      have e0 : rekeyScan S iDb skip (n + 1) i db =
          if g.2 ≠ S.SQLITE_OK then (g.1, g.2)
          else if f.2 ≠ 0 then (c.1, S.SQLITE_INTERRUPT)
          else if w.2 = S.SQLITE_OK then rekeyScan S iDb skip n (i + 1) u.1
          else (u.1, w.2) := by
        rw [hud, hwd, hcd, hfd, hgd]
        simp only [rekeyScan, if_neg hskip]
      rw [e0]
      have hf : (List.range' i (n + 1)).filter (fun p => p ≠ skip) =
          i :: (List.range' (i + 1) n).filter (fun p => p ≠ skip) := by
        rw [List.range'_succ, List.filter_cons]
        simp [hskip]
      by_cases hg : g.2 = S.SQLITE_OK
      · rw [if_neg (not_not.2 hg)]
        by_cases hf0 : f.2 = 0
        · rw [if_neg (not_not.2 hf0)]
          have hput : u.1.trace = db.trace ++ [Event.call (Call.sqlite3PagerGet iDb i)
                S.SQLITE_OK, Event.call Call.readIsInterrupted 0,
                Event.call (Call.sqlite3PagerWrite iDb i) w.2,
                Event.call (Call.sqlite3PagerUnref iDb i) u.2] := by
            rw [hut, hwt, hft, hgt, hg, hf0]
            simp
          by_cases hw : w.2 = S.SQLITE_OK
          · rw [if_pos hw]
            obtain ⟨t, ht, hs, ho⟩ := ih (i + 1) u.1
            refine ⟨Event.call (Call.sqlite3PagerGet iDb i) S.SQLITE_OK ::
              Event.call Call.readIsInterrupted 0 ::
              Event.call (Call.sqlite3PagerWrite iDb i) w.2 ::
              Event.call (Call.sqlite3PagerUnref iDb i) u.2 :: t, ?_, ?_, ?_⟩
            · rw [ht, hput]
              simp
            · intro e he
              simp only [List.mem_cons] at he
              rcases he with rfl | rfl | rfl | rfl | he
              · rfl
              · rfl
              · rfl
              · rfl
              · exact hs e he
            · intro hgood
              have ht' := ho (fun e he => hgood e (by simp [he]))
              rw [hf]
              simp only [List.filterMap_cons, Event.dirtied, Event.fetched]
              rw [ht'.1, ht'.2]
              exact ⟨rfl, rfl⟩
          · rw [if_neg hw]
            refine ⟨_, hput, ?_, ?_⟩
            · intro e he
              simp only [List.mem_cons, List.mem_singleton, List.not_mem_nil, or_false] at he
              rcases he with rfl | rfl | rfl | rfl <;> rfl
            · intro hgood
              have := hgood (Event.call (Call.sqlite3PagerWrite iDb i) w.2) (by simp)
              simp [Event.failed, hw] at this
        · rw [if_pos hf0]
          refine ⟨[Event.call (Call.sqlite3PagerGet iDb i) S.SQLITE_OK,
            Event.call Call.readIsInterrupted f.2, Event.call Call.clearIsInterrupted c.2],
            ?_, ?_, ?_⟩
          · rw [hct, hft, hgt, hg]
            simp
          · intro e he
            simp only [List.mem_cons, List.mem_singleton, List.not_mem_nil, or_false] at he
            rcases he with rfl | rfl | rfl <;> rfl
          · intro hgood
            have := hgood (Event.call Call.readIsInterrupted f.2) (by simp)
            simp [Event.failed, hf0] at this
      · rw [if_pos hg]
        refine ⟨_, hgt, ?_, ?_⟩
        · intro e he
          simp only [List.mem_singleton] at he
          subst he
          rfl
        · intro hgood
          have := hgood (Event.call (Call.sqlite3PagerGet iDb i) g.2) (by simp)
          simp [Event.failed, hg] at this


/-- The run from `loadKey` on: the load of the key, the read of the page size,
the scan, the closing; and the pages a scan without failure fetches and marks
dirty. -/
theorem rekeyBody_order {K σ : Type} (B : Backend K) (S : Sqlite σ) (db : Conn K σ) (iDb : Nat)
    (keys : KeySlots K) (eState rc nPage : Nat) (pKey : Option (List Nat)) (nKey : Int)
    (r : Nat) (db' : Conn K σ)
    (hrun : rekeyBody B S db iDb keys eState rc nPage pKey nKey = some (r, db')) :
    ∃ tp ts q skipv, db'.trace = db.trace ++ Event.loadKey :: (tp ++ ts ++ q) ∧
      (∀ e ∈ tp, e.isClosing = true) ∧ (∀ e ∈ ts, e.scanStep = true) ∧
      (∀ e ∈ q, e.isClosing = true) ∧
      (rc = S.SQLITE_OK → (∀ e ∈ ts, e.failed S = false) →
        ts.filterMap Event.dirtied = (List.range' 1 nPage).filter (fun p => p ≠ skipv) ∧
        ts.filterMap Event.fetched = (List.range' 1 nPage).filter (fun p => p ≠ skipv)) ∧
      (nPage ≠ 0 → ∃ ps, Event.call (Call.codecPageSize iDb) ps ∈ tp ∧
        skipv = S.PENDING_BYTE / ps + 1) := by
  unfold rekeyBody at hrun
  cases hk : B.loadKey keys.key0 pKey nKey with
  | none => rw [hk] at hrun; exact absurd hrun (by simp)
  | some k0 =>
    rw [hk] at hrun
    dsimp only at hrun
    obtain ⟨db1, hdb1⟩ : ∃ db1, db1 = (db.note Event.loadKey).setCodec iDb
      (some ⟨k0, keys.key1⟩) := ⟨_, rfl⟩
    rw [← hdb1] at hrun
    have h1t : db1.trace = db.trace ++ [Event.loadKey] := by rw [hdb1]; rfl
    obtain ⟨ps, hps⟩ : ∃ ps, ps = (if nPage ≠ 0 then db1.ext S (Call.codecPageSize iDb)
      else (db1, 1)) := ⟨_, rfl⟩
    rw [← hps] at hrun
    have hpst : ∃ tp, ps.1.trace = db1.trace ++ tp ∧
        (∀ e ∈ tp, e.isClosing = true) ∧
        (nPage ≠ 0 → Event.call (Call.codecPageSize iDb) ps.2 ∈ tp) := by
      by_cases hn : nPage ≠ 0
      · rw [if_pos hn] at hps
        refine ⟨[Event.call (Call.codecPageSize iDb) ps.2], by rw [hps]; rfl, ?_, ?_⟩
        · intro e he
          simp only [List.mem_singleton] at he
          subst he
          rfl
        · intro _
          simp
      · rw [if_neg hn] at hps
        exact ⟨[], by rw [hps]; simp, by simp, fun h => absurd h hn⟩
    obtain ⟨tp, hpt, hpp, hpm⟩ := hpst
    by_cases hz : ps.2 = 0
    · rw [if_pos hz] at hrun
      exact absurd hrun (by simp)
    rw [if_neg hz] at hrun
    obtain ⟨skipv, hskipv⟩ : ∃ skipv, skipv =
      (if nPage ≠ 0 then S.PENDING_BYTE / ps.2 + 1 else 0) := ⟨_, rfl⟩
    rw [← hskipv] at hrun
    obtain ⟨sc, hsc⟩ : ∃ sc, sc = (if rc = S.SQLITE_OK then
        rekeyScan S iDb skipv nPage 1 ps.1
      else (ps.1, rc)) := ⟨_, rfl⟩
    rw [← hsc] at hrun
    have hscs : ∃ ts, sc.1.trace = ps.1.trace ++ ts ∧ (∀ e ∈ ts, e.scanStep = true) ∧
        (rc = S.SQLITE_OK → (∀ e ∈ ts, e.failed S = false) →
          ts.filterMap Event.dirtied = (List.range' 1 nPage).filter (fun p => p ≠ skipv) ∧
          ts.filterMap Event.fetched = (List.range' 1 nPage).filter (fun p => p ≠ skipv)) := by
      by_cases hrc : rc = S.SQLITE_OK
      · rw [if_pos hrc] at hsc
        rw [hsc]
        obtain ⟨t, ht, hs, ho⟩ := rekeyScan_order S iDb skipv nPage 1 ps.1
        exact ⟨t, ht, hs, fun _ => ho⟩
      · rw [if_neg hrc] at hsc
        exact ⟨[], by rw [hsc]; simp, by simp, fun h => absurd h hrc⟩
    obtain ⟨ts, hst, hss, hso⟩ := hscs
    have hsct : sc.1.trace = db.trace ++ Event.loadKey :: (tp ++ ts) := by
      rw [hst, hpt, h1t]
      simp
    -- every way out: the events `tc` after the scan, then `end_rekey`
    have hfin : ∀ (dbc : Conn K σ) (tc : List Event) (p : Bool) (rr : Nat),
        dbc.trace = sc.1.trace ++ tc → (∀ e ∈ tc, e.isClosing = true) →
        (r, db') = rekeyEnd S dbc iDb p rr →
        ∃ tp ts q skipv, db'.trace = db.trace ++ Event.loadKey :: (tp ++ ts ++ q) ∧
          (∀ e ∈ tp, e.isClosing = true) ∧ (∀ e ∈ ts, e.scanStep = true) ∧
          (∀ e ∈ q, e.isClosing = true) ∧
          (rc = S.SQLITE_OK → (∀ e ∈ ts, e.failed S = false) →
            ts.filterMap Event.dirtied = (List.range' 1 nPage).filter (fun p => p ≠ skipv) ∧
            ts.filterMap Event.fetched = (List.range' 1 nPage).filter (fun p => p ≠ skipv)) ∧
          (nPage ≠ 0 → ∃ ps, Event.call (Call.codecPageSize iDb) ps ∈ tp ∧
            skipv = S.PENDING_BYTE / ps + 1) := by
      intro dbc tc p rr hct hcc hend
      obtain ⟨_, te, he3, he4⟩ := rekeyEnd_closing S dbc iDb p rr
      rw [← hend] at he3
      simp only at he3
      refine ⟨tp, ts, tc ++ te, skipv, ?_, hpp, hss, ?_, hso, ?_⟩
      · rw [he3, hct, hsct]
        simp
      · exact forall_mem_append_of hcc (fun e he => (he4 e he).1)
      · intro hn
        refine ⟨ps.2, hpm hn, ?_⟩
        rw [hskipv, if_pos hn]
    by_cases hs : sc.2 = S.SQLITE_OK
    · rw [if_pos hs] at hrun
      obtain ⟨db2, hdb2⟩ : ∃ db2, db2 = (sc.1.note Event.promote).setCodec iDb
        (some ⟨k0, k0⟩) := ⟨_, rfl⟩
      rw [← hdb2] at hrun
      have h2t : db2.trace = sc.1.trace ++ [Event.promote] := by rw [hdb2]; rfl
      by_cases hst2 : eState ≤ S.PAGER_READER
      · rw [if_pos hst2] at hrun
        obtain ⟨c1, hc1⟩ : ∃ c1, c1 = db2.ext S (Call.sqlite3PagerCommitPhaseOne iDb) :=
          ⟨_, rfl⟩
        rw [← hc1] at hrun
        have hc1t : c1.1.trace = sc.1.trace ++ [Event.promote,
            Event.call (Call.sqlite3PagerCommitPhaseOne iDb) c1.2] := by
          rw [hc1, Conn.ext_trace, h2t, ← hc1]
          simp
        by_cases hc1ok : c1.2 = S.SQLITE_OK
        · rw [if_pos hc1ok] at hrun
          obtain ⟨c2, hc2⟩ : ∃ c2, c2 = c1.1.ext S (Call.sqlite3PagerCommitPhaseTwo iDb) :=
            ⟨_, rfl⟩
          rw [← hc2] at hrun
          refine hfin c2.1 [Event.promote,
            Event.call (Call.sqlite3PagerCommitPhaseOne iDb) c1.2,
            Event.call (Call.sqlite3PagerCommitPhaseTwo iDb) c2.2] true c2.2 ?_ ?_
            (Option.some.inj hrun).symm
          · rw [hc2, Conn.ext_trace, hc1t, ← hc2]
            simp
          · intro e he
            simp only [List.mem_cons, List.mem_singleton, List.not_mem_nil, or_false] at he
            rcases he with rfl | rfl | rfl <;> rfl
        · rw [if_neg hc1ok] at hrun
          refine hfin c1.1 _ true c1.2 hc1t ?_ (Option.some.inj hrun).symm
          intro e he
          simp only [List.mem_cons, List.mem_singleton, List.not_mem_nil, or_false] at he
          rcases he with rfl | rfl <;> rfl
      · rw [if_neg hst2] at hrun
        refine hfin db2 _ true sc.2 h2t ?_ (Option.some.inj hrun).symm
        intro e he
        simp only [List.mem_singleton] at he
        subst he
        rfl
    · rw [if_neg hs] at hrun
      obtain ⟨db2, hdb2⟩ : ∃ db2, db2 = (sc.1.note Event.restore).setCodec iDb
        (some ⟨keys.key1, keys.key1⟩) := ⟨_, rfl⟩
      rw [← hdb2] at hrun
      obtain ⟨rb, hrb⟩ : ∃ rb, rb = db2.ext S (Call.sqlite3PagerRollback iDb) := ⟨_, rfl⟩
      rw [← hrb] at hrun
      refine hfin rb.1 [Event.restore, Event.call (Call.sqlite3PagerRollback iDb) rb.2]
        (decide (rc = S.SQLITE_OK)) sc.2 ?_ ?_ (Option.some.inj hrun).symm
      · rw [hrb, Conn.ext_trace, ← hrb, hdb2, Conn.setCodec_trace, Conn.note_trace]
        simp
      · intro e he
        simp only [List.mem_cons, List.mem_singleton, List.not_mem_nil, or_false] at he
        rcases he with rfl | rfl <;> rfl


/-- A trace in which the page count is not read. -/
theorem ScanOrder.of_noPagecount {σ : Type} (S : Sqlite σ) (T : List Event)
    (h : ∀ e ∈ T, ∀ i n, e ≠ Event.call (Call.sqlite3PagerPagecount i) n) :
    ScanOrder S T := by
  intro _ iDb nPage hmem
  exact absurd rfl (h _ hmem iDb nPage)

/-- A trace made of a quiet setup, the page count, the load of the key, the
read of the page size, a scan and a closing. -/
theorem ScanOrder.of_parts {σ : Type} (S : Sqlite σ) (iDb n skipv : Nat)
    (pre tp ts q : List Event)
    (hpre : ∀ e ∈ pre, e.isQuiet = true) (htp : ∀ e ∈ tp, e.isClosing = true)
    (hts : ∀ e ∈ ts, e.scanStep = true) (hq : ∀ e ∈ q, e.isClosing = true)
    (hscan : (∀ e ∈ ts, e.failed S = false) →
      ts.filterMap Event.dirtied = (List.range' 1 n).filter (fun p => p ≠ skipv) ∧
      ts.filterMap Event.fetched = (List.range' 1 n).filter (fun p => p ≠ skipv))
    (hps : n ≠ 0 → ∃ ps, Event.call (Call.codecPageSize iDb) ps ∈ tp ∧
      skipv = S.PENDING_BYTE / ps + 1) :
    ScanOrder S
      (pre ++ Event.call (Call.sqlite3PagerPagecount iDb) n :: Event.loadKey ::
        (tp ++ ts ++ q)) := by
  intro hgood jDb m hmem
  -- the page count read is the one of the setup
  have hjm : jDb = iDb ∧ m = n := by
    simp only [List.mem_append, List.mem_cons] at hmem
    rcases hmem with h | h | h | (h | h) | h
    · exact absurd rfl ((isQuiet_spec _ (hpre _ h)).2.2 jDb m)
    · injection h with h1 h2
      injection h1 with h3
      exact ⟨h3, h2⟩
    · exact absurd h (by simp)
    · exact absurd rfl ((isQuiet_spec _ (isClosing_quiet _ (htp _ h)).1).2.2 jDb m)
    · exact absurd rfl ((scanStep_noPagecount _ (hts _ h)).2 jDb m)
    · exact absurd rfl ((isQuiet_spec _ (isClosing_quiet _ (hq _ h)).1).2.2 jDb m)
  obtain ⟨rfl, rfl⟩ := hjm
  have hgts : ∀ e ∈ ts, e.failed S = false := by
    intro e he
    exact hgood e (by simp [he])
  obtain ⟨hd, hf⟩ := hscan hgts
  have hdT : (pre ++ Event.call (Call.sqlite3PagerPagecount jDb) m :: Event.loadKey ::
      (tp ++ ts ++ q)).filterMap Event.dirtied = ts.filterMap Event.dirtied := by
    rw [List.filterMap_append, List.filterMap_cons, List.filterMap_cons,
      List.filterMap_append, List.filterMap_append,
      filterMap_none _ pre (fun e he => (isQuiet_spec e (hpre e he)).1),
      filterMap_none _ tp (fun e he => (isQuiet_spec e (isClosing_quiet e (htp e he)).1).1),
      filterMap_none _ q (fun e he => (isQuiet_spec e (isClosing_quiet e (hq e he)).1).1)]
    simp [Event.dirtied]
  have hfT : ((pre ++ Event.call (Call.sqlite3PagerPagecount jDb) m :: Event.loadKey ::
      (tp ++ ts ++ q)).dropWhile (fun e => e ≠ Event.loadKey)).filterMap Event.fetched
      = ts.filterMap Event.fetched := by
    have e1 : pre ++ Event.call (Call.sqlite3PagerPagecount jDb) m :: Event.loadKey ::
        (tp ++ ts ++ q) = (pre ++ [Event.call (Call.sqlite3PagerPagecount jDb) m]) ++
        Event.loadKey :: (tp ++ ts ++ q) := by simp
    rw [e1, dropWhile_loadKey _ _ (by
      intro e he
      rcases List.mem_append.mp he with h | h
      · exact (isQuiet_spec e (hpre e h)).2.1
      · simp only [List.mem_singleton] at h
        subst h
        simp)]
    rw [List.filterMap_cons, List.filterMap_append, List.filterMap_append,
      filterMap_none _ tp (fun e he => (isClosing_quiet e (htp e he)).2),
      filterMap_none _ q (fun e he => (isClosing_quiet e (hq e he)).2)]
    simp [Event.fetched]
  refine ⟨?_, ?_⟩
  · intro h0
    rw [hdT, hd, h0]
    rfl
  · intro h1
    obtain ⟨ps, hpm, hsk⟩ := hps (by omega)
    refine ⟨ps, by simp [hpm], ?_, ?_⟩
    · rw [hdT, hd, hsk]; rfl
    · rw [hfT, hf, hsk]; rfl

/-- The events `sqlite3CodecAttach` adds are quiet. -/
theorem sqlite3CodecAttach_quiet {K σ : Type} (B : Backend K) (S : Sqlite σ) (db : Conn K σ)
    (iDb : Nat) (pKey : Option (List Nat)) (nKey : Int) (a : Nat × Conn K σ)
    (hP : ∀ e ∈ db.trace, e.isQuiet = true)
    (h : sqlite3CodecAttach B S db iDb pKey nKey = some a) :
    ∀ e ∈ a.2.trace, e.isQuiet = true := by
  unfold sqlite3CodecAttach at h
  cases hd : db.aDb[iDb]? with
  | none => rw [hd] at h; exact absurd h (by simp)
  | some pDb =>
    rw [hd] at h
    dsimp only at h
    by_cases hbt : pDb.pBt = true
    · rw [if_pos hbt] at h
      by_cases hm0 : (db.ext S Call.sqlite3_malloc).2 = 0
      · rw [if_pos hm0] at h
        rw [← Option.some.inj h]
        intro e he
        simp only [Conn.ext_trace, List.mem_append, List.mem_singleton] at he
        rcases he with he | rfl
        · exact hP e he
        · rfl
      · rw [if_neg hm0] at h
        cases hk : B.loadKey B.zeroKey pKey nKey with
        | none => rw [hk] at h; exact absurd h (by simp)
        | some k =>
          rw [hk] at h
          cases hr : B.nReserve with
          | none =>
            rw [hr] at h
            dsimp only at h
            rw [← Option.some.inj h]
            intro e he
            simp only [Conn.setCodec_trace, Conn.ext_trace, List.mem_append,
              List.mem_singleton] at he
            rcases he with (he | rfl) | rfl
            · exact hP e he
            · rfl
            · rfl
          | some n =>
            rw [hr] at h
            dsimp only at h
            rw [← Option.some.inj h]
            intro e he
            simp only [Conn.setCodec_trace, Conn.ext_trace, List.mem_append,
              List.mem_singleton] at he
            rcases he with ((he | rfl) | rfl) | rfl
            · exact hP e he
            · rfl
            · rfl
            · rfl
    · rw [if_neg hbt] at h
      rw [← Option.some.inj h]
      exact hP

/-- The order of the scan in a run from the read of the pager state on. -/
theorem rekeyLocked_order {K σ : Type} (B : Backend K) (S : Sqlite σ) (db : Conn K σ)
    (iDb : Nat) (keys : KeySlots K) (pKey : Option (List Nat)) (nKey : Int)
    (r : Nat) (db' : Conn K σ) (hP : ∀ e ∈ db.trace, e.isQuiet = true)
    (hrun : rekeyLocked B S db iDb keys pKey nKey = some (r, db')) :
    ScanOrder S db'.trace := by
  unfold rekeyLocked at hrun
  dsimp only at hrun
  obtain ⟨st, hst⟩ : ∃ st, st = db.ext S (Call.sqlite3PagerState iDb) := ⟨_, rfl⟩
  rw [← hst] at hrun
  obtain ⟨lk, hlk⟩ : ∃ lk, lk = (if st.2 = S.PAGER_OPEN then
    st.1.ext S (Call.sqlite3PagerSharedLock iDb) else (st.1, 0)) := ⟨_, rfl⟩
  rw [← hlk] at hrun
  have hstP : ∀ e ∈ st.1.trace, e.isQuiet = true := by
    rw [hst, Conn.ext_trace]
    exact forall_mem_append_of hP (by
      intro e he
      simp only [List.mem_singleton] at he
      subst he
      rfl)
  have hlkP : ∀ e ∈ lk.1.trace, e.isQuiet = true := by
    by_cases h : st.2 = S.PAGER_OPEN
    · rw [if_pos h] at hlk
      rw [hlk, Conn.ext_trace]
      exact forall_mem_append_of hstP (by
        intro e he
        simp only [List.mem_singleton] at he
        subst he
        rfl)
    · rw [if_neg h] at hlk
      rw [hlk]
      exact hstP
  -- an exit through `end_rekey` before the key is loaded
  have hearly : ∀ (dbq : Conn K σ) (p : Bool) (rr : Nat), (∀ e ∈ dbq.trace, e.isQuiet = true) →
      (r, db') = rekeyEnd S dbq iDb p rr → ScanOrder S db'.trace := by
    intro dbq p rr hq hend
    obtain ⟨_, te, he3, he4⟩ := rekeyEnd_closing S dbq iDb p rr
    rw [← hend] at he3
    simp only at he3
    rw [he3]
    apply ScanOrder.of_noPagecount
    exact forall_mem_append_of (fun e he => (isQuiet_spec e (hq e he)).2.2)
      (fun e he => (isQuiet_spec e (isClosing_quiet e (he4 e he).1).1).2.2)
  have hext : ∀ (dbq : Conn K σ) (c : Call), (∀ e ∈ dbq.trace, e.isQuiet = true) →
      (∀ x, (Event.call c x).isQuiet = true) →
      ∀ e ∈ (dbq.ext S c).1.trace, e.isQuiet = true := by
    intro dbq c hq hc
    rw [Conn.ext_trace]
    exact forall_mem_append_of hq (by
      intro e he
      simp only [List.mem_singleton] at he
      subst he
      exact hc _)
  -- the run from the page count on
  have hbody : ∀ (dbq : Conn K σ) (es rc : Nat), (∀ e ∈ dbq.trace, e.isQuiet = true) →
      rc = S.SQLITE_OK →
      rekeyBody B S (dbq.ext S (Call.sqlite3PagerPagecount iDb)).1 iDb keys es rc
        (dbq.ext S (Call.sqlite3PagerPagecount iDb)).2 pKey nKey = some (r, db') →
      ScanOrder S db'.trace := by
    intro dbq es rc hq hrc hb
    obtain ⟨tp, ts, q, skipv, hT, htp, hts, hqq, hscan, hps⟩ :=
      rekeyBody_order B S _ iDb keys es rc _ pKey nKey r db' hb
    rw [hT, Conn.ext_trace, List.append_assoc]
    exact ScanOrder.of_parts S iDb _ skipv dbq.trace tp ts q hq htp hts hqq (hscan hrc) hps
  by_cases hl0 : lk.2 = 0
  · rw [if_neg (not_not.2 hl0)] at hrun
    obtain ⟨g, hg⟩ : ∃ g, g = lk.1.ext S (Call.sqlite3PagerGet iDb 1) := ⟨_, rfl⟩
    rw [← hg] at hrun
    have hgP : ∀ e ∈ g.1.trace, e.isQuiet = true := by
      rw [hg]
      exact hext lk.1 _ hlkP (fun _ => rfl)
    by_cases hgok : g.2 = S.SQLITE_OK
    · by_cases hes : st.2 ≤ S.PAGER_READER
      · rw [if_pos ⟨hgok, hes⟩] at hrun
        obtain ⟨b, hb⟩ : ∃ b, b = g.1.ext S (Call.sqlite3PagerBegin iDb) := ⟨_, rfl⟩
        rw [← hb] at hrun
        have hbP : ∀ e ∈ b.1.trace, e.isQuiet = true := by
          rw [hb]
          exact hext g.1 _ hgP (fun _ => rfl)
        by_cases hbok : b.2 = S.SQLITE_OK
        · rw [if_neg (not_not.2 hbok)] at hrun
          exact hbody b.1 _ _ hbP hbok hrun
        · rw [if_pos hbok] at hrun
          exact hearly b.1 true b.2 hbP (Option.some.inj hrun).symm
      · rw [if_neg (fun h => hes h.2), if_pos hgok] at hrun
        exact hbody g.1 _ _ hgP hgok hrun
    · rw [if_neg (fun h => hgok h.1), if_neg hgok] at hrun
      obtain ⟨tp, ts, q, skipv, hT, htp, hts, hqq, _, _⟩ :=
        rekeyBody_order B S _ iDb keys _ _ _ pKey nKey r db' hrun
      rw [hT]
      apply ScanOrder.of_noPagecount
      intro e he
      simp only [List.mem_append, List.mem_cons] at he
      rcases he with h | h | (h | h) | h
      · exact (isQuiet_spec e (hgP e h)).2.2
      · subst h; intro i n; simp
      · exact (isQuiet_spec e (isClosing_quiet e (htp e h)).1).2.2
      · exact (scanStep_noPagecount e (hts e h)).2
      · exact (isQuiet_spec e (isClosing_quiet e (hqq e h)).1).2.2
  · rw [if_pos hl0] at hrun
    exact hearly lk.1 false lk.2 hlkP (Option.some.inj hrun).symm

/-- The order of the scan in a run of `sqlite3_rekey_v2`. -/
theorem sqlite3_rekey_v2_order {K σ : Type} (B : Backend K) (S : Sqlite σ)
    (encryptionEnabled : Bool) (db : Conn K σ) (zDbName : Option String)
    (pKey : Option (List Nat)) (nKey : Int) (r : Nat) (db' : Conn K σ)
    (hrun : sqlite3_rekey_v2 B S encryptionEnabled db zDbName pKey nKey = some (r, db')) :
    ScanOrder S db'.trace := by
  unfold sqlite3_rekey_v2 at hrun
  dsimp only at hrun
  by_cases hen : encryptionEnabled = false
  · rw [if_pos hen] at hrun
    have hdb : db'.trace = [] := (congrArg (fun p => p.2.trace) (Option.some.inj hrun)).symm
    rw [hdb]
    exact ScanOrder.of_noPagecount S [] (by simp)
  rw [if_neg hen] at hrun
  obtain ⟨db1, hdb1⟩ : ∃ db1, db1 = (({ db with trace := [] }).ext S
    Call.sqlite3_mutex_enter).1.ext S Call.sqlite3BtreeEnterAll := ⟨_, rfl⟩
  rw [← hdb1] at hrun
  have h1a : db1.1.aDb = db.aDb := by rw [hdb1]; rfl
  have hname : sqlite3NameToDb S db1.1 zDbName = sqlite3NameToDb S db zDbName :=
    sqlite3NameToDb_congr S db1.1 db zDbName h1a
  rw [hname] at hrun
  have h1P : ∀ e ∈ db1.1.trace, e.isQuiet = true := by
    intro e he
    rw [hdb1] at he
    simp only [Conn.ext_trace, List.nil_append, List.cons_append, List.mem_cons,
      List.mem_singleton, List.not_mem_nil, or_false] at he
    rcases he with rfl | rfl <;> rfl
  have hearly : ∀ (dbq : Conn K σ) (i : Nat) (rr : Nat), (∀ e ∈ dbq.trace, e.isQuiet = true) →
      (r, db') = rekeyEnd S dbq i false rr → ScanOrder S db'.trace := by
    intro dbq i rr hq hend
    obtain ⟨_, te, he3, he4⟩ := rekeyEnd_closing S dbq i false rr
    rw [← hend] at he3
    simp only at he3
    rw [he3]
    apply ScanOrder.of_noPagecount
    exact forall_mem_append_of (fun e he => (isQuiet_spec e (hq e he)).2.2)
      (fun e he => (isQuiet_spec e (isClosing_quiet e (he4 e he).1).1).2.2)
  by_cases hi : sqlite3NameToDb S db zDbName < 0
  · rw [if_pos hi] at hrun
    exact hearly db1.1 0 _ h1P (Option.some.inj hrun).symm
  rw [if_neg hi] at hrun
  cases hd : db1.1.aDb[(sqlite3NameToDb S db zDbName).toNat]? with
  | none => rw [hd] at hrun; exact absurd hrun (by simp)
  | some pDb =>
    rw [hd] at hrun
    dsimp only at hrun
    by_cases hbt : pDb.pBt = false
    · rw [if_pos hbt] at hrun
      exact absurd hrun (by simp)
    rw [if_neg hbt] at hrun
    by_cases hro : pDb.readOnly = true
    · rw [if_pos hro] at hrun
      exact hearly db1.1 _ _ h1P (Option.some.inj hrun).symm
    rw [if_neg hro] at hrun
    cases hc : pDb.pCodec with
    | some keys =>
      rw [hc] at hrun
      dsimp only at hrun
      exact rekeyLocked_order B S db1.1 _ keys pKey nKey r db' h1P hrun
    | none =>
      rw [hc] at hrun
      dsimp only at hrun
      cases ha : sqlite3CodecAttach B S db1.1 0 (some [0]) 0 with
      | none => rw [ha] at hrun; exact absurd hrun (by simp)
      | some a =>
        rw [ha] at hrun
        dsimp only at hrun
        have haP := sqlite3CodecAttach_quiet B S db1.1 0 (some [0]) 0 a h1P ha
        cases hca : (a.2.aDb[(sqlite3NameToDb S db zDbName).toNat]?).bind
            (fun d => d.pCodec) with
        | none =>
          rw [hca] at hrun
          dsimp only at hrun
          exact hearly a.2 _ _ haP (Option.some.inj hrun).symm
        | some keys =>
          rw [hca] at hrun
          dsimp only at hrun
          exact rekeyLocked_order B S a.2 _ keys pKey nKey r db' haP hrun


/-- C27. The order of the re-key scan.  In a run of `sqlite3_rekey_v2` in which
no call fails and the interrupt flag is never found set, if the page count
`nPage` of the database was read then: for `nPage = 0` no page is marked
dirty; for `nPage >= 1` the page size `pageSize` of the codec was read and,
with `skip = PENDING_BYTE / pageSize + 1`, the pages marked dirty are exactly
1, 2, ..., `nPage` in ascending order, once each, without `skip`; the pages
fetched after the load of the candidate key are the same list; so `skip` is
neither fetched by the scan nor marked dirty. -/
theorem C27_rekey_scan_order {K σ : Type} (B : Backend K) (S : Sqlite σ)
    (encryptionEnabled : Bool) (db : Conn K σ) (zDbName : Option String)
    (pKey : Option (List Nat)) (nKey : Int) (rc : Nat) (db' : Conn K σ)
    (hrun : sqlite3_rekey_v2 B S encryptionEnabled db zDbName pKey nKey = some (rc, db'))
    (hgood : ∀ e ∈ db'.trace, e.failed S = false)
    (iDb nPage : Nat)
    (hpc : Event.call (Call.sqlite3PagerPagecount iDb) nPage ∈ db'.trace) :
    (nPage = 0 → db'.trace.filterMap Event.dirtied = []) ∧
    (1 ≤ nPage → ∃ pageSize, Event.call (Call.codecPageSize iDb) pageSize ∈ db'.trace ∧
      db'.trace.filterMap Event.dirtied =
        pagesWithout nPage (S.PENDING_BYTE / pageSize + 1) ∧
      (db'.trace.dropWhile (fun e => e ≠ Event.loadKey)).filterMap Event.fetched =
        pagesWithout nPage (S.PENDING_BYTE / pageSize + 1) ∧
      S.PENDING_BYTE / pageSize + 1 ∉ db'.trace.filterMap Event.dirtied) := by
  obtain ⟨h0, h1⟩ := sqlite3_rekey_v2_order B S encryptionEnabled db zDbName pKey nKey rc db'
    hrun hgood iDb nPage hpc
  refine ⟨h0, ?_⟩
  intro hn
  obtain ⟨ps, hps, hd, hf⟩ := h1 hn
  refine ⟨ps, hps, hd, hf, ?_⟩
  rw [hd]
  simp [pagesWithout]

/-- Witness of C27: re-key of a file of three pages of 1024 bytes with the
pending byte at offset 1024, every call succeeding: `skip` is 2 and the pages
marked dirty are 1 and 3. -/
theorem C27_rekey_scan_order_witness :
    sqlite3_rekey_v2 xorBackend sqliteSkipTwo true connKeyed none (some [9]) 1
      = some (0, connSkipTwo) ∧
    (∀ e ∈ connSkipTwo.trace, e.failed sqliteSkipTwo = false) ∧
    Event.call (Call.sqlite3PagerPagecount 0) 3 ∈ connSkipTwo.trace ∧
    connSkipTwo.trace.filterMap Event.dirtied = [1, 3] ∧
    pagesWithout 3 (sqliteSkipTwo.PENDING_BYTE / 1024 + 1) = [1, 3] ∧
    (1 ≤ 3 → ∃ pageSize, Event.call (Call.codecPageSize 0) pageSize ∈ connSkipTwo.trace ∧
      connSkipTwo.trace.filterMap Event.dirtied =
        pagesWithout 3 (sqliteSkipTwo.PENDING_BYTE / pageSize + 1) ∧
      (connSkipTwo.trace.dropWhile (fun e => e ≠ Event.loadKey)).filterMap Event.fetched =
        pagesWithout 3 (sqliteSkipTwo.PENDING_BYTE / pageSize + 1) ∧
      sqliteSkipTwo.PENDING_BYTE / pageSize + 1 ∉ connSkipTwo.trace.filterMap Event.dirtied) :=
  ⟨rfl, by decide, by decide, by decide, by decide,
    (C27_rekey_scan_order xorBackend sqliteSkipTwo true connKeyed none (some [9]) 1 0
      connSkipTwo rfl (by decide) 0 3 (by decide)).2⟩

/-! ## The size-change callbacks -/

/-- C28. `sqliteCodecAes128CcmSizeChng(p, pageSize, nReserve)` sets `pageSize`
and `usable = pageSize - nReserve`; it drops the mask cache (the mask becomes
unallocated) when the new `usable` differs from the previous one and keeps it
as it is when `usable` does not change; and it leaves both key slots,
`nullKey` and `mallocFailed` as they are. -/
theorem C28_aes_size_change (p : CodecAes128Ccm) (pageSize nReserve : Nat) :
    (sqliteCodecAes128CcmSizeChng p pageSize nReserve).pageSize = pageSize ∧
    (sqliteCodecAes128CcmSizeChng p pageSize nReserve).usable = pageSize - nReserve ∧
    (p.usable ≠ pageSize - nReserve →
      (sqliteCodecAes128CcmSizeChng p pageSize nReserve).mask = none) ∧
    (p.usable = pageSize - nReserve →
      (sqliteCodecAes128CcmSizeChng p pageSize nReserve).mask = p.mask) ∧
    (sqliteCodecAes128CcmSizeChng p pageSize nReserve).key0 = p.key0 ∧
    (sqliteCodecAes128CcmSizeChng p pageSize nReserve).key1 = p.key1 ∧
    (sqliteCodecAes128CcmSizeChng p pageSize nReserve).nullKey = p.nullKey ∧
    (sqliteCodecAes128CcmSizeChng p pageSize nReserve).mallocFailed = p.mallocFailed := by
  refine ⟨rfl, rfl, ?_, ?_, rfl, rfl, rfl, rfl⟩
  · intro hne
    simp only [sqliteCodecAes128CcmSizeChng, hne, ne_eq, not_false_eq_true, if_true]
  · intro heq
    simp only [sqliteCodecAes128CcmSizeChng, heq, ne_eq, not_true_eq_false, if_false]

/-- Witness of C28: a codec for pages of 512 bytes with 32 reserved whose mask
is allocated is told of pages of 1024 bytes, and of the same size again. -/
theorem C28_aes_size_change_witness :
    ({ aesFresh 512 32 with mask := some [] } : CodecAes128Ccm).usable ≠ 1024 - 32 ∧
    (sqliteCodecAes128CcmSizeChng { aesFresh 512 32 with mask := some [] } 1024 32).mask = none ∧
    ({ aesFresh 512 32 with mask := some [] } : CodecAes128Ccm).usable = 512 - 32 ∧
    (sqliteCodecAes128CcmSizeChng { aesFresh 512 32 with mask := some [] } 512 32).mask
      = some [] :=
  ⟨by decide,
    (C28_aes_size_change { aesFresh 512 32 with mask := some [] } 1024 32).2.2.1 (by decide),
    by decide,
    (C28_aes_size_change { aesFresh 512 32 with mask := some [] } 512 32).2.2.2.1 (by decide)⟩

/-- C29. The size-change callbacks of the RC4 and the CommonCrypto backend do
not drop the mask cache.  After `sqliteCodecRc4SizeChng` or
`sqliteCodecCCCryptoSizeChng` a mask that was allocated is still the same
block with the same content, `outbuf` is the same too (neither is freed or
allocated again, unlike in `sqliteCodecAes128CcmSizeChng`); so when the page
size has grown beyond the block the scratch space has no room for a page, and
a following decode with op 0 XORs the page with the mask computed before the
change. -/
theorem C29_size_change_keeps_mask (h : Host) (pageSize nReserve : Nat) :
    (∀ (c : CodecRc4) (m : List Nat), c.mask = some m →
      (sqliteCodecRc4SizeChng c pageSize nReserve).mask = some m ∧
      (sqliteCodecRc4SizeChng c pageSize nReserve).outbuf = c.outbuf ∧
      (m.length < pageSize + 4 →
        ¬ rc4ScratchReady h (sqliteCodecRc4SizeChng c pageSize nReserve)) ∧
      (c.nullKey = 0 → ∀ (E : List Nat) (pgno : Nat),
        (sqliteCodecRc4 h (sqliteCodecRc4SizeChng c pageSize nReserve) E pgno 0).pageData =
          xorPage (pageSize - nReserve) pageSize pgno false c.outbuf E m)) ∧
    (∀ (c : CodecCCCrypto) (m : List Nat), c.mask = some m →
      (sqliteCodecCCCryptoSizeChng c pageSize nReserve).mask = some m ∧
      (sqliteCodecCCCryptoSizeChng c pageSize nReserve).outbuf = c.outbuf ∧
      (m.length < pageSize →
        ¬ cccryptScratchReady h (sqliteCodecCCCryptoSizeChng c pageSize nReserve)) ∧
      (c.nullKey = 0 → ∀ (E : List Nat) (pgno : Nat),
        (sqliteCodecCCCrypto h (sqliteCodecCCCryptoSizeChng c pageSize nReserve) E pgno
            0).pageData =
          xorPage (pageSize - nReserve) pageSize pgno false c.outbuf E m)) := by
  constructor
  · intro c m hm
    refine ⟨hm, rfl, ?_, ?_⟩
    · intro hlt hs
      unfold rc4ScratchReady at hs
      have e : (sqliteCodecRc4SizeChng c pageSize nReserve).mask = some m := hm
      rw [e] at hs
      have := hs.1
      simp only [sqliteCodecRc4SizeChng] at this
      omega
    · intro hnk E pgno
      have e : (sqliteCodecRc4SizeChng c pageSize nReserve).mask = some m := hm
      unfold sqliteCodecRc4
      rw [e]
      have hnk2 : ¬ (sqliteCodecRc4SizeChng c pageSize nReserve).nullKey ≠ 0 := by
        simpa [sqliteCodecRc4SizeChng] using hnk
      simp only [rc4Keyed, if_true, if_neg hnk2, rc4Crypt]
      have h4 : ¬ ((0 : Nat) &&& 4 ≠ 0) := by decide
      have h2 : ¬ ((0 : Nat) &&& 2 ≠ 0) := by decide
      have h4b : ¬ (0 < (sqliteCodecRc4SizeChng c pageSize nReserve).nonceSize ∧
          (0 : Nat) &&& 4 ≠ 0) := fun hc => h4 hc.2
      simp only [if_neg h4, if_neg h2, if_neg h4b]
      simp [sqliteCodecRc4SizeChng]
  · intro c m hm
    refine ⟨hm, rfl, ?_, ?_⟩
    · intro hlt hs
      unfold cccryptScratchReady at hs
      have e : (sqliteCodecCCCryptoSizeChng c pageSize nReserve).mask = some m := hm
      rw [e] at hs
      have := hs.1
      simp only [sqliteCodecCCCryptoSizeChng] at this
      omega
    · intro hnk E pgno
      have e : (sqliteCodecCCCryptoSizeChng c pageSize nReserve).mask = some m := hm
      have hnk2 : ¬ (sqliteCodecCCCryptoSizeChng c pageSize nReserve).nullKey ≠ 0 := by
        simpa [sqliteCodecCCCryptoSizeChng] using hnk
      unfold sqliteCodecCCCrypto
      simp only [if_true, if_neg hnk2, cccryptAlloc]
      rw [e]
      have h4 : ¬ ((0 : Nat) &&& 4 ≠ 0) := by decide
      have h2 : ¬ ((0 : Nat) &&& 2 ≠ 0) := by decide
      have h4b : ¬ (0 < (sqliteCodecCCCryptoSizeChng c pageSize nReserve).nonceUsable ∧
          (0 : Nat) &&& 4 ≠ 0) := fun hc => h4 hc.2
      simp only [cccryptCrypt, if_neg h4, if_neg h2, if_neg h4b]
      simp [sqliteCodecCCCryptoSizeChng]

set_option maxRecDepth 100000 in
/-- Witness of C29: an RC4 codec that has served pages of 512 bytes (scratch
block of 2*512+8 bytes, mask area of 516) is told of pages of 1024 bytes with
4 reserved.  The mask is the old block of 516 bytes 9, which has no room for a
page of 1024 bytes, and a decode of a page of 1024 zero bytes with op 0 returns
bytes 9 in the place of the first 516 payload bytes. -/
theorem C29_size_change_keeps_mask_witness :
    rc4Used.mask = some (List.replicate 516 9) ∧
    (sqliteCodecRc4SizeChng rc4Used 1024 4).mask = some (List.replicate 516 9) ∧
    (List.replicate 516 9).length < 1024 + 4 ∧
    ¬ rc4ScratchReady hostOnes (sqliteCodecRc4SizeChng rc4Used 1024 4) ∧
    rc4Used.nullKey = 0 ∧
    (sqliteCodecRc4 hostOnes (sqliteCodecRc4SizeChng rc4Used 1024 4) (List.replicate 1024 0) 2
        0).pageData =
      xorPage (1024 - 4) 1024 2 false rc4Used.outbuf (List.replicate 1024 0)
        (List.replicate 516 9) ∧
    (xorPage (1024 - 4) 1024 2 false rc4Used.outbuf (List.replicate 1024 0)
        (List.replicate 516 9)).getD 0 0 = 9 :=
  ⟨rfl,
    ((C29_size_change_keeps_mask hostOnes 1024 4).1 rc4Used (List.replicate 516 9) rfl).1,
    by decide,
    ((C29_size_change_keeps_mask hostOnes 1024 4).1 rc4Used (List.replicate 516 9) rfl).2.2.1
      (by decide),
    rfl,
    ((C29_size_change_keeps_mask hostOnes 1024 4).1 rc4Used (List.replicate 516 9) rfl).2.2.2
      rfl (List.replicate 1024 0) 2,
    by decide⟩

/-! ## Which key slot a transform reads -/

theorem rc4_slot1_only (h : Host) (c : CodecRc4) (k : KeyRc4) (B : List Nat) (pgno op : Nat)
    (hop : op = 3 ∨ op = 7) :
    pageRc4 (sqliteCodecRc4 h { c with key0 := k } B pgno op) =
      pageRc4 (sqliteCodecRc4 h c B pgno op) := by
  have h1 : op &&& 1 = 1 := by rcases hop with rfl | rfl <;> rfl
  have h10 : (1 : Nat) ≠ 0 := by decide
  have h0 : op ≠ 0 := by rcases hop with rfl | rfl <;> decide
  cases c with
  | mk key0 key1 nullKey nonceSize mallocFailed pageSize usable mask outbuf =>
  cases mask with
  | some mask =>
    simp only [sqliteCodecRc4, rc4Keyed, rc4Crypt, rc4Nonce, CodecRc4.key, h1, h0, h10, if_false]
    by_cases hk : key1.nullKey ≠ 0
    · simp only [if_pos hk, pageRc4]
    · simp only [if_neg hk]
      by_cases h4 : op &&& 4 ≠ 0
      · simp only [if_pos h4, pageRc4]
      · simp only [if_neg h4, pageRc4]
  | none =>
    simp only [sqliteCodecRc4]
    by_cases hf : mallocFailed ≠ 0
    · simp only [if_pos hf, pageRc4]
    · simp only [if_neg hf]
      cases h.malloc (pageSize * 2 + 8) with
      | none => simp only [pageRc4]
      | some blk =>
        simp only [rc4Keyed, rc4Crypt, rc4Nonce, CodecRc4.key, h1, h0, h10, if_false]
        by_cases hk : key1.nullKey ≠ 0
        · simp only [if_pos hk, pageRc4]
        · simp only [if_neg hk]
          by_cases h4 : op &&& 4 ≠ 0
          · simp only [if_pos h4, pageRc4]
          · simp only [if_neg h4, pageRc4]

theorem rc4_slot0_only (h : Host) (c : CodecRc4) (k : KeyRc4) (B : List Nat) (pgno op : Nat)
    (hop : op = 2 ∨ op = 6) :
    pageRc4 (sqliteCodecRc4 h { c with key1 := k } B pgno op) =
      pageRc4 (sqliteCodecRc4 h c B pgno op) := by
  have h1 : op &&& 1 = 0 := by rcases hop with rfl | rfl <;> rfl
  have h0 : op ≠ 0 := by rcases hop with rfl | rfl <;> decide
  cases c with
  | mk key0 key1 nullKey nonceSize mallocFailed pageSize usable mask outbuf =>
  cases mask with
  | some mask =>
    simp only [sqliteCodecRc4, rc4Keyed, rc4Crypt, rc4Nonce, CodecRc4.key, h1, h0, if_false,
      if_true]
    by_cases hk : key0.nullKey ≠ 0
    · simp only [if_pos hk, pageRc4]
    · simp only [if_neg hk]
      by_cases h4 : op &&& 4 ≠ 0
      · simp only [if_pos h4, pageRc4]
      · simp only [if_neg h4, pageRc4]
  | none =>
    simp only [sqliteCodecRc4]
    by_cases hf : mallocFailed ≠ 0
    · simp only [if_pos hf, pageRc4]
    · simp only [if_neg hf]
      cases h.malloc (pageSize * 2 + 8) with
      | none => simp only [pageRc4]
      | some blk =>
        simp only [rc4Keyed, rc4Crypt, rc4Nonce, CodecRc4.key, h1, h0, if_false, if_true]
        by_cases hk : key0.nullKey ≠ 0
        · simp only [if_pos hk, pageRc4]
        · simp only [if_neg hk]
          by_cases h4 : op &&& 4 ≠ 0
          · simp only [if_pos h4, pageRc4]
          · simp only [if_neg h4, pageRc4]

theorem cccrypt_slot1_only (h : Host) (c : CodecCCCrypto) (k : KeyCCCrypto) (B : List Nat)
    (pgno op : Nat) (hop : op = 3 ∨ op = 7) :
    pageCCCrypto (sqliteCodecCCCrypto h { c with key0 := k } B pgno op) =
      pageCCCrypto (sqliteCodecCCCrypto h c B pgno op) := by
  have h1 : op &&& 1 = 1 := by rcases hop with rfl | rfl <;> rfl
  have h10 : (1 : Nat) ≠ 0 := by decide
  have h0 : op ≠ 0 := by rcases hop with rfl | rfl <;> decide
  cases c with
  | mk key0 key1 nullKey nonceUsable mallocFailed nonceZero pageSize usable pZero mask outbuf =>
  simp only [sqliteCodecCCCrypto, CodecCCCrypto.key, h1, h0, h10, if_false]
  by_cases hk : key1.nullKey ≠ 0
  · simp only [if_pos hk, pageCCCrypto]
  · simp only [if_neg hk]
    cases mask with
    | some mask =>
      simp only [cccryptAlloc, cccryptCrypt, cccryptNonce, CodecCCCrypto.key, h1, h10, if_false]
      by_cases h4 : op &&& 4 ≠ 0
      · simp only [if_pos h4, pageCCCrypto]
      · simp only [if_neg h4, pageCCCrypto]
    | none =>
      simp only [cccryptAlloc]
      by_cases hf : mallocFailed ≠ 0
      · simp only [if_pos hf, pageCCCrypto]
      · simp only [if_neg hf]
        cases h.malloc (pageSize * 3) with
        | none => simp only [pageCCCrypto]
        | some blk =>
          simp only [cccryptCrypt, cccryptNonce, CodecCCCrypto.key, h1, h10, if_false]
          by_cases h4 : op &&& 4 ≠ 0
          · simp only [if_pos h4, pageCCCrypto]
          · simp only [if_neg h4, pageCCCrypto]

theorem cccrypt_slot0_only (h : Host) (c : CodecCCCrypto) (k : KeyCCCrypto) (B : List Nat)
    (pgno op : Nat) (hop : op = 2 ∨ op = 6) :
    pageCCCrypto (sqliteCodecCCCrypto h { c with key1 := k } B pgno op) =
      pageCCCrypto (sqliteCodecCCCrypto h c B pgno op) := by
  have h1 : op &&& 1 = 0 := by rcases hop with rfl | rfl <;> rfl
  have h0 : op ≠ 0 := by rcases hop with rfl | rfl <;> decide
  cases c with
  | mk key0 key1 nullKey nonceUsable mallocFailed nonceZero pageSize usable pZero mask outbuf =>
  simp only [sqliteCodecCCCrypto, CodecCCCrypto.key, h1, h0, if_false, if_true]
  by_cases hk : key0.nullKey ≠ 0
  · simp only [if_pos hk, pageCCCrypto]
  · simp only [if_neg hk]
    cases mask with
    | some mask =>
      simp only [cccryptAlloc, cccryptCrypt, cccryptNonce, CodecCCCrypto.key, h1, if_true]
      by_cases h4 : op &&& 4 ≠ 0
      · simp only [if_pos h4, pageCCCrypto]
      · simp only [if_neg h4, pageCCCrypto]
    | none =>
      simp only [cccryptAlloc]
      by_cases hf : mallocFailed ≠ 0
      · simp only [if_pos hf, pageCCCrypto]
      · simp only [if_neg hf]
        cases h.malloc (pageSize * 3) with
        | none => simp only [pageCCCrypto]
        | some blk =>
          simp only [cccryptCrypt, cccryptNonce, CodecCCCrypto.key, h1, if_true]
          by_cases h4 : op &&& 4 ≠ 0
          · simp only [if_pos h4, pageCCCrypto]
          · simp only [if_neg h4, pageCCCrypto]

theorem xor_slot1_only (h : Host) (c : CodecXor) (k : KeyXor) (beyond B : List Nat)
    (pgno op : Nat) (hop : op = 3 ∨ op = 7) :
    pageXor (sqliteCodecXor h { c with key0 := k } beyond B pgno op) =
      pageXor (sqliteCodecXor h c beyond B pgno op) := by
  have h1 : op &&& 1 = 1 := by rcases hop with rfl | rfl <;> rfl
  have h10 : (1 : Nat) ≠ 0 := by decide
  have h0 : op ≠ 0 := by rcases hop with rfl | rfl <;> decide
  cases c with
  | mk key0 key1 nullKey mallocFailed pageSize usable outbuf =>
  cases outbuf with
  | some o =>
    simp only [sqliteCodecXor, xorKeyed, xorCrypt, CodecXor.key, h1, h0, h10, if_false]
    by_cases hk : key1.nullKey ≠ 0
    · simp only [if_pos hk, pageXor]
    · simp only [if_neg hk]
      by_cases h4 : op &&& 4 ≠ 0
      · simp only [if_pos h4, pageXor]
      · simp only [if_neg h4, pageXor]
  | none =>
    simp only [sqliteCodecXor]
    by_cases hf : mallocFailed ≠ 0
    · simp only [if_pos hf, pageXor]
    · simp only [if_neg hf]
      cases h.malloc pageSize with
      | none => simp only [pageXor]
      | some blk =>
        simp only [xorKeyed, xorCrypt, CodecXor.key, h1, h0, h10, if_false]
        by_cases hk : key1.nullKey ≠ 0
        · simp only [if_pos hk, pageXor]
        · simp only [if_neg hk]
          by_cases h4 : op &&& 4 ≠ 0
          · simp only [if_pos h4, pageXor]
          · simp only [if_neg h4, pageXor]

theorem aes_slot1_only (A : Rijndael) (h : Host) (c : CodecAes128Ccm) (k : KeyAes128Ccm)
    (B : List Nat) (pgno op : Nat) (hop : op = 3 ∨ op = 7) :
    (sqliteCodecAes128Ccm A h { c with key0 := k } B pgno op).map pageAes =
      (sqliteCodecAes128Ccm A h c B pgno op).map pageAes := by
  have h1 : op &&& 1 = 1 := by rcases hop with rfl | rfl <;> rfl
  have h10 : (1 : Nat) ≠ 0 := by decide
  have h0 : op ≠ 0 := by rcases hop with rfl | rfl <;> decide
  have hke : ∀ (key0 key1 : KeyAes128Ccm) (nullKey mallocFailed pageSize usable : Nat)
      (m : Option (List Nat)) (outbuf mask : List Nat),
      (aesKeyed A h ⟨k, key1, nullKey, mallocFailed, pageSize, usable, m, outbuf⟩ mask B pgno
          op).map pageAes =
        (aesKeyed A h ⟨key0, key1, nullKey, mallocFailed, pageSize, usable, m, outbuf⟩ mask B
          pgno op).map pageAes := by
    intro key0 key1 nullKey mallocFailed pageSize usable m outbuf mask
    simp only [aesKeyed, CodecAes128Ccm.key, h1, h0, h10, if_false]
    by_cases hk : key1.nullKey ≠ 0
    · simp only [if_pos hk, Option.map_some', pageAes]
    · simp only [if_neg hk, aesCrypt, aesUnmasked, aesMask, aesNonce, CodecAes128Ccm.key, h1,
        h10, if_false]
      by_cases h4 : op &&& 4 = 0
      · simp only [if_pos h4]
        cases aesXor usable pgno B
            (if op &&& 2 ≠ 0 then
              writeAt mask 0 (aesCtrMask A key1.keySchedule ((usable + 16 + 15) / 16)
                (if op &&& 4 ≠ 0 then h.sqlite3_randomness 16
                  else List.take 16 (List.drop (usable + 16) B)))
            else mask) B with
        | none => rfl
        | some z =>
          simp only [Option.some_bind]
          split_ifs <;> rfl
      · simp only [if_neg h4]
        cases aesXor usable pgno
          (writeAt (writeAt B (usable + 16) (if op &&& 4 ≠ 0 then h.sqlite3_randomness 16
                  else List.take 16 (List.drop (usable + 16) B))) usable
            (computeMac A key1.keySchedule
              (writeAt B (usable + 16) (if op &&& 4 ≠ 0 then h.sqlite3_randomness 16
                  else List.take 16 (List.drop (usable + 16) B))) usable
              (List.drop (usable + 16)
                (writeAt B (usable + 16) (if op &&& 4 ≠ 0 then h.sqlite3_randomness 16
                  else List.take 16 (List.drop (usable + 16) B))))))
          (if op &&& 2 ≠ 0 then
              writeAt mask 0 (aesCtrMask A key1.keySchedule ((usable + 16 + 15) / 16)
                (if op &&& 4 ≠ 0 then h.sqlite3_randomness 16
                  else List.take 16 (List.drop (usable + 16) B)))
            else mask)
          (writeAt outbuf (usable + 16) (if op &&& 4 ≠ 0 then h.sqlite3_randomness 16
                  else List.take 16 (List.drop (usable + 16) B))) with
        | none => rfl
        | some z => rfl
  cases c with
  | mk key0 key1 nullKey mallocFailed pageSize usable mask outbuf =>
  cases mask with
  | some mask =>
    simp only [sqliteCodecAes128Ccm, aesAlloc]
    exact hke _ _ _ _ _ _ _ _ _
  | none =>
    simp only [sqliteCodecAes128Ccm, aesAlloc]
    by_cases hf : mallocFailed ≠ 0
    · simp only [if_pos hf, Option.map_some', pageAes]
    · simp only [if_neg hf]
      by_cases hg1 : (pageSize : Int) - (usable : Int) < 32
      · simp only [if_pos hg1, Option.map_some', pageAes]
      · simp only [if_neg hg1]
        by_cases hg2 : usable &&& 15 ≠ 0
        · simp only [if_pos hg2, Option.map_some', pageAes]
        · simp only [if_neg hg2]
          cases h.malloc (pageSize * 2 + 8) with
          | none => simp only [Option.map_some', pageAes]
          | some blk => exact hke _ _ _ _ _ _ _ _ _

theorem aes_slot0_only (A : Rijndael) (h : Host) (c : CodecAes128Ccm) (k : KeyAes128Ccm)
    (B : List Nat) (pgno op : Nat) (hop : op = 2 ∨ op = 6) :
    (sqliteCodecAes128Ccm A h { c with key1 := k } B pgno op).map pageAes =
      (sqliteCodecAes128Ccm A h c B pgno op).map pageAes := by
  have h1 : op &&& 1 = 0 := by rcases hop with rfl | rfl <;> rfl
  have h0 : op ≠ 0 := by rcases hop with rfl | rfl <;> decide
  have hke : ∀ (key0 key1 : KeyAes128Ccm) (nullKey mallocFailed pageSize usable : Nat)
      (m : Option (List Nat)) (outbuf mask : List Nat),
      (aesKeyed A h ⟨key0, k, nullKey, mallocFailed, pageSize, usable, m, outbuf⟩ mask B pgno
          op).map pageAes =
        (aesKeyed A h ⟨key0, key1, nullKey, mallocFailed, pageSize, usable, m, outbuf⟩ mask B
          pgno op).map pageAes := by
    intro key0 key1 nullKey mallocFailed pageSize usable m outbuf mask
    simp only [aesKeyed, CodecAes128Ccm.key, h1, h0, if_false, if_true]
    by_cases hk : key0.nullKey ≠ 0
    · simp only [if_pos hk, Option.map_some', pageAes]
    · simp only [if_neg hk, aesCrypt, aesUnmasked, aesMask, aesNonce, CodecAes128Ccm.key, h1,
        if_false, if_true]
      by_cases h4 : op &&& 4 = 0
      · simp only [if_pos h4]
        cases aesXor usable pgno B
            (if op &&& 2 ≠ 0 then
              writeAt mask 0 (aesCtrMask A key0.keySchedule ((usable + 16 + 15) / 16)
                (if op &&& 4 ≠ 0 then h.sqlite3_randomness 16
                  else List.take 16 (List.drop (usable + 16) B)))
            else mask) B with
        | none => rfl
        | some z =>
          simp only [Option.some_bind]
          split_ifs <;> rfl
      · simp only [if_neg h4]
        cases aesXor usable pgno
          (writeAt (writeAt B (usable + 16) (if op &&& 4 ≠ 0 then h.sqlite3_randomness 16
                  else List.take 16 (List.drop (usable + 16) B))) usable
            (computeMac A key0.keySchedule
              (writeAt B (usable + 16) (if op &&& 4 ≠ 0 then h.sqlite3_randomness 16
                  else List.take 16 (List.drop (usable + 16) B))) usable
              (List.drop (usable + 16)
                (writeAt B (usable + 16) (if op &&& 4 ≠ 0 then h.sqlite3_randomness 16
                  else List.take 16 (List.drop (usable + 16) B))))))
          (if op &&& 2 ≠ 0 then
              writeAt mask 0 (aesCtrMask A key0.keySchedule ((usable + 16 + 15) / 16)
                (if op &&& 4 ≠ 0 then h.sqlite3_randomness 16
                  else List.take 16 (List.drop (usable + 16) B)))
            else mask)
          (writeAt outbuf (usable + 16) (if op &&& 4 ≠ 0 then h.sqlite3_randomness 16
                  else List.take 16 (List.drop (usable + 16) B))) with
        | none => rfl
        | some z => rfl
  cases c with
  | mk key0 key1 nullKey mallocFailed pageSize usable mask outbuf =>
  cases mask with
  | some mask =>
    simp only [sqliteCodecAes128Ccm, aesAlloc]
    exact hke _ _ _ _ _ _ _ _ _
  | none =>
    simp only [sqliteCodecAes128Ccm, aesAlloc]
    by_cases hf : mallocFailed ≠ 0
    · simp only [if_pos hf, Option.map_some', pageAes]
    · simp only [if_neg hf]
      by_cases hg1 : (pageSize : Int) - (usable : Int) < 32
      · simp only [if_pos hg1, Option.map_some', pageAes]
      · simp only [if_neg hg1]
        by_cases hg2 : usable &&& 15 ≠ 0
        · simp only [if_pos hg2, Option.map_some', pageAes]
        · simp only [if_neg hg2]
          cases h.malloc (pageSize * 2 + 8) with
          | none => simp only [Option.map_some', pageAes]
          | some blk => exact hke _ _ _ _ _ _ _ _ _


/-- C30. Which key slot a transform reads.  For op 3 and op 7 the page
returned does not depend on slot 0, in all four backends: replacing slot 0 by
any other key leaves it the same.  For op 2 and op 6 the page returned does
not depend on slot 1 in the RC4, AES-CCM and CommonCrypto backends.  In the
XOR backend it does: `xorBuffers` reads `usable` bytes from the 32-byte array
`key[0].repeat`, behind which `key[1]` lies, so for op 6 bytes 34..65 of the
page returned are the page bytes XORed with the 32 bytes of `key[1].repeat`. -/
theorem C30_key_slot_selection (A : Rijndael) (h : Host) (B : List Nat) (pgno op : Nat) :
    (op = 3 ∨ op = 7 →
      (∀ (c : CodecRc4) (k : KeyRc4),
        pageRc4 (sqliteCodecRc4 h { c with key0 := k } B pgno op) =
          pageRc4 (sqliteCodecRc4 h c B pgno op)) ∧
      (∀ (c : CodecAes128Ccm) (k : KeyAes128Ccm),
        (sqliteCodecAes128Ccm A h { c with key0 := k } B pgno op).map pageAes =
          (sqliteCodecAes128Ccm A h c B pgno op).map pageAes) ∧
      (∀ (c : CodecCCCrypto) (k : KeyCCCrypto),
        pageCCCrypto (sqliteCodecCCCrypto h { c with key0 := k } B pgno op) =
          pageCCCrypto (sqliteCodecCCCrypto h c B pgno op)) ∧
      (∀ (c : CodecXor) (k : KeyXor) (beyond : List Nat),
        pageXor (sqliteCodecXor h { c with key0 := k } beyond B pgno op) =
          pageXor (sqliteCodecXor h c beyond B pgno op))) ∧
    (op = 2 ∨ op = 6 →
      (∀ (c : CodecRc4) (k : KeyRc4),
        pageRc4 (sqliteCodecRc4 h { c with key1 := k } B pgno op) =
          pageRc4 (sqliteCodecRc4 h c B pgno op)) ∧
      (∀ (c : CodecAes128Ccm) (k : KeyAes128Ccm),
        (sqliteCodecAes128Ccm A h { c with key1 := k } B pgno op).map pageAes =
          (sqliteCodecAes128Ccm A h c B pgno op).map pageAes) ∧
      (∀ (c : CodecCCCrypto) (k : KeyCCCrypto),
        pageCCCrypto (sqliteCodecCCCrypto h { c with key1 := k } B pgno op) =
          pageCCCrypto (sqliteCodecCCCrypto h c B pgno op))) ∧
    (op = 6 →
      ∀ (c : CodecXor) (after : List Nat), c.key0.nullKey = 0 → c.key0.repeat_.length = 32 →
        c.key1.repeat_.length = 32 → pgno ≠ 1 → 66 ≤ c.usable →
        c.usable ≤ 66 + after.length → c.usable ≤ c.pageSize → B.length = c.pageSize →
        xorScratchReady h c →
        ∃ E, pageXor (sqliteCodecXor h c (c.beyondKey0 after) B pgno op) = some E ∧
          ∀ k, k < 32 → E.getD (34 + k) 0 = B.getD (34 + k) 0 ^^^ c.key1.repeat_.getD k 0) := by
  refine ⟨fun hop => ⟨?_, ?_, ?_, ?_⟩, fun hop => ⟨?_, ?_, ?_⟩, ?_⟩
  · intro c k; exact rc4_slot1_only h c k B pgno op hop
  · intro c k; exact aes_slot1_only A h c k B pgno op hop
  · intro c k; exact cccrypt_slot1_only h c k B pgno op hop
  · intro c k beyond; exact xor_slot1_only h c k beyond B pgno op hop
  · intro c k; exact rc4_slot0_only h c k B pgno op hop
  · intro c k; exact aes_slot0_only A h c k B pgno op hop
  · intro c k; exact cccrypt_slot0_only h c k B pgno op hop
  · intro hop c after hkey hr0 hr1 hpg hU hbey hUP hB hs
    subst hop
    have hb : (c.beyondKey0 after).length = 34 + after.length := by
      simp only [CodecXor.beyondKey0, List.length_append, hr1, List.length_cons,
        List.length_nil]
    obtain ⟨E, hE, _, hpay⟩ := xor_encode h c (c.beyondKey0 after) B pgno 6 (Or.inl rfl) hkey
      (by rw [List.length_append, hb]
          have : (c.key (6 &&& 1)).repeat_.length = 32 := hr0
          omega) hUP (by omega) hB hs
    refine ⟨E, hE, ?_⟩
    intro k hk
    rw [hpay.2.2.1 (34 + k) (by omega), if_neg (fun hc => hpg hc.1)]
    have e0 : (c.key (6 &&& 1)).repeat_ = c.key0.repeat_ := rfl
    rw [e0, getD_append_right _ _ _ (by omega), hr0]
    unfold CodecXor.beyondKey0
    rw [List.append_assoc, getD_append_right _ _ _ (by simp; omega)]
    rw [getD_append_left _ _ _ (by simp; omega)]
    congr 2
    simp
    omega

set_option maxRecDepth 100000 in
/-- Witness of C30: op 6 in the XOR backend on page 2 of 512 zero bytes, slot 0
keyed with bytes 5.  With bytes 5 in slot 1 byte 34 of the page returned is 5,
with bytes 9 in slot 1 it is 9. -/
theorem C30_key_slot_selection_witness :
    ((6 : Nat) = 6) ∧
    (∃ E, pageXor (sqliteCodecXor hostOnes (xorFresh 512)
        ((xorFresh 512).beyondKey0 (List.replicate 446 0)) (List.replicate 512 0) 2 6) = some E ∧
      E.getD 34 0 = 5) ∧
    (∃ E, pageXor (sqliteCodecXor hostOnes { xorFresh 512 with key1 := xorKeyNines }
        (CodecXor.beyondKey0 { xorFresh 512 with key1 := xorKeyNines } (List.replicate 446 0))
        (List.replicate 512 0) 2 6) = some E ∧
      E.getD 34 0 = 9) :=
  ⟨rfl,
    ((C30_key_slot_selection xorRijndael hostOnes (List.replicate 512 0) 2 6).2.2 rfl
      (xorFresh 512) (List.replicate 446 0) rfl rfl rfl (by decide) (by decide) (by decide)
      (by decide) (List.length_replicate 512 0) ⟨rfl, rfl⟩).elim
      (fun E hE => ⟨E, hE.1, (hE.2 0 (by decide)).trans (by decide)⟩),
    ((C30_key_slot_selection xorRijndael hostOnes (List.replicate 512 0) 2 6).2.2 rfl
      { xorFresh 512 with key1 := xorKeyNines } (List.replicate 446 0) rfl rfl rfl (by decide)
      (by decide) (by decide) (by decide) (List.length_replicate 512 0) ⟨rfl, rfl⟩).elim
      (fun E hE => ⟨E, hE.1, (hE.2 0 (by decide)).trans (by decide)⟩)⟩

/-! ## Layout of an AES-CCM page -/

/-- The loop of `computeMac` is the CBC chain over the blocks it is given. -/
theorem computeMacLoop_spec (A : Rijndael) (rk data : List Nat) (n j : Nat) (out : List Nat)
    (ho : out.length = 16) :
    computeMacLoop A rk data n (16 * j) out =
      (List.range' j n).foldl
        (fun acc i => A.rijndaelEncrypt128Ccm rk
          (List.zipWith (fun x y => x ^^^ y) acc ((data.drop (16 * i)).take 16))) out := by
  induction n generalizing j out with
  | zero => rfl
  | succ n ih =>
    have hx : xorBlock out ((data.drop (16 * j)).take 16) =
        List.zipWith (fun x y => x ^^^ y) out ((data.drop (16 * j)).take 16) := by
      unfold xorBlock xorBytes
      rw [List.take_of_length_le (Nat.le_of_eq ho), List.take_take, Nat.min_self]
    simp only [computeMacLoop, List.range'_succ, List.foldl_cons]
    rw [hx, show 16 * j + 16 = 16 * (j + 1) from by omega]
    exact ih (j + 1) _ (A.length_encrypt _ _)

/-- The MAC `computeMac` leaves is the CBC chain of the spec over the payload. -/
theorem computeMac_eq_spec (A : Rijndael) (rk B nonce : List Nat) (U : Nat) (hU : U % 16 = 0)
    (hB : U ≤ B.length) (hn : nonce.length = 16) :
    computeMac A rk B U nonce = aesSpecMac A rk (B.take U) nonce := by
  rw [computeMac_congr A rk B (B.take U) U nonce nonce hU
    (by rw [List.take_take, Nat.min_self]) rfl]
  unfold computeMac aesSpecMac
  have h1 := computeMacLoop_spec A rk (B.take U) ((U + 15) / 16) 0
    (A.rijndaelEncrypt128Ccm rk (nonce.take 16)) (A.length_encrypt _ _)
  rw [Nat.mul_zero] at h1
  rw [h1, List.take_of_length_le (Nat.le_of_eq hn), List.length_take, Nat.min_eq_left hB,
    List.range_eq_range']
  congr 2
  omega

/-- C31. Layout of an AES-CCM page.  With exactly 32 reserved bytes behind a
payload that is a positive multiple of 16, a key in the selected slot and the
scratch space available, every encode (op 6 or 7) of a page `B` of `pageSize`
bytes returns a page `E` of `pageSize` bytes made of: the payload of `B` and
then its MAC, both XORed with the counter-mode mask (bytes 16..23 of page 1
are left unmasked), over `[0, usable + 16)`; and the 16-byte nonce in the
clear over `[usable + 16, usable + 32)`.  The MAC is the CBC chain
`E(...E(E(nonce) XOR block_0)... XOR block_last)` over the plaintext payload.
So every byte of `E` is fixed by the key schedule, the nonce, the page number
and `B`. -/
theorem C31_aes_trailer_layout (A : Rijndael) (h : Host) (c : CodecAes128Ccm) (B : List Nat)
    (pgno op : Nat) (hop : op = 6 ∨ op = 7) (hkey : (c.key (op &&& 1)).nullKey = 0)
    (hl : aesLayout c) (h32 : c.pageSize = c.usable + 32) (hB : B.length = c.pageSize)
    (hs : aesScratchReady h c) :
    ∃ E, (sqliteCodecAes128Ccm A h c B pgno op).bind pageAes = some E ∧
      E.length = c.pageSize ∧
      computeMac A (c.key (op &&& 1)).keySchedule B c.usable (h.sqlite3_randomness 16) =
        aesSpecMac A (c.key (op &&& 1)).keySchedule (B.take c.usable)
          (h.sqlite3_randomness 16) ∧
      E = (List.range (c.usable + 16)).map (fun k =>
            if pgno = 1 ∧ 16 ≤ k ∧ k < 24 then
              (B.take c.usable ++ aesSpecMac A (c.key (op &&& 1)).keySchedule (B.take c.usable)
                (h.sqlite3_randomness 16)).getD k 0
            else
              (B.take c.usable ++ aesSpecMac A (c.key (op &&& 1)).keySchedule (B.take c.usable)
                (h.sqlite3_randomness 16)).getD k 0 ^^^
              (aesCtrMask A (c.key (op &&& 1)).keySchedule ((c.usable + 16 + 15) / 16)
                (h.sqlite3_randomness 16)).getD k 0)
          ++ h.sqlite3_randomness 16 := by
  have hl' := hl
  obtain ⟨h16, h0, _⟩ := hl
  have hop0 : op ≠ 0 := by rcases hop with rfl | rfl <;> decide
  have hrl := length_randomness h 16
  obtain ⟨mask, outbuf, hml, hol, hal⟩ := aesAlloc_ok h c B hs hl'
  obtain ⟨r, E, hr, hE, hEl, hEp, hEn⟩ := aesCrypt_encode A h
    { c with nullKey := 0, mask := some mask, outbuf := outbuf } mask B pgno op hop hl' hB hml hol
  have henc : sqliteCodecAes128Ccm A h c B pgno op = some r := by
    unfold sqliteCodecAes128Ccm
    rw [hal]
    simp only [aesKeyed, hop0, if_false]
    rw [if_neg (by simpa [CodecAes128Ccm.key] using hkey)]
    exact hr
  have hkx : ({ c with nullKey := 0, mask := some mask, outbuf := outbuf } :
      CodecAes128Ccm).key (op &&& 1) = c.key (op &&& 1) := rfl
  simp only at hEl hEp hEn
  rw [hkx] at hEp
  have hmac := computeMac_eq_spec A (c.key (op &&& 1)).keySchedule B (h.sqlite3_randomness 16)
    c.usable h16 (by omega) hrl
  rw [hmac] at hEp
  refine ⟨E, by rw [henc]; exact hE, hEl, hmac, ?_⟩
  apply ext_of_getD
  · rw [List.length_append, List.length_map, List.length_range, hrl, hEl]; omega
  · intro k hk
    rw [hEl] at hk
    by_cases hk1 : k < c.usable + 16
    · rw [getD_append_left _ _ _ (by rw [List.length_map, List.length_range]; exact hk1),
        hEp k hk1]
      simp only [List.getD_eq_getElem?_getD, List.getElem?_map, List.getElem?_range hk1,
        Option.map_some', Option.getD_some]
    · rw [getD_append_right _ _ _ (by rw [List.length_map, List.length_range]; omega),
        List.length_map, List.length_range, ← hEn, getD_take _ _ _ (by omega), getD_drop]
      congr 1
      omega

/-- Witness of C31: page 2 of 512 zero bytes, 32 reserved bytes, op 6. -/
theorem C31_aes_trailer_layout_witness :
    ((6 : Nat) = 6 ∨ (6 : Nat) = 7) ∧ ((aesFresh 512 32).key (6 &&& 1)).nullKey = 0 ∧
    aesLayout (aesFresh 512 32) ∧ (aesFresh 512 32).pageSize = (aesFresh 512 32).usable + 32 ∧
    (List.replicate 512 0).length = (aesFresh 512 32).pageSize ∧
    aesScratchReady hostOnes (aesFresh 512 32) ∧
    ∃ E, (sqliteCodecAes128Ccm xorRijndael hostOnes (aesFresh 512 32) (List.replicate 512 0)
        2 6).bind pageAes = some E ∧ E.length = 512 :=
  ⟨Or.inl rfl, rfl, ⟨by decide, by decide, by decide⟩, by decide,
    List.length_replicate 512 0, ⟨rfl, rfl⟩,
    (C31_aes_trailer_layout xorRijndael hostOnes (aesFresh 512 32) (List.replicate 512 0) 2 6
      (Or.inl rfl) rfl ⟨by decide, by decide, by decide⟩ (by decide)
      (List.length_replicate 512 0) ⟨rfl, rfl⟩).imp
      (fun _ hE => ⟨hE.1, hE.2.1⟩)⟩

/-! ## The escapes of the decryptor tool -/

/-- The `switch` of `unescape` is the documented table. -/
theorem unescapeChar_spec (c : Nat) : unescapeChar c = (unescapeSpecTable.lookup c).getD c := by
  unfold unescapeChar unescapeSpecTable
  by_cases h1 : c = 48
  · subst h1; rfl
  by_cases h2 : c = 97
  · subst h2; rfl
  by_cases h3 : c = 98
  · subst h3; rfl
  by_cases h4 : c = 116
  · subst h4; rfl
  by_cases h5 : c = 110
  · subst h5; rfl
  by_cases h6 : c = 114
  · subst h6; rfl
  by_cases h7 : c = 118
  · subst h7; rfl
  by_cases h8 : c = 102
  · subst h8; rfl
  by_cases h9 : c = 115
  · subst h9; rfl
  by_cases h10 : c = 100
  · subst h10; rfl
  by_cases h11 : c = 113
  · subst h11; rfl
  have e : ∀ v : Nat, ¬ c = v → (c == v) = false := fun v hv => beq_eq_false_iff_ne.mpr hv
  simp only [List.lookup, e 48 h1, e 97 h2, e 98 h3, e 116 h4, e 110 h5, e 114 h6, e 118 h7,
    e 102 h8, e 115 h9, e 100 h10, e 113 h11, if_neg h1, if_neg h2, if_neg h3, if_neg h4,
    if_neg h5, if_neg h6, if_neg h7, if_neg h8, if_neg h9, if_neg h10, if_neg h11,
    Option.getD_none]

/-- The scan of the spec produces one character for each character of the text
that is not consumed by a two-character escape. -/
theorem unescapeSpec_length (t : List Nat) :
    (unescapeSpec t).1.length + (unescapeSpec t).2 = t.length := by
  have key : ∀ n (t : List Nat), t.length ≤ n →
      (unescapeSpec t).1.length + (unescapeSpec t).2 = t.length := by
    intro n
    induction n with
    | zero =>
      intro t ht
      have : t = [] := List.eq_nil_of_length_eq_zero (by omega)
      rw [this]; rfl
    | succ n ih =>
      intro t ht
      match t, ht with
      | [], _ => rfl
      | [c], _ => rfl
      | c :: d :: rest, ht =>
        simp only [List.length_cons] at ht
        have h1 := ih rest (by omega)
        have h2 := ih (d :: rest) (by simp only [List.length_cons]; omega)
        by_cases hc : c = 92
        · simp only [unescapeSpec, hc, if_true, List.length_cons]
          omega
        · simp only [unescapeSpec, hc, if_false, List.length_cons] at h2 ⊢
          omega
  exact key t.length t (Nat.le_refl _)

/-- Past the end of the text the loop of `unescape` stores nothing more. -/
theorem unescapeLoop_done (z : List Nat) (len f i : Nat) (out : List Nat) (hi : len ≤ i) :
    unescapeLoop z len f i out = out := by
  cases f with
  | zero => rfl
  | succ f =>
    unfold unescapeLoop
    rw [if_neg (by omega)]

/-- The loop of `unescape`, given enough iterations, appends the scan of the
rest of the text. -/
theorem unescapeLoop_spec (z : List Nat) (len : Nat) (hlen : len ≤ z.length) (f i : Nat)
    (out : List Nat) (hf : len ≤ i + f) :
    unescapeLoop z len f i out = out ++ (unescapeSpec ((z.take len).drop i)).1 := by
  induction f generalizing i out with
  | zero =>
    have e : (z.take len).drop i = [] := by
      apply List.drop_eq_nil_of_le
      rw [List.length_take]; omega
    rw [e]
    simp [unescapeLoop, unescapeSpec]
  | succ f ih =>
    by_cases hi : i < len
    · have hd : (z.take len).drop i = z.getD i 0 :: (z.take len).drop (i + 1) := by
        have hil : i < (z.take len).length := by rw [List.length_take]; omega
        rw [List.drop_eq_getElem_cons hil]
        congr 1
        rw [List.getElem_take, List.getD_eq_getElem?_getD, List.getElem?_eq_getElem (by omega),
          Option.getD_some]
      unfold unescapeLoop
      rw [if_pos hi]
      simp only
      by_cases hc : z.getD i 0 = 92
      · rw [if_pos hc]
        by_cases hk : i + 1 < len
        · have hd2 : (z.take len).drop (i + 1) = z.getD (i + 1) 0 :: (z.take len).drop (i + 2) := by
            have hil : i + 1 < (z.take len).length := by rw [List.length_take]; omega
            rw [List.drop_eq_getElem_cons hil]
            congr 1
            rw [List.getElem_take, List.getD_eq_getElem?_getD,
              List.getElem?_eq_getElem (by omega), Option.getD_some]
          rw [if_pos hk, ih (i + 2) _ (by omega), hd, hd2]
          simp only [unescapeSpec, hc, if_true, unescapeChar_spec, List.append_assoc,
            List.singleton_append]
        · have hd2 : (z.take len).drop (i + 1) = [] := by
            apply List.drop_eq_nil_of_le
            rw [List.length_take]; omega
          rw [if_neg hk, unescapeLoop_done z len f (i + 2) _ (by omega), hd, hd2, hc]
          simp only [unescapeSpec]
      · rw [if_neg hc, ih (i + 1) _ (by omega), hd]
        cases hr : (z.take len).drop (i + 1) with
        | nil => simp only [unescapeSpec, List.append_assoc, List.singleton_append]
        | cons d rest =>
          simp only [unescapeSpec, hc, if_false, List.append_assoc, List.singleton_append]
    · have e : (z.take len).drop i = [] := by
        apply List.drop_eq_nil_of_le
        rw [List.length_take]; omega
      rw [unescapeLoop_done z len _ i out (by omega), e]
      simp [unescapeSpec]

theorem strlen_le (z : List Nat) : strlen z ≤ z.length := by
  unfold strlen
  exact (List.takeWhile_sublist _).length_le

/-- C32. `unescape` equals its documented definition.  For every input string
`z` (with `calloc` giving the block), the string returned holds, in its first
`j` bytes, the left-to-right scan of the text of `z`: each backslash followed
by a character `c` replaced by the documented value of `c` for the letters
`0 a b t n r v f s d q` and by `c` itself otherwise, every other character
copied.  The length `j` reported is the number of characters produced, which
is the length of the text less the number of two-character escapes consumed,
and is at most the length of the text; the `len + 1` bytes of the block hold
zeros behind the characters produced. -/
theorem C32_unescape_documented (calloc : Nat → Bool) (z : List Nat)
    (hc : calloc (strlen z + 1) = true) :
    ∃ buf j, unescape calloc (some z) = some (buf, j) ∧
      buf.length = strlen z + 1 ∧
      buf.take j = (unescapeSpec (z.take (strlen z))).1 ∧
      j = (unescapeSpec (z.take (strlen z))).1.length ∧
      (∀ k, j ≤ k → buf.getD k 0 = 0) ∧
      j + (unescapeSpec (z.take (strlen z))).2 = strlen z ∧
      j ≤ strlen z := by
  have hout : unescapeLoop z (strlen z) (strlen z) 0 [] = (unescapeSpec (z.take (strlen z))).1 := by
    rw [unescapeLoop_spec z (strlen z) (strlen_le z) (strlen z) 0 [] (by omega)]
    simp only [List.drop_zero, List.nil_append]
  have hlen := unescapeSpec_length (z.take (strlen z))
  rw [List.length_take, Nat.min_eq_left (strlen_le z)] at hlen
  have hfit : 0 + (unescapeSpec (z.take (strlen z))).1.length ≤
      (List.replicate (strlen z + 1) 0).length := by
    rw [List.length_replicate]; omega
  refine ⟨writeAt (List.replicate (strlen z + 1) 0) 0 (unescapeSpec (z.take (strlen z))).1,
    (unescapeSpec (z.take (strlen z))).1.length, ?_, ?_, ?_, rfl, ?_, hlen, by omega⟩
  · simp only [unescape, hc, Bool.true_eq_false, if_false, hout]
  · rw [length_writeAt _ _ _ hfit, List.length_replicate]
  · unfold writeAt
    simp only [List.take_zero, List.nil_append, Nat.zero_add]
    rw [List.take_append_of_le_length (Nat.le_refl _), List.take_length]
  · intro k hk
    rw [getD_writeAt_ge _ _ _ _ (Nat.zero_le _) (by omega)]
    simp only [List.getD_eq_getElem?_getD, List.getElem?_replicate]
    split <;> rfl

/-- Witness of C32: the argument `\s\q\x\\a\` gives the six characters space,
single quote, `x`, backslash, `a`, backslash. -/
theorem C32_unescape_documented_witness :
    (fun _ : Nat => true) (strlen [92, 115, 92, 113, 92, 120, 92, 92, 97, 92, 0] + 1) = true ∧
    unescape (fun _ => true) (some [92, 115, 92, 113, 92, 120, 92, 92, 97, 92, 0]) =
      some ([32, 39, 120, 92, 97, 92, 0, 0, 0, 0, 0], 6) ∧
    ∃ buf j, unescape (fun _ => true) (some [92, 115, 92, 113, 92, 120, 92, 92, 97, 92, 0]) =
      some (buf, j) ∧ j ≤ strlen [92, 115, 92, 113, 92, 120, 92, 92, 97, 92, 0] :=
  ⟨rfl, by decide,
    (C32_unescape_documented (fun _ => true) [92, 115, 92, 113, 92, 120, 92, 92, 97, 92, 0]
      rfl).imp (fun _ hb => hb.imp (fun _ hj => ⟨hj.1, hj.2.2.2.2.2.2⟩))⟩

/-! ## The AES-CCM gate, the page number, and the key length -/

/-- Counterexample to C33.  The codec `aesFailed` is a state reached from the
attached codec: pages of 512 bytes with 32 reserved bytes, a call in which the
allocation of the mask fails, then a size change to 31 reserved bytes.  Its
mask is not allocated and `pageSize - usable` is 31, yet the encode (op 6) of
page 2 returns `NULL`, not the caller's page: the record of the failed
allocation is tested before the reserved space. -/
theorem C33_aes_failed_allocation_counterexample :
    AesReachable xorRijndael aesFailed ∧
    aesFailed.mask = none ∧ ((aesFailed.pageSize : Int) - (aesFailed.usable : Int) < 32) ∧
    sqliteCodecAes128Ccm xorRijndael hostOnes aesFailed (List.replicate 512 9) 2 6 =
      some ⟨aesFailed, List.replicate 512 9, Ret.null⟩ ∧
    (sqliteCodecAes128Ccm xorRijndael hostOnes aesFailed (List.replicate 512 9) 2 6).bind
      pageAes = none :=
  ⟨AesReachable.sizeChng _ 512 31 9
      (AesReachable.transform (sqliteCodecAes128CcmSizeChng (aesAttached aesKeySevens) 512 32)
        hostNoMemory [] 2 6
        ⟨{ key0 := aesKeySevens, key1 := aesKeySevens, nullKey := 0, mallocFailed := 1,
           pageSize := 512, usable := 480, mask := none, outbuf := [] }, [], Ret.null⟩
        (AesReachable.sizeChng (aesAttached aesKeySevens) 512 32 9
          (AesReachable.attached aesKeySevens) (by decide) (by decide) (by decide) (by decide))
        rfl)
      (by decide) (by decide) (by decide) (by decide),
    rfl, by decide, rfl, rfl⟩

/-- C33 as amended.  AES-CCM with too little reserved space.  While the mask is
not allocated and `pageSize - usable < 32`, a call of `sqliteCodecAes128Ccm`,
for every page, page number, op and key slots, leaves the codec as it was (so
nothing is allocated) and the caller's page as it was.  When no allocation
failure is on record it returns the caller's page: pages are written in the
clear without any error.  When an allocation failure is on record it returns
`NULL`. -/
theorem C33_aes_small_reserve_amended (A : Rijndael) (h : Host) (c : CodecAes128Ccm)
    (B : List Nat) (pgno op : Nat) (hm : c.mask = none)
    (hg : (c.pageSize : Int) - (c.usable : Int) < 32) :
    (c.mallocFailed = 0 →
      sqliteCodecAes128Ccm A h c B pgno op = some ⟨c, B, Ret.pageData⟩ ∧
      (sqliteCodecAes128Ccm A h c B pgno op).bind pageAes = some B) ∧
    (c.mallocFailed ≠ 0 →
      sqliteCodecAes128Ccm A h c B pgno op = some ⟨c, B, Ret.null⟩ ∧
      (sqliteCodecAes128Ccm A h c B pgno op).bind pageAes = none) ∧
    ∃ ret, sqliteCodecAes128Ccm A h c B pgno op = some ⟨c, B, ret⟩ := by
  have hnull : c.mallocFailed ≠ 0 →
      sqliteCodecAes128Ccm A h c B pgno op = some ⟨c, B, Ret.null⟩ := by
    intro hf
    unfold sqliteCodecAes128Ccm aesAlloc
    rw [hm]
    simp only [if_pos hf]
  refine ⟨?_, ?_, ?_⟩
  · intro hf
    have e := aes_gate A h c B pgno op hm hf (Or.inl hg)
    rw [e]
    exact ⟨rfl, rfl⟩
  · intro hf
    rw [hnull hf]
    exact ⟨rfl, rfl⟩
  · by_cases hf : c.mallocFailed = 0
    · exact ⟨Ret.pageData, aes_gate A h c B pgno op hm hf (Or.inl hg)⟩
    · exact ⟨Ret.null, hnull hf⟩

/-- Witness of the amended C33: a keyed codec for pages of 512 bytes with 31
reserved bytes and no failure on record, encode (op 6) of page 2. -/
theorem C33_aes_small_reserve_amended_witness :
    (aesFresh 512 31).mask = none ∧
    (((aesFresh 512 31).pageSize : Int) - ((aesFresh 512 31).usable : Int) < 32) ∧
    (aesFresh 512 31).mallocFailed = 0 ∧
    (sqliteCodecAes128Ccm xorRijndael hostOnes (aesFresh 512 31) (List.replicate 512 9) 2 6).bind
      pageAes = some (List.replicate 512 9) :=
  ⟨rfl, by decide, rfl,
    ((C33_aes_small_reserve_amended xorRijndael hostOnes (aesFresh 512 31)
      (List.replicate 512 9) 2 6 rfl (by decide)).1 rfl).2⟩

/-- The masking step of the AES codec looks at the page number only to tell
page 1 from the others. -/
theorem aesXor_pgno (U p q : Nat) (src mask out : List Nat) (hp : p ≠ 1) (hq : q ≠ 1) :
    aesXor U p src mask out = aesXor U q src mask out := by
  unfold aesXor
  simp only [hp, hq, if_false]

/-- The transformation of the AES codec is the same for any two page numbers
other than 1. -/
theorem aesCrypt_pgno (A : Rijndael) (h : Host) (c : CodecAes128Ccm) (mask B : List Nat)
    (p q op : Nat) (hp : p ≠ 1) (hq : q ≠ 1) :
    aesCrypt A h c mask B p op = aesCrypt A h c mask B q op := by
  unfold aesCrypt aesUnmasked
  simp only [aesXor_pgno _ p q _ _ _ hp hq]

/-- The call of the AES codec is the same for any two page numbers other
than 1. -/
theorem aes_pgno (A : Rijndael) (h : Host) (c : CodecAes128Ccm) (B : List Nat)
    (p q op : Nat) (hp : p ≠ 1) (hq : q ≠ 1) :
    sqliteCodecAes128Ccm A h c B p op = sqliteCodecAes128Ccm A h c B q op := by
  unfold sqliteCodecAes128Ccm
  cases aesAlloc h c B with
  | error r => rfl
  | ok x =>
    cases x with
    | mk c1 mask =>
      simp only [aesKeyed, aesCrypt_pgno A h _ mask B p q _ hp hq]

/-- The page a decode has unmasked is the same for any two page numbers other
than 1. -/
theorem aesDecoded_pgno (A : Rijndael) (h : Host) (c : CodecAes128Ccm) (B : List Nat)
    (p q op : Nat) (hp : p ≠ 1) (hq : q ≠ 1) :
    aesDecoded A h c B p op = aesDecoded A h c B q op := by
  unfold aesDecoded
  cases aesAlloc h c B with
  | error r => rfl
  | ok x =>
    cases x with
    | mk c1 mask =>
      simp only [aesUnmasked, aesXor_pgno _ p q _ _ _ hp hq]

/-- C34. The AES-CCM codec ignores the page number except for page 1.  For any
two page numbers `p` and `q` other than 1, and for every codec, page, op and
host (hence every nonce drawn), the call gives the same result for `p` as for
`q`: the same page returned, the same page left with the caller, the same
codec state.  Hence a page encoded at `p` and decoded at `q` (same key in the
slot, same layout, as in the round trip) gets to the MAC verification with a
page whose MAC verifies, and is returned with the payload that was encoded. -/
theorem C34_aes_page_number_free (A : Rijndael) (h : Host) (c : CodecAes128Ccm)
    (B : List Nat) (p q : Nat) (hp : p ≠ 1) (hq : q ≠ 1) :
    (∀ op, sqliteCodecAes128Ccm A h c B p op = sqliteCodecAes128Ccm A h c B q op) ∧
    ∀ (op : Nat) (h2 : Host) (c2 : CodecAes128Ccm), (op = 6 ∨ op = 7) →
      (c.key (op &&& 1)).nullKey = 0 → aesLayout c → B.length = c.pageSize →
      aesScratchReady h c → c2.key (op &&& 1) = c.key (op &&& 1) →
      c2.pageSize = c.pageSize → c2.usable = c.usable → aesScratchReady h2 c2 →
      ∃ E z, (sqliteCodecAes128Ccm A h c B p op).bind pageAes = some E ∧
        aesDecoded A h2 c2 E q (op - 4) = some z ∧
        computeMac A (c2.key ((op - 4) &&& 1)).keySchedule z c2.usable
          (z.drop (c2.usable + 16)) = (z.drop c2.usable).take 16 ∧
        (sqliteCodecAes128Ccm A h2 c2 E q (op - 4)).bind pageAes = some z ∧
        z.take c.usable = B.take c.usable := by
  refine ⟨fun op => aes_pgno A h c B p q op hp hq, ?_⟩
  intro op h2 c2 hop hkey hl hB hs hk2 hP2 hU2 hs2
  obtain ⟨r, E, z, henc, hE, hdec, hmac, hret, _, hzt, _⟩ :=
    aes_round_trip A h h2 c c2 B p op hop hkey hl hB hs hk2 hP2 hU2 hs2
  refine ⟨E, z, by rw [henc]; exact hE, ?_, hmac, ?_, hzt⟩
  · rw [← aesDecoded_pgno A h2 c2 E p q (op - 4) hp hq]; exact hdec
  · rw [← aes_pgno A h2 c2 E p q (op - 4) hp hq]; exact hret

/-- Witness of C34: pages 2 and 7 of 512 zero bytes, 32 reserved bytes, op 6. -/
theorem C34_aes_page_number_free_witness :
    (2 : Nat) ≠ 1 ∧ (7 : Nat) ≠ 1 ∧
    sqliteCodecAes128Ccm xorRijndael hostOnes (aesFresh 512 32) (List.replicate 512 0) 2 6
      = sqliteCodecAes128Ccm xorRijndael hostOnes (aesFresh 512 32) (List.replicate 512 0) 7 6 :=
  ⟨by decide, by decide,
    (C34_aes_page_number_free xorRijndael hostOnes (aesFresh 512 32) (List.replicate 512 0) 2 7
      (by decide) (by decide)).1 6⟩

/-- C35. `loadKeyRc4` and `loadKeyXor` are not total: for a key pointer that is
not `NULL` and a length other than zero, the modulus of `zKey[i%nKey]` is zero,
and the routine has no result, exactly when the length is negative and the
length of the text is zero modulo 2^24, as it is for the empty text. -/
theorem C35_loadKey_modulus_zero (kr : KeyRc4) (kx : KeyXor) (z : List Nat) (nKey : Int)
    (hn : nKey ≠ 0) :
    (loadKeyRc4 kr (some z) nKey = none ↔ (nKey < 0 ∧ strlen z % 16777216 = 0)) ∧
    (loadKeyXor kx (some z) nKey = none ↔ (nKey < 0 ∧ strlen z % 16777216 = 0)) := by
  have key : ∀ keySz : Nat, keySz ≠ 0 →
      ((if keySz < (if nKey < 0 then strlen z % 16777216 else nKey.toNat) then keySz
        else (if nKey < 0 then strlen z % 16777216 else nKey.toNat)) = 0 ↔
        (nKey < 0 ∧ strlen z % 16777216 = 0)) := by
    intro keySz hk
    constructor
    · intro h0
      by_cases hneg : nKey < 0
      · refine ⟨hneg, ?_⟩
        by_contra hz
        exact keyLength_ne_zero z nKey keySz hk hn (fun _ => hz) h0
      · exact absurd h0 (keyLength_ne_zero z nKey keySz hk hn (fun h => absurd h hneg))
    · rintro ⟨hneg, hz⟩
      rw [if_pos hneg, hz]
      have : ¬ keySz < 0 := Nat.not_lt_zero _
      rw [if_neg this]
  constructor
  · simp only [loadKeyRc4, hn, ne_eq, not_false_eq_true, if_true]
    rw [← key 256 (by decide)]
    split <;> simp_all
  · simp only [loadKeyXor, hn, ne_eq, not_false_eq_true, if_true]
    rw [← key 32 (by decide)]
    split <;> simp_all

/-- Witness of C35: the empty text given with the length -1 (a passphrase). -/
theorem C35_loadKey_modulus_zero_witness :
    ((-1 : Int) ≠ 0) ∧ loadKeyRc4 rc4KeyNull (some [0]) (-1) = none ∧
    loadKeyXor xorKeyNull (some [0]) (-1) = none :=
  ⟨by decide,
    (C35_loadKey_modulus_zero rc4KeyNull xorKeyNull [0] (-1) (by decide)).1.mpr
      ⟨by decide, by decide⟩,
    (C35_loadKey_modulus_zero rc4KeyNull xorKeyNull [0] (-1) (by decide)).2.mpr
      ⟨by decide, by decide⟩⟩

/-! ## Keying a database that is not attached -/

/-- With a name that matches no database, the `if`/`else` of `sqlite3_key_v2`
sets `rc` to `SQLITE_ERROR` and attaches nothing. -/
theorem keyNamed_unknown {K σ : Type} (B : Backend K) (S : Sqlite σ) (db : Conn K σ)
    (z : Option String) (pKey : Option (List Nat)) (nKey : Int)
    (hname : sqlite3NameToDb S db z < 0) :
    keyNamed B S db z pKey nKey = some (S.SQLITE_ERROR,
      ((db.ext S Call.sqlite3_mutex_enter).1.ext S Call.sqlite3BtreeEnterAll).1) := by
  unfold keyNamed
  have e : sqlite3NameToDb S
      ((db.ext S Call.sqlite3_mutex_enter).1.ext S Call.sqlite3BtreeEnterAll).1 z =
      sqlite3NameToDb S db z := sqlite3NameToDb_congr S _ _ z rfl
  simp only [e, hname, if_true]

/-- C36. Keying a database that is not attached.  With encryption enabled and
a name that matches no database of the connection, `sqlite3_key_v2` of the
RC4, AES-CCM and CommonCrypto files returns `SQLITE_ERROR` and leaves every
database as it was.  The `sqlite3_key_v2` of `see-xor.c` does not: it goes on
to attach a codec to database 0.  Database 0 having a b-tree, it makes one
allocation; when that succeeds it returns `SQLITE_OK` and database 0 has been
given a codec with the key in both slots, and when that fails it returns
`SQLITE_NOMEM`. -/
theorem C36_key_unknown_database {σ : Type} (S : Sqlite σ) (z : Option String)
    (pKey : Option (List Nat)) (nKey : Int) :
    (∀ (K : Type) (B : Backend K) (db : Conn K σ), sqlite3NameToDb S db z < 0 →
      ∃ db', sqlite3_key_v2 B S true db z pKey nKey = some (S.SQLITE_ERROR, db') ∧
        db'.aDb = db.aDb) ∧
    (∀ (db : Conn KeyXor σ) (d0 : Db KeyXor) (k : KeyXor), sqlite3NameToDb S db z < 0 →
      db.aDb[0]? = some d0 → d0.pBt = true →
      loadKeyXor xorBackend.zeroKey pKey nKey = some k →
      ∃ rc db' m, sqlite3_key_v2_xor S true db z pKey nKey = some (rc, db') ∧
        Event.call Call.sqlite3_malloc m ∈ db'.trace ∧
        (m ≠ 0 → rc = S.SQLITE_OK ∧ db'.codec 0 = some ⟨k, k⟩) ∧
        (m = 0 → rc = S.SQLITE_NOMEM ∧ db'.aDb = db.aDb)) := by
  constructor
  · intro K B db hname
    have hn : sqlite3NameToDb S { db with trace := [] } z < 0 := by
      rw [sqlite3NameToDb_congr S { db with trace := [] } db z rfl]; exact hname
    refine ⟨(keyLeave S (S.SQLITE_ERROR, ((({ db with trace := [] } : Conn K σ).ext S
      Call.sqlite3_mutex_enter).1.ext S Call.sqlite3BtreeEnterAll).1)).2, ?_, rfl⟩
    simp only [sqlite3_key_v2, Bool.true_eq_false, if_false,
      keyNamed_unknown B S _ z pKey nKey hn, Option.map_some', keyLeave]
  · intro db d0 k hname h0 hbt hk
    have hn : sqlite3NameToDb S { db with trace := [] } z < 0 := by
      rw [sqlite3NameToDb_congr S { db with trace := [] } db z rfl]; exact hname
    have hlen : 0 < db.aDb.length := by
      by_contra hc
      rw [List.getElem?_eq_none (Nat.le_of_not_lt hc)] at h0
      exact absurd h0 (by simp)
    simp only [sqlite3_key_v2_xor, Bool.true_eq_false, if_false,
      keyNamed_unknown xorBackend S _ z pKey nKey hn, Option.some_bind]
    unfold sqlite3CodecAttach
    have h0' : (((({ db with trace := [] } : Conn KeyXor σ).ext S Call.sqlite3_mutex_enter).1.ext S
        Call.sqlite3BtreeEnterAll).1).aDb[0]? = some d0 := h0
    rw [h0']
    simp only [hbt, if_true]
    have hk' : xorBackend.loadKey xorBackend.zeroKey pKey nKey = some k := hk
    by_cases hm : (((({ db with trace := [] } : Conn KeyXor σ).ext S
        Call.sqlite3_mutex_enter).1.ext S Call.sqlite3BtreeEnterAll).1.ext S
        Call.sqlite3_malloc).2 = 0
    · rw [if_pos hm]
      refine ⟨S.SQLITE_NOMEM, _, 0, rfl, ?_, fun h => absurd rfl h, fun _ => ⟨rfl, rfl⟩⟩
      simp only [Conn.ext] at hm
      simp [keyLeave, Conn.ext, hm]
    · rw [if_neg hm, hk']
      refine ⟨S.SQLITE_OK, _, _, rfl, ?_, fun _ => ⟨rfl, ?_⟩, fun h => absurd h hm⟩
      · simp [keyLeave, Conn.ext, Conn.setCodec, xorBackend]
      · have e := Conn.codec_setCodec
          ((((({ db with trace := [] } : Conn KeyXor σ).ext S Call.sqlite3_mutex_enter).1.ext S
            Call.sqlite3BtreeEnterAll).1.ext S Call.sqlite3_malloc).1.ext S
            (Call.sqlite3PagerSetCodec 0)).1 0 ⟨k, k⟩ hlen
        exact (Conn.codec_congr _ _ 0 rfl).trans e

/-- Witness of C36: in `connKeyed`, whose only database is "main" with the key
5, `sqlite3_key_v2` of `see-xor.c` for the name "aux" and the key 9 returns 0
(`SQLITE_OK`) and "main" has the key 9; that of `see-rc4.c`, on `connRc4Long`,
returns 1 (`SQLITE_ERROR`). -/
theorem C36_key_unknown_database_witness :
    sqlite3NameToDb (sqliteStub (pagerThreePages Call.sqlite3_mutex_enter 0)) connKeyed
      (some "aux") < 0 ∧
    (sqlite3_key_v2_xor (sqliteStub (pagerThreePages Call.sqlite3_mutex_enter 0)) true connKeyed
      (some "aux") (some [9]) 1).map (fun r => (r.1, r.2.codec 0)) =
      some (0, some ⟨xorKeyNines, xorKeyNines⟩) ∧
    (sqlite3_key_v2 rc4Backend (sqliteStub (pagerThreePages Call.sqlite3_mutex_enter 0)) true
      connRc4Long (some "aux") (some [9]) 1).map (fun r => (r.1, r.2.codec 0)) =
      some (1, some ⟨rc4KeyLong, rc4KeyLong⟩) ∧
    ∃ rc db' m, sqlite3_key_v2_xor (sqliteStub (pagerThreePages Call.sqlite3_mutex_enter 0)) true
        connKeyed (some "aux") (some [9]) 1 = some (rc, db') ∧
      Event.call Call.sqlite3_malloc m ∈ db'.trace ∧
      (m ≠ 0 → rc = 0 ∧ db'.codec 0 = some ⟨xorKeyNines, xorKeyNines⟩) ∧
      (m = 0 → rc = 7 ∧ db'.aDb = connKeyed.aDb) :=
  ⟨by decide, rfl, rfl,
    (C36_key_unknown_database (sqliteStub (pagerThreePages Call.sqlite3_mutex_enter 0))
      (some "aux") (some [9]) 1).2 connKeyed
      { zDbSName := "main", pBt := true, readOnly := false,
        pCodec := some ⟨xorKeyFives, xorKeyFives⟩ } xorKeyNines (by decide) rfl rfl rfl⟩

/-! ## Page references in a re-key -/

theorem isSetup_refs (e : Event) (h : e.isSetup = true) :
    e ≠ Event.loadKey ∧ e.released = none ∧ e.releasedOne = false ∧ e.interrupted = false := by
  rcases e with ⟨c, x⟩ | _ | _ | _
  · cases c <;> simp [Event.isSetup, Event.released, Event.releasedOne, Event.interrupted] at h ⊢
  · simp [Event.isSetup] at h
  · simp [Event.isSetup] at h
  · simp [Event.isSetup] at h

theorem isClosing_refs {σ : Type} (S : Sqlite σ) (e : Event) (h : e.isClosing = true) :
    e ≠ Event.loadKey ∧ e.obtained S = none ∧ e.released = none ∧ e.interrupted = false := by
  rcases e with ⟨c, x⟩ | _ | _ | _
  · cases c <;> simp [Event.isClosing, Event.obtained, Event.released, Event.interrupted] at h ⊢
  · simp [Event.isClosing] at h
  · simp [Event.obtained, Event.released, Event.interrupted]
  · simp [Event.obtained, Event.released, Event.interrupted]

theorem scanStep_refs (e : Event) (h : e.scanStep = true) :
    e ≠ Event.loadKey ∧ e.releasedOne = false := by
  rcases e with ⟨c, x⟩ | _ | _ | _
  · cases c <;> simp [Event.scanStep, Event.releasedOne] at h ⊢
  · simp [Event.scanStep] at h
  · simp [Event.scanStep] at h
  · simp [Event.scanStep] at h

theorem filter_none (f : Event → Bool) (l : List Event) (h : ∀ e ∈ l, f e = false) :
    l.filter f = [] := by
  induction l with
  | nil => rfl
  | cons a l ih =>
    rw [List.filter_cons, h a (List.mem_cons_self _ _)]
    exact ih (fun e he => h e (List.mem_cons_of_mem _ he))

theorem takeWhile_loadKey (pre rest : List Event) (h : ∀ e ∈ pre, e ≠ Event.loadKey) :
    (pre ++ Event.loadKey :: rest).takeWhile (fun e => e ≠ Event.loadKey) = pre := by
  induction pre with
  | nil => simp [List.takeWhile]
  | cons a pre ih =>
    have ha : a ≠ Event.loadKey := h a (List.mem_cons_self _ _)
    rw [List.cons_append, List.takeWhile_cons]
    simp only [ha, ne_eq, not_false_eq_true, decide_True, if_true]
    rw [ih (fun e he => h e (List.mem_cons_of_mem _ he))]

theorem takeWhile_noLoadKey (T : List Event) (h : ∀ e ∈ T, e ≠ Event.loadKey) :
    T.takeWhile (fun e => e ≠ Event.loadKey) = T ∧
    T.dropWhile (fun e => e ≠ Event.loadKey) = [] := by
  induction T with
  | nil => simp
  | cons a T ih =>
    have ha : a ≠ Event.loadKey := h a (List.mem_cons_self _ _)
    obtain ⟨h1, h2⟩ := ih (fun e he => h e (List.mem_cons_of_mem _ he))
    rw [List.takeWhile_cons, List.dropWhile_cons]
    simp only [ha, ne_eq, not_false_eq_true, decide_True, if_true]
    exact ⟨by rw [h1], h2⟩

/-- The page references of the scan: every page it obtains a reference to is
released, in the same order, except the page at which it finds the interrupt
flag set, which it leaves without releasing it. -/
theorem rekeyScan_refs {K σ : Type} (S : Sqlite σ) (iDb skip : Nat) :
    ∀ (n i : Nat) (db : Conn K σ),
      ∃ t, (rekeyScan S iDb skip n i db).1.trace = db.trace ++ t ∧
        (∀ e ∈ t, e.scanStep = true) ∧
        (∀ q ∈ t.filterMap (Event.obtained S), i ≤ q) ∧
        (((∀ e ∈ t, e.interrupted = false) ∧
            t.filterMap (Event.obtained S) = t.filterMap Event.released) ∨
          ((∃ e ∈ t, e.interrupted = true) ∧
            ∃ p, t.filterMap (Event.obtained S) = t.filterMap Event.released ++ [p] ∧
              p ∉ t.filterMap Event.released)) := by
  intro n
  induction n with
  | zero =>
    intro i db
    exact ⟨[], by simp [rekeyScan], by simp, by simp, Or.inl ⟨by simp, rfl⟩⟩
  | succ n ih =>
    intro i db
    by_cases hskip : i = skip
    · have e1 : rekeyScan S iDb skip (n + 1) i db = rekeyScan S iDb skip n (i + 1) db := by
        simp [rekeyScan, hskip]
      rw [e1]
      obtain ⟨t, ht, hs, hge, ho⟩ := ih (i + 1) db
      exact ⟨t, ht, hs, fun q hq => Nat.le_of_succ_le (hge q hq), ho⟩
    · obtain ⟨g, hgd⟩ : ∃ g, g = db.ext S (Call.sqlite3PagerGet iDb i) := ⟨_, rfl⟩
      obtain ⟨f, hfd⟩ : ∃ f, f = g.1.ext S Call.readIsInterrupted := ⟨_, rfl⟩
      obtain ⟨c, hcd⟩ : ∃ c, c = f.1.ext S Call.clearIsInterrupted := ⟨_, rfl⟩
      obtain ⟨w, hwd⟩ : ∃ w, w = f.1.ext S (Call.sqlite3PagerWrite iDb i) := ⟨_, rfl⟩
      obtain ⟨u, hud⟩ : ∃ u, u = w.1.ext S (Call.sqlite3PagerUnref iDb i) := ⟨_, rfl⟩
      have hgt : g.1.trace = db.trace ++ [Event.call (Call.sqlite3PagerGet iDb i) g.2] := by
        rw [hgd]; rfl
      have hft : f.1.trace = g.1.trace ++ [Event.call Call.readIsInterrupted f.2] := by
        rw [hfd]; rfl
      have hct : c.1.trace = f.1.trace ++ [Event.call Call.clearIsInterrupted c.2] := by
        rw [hcd]; rfl
      have hwt : w.1.trace = f.1.trace ++ [Event.call (Call.sqlite3PagerWrite iDb i) w.2] := by
        rw [hwd]; rfl
      have hut : u.1.trace = w.1.trace ++ [Event.call (Call.sqlite3PagerUnref iDb i) u.2] := by
        rw [hud]; rfl
      have e0 : rekeyScan S iDb skip (n + 1) i db =
          if g.2 ≠ S.SQLITE_OK then (g.1, g.2)
          else if f.2 ≠ 0 then (c.1, S.SQLITE_INTERRUPT)
          else if w.2 = S.SQLITE_OK then rekeyScan S iDb skip n (i + 1) u.1
          else (u.1, w.2) := by
        rw [hud, hwd, hcd, hfd, hgd]
        simp only [rekeyScan, if_neg hskip]
      rw [e0]
      by_cases hg : g.2 = S.SQLITE_OK
      · rw [if_neg (not_not.2 hg)]
        by_cases hf0 : f.2 = 0
        · rw [if_neg (not_not.2 hf0)]
          have hput : u.1.trace = db.trace ++ [Event.call (Call.sqlite3PagerGet iDb i)
                S.SQLITE_OK, Event.call Call.readIsInterrupted 0,
                Event.call (Call.sqlite3PagerWrite iDb i) w.2,
                Event.call (Call.sqlite3PagerUnref iDb i) u.2] := by
            rw [hut, hwt, hft, hgt, hg, hf0]
            simp
          by_cases hw : w.2 = S.SQLITE_OK
          · rw [if_pos hw]
            obtain ⟨t, ht, hs, hge, ho⟩ := ih (i + 1) u.1
            refine ⟨Event.call (Call.sqlite3PagerGet iDb i) S.SQLITE_OK ::
              Event.call Call.readIsInterrupted 0 ::
              Event.call (Call.sqlite3PagerWrite iDb i) w.2 ::
              Event.call (Call.sqlite3PagerUnref iDb i) u.2 :: t, ?_, ?_, ?_, ?_⟩
            · rw [ht, hput]
              simp
            · intro e he
              simp only [List.mem_cons] at he
              rcases he with rfl | rfl | rfl | rfl | he
              · rfl
              · rfl
              · rfl
              · rfl
              · exact hs e he
            · intro q hq
              simp only [List.filterMap_cons, Event.obtained, if_true, List.mem_cons] at hq
              rcases hq with rfl | hq
              · exact Nat.le_refl _
              · exact Nat.le_of_succ_le (hge q hq)
            · simp only [List.filterMap_cons, Event.obtained, Event.released, if_true]
              rcases ho with ⟨hni, heq⟩ | ⟨⟨e, he, hei⟩, p, heq, hp⟩
              · left
                refine ⟨?_, by rw [heq]⟩
                intro e he
                simp only [List.mem_cons] at he
                rcases he with rfl | rfl | rfl | rfl | he
                · rfl
                · rfl
                · rfl
                · rfl
                · exact hni e he
              · right
                refine ⟨⟨e, by simp [he], hei⟩, p, by rw [heq]; rfl, ?_⟩
                intro hmem
                simp only [List.mem_cons] at hmem
                rcases hmem with rfl | hmem
                · have := hge p (by rw [heq]; simp)
                  omega
                · exact hp hmem
          · rw [if_neg hw]
            refine ⟨_, hput, ?_, ?_, ?_⟩
            · intro e he
              simp only [List.mem_cons, List.mem_singleton, List.not_mem_nil, or_false] at he
              rcases he with rfl | rfl | rfl | rfl <;> rfl
            · intro q hq
              simp only [List.filterMap_cons, Event.obtained, if_true, List.filterMap_nil,
                List.mem_singleton] at hq
              rw [hq]
            · left
              refine ⟨?_, ?_⟩
              · intro e he
                simp only [List.mem_cons, List.mem_singleton, List.not_mem_nil, or_false] at he
                rcases he with rfl | rfl | rfl | rfl <;> rfl
              · simp only [List.filterMap_cons, Event.obtained, Event.released, if_true,
                  List.filterMap_nil]
        · rw [if_pos hf0]
          refine ⟨[Event.call (Call.sqlite3PagerGet iDb i) S.SQLITE_OK,
            Event.call Call.readIsInterrupted f.2, Event.call Call.clearIsInterrupted c.2],
            ?_, ?_, ?_, ?_⟩
          · rw [hct, hft, hgt, hg]
            simp
          · intro e he
            simp only [List.mem_cons, List.mem_singleton, List.not_mem_nil, or_false] at he
            rcases he with rfl | rfl | rfl <;> rfl
          · intro q hq
            simp only [List.filterMap_cons, Event.obtained, if_true, List.filterMap_nil,
              List.mem_singleton] at hq
            rw [hq]
          · right
            refine ⟨⟨Event.call Call.readIsInterrupted f.2, by simp, ?_⟩, i, ?_, ?_⟩
            · simp [Event.interrupted, hf0]
            · simp only [List.filterMap_cons, Event.obtained, Event.released, if_true,
                List.filterMap_nil, List.nil_append]
            · simp [Event.released]
      · rw [if_pos hg]
        refine ⟨_, hgt, ?_, ?_, ?_⟩
        · intro e he
          simp only [List.mem_singleton] at he
          subst he
          rfl
        · intro q hq
          simp [Event.obtained, hg] at hq
        · left
          refine ⟨?_, ?_⟩
          · intro e he
            simp only [List.mem_singleton] at he
            subst he
            rfl
          · simp [Event.obtained, Event.released, hg]

/-- The events of the label `end_rekey`: closing events, with one call of
`sqlite3PagerUnrefPageOne` when page 1 is held and none otherwise. -/
theorem rekeyEnd_refs {K σ : Type} (S : Sqlite σ) (db : Conn K σ) (iDb : Nat) (p : Bool)
    (rc : Nat) :
    ∃ t, (rekeyEnd S db iDb p rc).2.trace = db.trace ++ t ∧
      (∀ e ∈ t, e.isClosing = true) ∧
      (t.filter Event.releasedOne).length = if p = true then 1 else 0 := by
  cases p
  · refine ⟨[Event.call Call.sqlite3BtreeLeaveAll (db.ext S Call.sqlite3BtreeLeaveAll).2,
      Event.call Call.sqlite3_mutex_leave
        ((db.ext S Call.sqlite3BtreeLeaveAll).1.ext S Call.sqlite3_mutex_leave).2], ?_, ?_, ?_⟩
    · unfold rekeyEnd
      by_cases h : rc = 0 <;> simp [h, Conn.ext]
    · intro e he
      simp only [List.mem_cons, List.mem_singleton, List.not_mem_nil, or_false] at he
      rcases he with rfl | rfl <;> rfl
    · rfl
  · refine ⟨[Event.call (Call.sqlite3PagerUnrefPageOne iDb)
        (db.ext S (Call.sqlite3PagerUnrefPageOne iDb)).2,
      Event.call Call.sqlite3BtreeLeaveAll
        ((db.ext S (Call.sqlite3PagerUnrefPageOne iDb)).1.ext S Call.sqlite3BtreeLeaveAll).2,
      Event.call Call.sqlite3_mutex_leave
        (((db.ext S (Call.sqlite3PagerUnrefPageOne iDb)).1.ext S
          Call.sqlite3BtreeLeaveAll).1.ext S Call.sqlite3_mutex_leave).2], ?_, ?_, ?_⟩
    · unfold rekeyEnd
      by_cases h : rc = 0 <;> simp [h, Conn.ext]
    · intro e he
      simp only [List.mem_cons, List.mem_singleton, List.not_mem_nil, or_false] at he
      rcases he with rfl | rfl | rfl <;> rfl
    · rfl

theorem inScan_obtained {σ : Type} (S : Sqlite σ) (e : Event) (h : e.inScan = false) :
    e.obtained S = none := by
  rcases e with ⟨c, x⟩ | _ | _ | _
  · cases c <;> simp [Event.inScan, Event.obtained] at h ⊢
  · rfl
  · rfl
  · rfl

/-- A run that ends before the candidate key is loaded. -/
theorem RefBalance.of_early {σ : Type} (S : Sqlite σ) (P te : List Event)
    (hP : ∀ e ∈ P, e.isSetup = true) (hte : ∀ e ∈ te, e.isClosing = true)
    (hcnt : (te.filter Event.releasedOne).length = (P.filterMap (Event.obtained S)).length) :
    RefBalance S (P ++ te) := by
  have hno : ∀ e ∈ P ++ te, e ≠ Event.loadKey :=
    forall_mem_append_of (fun e he => (isSetup_refs e (hP e he)).1)
      (fun e he => (isClosing_refs S e (hte e he)).1)
  obtain ⟨htw, hdw⟩ := takeWhile_noLoadKey (P ++ te) hno
  have hint : ∀ e ∈ P ++ te, e.interrupted = false :=
    forall_mem_append_of (fun e he => (isSetup_refs e (hP e he)).2.2.2)
      (fun e he => (isClosing_refs S e (hte e he)).2.2.2)
  refine ⟨?_, ?_, ?_⟩
  · rw [htw, List.filter_append, List.filterMap_append, List.length_append, List.length_append,
      filter_none _ P (fun e he => (isSetup_refs e (hP e he)).2.2.1),
      filterMap_none _ te (fun e he => (isClosing_refs S e (hte e he)).2.1), hcnt]
    simp
  · intro _
    rw [hdw, List.filterMap_append,
      filterMap_none _ P (fun e he => (isSetup_refs e (hP e he)).2.1),
      filterMap_none _ te (fun e he => (isClosing_refs S e (hte e he)).2.2.1)]
    rfl
  · rintro ⟨e, he, hei⟩
    rw [hint e he] at hei
    exact absurd hei (by simp)

/-- A run made of a setup, the load of the key, the read of the page size, a
scan and a closing. -/
theorem RefBalance.of_scanned {σ : Type} (S : Sqlite σ) (P tp ts q : List Event)
    (hP : ∀ e ∈ P, e.isSetup = true)
    (htp : ∀ e ∈ tp, e.isClosing = true ∧ e.releasedOne = false)
    (hts : ∀ e ∈ ts, e.scanStep = true) (hq : ∀ e ∈ q, e.isClosing = true)
    (hcnt : (q.filter Event.releasedOne).length = (P.filterMap (Event.obtained S)).length)
    (hscan : ((∀ e ∈ ts, e.interrupted = false) ∧
        ts.filterMap (Event.obtained S) = ts.filterMap Event.released) ∨
      ((∃ e ∈ ts, e.interrupted = true) ∧
        ∃ p, ts.filterMap (Event.obtained S) = ts.filterMap Event.released ++ [p] ∧
          p ∉ ts.filterMap Event.released)) :
    RefBalance S (P ++ Event.loadKey :: (tp ++ ts ++ q)) := by
  have hPn : ∀ e ∈ P, e ≠ Event.loadKey := fun e he => (isSetup_refs e (hP e he)).1
  have hrel : (P ++ Event.loadKey :: (tp ++ ts ++ q)).filterMap Event.released =
      ts.filterMap Event.released := by
    rw [List.filterMap_append, List.filterMap_cons, List.filterMap_append,
      List.filterMap_append,
      filterMap_none _ P (fun e he => (isSetup_refs e (hP e he)).2.1),
      filterMap_none _ tp (fun e he => (isClosing_refs S e (htp e he).1).2.2.1),
      filterMap_none _ q (fun e he => (isClosing_refs S e (hq e he)).2.2.1)]
    simp [Event.released]
  have hobt : ((P ++ Event.loadKey :: (tp ++ ts ++ q)).dropWhile
      (fun e => e ≠ Event.loadKey)).filterMap (Event.obtained S) =
      ts.filterMap (Event.obtained S) := by
    rw [dropWhile_loadKey P _ hPn, List.filterMap_cons, List.filterMap_append,
      List.filterMap_append,
      filterMap_none _ tp (fun e he => (isClosing_refs S e (htp e he).1).2.1),
      filterMap_none _ q (fun e he => (isClosing_refs S e (hq e he)).2.1)]
    simp [Event.obtained]
  have hint : ∀ e ∈ P ++ Event.loadKey :: (tp ++ ts ++ q), e.interrupted = true → e ∈ ts := by
    intro e he hei
    simp only [List.mem_append, List.mem_cons] at he
    rcases he with h | h | (h | h) | h
    · rw [(isSetup_refs e (hP e h)).2.2.2] at hei
      exact absurd hei (by simp)
    · subst h
      exact absurd hei (by simp [Event.interrupted])
    · rw [(isClosing_refs S e (htp e h).1).2.2.2] at hei
      exact absurd hei (by simp)
    · exact h
    · rw [(isClosing_refs S e (hq e h)).2.2.2] at hei
      exact absurd hei (by simp)
  refine ⟨?_, ?_, ?_⟩
  · rw [takeWhile_loadKey P _ hPn, List.filter_append, List.filter_cons, List.filter_append,
      List.filter_append,
      filter_none _ P (fun e he => (isSetup_refs e (hP e he)).2.2.1),
      filter_none _ tp (fun e he => (htp e he).2),
      filter_none _ ts (fun e he => (scanStep_refs e (hts e he)).2), ← hcnt]
    simp [Event.releasedOne]
  · intro hni
    rw [hrel, hobt]
    rcases hscan with ⟨_, heq⟩ | ⟨⟨e, he, hei⟩, _⟩
    · exact heq
    · rw [hni e (by simp [he])] at hei
      exact absurd hei (by simp)
  · rintro ⟨e, he, hei⟩
    rw [hrel, hobt]
    rcases hscan with ⟨hni, _⟩ | ⟨_, hp⟩
    · rw [hni e (hint e he hei)] at hei
      exact absurd hei (by simp)
    · exact hp

/-- The page references of a run from `loadKey` on, after a setup in which page
1 was obtained exactly when `rc` is `SQLITE_OK`. -/
theorem rekeyBody_refs {K σ : Type} (B : Backend K) (S : Sqlite σ) (db : Conn K σ) (iDb : Nat)
    (keys : KeySlots K) (eState rc nPage : Nat) (pKey : Option (List Nat)) (nKey : Int)
    (r : Nat) (db' : Conn K σ) (hP : ∀ e ∈ db.trace, e.isSetup = true)
    (hcnt : (db.trace.filterMap (Event.obtained S)).length = if rc = S.SQLITE_OK then 1 else 0)
    (hrun : rekeyBody B S db iDb keys eState rc nPage pKey nKey = some (r, db')) :
    RefBalance S db'.trace := by
  unfold rekeyBody at hrun
  cases hk : B.loadKey keys.key0 pKey nKey with
  | none => rw [hk] at hrun; exact absurd hrun (by simp)
  | some k0 =>
    rw [hk] at hrun
    dsimp only at hrun
    obtain ⟨db1, hdb1⟩ : ∃ db1, db1 = (db.note Event.loadKey).setCodec iDb
      (some ⟨k0, keys.key1⟩) := ⟨_, rfl⟩
    rw [← hdb1] at hrun
    have h1t : db1.trace = db.trace ++ [Event.loadKey] := by rw [hdb1]; rfl
    obtain ⟨ps, hps⟩ : ∃ ps, ps = (if nPage ≠ 0 then db1.ext S (Call.codecPageSize iDb)
      else (db1, 1)) := ⟨_, rfl⟩
    rw [← hps] at hrun
    have hpst : ∃ tp, ps.1.trace = db1.trace ++ tp ∧
        (∀ e ∈ tp, e.isClosing = true ∧ e.releasedOne = false) := by
      by_cases hn : nPage ≠ 0
      · rw [if_pos hn] at hps
        refine ⟨[Event.call (Call.codecPageSize iDb) ps.2], by rw [hps]; rfl, ?_⟩
        intro e he
        simp only [List.mem_singleton] at he
        subst he
        exact ⟨rfl, rfl⟩
      · rw [if_neg hn] at hps
        exact ⟨[], by rw [hps]; simp, by simp⟩
    obtain ⟨tp, hpt, hpp⟩ := hpst
    by_cases hz : ps.2 = 0
    · rw [if_pos hz] at hrun
      exact absurd hrun (by simp)
    rw [if_neg hz] at hrun
    obtain ⟨skipv, hskipv⟩ : ∃ skipv, skipv =
      (if nPage ≠ 0 then S.PENDING_BYTE / ps.2 + 1 else 0) := ⟨_, rfl⟩
    rw [← hskipv] at hrun
    obtain ⟨sc, hsc⟩ : ∃ sc, sc = (if rc = S.SQLITE_OK then
        rekeyScan S iDb skipv nPage 1 ps.1
      else (ps.1, rc)) := ⟨_, rfl⟩
    rw [← hsc] at hrun
    have hscs : ∃ ts, sc.1.trace = ps.1.trace ++ ts ∧ (∀ e ∈ ts, e.scanStep = true) ∧
        (((∀ e ∈ ts, e.interrupted = false) ∧
            ts.filterMap (Event.obtained S) = ts.filterMap Event.released) ∨
          ((∃ e ∈ ts, e.interrupted = true) ∧
            ∃ p, ts.filterMap (Event.obtained S) = ts.filterMap Event.released ++ [p] ∧
              p ∉ ts.filterMap Event.released)) := by
      by_cases hrc : rc = S.SQLITE_OK
      · rw [if_pos hrc] at hsc
        rw [hsc]
        obtain ⟨t, ht, hs, _, ho⟩ := rekeyScan_refs S iDb skipv nPage 1 ps.1
        exact ⟨t, ht, hs, ho⟩
      · rw [if_neg hrc] at hsc
        exact ⟨[], by rw [hsc]; simp, by simp, Or.inl ⟨by simp, rfl⟩⟩
    obtain ⟨ts, hst, hss, hso⟩ := hscs
    have hsct : sc.1.trace = db.trace ++ Event.loadKey :: (tp ++ ts) := by
      rw [hst, hpt, h1t]
      simp
    have hscrc : sc.2 = S.SQLITE_OK → rc = S.SQLITE_OK := by
      intro hs
      by_contra hrc
      rw [if_neg hrc] at hsc
      rw [hsc] at hs
      exact hrc hs
    -- every way out: the events `tc` after the scan, then `end_rekey`
    have hfin : ∀ (dbc : Conn K σ) (tc : List Event) (p : Bool) (rr : Nat),
        dbc.trace = sc.1.trace ++ tc →
        (∀ e ∈ tc, e.isClosing = true ∧ e.releasedOne = false) →
        (p = true ↔ rc = S.SQLITE_OK) →
        (r, db') = rekeyEnd S dbc iDb p rr → RefBalance S db'.trace := by
      intro dbc tc p rr hct hcc hp hend
      obtain ⟨te, he3, he4, he5⟩ := rekeyEnd_refs S dbc iDb p rr
      rw [← hend] at he3
      simp only at he3
      have hT : db'.trace = db.trace ++ Event.loadKey :: (tp ++ ts ++ (tc ++ te)) := by
        rw [he3, hct, hsct]
        simp
      rw [hT]
      refine RefBalance.of_scanned S db.trace tp ts (tc ++ te) hP hpp hss
        (forall_mem_append_of (fun e he => (hcc e he).1) he4) ?_ hso
      rw [List.filter_append, filter_none _ tc (fun e he => (hcc e he).2), List.nil_append, he5,
        hcnt]
      by_cases hrc : rc = S.SQLITE_OK
      · rw [if_pos (hp.2 hrc), if_pos hrc]
      · rw [if_neg (fun h => hrc (hp.1 h)), if_neg hrc]
    by_cases hs : sc.2 = S.SQLITE_OK
    · rw [if_pos hs] at hrun
      have hrc := hscrc hs
      obtain ⟨db2, hdb2⟩ : ∃ db2, db2 = (sc.1.note Event.promote).setCodec iDb
        (some ⟨k0, k0⟩) := ⟨_, rfl⟩
      rw [← hdb2] at hrun
      have h2t : db2.trace = sc.1.trace ++ [Event.promote] := by rw [hdb2]; rfl
      by_cases hst2 : eState ≤ S.PAGER_READER
      · rw [if_pos hst2] at hrun
        obtain ⟨c1, hc1⟩ : ∃ c1, c1 = db2.ext S (Call.sqlite3PagerCommitPhaseOne iDb) :=
          ⟨_, rfl⟩
        rw [← hc1] at hrun
        have hc1t : c1.1.trace = sc.1.trace ++ [Event.promote,
            Event.call (Call.sqlite3PagerCommitPhaseOne iDb) c1.2] := by
          rw [hc1, Conn.ext_trace, h2t, ← hc1]
          simp
        by_cases hc1ok : c1.2 = S.SQLITE_OK
        · rw [if_pos hc1ok] at hrun
          obtain ⟨c2, hc2⟩ : ∃ c2, c2 = c1.1.ext S (Call.sqlite3PagerCommitPhaseTwo iDb) :=
            ⟨_, rfl⟩
          rw [← hc2] at hrun
          refine hfin c2.1 [Event.promote,
            Event.call (Call.sqlite3PagerCommitPhaseOne iDb) c1.2,
            Event.call (Call.sqlite3PagerCommitPhaseTwo iDb) c2.2] true c2.2 ?_ ?_
            ⟨fun _ => hrc, fun _ => rfl⟩ (Option.some.inj hrun).symm
          · rw [hc2, Conn.ext_trace, hc1t, ← hc2]
            simp
          · intro e he
            simp only [List.mem_cons, List.mem_singleton, List.not_mem_nil, or_false] at he
            rcases he with rfl | rfl | rfl <;> exact ⟨rfl, rfl⟩
        · rw [if_neg hc1ok] at hrun
          refine hfin c1.1 _ true c1.2 hc1t ?_ ⟨fun _ => hrc, fun _ => rfl⟩
            (Option.some.inj hrun).symm
          intro e he
          simp only [List.mem_cons, List.mem_singleton, List.not_mem_nil, or_false] at he
          rcases he with rfl | rfl <;> exact ⟨rfl, rfl⟩
      · rw [if_neg hst2] at hrun
        refine hfin db2 _ true sc.2 h2t ?_ ⟨fun _ => hrc, fun _ => rfl⟩
          (Option.some.inj hrun).symm
        intro e he
        simp only [List.mem_singleton] at he
        subst he
        exact ⟨rfl, rfl⟩
    · rw [if_neg hs] at hrun
      obtain ⟨db2, hdb2⟩ : ∃ db2, db2 = (sc.1.note Event.restore).setCodec iDb
        (some ⟨keys.key1, keys.key1⟩) := ⟨_, rfl⟩
      rw [← hdb2] at hrun
      obtain ⟨rb, hrb⟩ : ∃ rb, rb = db2.ext S (Call.sqlite3PagerRollback iDb) := ⟨_, rfl⟩
      rw [← hrb] at hrun
      refine hfin rb.1 [Event.restore, Event.call (Call.sqlite3PagerRollback iDb) rb.2]
        (decide (rc = S.SQLITE_OK)) sc.2 ?_ ?_ (by simp) (Option.some.inj hrun).symm
      · rw [hrb, Conn.ext_trace, ← hrb, hdb2, Conn.setCodec_trace, Conn.note_trace]
        simp
      · intro e he
        simp only [List.mem_cons, List.mem_singleton, List.not_mem_nil, or_false] at he
        rcases he with rfl | rfl <;> exact ⟨rfl, rfl⟩

/-- The page references of a run from the read of the pager state on. -/
theorem rekeyLocked_refs {K σ : Type} (B : Backend K) (S : Sqlite σ) (db : Conn K σ)
    (iDb : Nat) (keys : KeySlots K) (pKey : Option (List Nat)) (nKey : Int)
    (r : Nat) (db' : Conn K σ) (hP : ∀ e ∈ db.trace, e.isSetup = true)
    (h0 : db.trace.filterMap (Event.obtained S) = [])
    (hrun : rekeyLocked B S db iDb keys pKey nKey = some (r, db')) :
    RefBalance S db'.trace := by
  unfold rekeyLocked at hrun
  dsimp only at hrun
  obtain ⟨st, hst⟩ : ∃ st, st = db.ext S (Call.sqlite3PagerState iDb) := ⟨_, rfl⟩
  rw [← hst] at hrun
  obtain ⟨lk, hlk⟩ : ∃ lk, lk = (if st.2 = S.PAGER_OPEN then
    st.1.ext S (Call.sqlite3PagerSharedLock iDb) else (st.1, 0)) := ⟨_, rfl⟩
  rw [← hlk] at hrun
  -- a call of the setup that is not a page fetch
  have hext : ∀ (dbq : Conn K σ) (c : Call) (n : Nat),
      (∀ e ∈ dbq.trace, e.isSetup = true) →
      (dbq.trace.filterMap (Event.obtained S)).length = n →
      (∀ x, (Event.call c x).isSetup = true) → (∀ x, (Event.call c x).obtained S = none) →
      (∀ e ∈ (dbq.ext S c).1.trace, e.isSetup = true) ∧
      ((dbq.ext S c).1.trace.filterMap (Event.obtained S)).length = n := by
    intro dbq c n hq hn hc ho
    rw [Conn.ext_trace]
    refine ⟨forall_mem_append_of hq (by
      intro e he
      simp only [List.mem_singleton] at he
      subst he
      exact hc _), ?_⟩
    rw [List.filterMap_append, List.filterMap_cons, ho, List.filterMap_nil, List.append_nil, hn]
  have hst2 := hext db (Call.sqlite3PagerState iDb) 0 hP (by rw [h0]; rfl) (fun _ => rfl)
    (fun _ => rfl)
  rw [← hst] at hst2
  have hlk2 : (∀ e ∈ lk.1.trace, e.isSetup = true) ∧
      (lk.1.trace.filterMap (Event.obtained S)).length = 0 := by
    by_cases h : st.2 = S.PAGER_OPEN
    · rw [if_pos h] at hlk
      rw [hlk]
      exact hext st.1 _ 0 hst2.1 hst2.2 (fun _ => rfl) (fun _ => rfl)
    · rw [if_neg h] at hlk
      rw [hlk]
      exact hst2
  -- an exit through `end_rekey` before the key is loaded
  have hearly : ∀ (dbq : Conn K σ) (p : Bool) (rr : Nat), (∀ e ∈ dbq.trace, e.isSetup = true) →
      (dbq.trace.filterMap (Event.obtained S)).length = (if p = true then 1 else 0) →
      (r, db') = rekeyEnd S dbq iDb p rr → RefBalance S db'.trace := by
    intro dbq p rr hq hc hend
    obtain ⟨te, he3, he4, he5⟩ := rekeyEnd_refs S dbq iDb p rr
    rw [← hend] at he3
    simp only at he3
    rw [he3]
    exact RefBalance.of_early S dbq.trace te hq he4 (by rw [he5, hc])
  -- the run from the page count on
  have hbody : ∀ (dbq : Conn K σ) (es rc : Nat), (∀ e ∈ dbq.trace, e.isSetup = true) →
      (dbq.trace.filterMap (Event.obtained S)).length = 1 → rc = S.SQLITE_OK →
      rekeyBody B S (dbq.ext S (Call.sqlite3PagerPagecount iDb)).1 iDb keys es rc
        (dbq.ext S (Call.sqlite3PagerPagecount iDb)).2 pKey nKey = some (r, db') →
      RefBalance S db'.trace := by
    intro dbq es rc hq hc hrc hb
    have hpc := hext dbq (Call.sqlite3PagerPagecount iDb) 1 hq hc (fun _ => rfl) (fun _ => rfl)
    exact rekeyBody_refs B S _ iDb keys es rc _ pKey nKey r db' hpc.1
      (by rw [hpc.2, if_pos hrc]) hb
  by_cases hl0 : lk.2 = 0
  · rw [if_neg (not_not.2 hl0)] at hrun
    obtain ⟨g, hg⟩ : ∃ g, g = lk.1.ext S (Call.sqlite3PagerGet iDb 1) := ⟨_, rfl⟩
    rw [← hg] at hrun
    have hgP : ∀ e ∈ g.1.trace, e.isSetup = true := by
      rw [hg, Conn.ext_trace]
      exact forall_mem_append_of hlk2.1 (by
        intro e he
        simp only [List.mem_singleton] at he
        subst he
        rfl)
    have hgc : (g.1.trace.filterMap (Event.obtained S)).length =
        if g.2 = S.SQLITE_OK then 1 else 0 := by
      have e1 : g.1.trace = lk.1.trace ++ [Event.call (Call.sqlite3PagerGet iDb 1) g.2] := by
        rw [hg]; rfl
      rw [e1, List.filterMap_append, List.length_append, hlk2.2]
      by_cases hgok : g.2 = S.SQLITE_OK
      · simp [Event.obtained, hgok]
      · simp [Event.obtained, hgok]
    by_cases hgok : g.2 = S.SQLITE_OK
    · rw [if_pos hgok] at hgc
      by_cases hes : st.2 ≤ S.PAGER_READER
      · rw [if_pos ⟨hgok, hes⟩] at hrun
        obtain ⟨b, hb⟩ : ∃ b, b = g.1.ext S (Call.sqlite3PagerBegin iDb) := ⟨_, rfl⟩
        rw [← hb] at hrun
        have hb2 := hext g.1 (Call.sqlite3PagerBegin iDb) 1 hgP hgc (fun _ => rfl)
          (fun _ => rfl)
        rw [← hb] at hb2
        by_cases hbok : b.2 = S.SQLITE_OK
        · rw [if_neg (not_not.2 hbok)] at hrun
          exact hbody b.1 _ _ hb2.1 hb2.2 hbok hrun
        · rw [if_pos hbok] at hrun
          exact hearly b.1 true b.2 hb2.1 (by rw [hb2.2]; rfl) (Option.some.inj hrun).symm
      · rw [if_neg (fun h => hes h.2), if_pos hgok] at hrun
        exact hbody g.1 _ _ hgP hgc hgok hrun
    · rw [if_neg (fun h => hgok h.1), if_neg hgok] at hrun
      exact rekeyBody_refs B S _ iDb keys _ _ _ pKey nKey r db' hgP hgc hrun
  · rw [if_pos hl0] at hrun
    exact hearly lk.1 false lk.2 hlk2.1 (by rw [hlk2.2]; rfl) (Option.some.inj hrun).symm

/-- The events `sqlite3CodecAttach` adds obtain no page reference. -/
theorem sqlite3CodecAttach_obtained {K σ : Type} (B : Backend K) (S : Sqlite σ)
    (db : Conn K σ) (iDb : Nat) (pKey : Option (List Nat)) (nKey : Int) (a : Nat × Conn K σ)
    (h0 : db.trace.filterMap (Event.obtained S) = [])
    (h : sqlite3CodecAttach B S db iDb pKey nKey = some a) :
    a.2.trace.filterMap (Event.obtained S) = [] := by
  obtain ⟨t, ht, hp⟩ := sqlite3CodecAttach_trace B S db iDb pKey nKey a h
  rw [ht, List.filterMap_append, h0,
    filterMap_none _ t (fun e he => inScan_obtained S e (hp e he).2.2.2.2.2.1)]
  rfl

/-- The page references of a run of `sqlite3_rekey_v2`. -/
theorem sqlite3_rekey_v2_refs {K σ : Type} (B : Backend K) (S : Sqlite σ)
    (encryptionEnabled : Bool) (db : Conn K σ) (zDbName : Option String)
    (pKey : Option (List Nat)) (nKey : Int) (r : Nat) (db' : Conn K σ)
    (hrun : sqlite3_rekey_v2 B S encryptionEnabled db zDbName pKey nKey = some (r, db')) :
    RefBalance S db'.trace := by
  unfold sqlite3_rekey_v2 at hrun
  dsimp only at hrun
  by_cases hen : encryptionEnabled = false
  · rw [if_pos hen] at hrun
    have hdb : db'.trace = [] := (congrArg (fun p => p.2.trace) (Option.some.inj hrun)).symm
    rw [hdb]
    exact RefBalance.of_early S [] [] (by simp) (by simp) rfl
  rw [if_neg hen] at hrun
  obtain ⟨db1, hdb1⟩ : ∃ db1, db1 = (({ db with trace := [] }).ext S
    Call.sqlite3_mutex_enter).1.ext S Call.sqlite3BtreeEnterAll := ⟨_, rfl⟩
  rw [← hdb1] at hrun
  have h1a : db1.1.aDb = db.aDb := by rw [hdb1]; rfl
  have hname : sqlite3NameToDb S db1.1 zDbName = sqlite3NameToDb S db zDbName :=
    sqlite3NameToDb_congr S db1.1 db zDbName h1a
  rw [hname] at hrun
  have h1t : db1.1.trace = [Event.call Call.sqlite3_mutex_enter
      (({ db with trace := [] } : Conn K σ).ext S Call.sqlite3_mutex_enter).2,
      Event.call Call.sqlite3BtreeEnterAll db1.2] := by
    rw [hdb1]
    simp [Conn.ext_trace]
  have h1P : ∀ e ∈ db1.1.trace, e.isSetup = true := by
    intro e he
    rw [h1t] at he
    simp only [List.mem_cons, List.mem_singleton, List.not_mem_nil, or_false] at he
    rcases he with rfl | rfl <;> rfl
  have h10 : db1.1.trace.filterMap (Event.obtained S) = [] := by
    rw [h1t]
    rfl
  have hearly : ∀ (dbq : Conn K σ) (i : Nat) (rr : Nat), (∀ e ∈ dbq.trace, e.isSetup = true) →
      dbq.trace.filterMap (Event.obtained S) = [] →
      (r, db') = rekeyEnd S dbq i false rr → RefBalance S db'.trace := by
    intro dbq i rr hq hc hend
    obtain ⟨te, he3, he4, he5⟩ := rekeyEnd_refs S dbq i false rr
    rw [← hend] at he3
    simp only at he3
    rw [he3]
    exact RefBalance.of_early S dbq.trace te hq he4 (by rw [he5, hc]; rfl)
  by_cases hi : sqlite3NameToDb S db zDbName < 0
  · rw [if_pos hi] at hrun
    exact hearly db1.1 0 _ h1P h10 (Option.some.inj hrun).symm
  rw [if_neg hi] at hrun
  cases hd : db1.1.aDb[(sqlite3NameToDb S db zDbName).toNat]? with
  | none => rw [hd] at hrun; exact absurd hrun (by simp)
  | some pDb =>
    rw [hd] at hrun
    dsimp only at hrun
    by_cases hbt : pDb.pBt = false
    · rw [if_pos hbt] at hrun
      exact absurd hrun (by simp)
    rw [if_neg hbt] at hrun
    by_cases hro : pDb.readOnly = true
    · rw [if_pos hro] at hrun
      exact hearly db1.1 _ _ h1P h10 (Option.some.inj hrun).symm
    rw [if_neg hro] at hrun
    cases hc : pDb.pCodec with
    | some keys =>
      rw [hc] at hrun
      dsimp only at hrun
      exact rekeyLocked_refs B S db1.1 _ keys pKey nKey r db' h1P h10 hrun
    | none =>
      rw [hc] at hrun
      dsimp only at hrun
      cases ha : sqlite3CodecAttach B S db1.1 0 (some [0]) 0 with
      | none => rw [ha] at hrun; exact absurd hrun (by simp)
      | some a =>
        rw [ha] at hrun
        dsimp only at hrun
        have haP := sqlite3CodecAttach_setup B S db1.1 0 (some [0]) 0 a h1P ha
        have ha0 := sqlite3CodecAttach_obtained B S db1.1 0 (some [0]) 0 a h10 ha
        cases hca : (a.2.aDb[(sqlite3NameToDb S db zDbName).toNat]?).bind
            (fun d => d.pCodec) with
        | none =>
          rw [hca] at hrun
          dsimp only at hrun
          exact hearly a.2 _ _ haP ha0 (Option.some.inj hrun).symm
        | some keys =>
          rw [hca] at hrun
          dsimp only at hrun
          exact rekeyLocked_refs B S a.2 _ keys pKey nKey r db' haP ha0 hrun

/-- C37. Page references in a re-key.  In every run of `sqlite3_rekey_v2`, the
reference to page 1 taken before the candidate key is loaded is released by
one call of `sqlite3PagerUnrefPageOne` (and there is no such call when it was
not obtained).  When the interrupt flag is never found set, the pages the scan
obtains a reference to are, in their order, the pages it releases with
`sqlite3PagerUnref`.  But when the scan finds the interrupt flag set, the pages
it obtained are those it released followed by one more page, the one fetched
just before the flag was read: that reference is not released. -/
theorem C37_rekey_page_references {K σ : Type} (B : Backend K) (S : Sqlite σ)
    (encryptionEnabled : Bool) (db : Conn K σ) (zDbName : Option String)
    (pKey : Option (List Nat)) (nKey : Int) (r : Nat) (db' : Conn K σ)
    (hrun : sqlite3_rekey_v2 B S encryptionEnabled db zDbName pKey nKey = some (r, db')) :
    (db'.trace.filter Event.releasedOne).length =
      ((db'.trace.takeWhile (fun e => e ≠ Event.loadKey)).filterMap (Event.obtained S)).length ∧
    ((∀ e ∈ db'.trace, e.interrupted = false) →
      (db'.trace.dropWhile (fun e => e ≠ Event.loadKey)).filterMap (Event.obtained S) =
        db'.trace.filterMap Event.released) ∧
    ((∃ e ∈ db'.trace, e.interrupted = true) →
      ∃ p, (db'.trace.dropWhile (fun e => e ≠ Event.loadKey)).filterMap (Event.obtained S) =
          db'.trace.filterMap Event.released ++ [p] ∧
        p ∉ db'.trace.filterMap Event.released) :=
  sqlite3_rekey_v2_refs B S encryptionEnabled db zDbName pKey nKey r db' hrun

/-- Witness of C37: the re-key of `connCounting`, a database of three pages, in
which the interrupt flag is found set at page 2.  The scan obtained references
to the pages 1 and 2 and released that to page 1 only. -/
theorem C37_rekey_page_references_witness :
    sqlite3_rekey_v2 xorBackend (sqliteInterruptAt 2) true connCounting none (some [9]) 1 =
      some (9, connInterrupted) ∧
    (connInterrupted.trace.dropWhile (fun e => e ≠ Event.loadKey)).filterMap
      (Event.obtained (sqliteInterruptAt 2)) = [1, 2] ∧
    connInterrupted.trace.filterMap Event.released = [1] ∧
    (∃ e ∈ connInterrupted.trace, e.interrupted = true) ∧
    ∃ p, (connInterrupted.trace.dropWhile (fun e => e ≠ Event.loadKey)).filterMap
        (Event.obtained (sqliteInterruptAt 2)) =
          connInterrupted.trace.filterMap Event.released ++ [p] ∧
      p ∉ connInterrupted.trace.filterMap Event.released :=
  ⟨rfl, by decide, by decide, ⟨Event.call Call.readIsInterrupted 1, by decide, rfl⟩,
    (C37_rekey_page_references xorBackend (sqliteInterruptAt 2) true connCounting none
      (some [9]) 1 9 connInterrupted rfl).2.2
      ⟨Event.call Call.readIsInterrupted 1, by decide, rfl⟩⟩

/-! ## Encode writes only behind the payload -/

/-- C38. The writes of an encode (op 6 or 7) to the caller's buffer are confined
to the reserved trailer.  For the RC4 and the CommonCrypto backend the buffer
keeps its length and every byte outside `[usable, usable + nonce width)`; for
the AES-CCM backend it keeps its length and every byte outside
`[usable, usable + 32)`, and the call returns when the payload is a multiple of
4 bytes; so the first `usable` bytes, the payload, are unchanged.  The XOR
encode leaves the whole buffer as it was. -/
theorem C38_encode_confined_to_trailer (h : Host) (B : List Nat) (pgno op : Nat)
    (hop : op = 6 ∨ op = 7) :
    (∀ c : CodecRc4, c.usable + c.nonceSize ≤ B.length →
      (sqliteCodecRc4 h c B pgno op).pageData.length = B.length ∧
      (∀ k, k < c.usable → (sqliteCodecRc4 h c B pgno op).pageData.getD k 0 = B.getD k 0) ∧
      (∀ k, c.usable + c.nonceSize ≤ k →
        (sqliteCodecRc4 h c B pgno op).pageData.getD k 0 = B.getD k 0)) ∧
    (∀ c : CodecCCCrypto, c.usable + c.nonceUsable ≤ B.length →
      (sqliteCodecCCCrypto h c B pgno op).pageData.length = B.length ∧
      (∀ k, k < c.usable →
        (sqliteCodecCCCrypto h c B pgno op).pageData.getD k 0 = B.getD k 0) ∧
      (∀ k, c.usable + c.nonceUsable ≤ k →
        (sqliteCodecCCCrypto h c B pgno op).pageData.getD k 0 = B.getD k 0)) ∧
    (∀ (A : Rijndael) (c : CodecAes128Ccm), c.usable + 32 ≤ B.length →
      (c.usable % 4 = 0 → ∃ r, sqliteCodecAes128Ccm A h c B pgno op = some r) ∧
      ∀ r, sqliteCodecAes128Ccm A h c B pgno op = some r →
        r.pageData.length = B.length ∧
        (∀ k, k < c.usable → r.pageData.getD k 0 = B.getD k 0) ∧
        (∀ k, c.usable + 32 ≤ k → r.pageData.getD k 0 = B.getD k 0)) ∧
    (∀ (c : CodecXor) (beyond : List Nat),
      (sqliteCodecXor h c beyond B pgno op).pageData = B) := by
  refine ⟨?_, ?_, ?_, ?_⟩
  · intro c hlen
    rcases rc4_encode_pageData h c B pgno op hop with e | e
    · rw [e]; exact ⟨rfl, fun _ _ => rfl, fun _ _ => rfl⟩
    · rw [e]
      have hf := writeAt_frame B (h.sqlite3_randomness c.nonceSize) c.usable
        (by rw [length_randomness]; exact hlen)
      rw [length_randomness] at hf
      exact ⟨hf.1, fun k hk => hf.2 k (Or.inl hk), fun k hk => hf.2 k (Or.inr hk)⟩
  · intro c hlen
    rcases cccrypt_encode_pageData h c B pgno op hop with e | e
    · rw [e]; exact ⟨rfl, fun _ _ => rfl, fun _ _ => rfl⟩
    · rw [e]
      have hf := writeAt_frame B (h.sqlite3_randomness c.nonceUsable) c.usable
        (by rw [length_randomness]; exact hlen)
      rw [length_randomness] at hf
      exact ⟨hf.1, fun k hk => hf.2 k (Or.inl hk), fun k hk => hf.2 k (Or.inr hk)⟩
  · intro A c hlen
    obtain ⟨hret, hfr⟩ := aes_encode_pageData A h c B pgno op hop
    refine ⟨hret, ?_⟩
    intro r hr
    rcases hfr r hr with e | ⟨mac, hml, e⟩
    · rw [e]; exact ⟨rfl, fun _ _ => rfl, fun _ _ => rfl⟩
    · rw [e]
      have hrl := length_randomness h 16
      have h1 := writeAt_frame B (h.sqlite3_randomness 16) (c.usable + 16)
        (by rw [hrl]; omega)
      have h2 := writeAt_frame (writeAt B (c.usable + 16) (h.sqlite3_randomness 16)) mac c.usable
        (by rw [h1.1, hml]; omega)
      refine ⟨by rw [h2.1, h1.1], ?_, ?_⟩
      · intro k hk
        rw [h2.2 k (by rw [hml]; omega), h1.2 k (by rw [hrl]; omega)]
      · intro k hk
        rw [h2.2 k (by rw [hml]; omega), h1.2 k (by rw [hrl]; omega)]
  · intro c beyond
    exact xor_encode_pageData h c beyond B pgno op hop

/-- Witness of C38: the CommonCrypto encode (op 7) of page 3 of 512 zero bytes
leaves the length of the caller's buffer and its byte 499, the last of the
payload, as they were. -/
theorem C38_encode_confined_to_trailer_witness :
    ((7 : Nat) = 6 ∨ (7 : Nat) = 7) ∧
    (cccryptFresh 512).usable + (cccryptFresh 512).nonceUsable ≤ (List.replicate 512 0).length ∧
    (sqliteCodecCCCrypto hostOnes (cccryptFresh 512) (List.replicate 512 0) 3 7).pageData.length
      = (List.replicate 512 0).length ∧
    (sqliteCodecCCCrypto hostOnes (cccryptFresh 512) (List.replicate 512 0) 3 7).pageData.getD
      499 0 = (List.replicate 512 0).getD 499 0 :=
  ⟨Or.inr rfl, by rw [List.length_replicate]; decide,
    ((C38_encode_confined_to_trailer hostOnes (List.replicate 512 0) 3 7 (Or.inr rfl)).2.1
      (cccryptFresh 512) (by rw [List.length_replicate]; decide)).1,
    ((C38_encode_confined_to_trailer hostOnes (List.replicate 512 0) 3 7 (Or.inr rfl)).2.1
      (cccryptFresh 512) (by rw [List.length_replicate]; decide)).2.1 499 (by decide)⟩

/-! ## The counter of the AES-CCM mask -/

/-- The mask is the encryption of the counter blocks, one after the other. -/
theorem aesCtrMask_blocks (A : Rijndael) (rk : List Nat) (n : Nat) (nonce : List Nat) :
    aesCtrMask A rk n nonce =
      ((aesCtrBlocks n nonce).map (A.rijndaelEncrypt128Ccm rk)).foldr (fun b acc => b ++ acc)
        [] := by
  induction n generalizing nonce with
  | zero => rfl
  | succ n ih => simp only [aesCtrMask, aesCtrBlocks, List.map_cons, List.foldr_cons, ih]

theorem length_aesCtrBlocks (n : Nat) (nonce : List Nat) : (aesCtrBlocks n nonce).length = n := by
  induction n generalizing nonce with
  | zero => rfl
  | succ n ih => simp only [aesCtrBlocks, List.length_cons, ih]

/-- One step of the counter: bytes 4 and 5 of the nonce, read as a 16-bit
little-endian number, go up by one modulo 65536, and stay bytes. -/
theorem nonceIncr_counter (nonce : List Nat) (hl : 6 ≤ nonce.length)
    (h4 : nonce.getD 4 0 < 256) (h5 : nonce.getD 5 0 < 256) :
    6 ≤ (nonceIncr nonce).length ∧ (nonceIncr nonce).getD 4 0 < 256 ∧
    (nonceIncr nonce).getD 5 0 < 256 ∧
    (nonceIncr nonce).getD 4 0 + 256 * (nonceIncr nonce).getD 5 0 =
      (nonce.getD 4 0 + 256 * nonce.getD 5 0 + 1) % 65536 := by
  have g44 : ∀ v, (nonce.set 4 v).getD 4 0 = v := by
    intro v
    apply getD_of_getElem?
    rw [List.getElem?_set]
    simp only [if_true]
    rw [if_pos (by omega)]
  have g45 : ∀ v, (nonce.set 4 v).getD 5 0 = nonce.getD 5 0 := by
    intro v
    simp only [List.getD_eq_getElem?_getD, List.getElem?_set]
    rw [if_neg (by decide)]
  have g54 : ∀ (l : List Nat) v, (l.set 5 v).getD 4 0 = l.getD 4 0 := by
    intro l v
    simp only [List.getD_eq_getElem?_getD, List.getElem?_set]
    rw [if_neg (by decide)]
  have g55 : ∀ (l : List Nat) v, 6 ≤ l.length → (l.set 5 v).getD 5 0 = v := by
    intro l v hl
    apply getD_of_getElem?
    rw [List.getElem?_set]
    simp only [if_true]
    rw [if_pos (by omega)]
  unfold nonceIncr
  by_cases hc : (nonce.getD 4 0 + 1) % 256 = 0
  · simp only [hc, if_true]
    have hl1 : 6 ≤ (nonce.set 4 0).length := by rw [List.length_set]; exact hl
    rw [g54, g55 _ _ hl1, g44, g45, List.length_set, List.length_set]
    refine ⟨hl, by omega, Nat.mod_lt _ (by omega), ?_⟩
    omega
  · simp only [hc, if_false]
    rw [g44, g45, List.length_set]
    refine ⟨hl, Nat.mod_lt _ (by omega), h5, ?_⟩
    omega

/-- Every block of the counter-mode loop carries, in bytes 4 and 5, the
counter of the first block advanced by the number of the block. -/
theorem aesCtrBlocks_counter (n : Nat) (nonce : List Nat) (hl : 6 ≤ nonce.length)
    (h4 : nonce.getD 4 0 < 256) (h5 : nonce.getD 5 0 < 256) (x : List Nat)
    (hx : x ∈ aesCtrBlocks n nonce) :
    ∃ k, k < n ∧ x.getD 4 0 + 256 * x.getD 5 0 =
      (nonce.getD 4 0 + 256 * nonce.getD 5 0 + k) % 65536 := by
  induction n generalizing nonce with
  | zero => simp [aesCtrBlocks] at hx
  | succ n ih =>
    simp only [aesCtrBlocks, List.mem_cons] at hx
    rcases hx with rfl | hx
    · exact ⟨0, Nat.succ_pos _, by omega⟩
    · obtain ⟨hl1, h41, h51, hv⟩ := nonceIncr_counter nonce hl h4 h5
      obtain ⟨k, hk, hxk⟩ := ih (nonceIncr nonce) hl1 h41 h51 hx
      refine ⟨k + 1, by omega, ?_⟩
      rw [hxk, hv]
      omega

/-- Up to 65536 blocks of the counter-mode loop are pairwise distinct. -/
theorem aesCtrBlocks_nodup (n : Nat) (nonce : List Nat) (hn : n ≤ 65536) (hl : 6 ≤ nonce.length)
    (h4 : nonce.getD 4 0 < 256) (h5 : nonce.getD 5 0 < 256) :
    (aesCtrBlocks n nonce).Nodup := by
  induction n generalizing nonce with
  | zero => exact List.nodup_nil
  | succ n ih =>
    obtain ⟨hl1, h41, h51, hv⟩ := nonceIncr_counter nonce hl h4 h5
    simp only [aesCtrBlocks, List.nodup_cons]
    refine ⟨?_, ih (nonceIncr nonce) (by omega) hl1 h41 h51⟩
    intro hx
    obtain ⟨k, hk, hxk⟩ := aesCtrBlocks_counter n (nonceIncr nonce) hl1 h41 h51 nonce hx
    rw [hv] at hxk
    omega

/-- C39. The counter blocks of an AES-CCM page never repeat.  For every
starting nonce (16 bytes) and every `usable` with `usable + 16 ≤ 65552`, the
loop that fills the mask runs `(usable + 16 + 15) / 16` times (that is
`(usable + 16) / 16` for a payload that is a multiple of 16), the mask is the
encryption of the blocks it hands to the block cipher, and these blocks are
pairwise distinct: bytes 4 and 5 of the nonce act as a 16-bit little-endian
counter, which does not wrap within a page. -/
theorem C39_aes_counter_blocks_distinct (A : Rijndael) (rk nonce : List Nat) (usable : Nat)
    (hl : nonce.length = 16) (hb : ∀ b ∈ nonce, b < 256) (hu : usable + 16 ≤ 65552) :
    aesCtrMask A rk ((usable + 16 + 15) / 16) nonce =
      ((aesCtrBlocks ((usable + 16 + 15) / 16) nonce).map
        (A.rijndaelEncrypt128Ccm rk)).foldr (fun b acc => b ++ acc) [] ∧
    (aesCtrBlocks ((usable + 16 + 15) / 16) nonce).length = (usable + 16 + 15) / 16 ∧
    (usable % 16 = 0 → (usable + 16 + 15) / 16 = (usable + 16) / 16) ∧
    (aesCtrBlocks ((usable + 16 + 15) / 16) nonce).Nodup ∧
    ∀ i j, i < j → j < (usable + 16 + 15) / 16 →
      (aesCtrBlocks ((usable + 16 + 15) / 16) nonce)[i]? ≠
        (aesCtrBlocks ((usable + 16 + 15) / 16) nonce)[j]? := by
  have hbyte : ∀ k, k < 16 → nonce.getD k 0 < 256 := by
    intro k hk
    have hk' : k < nonce.length := by omega
    rw [List.getD_eq_getElem?_getD, List.getElem?_eq_getElem hk', Option.getD_some]
    exact hb _ (List.getElem_mem _)
  have hnd := aesCtrBlocks_nodup ((usable + 16 + 15) / 16) nonce (by omega) (by omega)
    (hbyte 4 (by decide)) (hbyte 5 (by decide))
  refine ⟨aesCtrMask_blocks A rk _ nonce, length_aesCtrBlocks _ nonce, by omega, hnd, ?_⟩
  intro i j hij hj e
  have hjl : j < (aesCtrBlocks ((usable + 16 + 15) / 16) nonce).length := by
    rw [length_aesCtrBlocks]; exact hj
  have hil : i < (aesCtrBlocks ((usable + 16 + 15) / 16) nonce).length := by omega
  rw [List.getElem?_eq_getElem hil, List.getElem?_eq_getElem hjl, Option.some.injEq] at e
  have := (List.Nodup.getElem_inj_iff hnd).mp e
  omega

/-- Witness of C39: the nonce of sixteen bytes 255 and the largest payload,
65536 bytes. -/
theorem C39_aes_counter_blocks_distinct_witness :
    (List.replicate 16 255).length = 16 ∧ (∀ b ∈ List.replicate 16 255, b < 256) ∧
    65536 + 16 ≤ 65552 ∧
    (aesCtrBlocks ((65536 + 16 + 15) / 16) (List.replicate 16 255)).Nodup :=
  ⟨rfl, fun b hb => by rw [List.eq_of_mem_replicate hb]; decide, by decide,
    (C39_aes_counter_blocks_distinct xorRijndael [] (List.replicate 16 255) 65536 rfl
      (fun b hb => by rw [List.eq_of_mem_replicate hb]; decide) (by decide)).2.2.2.1⟩

/-! ## The allocation of the AES-CCM codec -/

/-- The masking step of the AES codec keeps the length of the buffer it writes. -/
theorem length_aesXor (U pgno : Nat) (src mask out o : List Nat)
    (hx : aesXor U pgno src mask out = some o) (ho : U + 16 ≤ out.length)
    (ho24 : 24 ≤ out.length) (hm24 : 24 ≤ mask.length) : o.length = out.length := by
  unfold aesXor xorBuffersAes at hx
  split at hx
  · simp only [Option.some_bind] at hx
    have h1 : (writeAt out 0 (xorBytes src mask (U + 16))).length = out.length := by
      apply length_writeAt
      rw [length_xorBytes]; omega
    split at hx
    · rw [aesPage1_eq] at hx
      rw [← Option.some.inj hx, length_aesPage1 _ _ (by rw [h1]; exact ho24) hm24, h1]
    · rw [← Option.some.inj hx, h1]
  · simp at hx

/-- The masking step of the AES codec ends when the payload is a multiple of 4. -/
theorem aesXor_isSome (U pgno : Nat) (src mask out : List Nat) (hU : U % 4 = 0) :
    ∃ o, aesXor U pgno src mask out = some o := by
  have hx : (U + 16) % 4 = 0 := by omega
  simp only [aesXor, xorBuffersAes, hx, if_true, Option.some_bind]
  split_ifs
  · simp only [aesPage1, xorBuffersAes, Nat.reduceMod, if_true, Option.map_some',
      Option.some_bind]
    exact ⟨_, rfl⟩
  · exact ⟨_, rfl⟩

/-- The mask area keeps its length when the mask is recomputed. -/
theorem length_aesMask (A : Rijndael) (c : CodecAes128Ccm) (mask nonce : List Nat) (op : Nat)
    (h16 : c.usable % 16 = 0) (hm : c.usable + 16 ≤ mask.length) :
    (aesMask A c mask nonce op).length = mask.length := by
  unfold aesMask
  split
  · apply length_writeAt
    rw [length_aesCtrMask]
    omega
  · rfl

/-- The transformation of the AES codec, on a codec whose scratch space fits
its layout, returns, and leaves the layout and the size of the scratch space
as they were. -/
theorem aesCrypt_inv (A : Rijndael) (h : Host) (c : CodecAes128Ccm) (mask B : List Nat)
    (pgno op : Nat) (h16 : c.usable % 16 = 0) (h32 : c.usable + 32 ≤ c.pageSize)
    (hm : mask.length = c.pageSize + 4) (ho : c.outbuf.length = c.pageSize + 4) :
    (∃ r, aesCrypt A h c mask B pgno op = some r) ∧
    ∀ r, aesCrypt A h c mask B pgno op = some r →
      r.codec.pageSize = c.pageSize ∧ r.codec.usable = c.usable ∧
      ∃ m1, r.codec.mask = some m1 ∧ m1.length = c.pageSize + 4 ∧
        r.codec.outbuf.length = c.pageSize + 4 := by
  have hmask1 : ∀ nonce, (aesMask A c mask nonce op).length = c.pageSize + 4 := by
    intro nonce
    rw [length_aesMask A c mask nonce op h16 (by omega), hm]
  have hU4 : c.usable % 4 = 0 := by omega
  unfold aesCrypt
  simp only
  by_cases h4 : op &&& 4 = 0
  · simp only [if_pos h4, aesUnmasked]
    obtain ⟨z3, hz3⟩ := aesXor_isSome c.usable pgno B
      (aesMask A c mask (aesNonce h c B op) op) B hU4
    rw [hz3]
    simp only [Option.some_bind]
    constructor
    · split
      · exact ⟨_, rfl⟩
      · exact ⟨_, rfl⟩
    · intro r hr
      split at hr
      · rw [← Option.some.inj hr]
        exact ⟨rfl, rfl, _, rfl, hmask1 _, ho⟩
      · rw [← Option.some.inj hr]
        exact ⟨rfl, rfl, _, rfl, hmask1 _, ho⟩
  · simp only [if_neg h4]
    have hrl := length_randomness h 16
    have hnl : (aesNonce h c B op).length ≤ 16 := by
      have hn : aesNonce h c B op = h.sqlite3_randomness 16 := by
        unfold aesNonce
        rw [if_pos h4]
      rw [hn, hrl]
    have ho1 : (writeAt c.outbuf (c.usable + 16) (aesNonce h c B op)).length
        = c.pageSize + 4 := by
      rw [length_writeAt _ _ _ (by omega), ho]
    obtain ⟨o3, ho3⟩ := aesXor_isSome c.usable pgno
      (writeAt (writeAt B (c.usable + 16) (aesNonce h c B op)) c.usable
        (computeMac A (c.key (op &&& 1)).keySchedule
          (writeAt B (c.usable + 16) (aesNonce h c B op)) c.usable
          ((writeAt B (c.usable + 16) (aesNonce h c B op)).drop (c.usable + 16))))
      (aesMask A c mask (aesNonce h c B op) op)
      (writeAt c.outbuf (c.usable + 16) (aesNonce h c B op)) hU4
    have hl3 := length_aesXor _ _ _ _ _ _ ho3 (by rw [ho1]; omega) (by rw [ho1]; omega)
      (by rw [hmask1]; omega)
    rw [ho3]
    simp only [Option.some_bind]
    refine ⟨⟨_, rfl⟩, ?_⟩
    intro r hr
    rw [← Option.some.inj hr]
    exact ⟨rfl, rfl, _, rfl, hmask1 _, by rw [hl3, ho1]⟩

/-- A call of the AES codec on a state with the allocation invariant returns,
and leaves the page layout and the invariant in place. -/
theorem aes_transform_inv (A : Rijndael) (h : Host) (c : CodecAes128Ccm) (B : List Nat)
    (pgno op : Nat) (hI : aesAllocInv c) :
    (∃ r, sqliteCodecAes128Ccm A h c B pgno op = some r) ∧
    ∀ r, sqliteCodecAes128Ccm A h c B pgno op = some r →
      r.codec.pageSize = c.pageSize ∧ r.codec.usable = c.usable ∧ aesAllocInv r.codec := by
  have hk : ∀ (c : CodecAes128Ccm) (mask : List Nat), c.mask = some mask →
      c.usable % 16 = 0 → c.usable + 32 ≤ c.pageSize → mask.length = c.pageSize + 4 →
      c.outbuf.length = c.pageSize + 4 →
      (∃ r, aesKeyed A h c mask B pgno op = some r) ∧
      ∀ r, aesKeyed A h c mask B pgno op = some r →
        r.codec.pageSize = c.pageSize ∧ r.codec.usable = c.usable ∧ aesAllocInv r.codec := by
    intro c mask hcm h16 h32 hm ho
    simp only [aesKeyed]
    by_cases hnk : (c.key ((if op = 0 then 7 else op) &&& 1)).nullKey ≠ 0
    · rw [if_pos hnk]
      refine ⟨⟨_, rfl⟩, ?_⟩
      intro r hr
      rw [← Option.some.inj hr]
      refine ⟨rfl, rfl, ?_⟩
      intro m hm1
      have hm2 : c.mask = some m := hm1
      rw [hcm] at hm2
      rw [← Option.some.inj hm2]
      exact ⟨h16, h32, hm, ho⟩
    · rw [if_neg hnk]
      obtain ⟨hex, hall⟩ := aesCrypt_inv A h { c with nullKey := 0 } mask B pgno
        (if op = 0 then 7 else op) h16 h32 hm ho
      refine ⟨hex, ?_⟩
      intro r hr
      obtain ⟨hp, hu, m1, hm1, hl1, hol⟩ := hall r hr
      refine ⟨hp, hu, ?_⟩
      intro m hmm
      rw [hm1] at hmm
      rw [← Option.some.inj hmm, hp, hu]
      exact ⟨h16, h32, hl1, hol⟩
  cases c with
  | mk key0 key1 nullKey mallocFailed pageSize usable mask outbuf =>
  cases mask with
  | some mask =>
    obtain ⟨h16, h32, hm, ho⟩ := hI mask rfl
    simp only [sqliteCodecAes128Ccm, aesAlloc]
    exact hk _ mask rfl h16 h32 hm ho
  | none =>
    have hnone : ∀ c2 : CodecAes128Ccm, c2.mask = none → aesAllocInv c2 := by
      intro c2 h2 m hm
      rw [h2] at hm
      exact absurd hm (by simp)
    simp only [sqliteCodecAes128Ccm, aesAlloc]
    by_cases hf : mallocFailed ≠ 0
    · simp only [if_pos hf]
      exact ⟨⟨_, rfl⟩, fun r hr => by
        rw [← Option.some.inj hr]; exact ⟨rfl, rfl, hnone _ rfl⟩⟩
    · simp only [if_neg hf]
      by_cases hg1 : (pageSize : Int) - (usable : Int) < 32
      · simp only [if_pos hg1]
        exact ⟨⟨_, rfl⟩, fun r hr => by
          rw [← Option.some.inj hr]; exact ⟨rfl, rfl, hnone _ rfl⟩⟩
      · simp only [if_neg hg1]
        by_cases hg2 : usable &&& 15 ≠ 0
        · simp only [if_pos hg2]
          exact ⟨⟨_, rfl⟩, fun r hr => by
            rw [← Option.some.inj hr]; exact ⟨rfl, rfl, hnone _ rfl⟩⟩
        · simp only [if_neg hg2]
          have h16 : usable % 16 = 0 := by
            have := Nat.and_pow_two_sub_one_eq_mod usable 4
            have h15 : usable &&& 15 = 0 := by
              by_contra hc; exact hg2 hc
            simpa [h15] using this.symm
          have h32 : usable + 32 ≤ pageSize := by omega
          cases hb : h.malloc (pageSize * 2 + 8) with
          | none =>
            exact ⟨⟨_, rfl⟩, fun r hr => by
              rw [← Option.some.inj hr]; exact ⟨rfl, rfl, hnone _ rfl⟩⟩
          | some blk =>
            have hbl : blk.length = pageSize * 2 + 8 := by
              unfold Host.malloc at hb
              cases hg : h.sqlite3_malloc (pageSize * 2 + 8) with
              | none => rw [hg] at hb; simp at hb
              | some g =>
                rw [hg] at hb
                simp only [Option.map_some', Option.some.injEq] at hb
                rw [← hb]; simp
            simp only []
            have ht : (blk.take (pageSize + 4)).length = pageSize + 4 := by
              rw [List.length_take]; omega
            have hd : (blk.drop (pageSize + 4)).length = pageSize + 4 := by
              rw [List.length_drop]; omega
            exact hk
              { key0 := key0, key1 := key1, nullKey := nullKey, mallocFailed := mallocFailed,
                pageSize := pageSize, usable := usable, mask := some (blk.take (pageSize + 4)),
                outbuf := blk.drop (pageSize + 4) }
              (blk.take (pageSize + 4)) rfl h16 h32 ht hd

/-- Two page sizes, powers of two from 512 on, that leave the same payload
with at most 255 reserved bytes each, are the same. -/
theorem pageSize_of_usable (P P2 e e2 r r2 : Nat) (hP : P = 2 ^ e) (hP2 : P2 = 2 ^ e2)
    (h512 : 512 ≤ P) (h512b : 512 ≤ P2) (hr : r ≤ 255) (hr2 : r2 ≤ 255)
    (hu : P - r = P2 - r2) : P = P2 := by
  rcases Nat.lt_trichotomy e e2 with hlt | heq | hgt
  · have : 2 ^ (e + 1) ≤ 2 ^ e2 := Nat.pow_le_pow_right (by decide) hlt
    rw [Nat.pow_succ] at this
    omega
  · rw [hP, hP2, heq]
  · have : 2 ^ (e2 + 1) ≤ 2 ^ e := Nat.pow_le_pow_right (by decide) hgt
    rw [Nat.pow_succ] at this
    omega

/-- Every state of an AES-CCM codec has the layout it was told and the
allocation invariant. -/
theorem aesReachable_inv (A : Rijndael) (c : CodecAes128Ccm) (hr : AesReachable A c) :
    aesGeometry c ∧ aesAllocInv c := by
  induction hr with
  | attached k =>
    refine ⟨Or.inl ⟨rfl, rfl⟩, ?_⟩
    intro m hm
    exact absurd hm (by simp [aesAttached])
  | sizeChng c pageSize nReserve e _ hP h512 h65 hres ih =>
    obtain ⟨hG, hI⟩ := ih
    refine ⟨Or.inr ⟨e, nReserve, hP, h512, h65, hres, rfl⟩, ?_⟩
    intro m hm
    simp only [sqliteCodecAes128CcmSizeChng] at hm ⊢
    by_cases hu : c.usable ≠ pageSize - nReserve
    · rw [if_pos hu] at hm
      exact absurd hm (by simp)
    · rw [if_neg hu] at hm
      have hu' : c.usable = pageSize - nReserve := by
        by_contra hc; exact hu hc
      obtain ⟨h16, h32, hml, hol⟩ := hI m hm
      have hPP : c.pageSize = pageSize := by
        rcases hG with ⟨h0, _⟩ | ⟨e0, r0, hP0, h5120, _, hr0, hu0⟩
        · omega
        · exact pageSize_of_usable c.pageSize pageSize e0 e r0 nReserve hP0 hP h5120 h512 hr0
            hres (by rw [← hu0, hu'])
      rw [← hu', ← hPP]
      exact ⟨h16, h32, hml, hol⟩
  | transform c h B pgno op r _ hrun ih =>
    obtain ⟨hG, hI⟩ := ih
    obtain ⟨hp, hu, hI2⟩ := (aes_transform_inv A h c B pgno op hI).2 r hrun
    refine ⟨?_, hI2⟩
    unfold aesGeometry
    rw [hp, hu]
    exact hG
  | keys c k0 k1 _ ih =>
    exact ih

/-- C40. The allocation invariant of the AES-CCM codec.  Starting from a
freshly attached codec, with every size-change notification naming a page size
that is a power of two in `[512, 65536]` and at most 255 reserved bytes, every
state reached in which the mask is allocated has a payload that is a multiple
of 16, at least 32 bytes reserved behind it, and the two halves of an
allocation of `pageSize*2 + 8` bytes, `pageSize + 4` each, for the current page
size.  Hence the length `usable + 16` given to `xorBuffers` is a multiple of 4,
the `usable + 16` bytes of mask and the `usable + 32` bytes of output lie
inside their buffers, and in every state reached every call of the page
transform returns. -/
theorem C40_aes_allocation_invariant (A : Rijndael) (c : CodecAes128Ccm)
    (hr : AesReachable A c) :
    (∀ m, c.mask = some m →
      c.usable % 16 = 0 ∧ c.usable + 32 ≤ c.pageSize ∧
      m.length = c.pageSize + 4 ∧ c.outbuf.length = c.pageSize + 4 ∧
      m.length + c.outbuf.length = c.pageSize * 2 + 8 ∧
      (c.usable + 16) % 4 = 0 ∧ c.usable + 16 ≤ m.length ∧
      c.usable + 32 ≤ c.outbuf.length) ∧
    ∀ (h : Host) (B : List Nat) (pgno op : Nat),
      ∃ r, sqliteCodecAes128Ccm A h c B pgno op = some r := by
  obtain ⟨_, hI⟩ := aesReachable_inv A c hr
  constructor
  · intro m hm
    obtain ⟨h16, h32, hml, hol⟩ := hI m hm
    refine ⟨h16, h32, hml, hol, ?_, ?_, ?_, ?_⟩ <;> omega
  · intro h B pgno op
    exact (aes_transform_inv A h c B pgno op hI).1

/-- Witness of C40: the codec attached with the key of sixteen bytes 7 and told
pages of 512 bytes with 32 reserved bytes is a state reached, and its encode
(op 6) of page 2 returns. -/
theorem C40_aes_allocation_invariant_witness :
    AesReachable xorRijndael (sqliteCodecAes128CcmSizeChng (aesAttached aesKeySevens) 512 32) ∧
    ∃ r, sqliteCodecAes128Ccm xorRijndael hostOnes
      (sqliteCodecAes128CcmSizeChng (aesAttached aesKeySevens) 512 32) (List.replicate 512 0) 2 6
        = some r :=
  ⟨AesReachable.sizeChng (aesAttached aesKeySevens) 512 32 9 (AesReachable.attached aesKeySevens)
      (by decide) (by decide) (by decide) (by decide),
    (C40_aes_allocation_invariant xorRijndael
      (sqliteCodecAes128CcmSizeChng (aesAttached aesKeySevens) 512 32)
      (AesReachable.sizeChng (aesAttached aesKeySevens) 512 32 9
        (AesReachable.attached aesKeySevens) (by decide) (by decide) (by decide)
        (by decide))).2 hostOnes (List.replicate 512 0) 2 6⟩

/-! ## What an encode leaves in the caller's page -/

/-- Storing no bytes leaves a buffer as it was. -/
theorem writeAt_nil (buf : List Nat) (off : Nat) : writeAt buf off [] = buf := by
  simp [writeAt]

/-- An RC4 encode with a key in the selected slot and its scratch space: the
page is returned in `outbuf` and the caller's page holds the fresh nonce
behind the payload. -/
theorem rc4_encode_keyed (h : Host) (c : CodecRc4) (B : List Nat) (pgno op : Nat)
    (hop : op = 6 ∨ op = 7) (hkey : (c.key (op &&& 1)).nullKey = 0)
    (hs : rc4ScratchReady h c) :
    (sqliteCodecRc4 h c B pgno op).ret = Ret.outbuf ∧
    (sqliteCodecRc4 h c B pgno op).pageData =
      writeAt B c.usable (h.sqlite3_randomness c.nonceSize) := by
  have h0 : op ≠ 0 := by rcases hop with rfl | rfl <;> decide
  have h4 : op &&& 4 ≠ 0 := by rcases hop with rfl | rfl <;> decide
  obtain ⟨mask, outbuf, _, _, heq⟩ := sqliteCodecRc4_eq_crypt h c B pgno op h0 hkey hs
  rw [heq]
  simp only [rc4Crypt, if_pos h4]
  refine ⟨trivial, ?_⟩
  by_cases hn : 0 < c.nonceSize
  · rw [if_pos ⟨hn, h4⟩]
  · rw [if_neg (fun hc => hn hc.1)]
    have hz : c.nonceSize = 0 := by omega
    rw [hz]
    exact (writeAt_nil B c.usable).symm

/-- A CommonCrypto encode with a key in the selected slot and its scratch
space: the page is returned in `outbuf` and the caller's page holds the fresh
nonce behind the payload. -/
theorem cccrypt_encode_keyed (h : Host) (c : CodecCCCrypto) (B : List Nat) (pgno op : Nat)
    (hop : op = 6 ∨ op = 7) (hkey : (c.key (op &&& 1)).nullKey = 0)
    (hs : cccryptScratchReady h c) :
    (sqliteCodecCCCrypto h c B pgno op).ret = Ret.outbuf ∧
    (sqliteCodecCCCrypto h c B pgno op).pageData =
      writeAt B c.usable (h.sqlite3_randomness c.nonceUsable) := by
  have h0 : op ≠ 0 := by rcases hop with rfl | rfl <;> decide
  have h4 : op &&& 4 ≠ 0 := by rcases hop with rfl | rfl <;> decide
  have hk : ∀ (c2 : CodecCCCrypto) (mask : List Nat), c2.usable = c.usable →
      c2.nonceUsable = c.nonceUsable →
      (cccryptCrypt h c2 mask B pgno op).ret = Ret.outbuf ∧
      (cccryptCrypt h c2 mask B pgno op).pageData =
        writeAt B c.usable (h.sqlite3_randomness c.nonceUsable) := by
    intro c2 mask hu hn
    simp only [cccryptCrypt, if_pos h4, hu, hn]
    refine ⟨trivial, ?_⟩
    by_cases hz : 0 < c.nonceUsable
    · rw [if_pos ⟨hz, h4⟩]
    · rw [if_neg (fun hc => hz hc.1)]
      have hz0 : c.nonceUsable = 0 := by omega
      rw [hz0]
      exact (writeAt_nil B c.usable).symm
  have hk0 := hkey
  unfold CodecCCCrypto.key at hk0
  unfold sqliteCodecCCCrypto
  simp only [h0, if_false, CodecCCCrypto.key]
  rw [if_neg (by simpa using hk0)]
  unfold cccryptScratchReady at hs
  unfold cccryptAlloc
  cases hm : c.mask with
  | some mask =>
    simp only
    exact hk _ mask rfl rfl
  | none =>
    rw [hm] at hs
    obtain ⟨hmf, hal⟩ := hs
    obtain ⟨g, hg⟩ := Option.isSome_iff_exists.mp hal
    simp only [hmf, ne_eq, not_true_eq_false, if_false, Host.malloc, hg, Option.map_some']
    exact hk _ _ rfl rfl

/-- An XOR encode with a key in the selected slot and its scratch space
returns the page in `outbuf`. -/
theorem xor_encode_keyed (h : Host) (c : CodecXor) (beyond B : List Nat) (pgno op : Nat)
    (hop : op = 6 ∨ op = 7) (hkey : (c.key (op &&& 1)).nullKey = 0)
    (hs : xorScratchReady h c) :
    (sqliteCodecXor h c beyond B pgno op).ret = Ret.outbuf := by
  have h0 : op ≠ 0 := by rcases hop with rfl | rfl <;> decide
  have h4 : op &&& 4 ≠ 0 := by rcases hop with rfl | rfl <;> decide
  obtain ⟨o, _, heq⟩ := sqliteCodecXor_eq_crypt h c beyond B pgno op h0 hkey hs
  rw [heq]
  simp only [xorCrypt, if_pos h4]

/-- An AES-CCM encode with a key in the selected slot, the encrypting layout
and its scratch space: the call returns, the page is returned in `outbuf`, and
the caller's page holds the fresh nonce behind the MAC field and the MAC of
the payload behind the payload. -/
theorem aes_encode_keyed (A : Rijndael) (h : Host) (c : CodecAes128Ccm) (B : List Nat)
    (pgno op : Nat) (hop : op = 6 ∨ op = 7) (hkey : (c.key (op &&& 1)).nullKey = 0)
    (hl : aesLayout c) (hs : aesScratchReady h c) (hB : c.usable + 32 ≤ B.length) :
    ∃ r, sqliteCodecAes128Ccm A h c B pgno op = some r ∧ r.ret = Ret.outbuf ∧
      r.pageData = writeAt (writeAt B (c.usable + 16) (h.sqlite3_randomness 16)) c.usable
        (computeMac A (c.key (op &&& 1)).keySchedule B c.usable (h.sqlite3_randomness 16)) := by
  have hl' := hl
  obtain ⟨h16, _, _⟩ := hl
  have hop0 : op ≠ 0 := by rcases hop with rfl | rfl <;> decide
  have h4 : ¬ op &&& 4 = 0 := by rcases hop with rfl | rfl <;> decide
  have h4' : op &&& 4 ≠ 0 := h4
  have hrl := length_randomness h 16
  obtain ⟨mask, outbuf, _, _, hal⟩ := aesAlloc_ok h c B hs hl'
  have hmac : computeMac A (c.key (op &&& 1)).keySchedule
      (writeAt B (c.usable + 16) (h.sqlite3_randomness 16)) c.usable
      ((writeAt B (c.usable + 16) (h.sqlite3_randomness 16)).drop (c.usable + 16)) =
      computeMac A (c.key (op &&& 1)).keySchedule B c.usable (h.sqlite3_randomness 16) := by
    apply computeMac_congr A _ _ _ _ _ _ h16
    · exact take_writeAt B _ (c.usable + 16) c.usable (by omega) (by omega)
    · apply ext_of_getD
      · rw [List.length_take, List.length_take, List.length_drop, length_writeAt _ _ _ (by omega),
          hrl]
        omega
      · intro k hk
        have hk16 : k < 16 := by
          rw [List.length_take] at hk; omega
        rw [getD_take _ _ _ hk16, getD_take _ _ _ hk16, getD_drop,
          getD_writeAt_mid _ _ _ _ (by omega) (by omega) (by omega)]
        congr 1
        omega
  obtain ⟨o3, ho3⟩ := aesXor_isSome c.usable pgno
    (writeAt (writeAt B (c.usable + 16) (h.sqlite3_randomness 16)) c.usable
      (computeMac A (c.key (op &&& 1)).keySchedule
        (writeAt B (c.usable + 16) (h.sqlite3_randomness 16)) c.usable
        ((writeAt B (c.usable + 16) (h.sqlite3_randomness 16)).drop (c.usable + 16))))
    (aesMask A { c with nullKey := 0, mask := some mask, outbuf := outbuf } mask
      (h.sqlite3_randomness 16) op)
    (writeAt outbuf (c.usable + 16) (h.sqlite3_randomness 16)) (by omega)
  have hkx : ({ c with nullKey := 0, mask := some mask, outbuf := outbuf } :
      CodecAes128Ccm).key (op &&& 1) = c.key (op &&& 1) := rfl
  obtain ⟨mask1, hmask1⟩ : ∃ m1, m1 = aesMask A
      { c with nullKey := 0, mask := some mask, outbuf := outbuf } mask
      (h.sqlite3_randomness 16) op := ⟨_, rfl⟩
  rw [← hmask1] at ho3
  refine ⟨⟨{ c with nullKey := 0, mask := some mask1, outbuf := o3 },
    writeAt (writeAt B (c.usable + 16) (h.sqlite3_randomness 16)) c.usable
      (computeMac A (c.key (op &&& 1)).keySchedule
        (writeAt B (c.usable + 16) (h.sqlite3_randomness 16)) c.usable
        ((writeAt B (c.usable + 16) (h.sqlite3_randomness 16)).drop (c.usable + 16))),
    Ret.outbuf⟩, ?_, rfl, ?_⟩
  · unfold sqliteCodecAes128Ccm
    rw [hal]
    simp only [aesKeyed, hop0, if_false]
    rw [if_neg (by simpa [CodecAes128Ccm.key] using hkey)]
    simp only [aesCrypt, if_neg h4, aesNonce, if_pos h4', hkx]
    rw [← hmask1, ho3]
    rfl
  · simp only
    rw [hmac]

/-- C21 as amended.  What an encode (op 6 or 7) does with the caller's buffer.
For every key: the XOR backend does not write to it; the RC4 and the
CommonCrypto backend leave its length and every byte outside the nonce field
behind the payload (`nonceSize`, resp. `nonceUsable` bytes from offset
`usable`) as they were; the AES-CCM backend leaves its length and every byte
outside the 32 bytes from offset `usable` as they were, and returns when the
payload is a multiple of 4 bytes.  So the first `usable` bytes, the plaintext
payload, are never changed.  With a key in the selected slot and the scratch
space available (for AES-CCM also the encrypting layout), the call returns the
codec's own output buffer, and the caller's buffer then holds the fresh nonce
at offset `usable` (RC4, CommonCrypto), resp. the MAC of the payload at offset
`usable` and the fresh nonce at offset `usable + 16` (AES-CCM). -/
theorem C21_encode_frame_amended (h : Host) (B : List Nat) (pgno op : Nat)
    (hop : op = 6 ∨ op = 7) :
    (∀ (c : CodecXor) (beyond : List Nat),
      (sqliteCodecXor h c beyond B pgno op).pageData = B ∧
      ((c.key (op &&& 1)).nullKey = 0 → xorScratchReady h c →
        (sqliteCodecXor h c beyond B pgno op).ret = Ret.outbuf)) ∧
    (∀ c : CodecRc4, c.usable + c.nonceSize ≤ B.length →
      (sqliteCodecRc4 h c B pgno op).pageData.length = B.length ∧
      (∀ k, (k < c.usable ∨ c.usable + c.nonceSize ≤ k) →
        (sqliteCodecRc4 h c B pgno op).pageData.getD k 0 = B.getD k 0) ∧
      ((c.key (op &&& 1)).nullKey = 0 → rc4ScratchReady h c →
        (sqliteCodecRc4 h c B pgno op).ret = Ret.outbuf ∧
        ∀ k, k < c.nonceSize →
          (sqliteCodecRc4 h c B pgno op).pageData.getD (c.usable + k) 0 =
            (h.sqlite3_randomness c.nonceSize).getD k 0)) ∧
    (∀ c : CodecCCCrypto, c.usable + c.nonceUsable ≤ B.length →
      (sqliteCodecCCCrypto h c B pgno op).pageData.length = B.length ∧
      (∀ k, (k < c.usable ∨ c.usable + c.nonceUsable ≤ k) →
        (sqliteCodecCCCrypto h c B pgno op).pageData.getD k 0 = B.getD k 0) ∧
      ((c.key (op &&& 1)).nullKey = 0 → cccryptScratchReady h c →
        (sqliteCodecCCCrypto h c B pgno op).ret = Ret.outbuf ∧
        ∀ k, k < c.nonceUsable →
          (sqliteCodecCCCrypto h c B pgno op).pageData.getD (c.usable + k) 0 =
            (h.sqlite3_randomness c.nonceUsable).getD k 0)) ∧
    (∀ (A : Rijndael) (c : CodecAes128Ccm), c.usable + 32 ≤ B.length →
      (c.usable % 4 = 0 → ∃ r, sqliteCodecAes128Ccm A h c B pgno op = some r) ∧
      (∀ r, sqliteCodecAes128Ccm A h c B pgno op = some r →
        r.pageData.length = B.length ∧
        ∀ k, (k < c.usable ∨ c.usable + 32 ≤ k) → r.pageData.getD k 0 = B.getD k 0) ∧
      ((c.key (op &&& 1)).nullKey = 0 → aesLayout c → aesScratchReady h c →
        ∃ r, sqliteCodecAes128Ccm A h c B pgno op = some r ∧ r.ret = Ret.outbuf ∧
          (∀ k, k < 16 → r.pageData.getD (c.usable + k) 0 =
            (computeMac A (c.key (op &&& 1)).keySchedule B c.usable
              (h.sqlite3_randomness 16)).getD k 0) ∧
          (∀ k, k < 16 → r.pageData.getD (c.usable + 16 + k) 0 =
            (h.sqlite3_randomness 16).getD k 0))) := by
  refine ⟨?_, ?_, ?_, ?_⟩
  · intro c beyond
    exact ⟨xor_encode_pageData h c beyond B pgno op hop,
      fun hkey hs => xor_encode_keyed h c beyond B pgno op hop hkey hs⟩
  · intro c hlen
    have hrl := length_randomness h c.nonceSize
    refine ⟨?_, ?_, ?_⟩
    · rcases rc4_encode_pageData h c B pgno op hop with e | e
      · rw [e]
      · rw [e]
        exact length_writeAt _ _ _ (by rw [hrl]; exact hlen)
    · rcases rc4_encode_pageData h c B pgno op hop with e | e
      · rw [e]; exact fun _ _ => rfl
      · rw [e]
        have hf := writeAt_frame B (h.sqlite3_randomness c.nonceSize) c.usable
          (by rw [hrl]; exact hlen)
        rw [hrl] at hf
        exact hf.2
    · intro hkey hs
      obtain ⟨hret, hpd⟩ := rc4_encode_keyed h c B pgno op hop hkey hs
      refine ⟨hret, ?_⟩
      intro k hk
      rw [hpd, getD_writeAt_mid _ _ _ _ (by omega) (by omega) (by rw [hrl]; omega)]
      congr 1
      omega
  · intro c hlen
    have hrl := length_randomness h c.nonceUsable
    refine ⟨?_, ?_, ?_⟩
    · rcases cccrypt_encode_pageData h c B pgno op hop with e | e
      · rw [e]
      · rw [e]
        exact length_writeAt _ _ _ (by rw [hrl]; exact hlen)
    · rcases cccrypt_encode_pageData h c B pgno op hop with e | e
      · rw [e]; exact fun _ _ => rfl
      · rw [e]
        have hf := writeAt_frame B (h.sqlite3_randomness c.nonceUsable) c.usable
          (by rw [hrl]; exact hlen)
        rw [hrl] at hf
        exact hf.2
    · intro hkey hs
      obtain ⟨hret, hpd⟩ := cccrypt_encode_keyed h c B pgno op hop hkey hs
      refine ⟨hret, ?_⟩
      intro k hk
      rw [hpd, getD_writeAt_mid _ _ _ _ (by omega) (by omega) (by rw [hrl]; omega)]
      congr 1
      omega
  · intro A c hlen
    have hrl := length_randomness h 16
    obtain ⟨hret, hfr⟩ := aes_encode_pageData A h c B pgno op hop
    have h1 := writeAt_frame B (h.sqlite3_randomness 16) (c.usable + 16)
      (by rw [hrl]; omega)
    refine ⟨hret, ?_, ?_⟩
    · intro r hr
      rcases hfr r hr with e | ⟨mac, hml, e⟩
      · rw [e]; exact ⟨rfl, fun _ _ => rfl⟩
      · rw [e]
        have h2 := writeAt_frame (writeAt B (c.usable + 16) (h.sqlite3_randomness 16)) mac
          c.usable (by rw [h1.1, hml]; omega)
        refine ⟨by rw [h2.1, h1.1], ?_⟩
        intro k hk
        rw [h2.2 k (by rw [hml]; omega), h1.2 k (by rw [hrl]; omega)]
    · intro hkey hl hs
      obtain ⟨r, hr, hro, hpd⟩ := aes_encode_keyed A h c B pgno op hop hkey hl hs hlen
      have hml := length_computeMac A (c.key (op &&& 1)).keySchedule B c.usable
        (h.sqlite3_randomness 16)
      refine ⟨r, hr, hro, ?_, ?_⟩
      · intro k hk
        rw [hpd, getD_writeAt_mid _ _ _ _ (by rw [h1.1]; omega) (by omega)
          (by rw [hml]; omega)]
        congr 1
        omega
      · intro k hk
        rw [hpd, getD_writeAt_ge _ _ _ _ (by rw [h1.1]; omega) (by rw [hml]; omega),
          getD_writeAt_mid _ _ _ _ (by omega) (by omega) (by rw [hrl]; omega)]
        congr 1
        omega

set_option maxRecDepth 100000 in
/-- Witness of the amended C21: the RC4 encode of page 2 of 512 zero bytes, with
the key "Key", leaves the length of the caller's buffer and its byte 0 as they
were, returns the page in `outbuf`, and has stored the first byte of the nonce
in byte 508 of the caller's buffer. -/
theorem C21_encode_frame_amended_witness :
    ((6 : Nat) = 6 ∨ (6 : Nat) = 7) ∧
    (rc4Fresh 512).usable + (rc4Fresh 512).nonceSize ≤ (List.replicate 512 0).length ∧
    ((rc4Fresh 512).key (6 &&& 1)).nullKey = 0 ∧ rc4ScratchReady hostOnes (rc4Fresh 512) ∧
    (sqliteCodecRc4 hostOnes (rc4Fresh 512) (List.replicate 512 0) 2 6).pageData.length
      = (List.replicate 512 0).length ∧
    (sqliteCodecRc4 hostOnes (rc4Fresh 512) (List.replicate 512 0) 2 6).pageData.getD 0 0
      = (List.replicate 512 0).getD 0 0 ∧
    (sqliteCodecRc4 hostOnes (rc4Fresh 512) (List.replicate 512 0) 2 6).ret = Ret.outbuf ∧
    (sqliteCodecRc4 hostOnes (rc4Fresh 512) (List.replicate 512 0) 2 6).pageData.getD
      ((rc4Fresh 512).usable + 0) 0 =
        (hostOnes.sqlite3_randomness (rc4Fresh 512).nonceSize).getD 0 0 :=
  ⟨Or.inl rfl, by rw [List.length_replicate]; decide, rfl, ⟨rfl, rfl⟩,
    ((C21_encode_frame_amended hostOnes (List.replicate 512 0) 2 6 (Or.inl rfl)).2.1
      (rc4Fresh 512) (by rw [List.length_replicate]; decide)).1,
    ((C21_encode_frame_amended hostOnes (List.replicate 512 0) 2 6 (Or.inl rfl)).2.1
      (rc4Fresh 512) (by rw [List.length_replicate]; decide)).2.1 0 (Or.inl (by decide)),
    (((C21_encode_frame_amended hostOnes (List.replicate 512 0) 2 6 (Or.inl rfl)).2.1
      (rc4Fresh 512) (by rw [List.length_replicate]; decide)).2.2 rfl ⟨rfl, rfl⟩).1,
    (((C21_encode_frame_amended hostOnes (List.replicate 512 0) 2 6 (Or.inl rfl)).2.1
      (rc4Fresh 512) (by rw [List.length_replicate]; decide)).2.2 rfl ⟨rfl, rfl⟩).2 0
        (by decide)⟩

end See
